import Mathlib

/-!
# Haven transaction prefix codec, transaction classification and conversion economics

A shallow embedding of

* `src/cryptonote_basic/cryptonote_basic.h`: the tagged input and output
  variants, `tx_out`, `transaction_prefix` and its versioned `serialize`
  member (load and save sides), and the members of `transaction` that touch
  the cached values: `invalidate_hashes`, `set_null`, the copy constructor,
  `operator=` and the loading sides of `serialize` and `serialize_base`;
* `src/cryptonote_core/cryptonote_tx_utils.cpp`: `get_tx_asset_types`,
  `get_tx_type`, the four conversion fee functions, `tx_pr_height_valid`,
  `get_xasset_amount`, `get_xusd_amount`, `get_xhv_amount`,
  `get_collateral_requirements`, `classify_addresses`,
  `get_destination_view_key_pub`, `construct_miner_tx`,
  `construct_tx_with_tx_key` and `construct_tx_and_get_tx_key`.

Conventions of the embedding.

* `uint64_t`, `uint32_t` and `size_t` values are natural numbers; the codec
  only copies and compares them, and the one narrowing conversion of the
  source (`int xhv_outputs = std::count_if(...)`) is written out with `% 2^32`.
* `std::string` is `String`, `std::vector<T>` is `List T`, and a
  `std::set<std::string>` is the strictly ascending list of its elements.
* An archive is the list of the fields that the `FIELD` and `VARINT_FIELD`
  macros read or write, one `Field` per macro call; `FIELD` on an integer
  member (fixed width) and `VARINT_FIELD` (varint) are different fields.
* `serialize` returns `Except.error Err.rejected` where the source returns
  `false`, `Err.bad_get` where a `boost::get` on the wrong alternative throws,
  and `Err.out_of_range` where `operator[]` is applied past the end of a vector.
* Members that the source leaves uninitialised (`txin_haven_key in;`,
  `txout_haven_key out;`) take their value from an `Indeterminate` parameter.
* Constants of `cryptonote_config.h` and the catalog `offshore::ASSET_TYPES`
  are not part of the two translated files; they are the fields of `Config`.
* Arithmetic on `uint64_t` is written with `% 2^64`, arithmetic on
  `boost::multiprecision::uint128_t` (an unchecked 128-bit integer) with
  `% 2^128`; a division of a `uint128_t` by zero throws and is
  `Err.division_by_zero`.
* The floating-point part of `get_collateral_requirements` is not evaluated:
  the integer `static_cast<uint64_t>(vbs)` it ends in is a parameter of the
  embedding, a function of the integers that the floating-point code reads.
* The functions of other files that the two builders call (the device, the key
  derivations, the helpers on `extra`, the emission schedule, the signers, the
  random sources) are the fields of `Externals`; a builder returns
  `Except.error Err.rejected` or `none` where the source returns `false`.
  Logging is left out.
-/

namespace cryptonote

/-! ## Configuration constants -/

/-- Constants that the two files take from `cryptonote_config.h`,
`offshore/asset_types.h` and `ringct/rctTypes.h`. -/
structure Config where
  CURRENT_TRANSACTION_VERSION : Nat
  OFFSHORE_TRANSACTION_VERSION : Nat
  POU_TRANSACTION_VERSION : Nat
  COLLATERAL_TRANSACTION_VERSION : Nat
  HAVEN_TYPES_TRANSACTION_VERSION : Nat
  ASSET_TYPES : List String
  HF_VERSION_XASSET_FEES_V2 : Nat
  HF_PER_OUTPUT_UNLOCK_VERSION : Nat
  HF_VERSION_USE_COLLATERAL : Nat
  PRICING_RECORD_VALID_BLOCKS : Nat
  COIN : Nat
  BASE_REWARD_CLAMP_THRESHOLD : Nat
  DEFAULT_DUST_THRESHOLD : Nat
  CRYPTONOTE_MINED_MONEY_UNLOCK_WINDOW : Nat
  HF_VERSION_VIEW_TAGS : Nat
  RCTTypeNull : Nat
  RangeProofBorromean : Nat

/-- The values used for the concrete evaluations, after the Haven main network. -/
def haven_config : Config where
  CURRENT_TRANSACTION_VERSION := 8
  OFFSHORE_TRANSACTION_VERSION := 3
  POU_TRANSACTION_VERSION := 6
  COLLATERAL_TRANSACTION_VERSION := 7
  HAVEN_TYPES_TRANSACTION_VERSION := 8
  ASSET_TYPES := ["XHV", "XAG", "XAU", "XAUD", "XBTC", "XCAD", "XCHF", "XCNY",
    "XEUR", "XGBP", "XJPY", "XNOK", "XNZD", "XUSD"]
  HF_VERSION_XASSET_FEES_V2 := 17
  HF_PER_OUTPUT_UNLOCK_VERSION := 18
  HF_VERSION_USE_COLLATERAL := 20
  PRICING_RECORD_VALID_BLOCKS := 10
  COIN := 1000000000000
  BASE_REWARD_CLAMP_THRESHOLD := 100000000
  DEFAULT_DUST_THRESHOLD := 2000000000
  CRYPTONOTE_MINED_MONEY_UNLOCK_WINDOW := 60
  HF_VERSION_VIEW_TAGS := 23
  RCTTypeNull := 0
  RangeProofBorromean := 0

/-! ## Data model (`cryptonote_basic.h`) -/

/-- The type `crypto::public_key`, as its bytes. -/
structure public_key where
  data : List Nat
deriving DecidableEq, Repr

/-- The type `crypto::key_image`, as its bytes. -/
structure key_image where
  data : List Nat
deriving DecidableEq, Repr

/-- The type `crypto::hash`, as its bytes. -/
structure hash where
  data : List Nat
deriving DecidableEq, Repr

structure txout_to_script where
  keys : List public_key
  script : List Nat
deriving DecidableEq, Repr

structure txout_to_scripthash where
  hash : hash
deriving DecidableEq, Repr

structure txout_to_key where
  key : public_key
deriving DecidableEq, Repr

structure txout_offshore where
  key : public_key
deriving DecidableEq, Repr

structure txout_xasset where
  key : public_key
  asset_type : String
deriving DecidableEq, Repr

structure txout_haven_key where
  key : public_key
  asset_type : String
  unlock_time : Nat
  is_collateral : Bool
deriving DecidableEq, Repr

structure txout_haven_tagged_key where
  key : public_key
  asset_type : String
  unlock_time : Nat
  is_collateral : Bool
  view_tag : Nat
deriving DecidableEq, Repr

structure txin_gen where
  height : Nat
deriving DecidableEq, Repr

structure txin_to_script where
  prev : hash
  prevout : Nat
  sigset : List Nat
deriving DecidableEq, Repr

structure txin_to_scripthash where
  prev : hash
  prevout : Nat
  script : txout_to_script
  sigset : List Nat
deriving DecidableEq, Repr

structure txin_to_key where
  amount : Nat
  key_offsets : List Nat
  k_image : key_image
deriving DecidableEq, Repr

structure txin_offshore where
  amount : Nat
  key_offsets : List Nat
  k_image : key_image
deriving DecidableEq, Repr

structure txin_onshore where
  amount : Nat
  key_offsets : List Nat
  k_image : key_image
deriving DecidableEq, Repr

structure txin_xasset where
  amount : Nat
  asset_type : String
  key_offsets : List Nat
  k_image : key_image
deriving DecidableEq, Repr

structure txin_haven_key where
  amount : Nat
  asset_type : String
  key_offsets : List Nat
  k_image : key_image
deriving DecidableEq, Repr

/-- The variant `txin_v`. -/
inductive txin_v where
  | gen (x : txin_gen)
  | to_script (x : txin_to_script)
  | to_scripthash (x : txin_to_scripthash)
  | to_key (x : txin_to_key)
  | offshore (x : txin_offshore)
  | onshore (x : txin_onshore)
  | xasset (x : txin_xasset)
  | haven_key (x : txin_haven_key)
deriving DecidableEq, Repr

/-- The variant `txout_target_v`. -/
inductive txout_target_v where
  | to_script (x : txout_to_script)
  | to_scripthash (x : txout_to_scripthash)
  | to_key (x : txout_to_key)
  | offshore (x : txout_offshore)
  | xasset (x : txout_xasset)
  | haven_key (x : txout_haven_key)
  | haven_tagged_key (x : txout_haven_tagged_key)
deriving DecidableEq, Repr

structure tx_out where
  amount : Nat
  target : txout_target_v
deriving DecidableEq, Repr

/-- The class `transaction_prefix` (its data members). -/
structure transaction_prefix where
  version : Nat
  unlock_time : Nat
  vin : List txin_v
  vout : List tx_out
  extra : List Nat
  pricing_record_height : Nat
  offshore_data : List Nat
  amount_burnt : Nat
  amount_minted : Nat
  output_unlock_times : List Nat
  collateral_indices : List Nat
deriving DecidableEq, Repr

/-- The member `transaction_prefix::set_null`. -/
def set_null (self : transaction_prefix) : transaction_prefix :=
  { self with version := 1, unlock_time := 0, vin := [], vout := [], extra := [] }

/-- A default-constructed `transaction_prefix`: the constructor only calls
`set_null`; the vector members start empty and the three integer members
`pricing_record_height`, `amount_burnt`, `amount_minted` hold whatever `p`,
`b`, `m` the storage held. -/
def default_constructed (p b m : Nat) : transaction_prefix :=
  set_null
    { version := 0, unlock_time := 0, vin := [], vout := [], extra := [],
      pricing_record_height := p, offshore_data := [], amount_burnt := b, amount_minted := m,
      output_unlock_times := [], collateral_indices := [] }

/-! ## Archives -/

/-- One field of an archive: what one `FIELD` or `VARINT_FIELD` call reads or
writes. `varint` is `VARINT_FIELD` on an integer, `fixed` is `FIELD` on an
integer member, the others are `FIELD` on the vector of that element type. -/
inductive Field where
  | varint (n : Nat)
  | fixed (n : Nat)
  | inputs (v : List txin_v)
  | outputs (v : List tx_out)
  | bytes (v : List Nat)
  | vec_u64 (v : List Nat)
  | vec_u32 (v : List Nat)
deriving DecidableEq, Repr

/-- How a call can end without a result: `rejected` is `return false`, the
other three are a `boost::bad_get`, a read past the end of a vector and a
division of a `uint128_t` by zero. -/
inductive Err where
  | rejected
  | bad_get
  | out_of_range
  | division_by_zero
deriving DecidableEq, Repr

/-- Contents of the storage that the source reads without having written it,
one value per loop iteration. -/
structure Indeterminate where
  amount : Nat → Nat
  k_image : Nat → key_image
  key : Nat → public_key

/-! ## `transaction_prefix::serialize`, loading side -/

/-- Body of the loop "Process the inputs" of the loading branch, for the
input at position `i`: the `txin_haven_key in` that is pushed back. -/
def load_txin (u : Indeterminate) (i : Nat) : txin_v → txin_haven_key
  | .to_key x =>
    { asset_type := "XHV", amount := x.amount, key_offsets := x.key_offsets, k_image := x.k_image }
  | .offshore x =>
    { asset_type := "XUSD", amount := x.amount, key_offsets := x.key_offsets, k_image := x.k_image }
  | .onshore x =>
    { asset_type := "XHV", amount := x.amount, key_offsets := x.key_offsets, k_image := x.k_image }
  | .xasset x =>
    { amount := x.amount, key_offsets := x.key_offsets, k_image := x.k_image, asset_type := x.asset_type }
  | _ =>
    { amount := u.amount i, asset_type := "", key_offsets := [], k_image := u.k_image i }

/-- The loop "Process the inputs" of the loading branch, from position `i` on. -/
def load_vin (u : Indeterminate) : Nat → List txin_v → List txin_v
  | _, [] => []
  | i, e :: es => .haven_key (load_txin u i e) :: load_vin u (i + 1) es

/-- Asset tag and key that the output loop gives `out` for a target. -/
def load_target (u : Indeterminate) (i : Nat) : txout_target_v → String × public_key
  | .to_key x => ("XHV", x.key)
  | .offshore x => ("XUSD", x.key)
  | .xasset x => (x.asset_type, x.key)
  | _ => ("", u.key i)

/-- Body of the loop "Process the outputs" of the loading branch, for the
output at position `i`. -/
def load_txout (cfg : Config) (u : Indeterminate) (version amount_burnt : Nat)
    (output_unlock_times collateral_indices : List Nat) (i : Nat) (o : tx_out) :
    Except Err tx_out :=
  match output_unlock_times[i]? with
  | none => .error .out_of_range
  | some t =>
    .ok { amount := o.amount
          target := .haven_key
            { key := (load_target u i o.target).2
              asset_type := (load_target u i o.target).1
              unlock_time := t
              is_collateral :=
                decide (version ≥ cfg.COLLATERAL_TRANSACTION_VERSION ∧ amount_burnt ≠ 0
                  ∧ i ∈ collateral_indices) } }

/-- The loop "Process the outputs" of the loading branch, from position `i` on. -/
def load_vout (cfg : Config) (u : Indeterminate) (version amount_burnt : Nat)
    (output_unlock_times collateral_indices : List Nat) :
    Nat → List tx_out → Except Err (List tx_out)
  | _, [] => .ok []
  | i, o :: os =>
    match load_txout cfg u version amount_burnt output_unlock_times collateral_indices i o with
    | .error e => .error e
    | .ok o1 =>
      match load_vout cfg u version amount_burnt output_unlock_times collateral_indices (i + 1) os with
      | .error e => .error e
      | .ok os1 => .ok (o1 :: os1)

/-- The calls `FIELD(vin) FIELD(vout) FIELD(extra)` on a loading archive. -/
def load_vin_vout_extra (self : transaction_prefix) :
    List Field → Except Err ( transaction_prefix × List Field)
  | .inputs vin :: .outputs vout :: .bytes extra :: ar =>
    .ok ({ self with vin := vin, vout := vout, extra := extra }, ar)
  | _ => .error .rejected

/-- Source lines 310 to 314: `pricing_record_height` and, below version 5,
`offshore_data`, from `OFFSHORE_TRANSACTION_VERSION` on. -/
def load_pricing_record_height (cfg : Config) (self : transaction_prefix) (ar : List Field) :
    Except Err ( transaction_prefix × List Field) :=
  if self.version ≥ cfg.OFFSHORE_TRANSACTION_VERSION then
    match ar with
    | .varint h :: ar =>
      if self.version < 5 then
        match ar with
        | .bytes d :: ar => .ok ({ self with pricing_record_height := h, offshore_data := d }, ar)
        | _ => .error .rejected
      else .ok ({ self with pricing_record_height := h }, ar)
    | _ => .error .rejected
  else .ok (self, ar)

/-- Source lines 316 to 321: `output_unlock_times` from
`POU_TRANSACTION_VERSION` on, and the comparison of its size with `vout.size()`. -/
def load_output_unlock_times (cfg : Config) (self : transaction_prefix) (ar : List Field) :
    Except Err ( transaction_prefix × List Field) :=
  if self.version ≥ cfg.POU_TRANSACTION_VERSION then
    match ar with
    | .vec_u64 t :: ar =>
      if self.version ≥ cfg.POU_TRANSACTION_VERSION ∧ self.vout.length ≠ t.length then
        .error .rejected
      else .ok ({ self with output_unlock_times := t }, ar)
    | _ => .error .rejected
  else
    if self.version ≥ cfg.POU_TRANSACTION_VERSION
        ∧ self.vout.length ≠ self.output_unlock_times.length then
      .error .rejected
    else .ok (self, ar)

/-- Source lines 323 and 324: `VARINT_FIELD(amount_burnt) VARINT_FIELD(amount_minted)`. -/
def load_amounts (self : transaction_prefix) :
    List Field → Except Err ( transaction_prefix × List Field)
  | .varint b :: .varint m :: ar => .ok ({ self with amount_burnt := b, amount_minted := m }, ar)
  | _ => .error .rejected

/-- Source lines 326 to 336: `collateral_indices` and its two checks, from
`COLLATERAL_TRANSACTION_VERSION` on when `amount_burnt` is not zero. -/
def load_collateral_indices (cfg : Config) (self : transaction_prefix) (ar : List Field) :
    Except Err ( transaction_prefix × List Field) :=
  if self.version ≥ cfg.COLLATERAL_TRANSACTION_VERSION ∧ self.amount_burnt ≠ 0 then
    match ar with
    | .vec_u32 c :: ar =>
      if c.length ≠ 2 then .error .rejected
      else if c.any (fun vout_idx => decide (vout_idx ≥ self.vout.length)) then .error .rejected
      else .ok ({ self with collateral_indices := c }, ar)
    | _ => .error .rejected
  else .ok (self, ar)

/-- The field reads and size checks of the loading branch for a version below
`HAVEN_TYPES_TRANSACTION_VERSION` (source lines 306 to 336): the object with
the legacy inputs and outputs as read, and the rest of the archive. -/
def load_legacy_fields (cfg : Config) (self : transaction_prefix) (ar : List Field) :
    Except Err ( transaction_prefix × List Field) :=
  match load_vin_vout_extra self ar with
  | .error e => .error e
  | .ok (self, ar) =>
    match load_pricing_record_height cfg self ar with
    | .error e => .error e
    | .ok (self, ar) =>
      match load_output_unlock_times cfg self ar with
      | .error e => .error e
      | .ok (self, ar) =>
        match load_amounts self ar with
        | .error e => .error e
        | .ok (self, ar) => load_collateral_indices cfg self ar

/-- The two loops of the loading branch (source lines 338 to 399): every input
and every output is replaced by its `haven_key` form. -/
def load_normalize (cfg : Config) (u : Indeterminate) (self : transaction_prefix) :
    Except Err transaction_prefix :=
  match load_vout cfg u self.version self.amount_burnt self.output_unlock_times
      self.collateral_indices 0 self.vout with
  | .error e => .error e
  | .ok vout => .ok { self with vin := load_vin u 0 self.vin, vout := vout }

/-- Source lines 294 to 297: `unlock_time` is a field of the archive only
below `POU_TRANSACTION_VERSION`. -/
def load_unlock_time (cfg : Config) (self : transaction_prefix) (ar : List Field) :
    Except Err ( transaction_prefix × List Field) :=
  if self.version < cfg.POU_TRANSACTION_VERSION then
    match ar with
    | .varint t :: ar => .ok ({ self with unlock_time := t }, ar)
    | _ => .error .rejected
  else .ok (self, ar)

/-- Source lines 500 to 506, loading: the fields of the new format. -/
def load_haven_fields (self : transaction_prefix) :
    List Field → Except Err ( transaction_prefix × List Field)
  | .inputs vin :: .outputs vout :: .bytes extra :: .varint h :: .varint b :: .varint m :: ar =>
    .ok ({ self with vin := vin, vout := vout, extra := extra, pricing_record_height := h,
                     amount_burnt := b, amount_minted := m }, ar)
  | _ => .error .rejected

/-- The member `transaction_prefix::serialize` on a loading archive: `self` is
the object before the call, `ar` the fields still to be read; the result is
the object after the call and the fields left. -/
def load (cfg : Config) (u : Indeterminate) (self : transaction_prefix) :
    List Field → Except Err ( transaction_prefix × List Field)
  | .varint version :: ar =>
    if version = 0 ∨ cfg.CURRENT_TRANSACTION_VERSION < version then .error .rejected
    else
      match load_unlock_time cfg { self with version := version } ar with
      | .error e => .error e
      | .ok (self, ar) =>
        if self.version < cfg.HAVEN_TYPES_TRANSACTION_VERSION then
          match load_legacy_fields cfg self ar with
          | .error e => .error e
          | .ok (self, ar) =>
            match load_normalize cfg u self with
            | .error e => .error e
            | .ok self => .ok (self, ar)
        else load_haven_fields self ar
  | _ => .error .rejected

/-! ## `transaction_prefix::serialize`, saving side -/

/-- The `std::count_if` of the input loop of the saving branch: the number of
outputs whose `txout_haven_key` carries the tag `"XHV"`; the `boost::get` of
the lambda throws on any other alternative. -/
def count_xhv_outputs : List tx_out → Except Err Nat
  | [] => .ok 0
  | foo_v :: rest =>
    match foo_v.target with
    | .haven_key out =>
      match count_xhv_outputs rest with
      | .error e => .error e
      | .ok n => .ok (if out.asset_type = "XHV" then n + 1 else n)
    | _ => .error .bad_get

/-- Body of the loop "Process the inputs" of the saving branch: the legacy
input pushed to `vin_tmp` for one entry of `vin`. -/
def save_txin (vout : List tx_out) : txin_v → Except Err txin_v
  | .haven_key vin_entry =>
    if vin_entry.asset_type = "XHV" then
      .ok (.to_key { amount := vin_entry.amount, key_offsets := vin_entry.key_offsets,
                     k_image := vin_entry.k_image })
    else if vin_entry.asset_type = "XUSD" then
      match count_xhv_outputs vout with
      | .error e => .error e
      | .ok n =>
        -- `int xhv_outputs = std::count_if(...)`
        let xhv_outputs := n % 2 ^ 32
        if xhv_outputs ≠ 0 then
          .ok (.onshore { amount := vin_entry.amount, key_offsets := vin_entry.key_offsets,
                          k_image := vin_entry.k_image })
        else
          .ok (.offshore { amount := vin_entry.amount, key_offsets := vin_entry.key_offsets,
                           k_image := vin_entry.k_image })
    else
      .ok (.xasset { amount := vin_entry.amount, asset_type := vin_entry.asset_type,
                     key_offsets := vin_entry.key_offsets, k_image := vin_entry.k_image })
  | _ => .error .bad_get

/-- The loop "Process the inputs" of the saving branch: `vin_tmp`. -/
def save_vin (vout : List tx_out) : List txin_v → Except Err (List txin_v)
  | [] => .ok []
  | e :: es =>
    match save_txin vout e with
    | .error err => .error err
    | .ok e1 =>
      match save_vin vout es with
      | .error err => .error err
      | .ok es1 => .ok (e1 :: es1)

/-- The loop "Process the outputs" of the saving branch (source lines 446 to
474) from position `i` on: `todo` are the entries `vout[i], vout[i+1], ...`
and `vout_tmp` is the vector filled so far. Each iteration reads
`output_unlock_times[i]` and `vout_tmp[i].amount`. -/
def save_vout (cfg : Config) (u : Indeterminate) (self : transaction_prefix) :
    Nat → List tx_out → List tx_out → Except Err (List tx_out)
  | _, [], vout_tmp => .ok vout_tmp
  | i, o :: todo, vout_tmp =>
    match self.output_unlock_times[i]? with
    | none => .error .out_of_range
    | some t =>
      match vout_tmp[i]? with
      | none => .error .out_of_range
      | some prev =>
        save_vout cfg u self (i + 1) todo
          (vout_tmp ++
            [{ amount := prev.amount
               target := .haven_key
                 { key := (load_target u i o.target).2
                   asset_type := (load_target u i o.target).1
                   unlock_time := t
                   is_collateral :=
                     decide (self.version ≥ cfg.COLLATERAL_TRANSACTION_VERSION
                       ∧ self.amount_burnt ≠ 0 ∧ i ∈ self.collateral_indices) } }])

/-- The fields that the saving branch writes after `extra` for a version below
`HAVEN_TYPES_TRANSACTION_VERSION` (source lines 480 to 496). -/
def save_legacy_tail (cfg : Config) (self : transaction_prefix) : List Field :=
  (if self.version ≥ cfg.OFFSHORE_TRANSACTION_VERSION then
      [Field.fixed self.pricing_record_height, .fixed self.amount_burnt,
        .fixed self.amount_minted]
        ++ (if self.version < 5 then [Field.bytes self.offshore_data] else [])
    else [])
  ++ (if self.version ≥ cfg.POU_TRANSACTION_VERSION then
        [Field.vec_u64 self.output_unlock_times] else [])
  ++ (if self.version ≥ cfg.COLLATERAL_TRANSACTION_VERSION then
        [Field.vec_u32 self.collateral_indices] else [])

/-- The member `transaction_prefix::serialize` on a saving archive: the fields
written, in order. -/
def save (cfg : Config) (u : Indeterminate) (self : transaction_prefix) :
    Except Err (List Field) :=
  if self.version = 0 ∨ cfg.CURRENT_TRANSACTION_VERSION < self.version then .error .rejected
  else
    let head := Field.varint self.version ::
      (if self.version < cfg.POU_TRANSACTION_VERSION then [Field.varint self.unlock_time] else [])
    if self.version < cfg.HAVEN_TYPES_TRANSACTION_VERSION then
      match save_vin self.vout self.vin with
      | .error e => .error e
      | .ok vin_tmp =>
        match save_vout cfg u self 0 self.vout [] with
        | .error e => .error e
        | .ok vout_tmp =>
          .ok (head ++ [Field.inputs vin_tmp, .outputs vout_tmp, .bytes self.extra]
            ++ save_legacy_tail cfg self)
    else
      .ok (head ++ [Field.inputs self.vin, .outputs self.vout, .bytes self.extra,
        .varint self.pricing_record_height, .varint self.amount_burnt,
        .varint self.amount_minted])

/-! ## Transactions and classification (`cryptonote_tx_utils.cpp`) -/

/-- The class `transaction`: a prefix plus the signature data and the cached
values with their validity flags. -/
structure transaction extends transaction_prefix where
  signatures : List (List (List Nat))
  rct_signatures_type : Nat
  hash_valid : Bool
  prunable_hash_valid : Bool
  blob_size_valid : Bool
  hash : cryptonote.hash
  prunable_hash : cryptonote.hash
  blob_size : Nat
  pruned : Bool
  unprunable_size : Nat
  prefix_size : Nat

/-- The enumeration `transaction_type` of `cryptonote_tx_utils.h`. -/
inductive transaction_type where
  | UNSET
  | TRANSFER
  | OFFSHORE
  | ONSHORE
  | OFFSHORE_TRANSFER
  | XUSD_TO_XASSET
  | XASSET_TO_XUSD
  | XASSET_TRANSFER
deriving DecidableEq, Repr

/-- Lexicographic comparison of two character-code sequences. -/
def lex_lt : List Nat → List Nat → Bool
  | [], [] => false
  | [], _ :: _ => true
  | _ :: _, [] => false
  | a :: as, b :: bs => if a < b then true else if b < a then false else lex_lt as bs

/-- The `operator<` of `std::string`, which orders a `std::set<std::string>`.
It compares bytes; on the UTF-8 encoding that is the order of the code points. -/
def string_lt (a b : String) : Bool :=
  lex_lt (a.data.map Char.toNat) (b.data.map Char.toNat)

/-- The call `std::set<std::string>::insert` on the ascending list of the elements. -/
def set_insert (x : String) : List String → List String
  | [] => [x]
  | y :: ys =>
    if string_lt x y then x :: y :: ys
    else if x = y then y :: ys
    else y :: set_insert x ys

/-- The first loop of `get_tx_asset_types` (source lines 346 to 370) over the
inputs still to visit, with `source_asset_types` as filled so far; `none` is
`return false`. -/
def source_asset_types (is_miner_tx : Bool) : List txin_v → List String → Option (List String)
  | [], acc => some acc
  | .gen _ :: rest, acc =>
    if !is_miner_tx then none
    else source_asset_types is_miner_tx rest (set_insert "XHV" acc)
  | .to_key _ :: rest, acc => source_asset_types is_miner_tx rest (set_insert "XHV" acc)
  | .offshore _ :: rest, acc => source_asset_types is_miner_tx rest (set_insert "XUSD" acc)
  | .onshore _ :: rest, acc => source_asset_types is_miner_tx rest (set_insert "XUSD" acc)
  | .xasset x :: rest, acc =>
    if x.asset_type = "XHV" ∨ x.asset_type = "XUSD" then none
    else source_asset_types is_miner_tx rest (set_insert x.asset_type acc)
  | _ :: _, _ => none

/-- The second loop of `get_tx_asset_types` (source lines 396 to 412) over the
outputs still to visit, with `destination_asset_types` as filled so far. -/
def destination_asset_types : List tx_out → List String → Option (List String)
  | [], acc => some acc
  | out :: rest, acc =>
    match out.target with
    | .to_key _ => destination_asset_types rest (set_insert "XHV" acc)
    | .offshore _ => destination_asset_types rest (set_insert "XUSD" acc)
    | .xasset x =>
      if x.asset_type = "XHV" ∨ x.asset_type = "XUSD" then none
      else destination_asset_types rest (set_insert x.asset_type acc)
    | _ => none

/-- Two lower-case hexadecimal digits per byte (`epee::string_tools::pod_to_hex`). -/
def pod_to_hex (h : hash) : String :=
  String.mk (h.data.flatMap fun b => [Nat.digitChar (b / 16), Nat.digitChar (b % 16)])

/-- The list `exploit_txs` of `get_tx_asset_types`. -/
def exploit_txs : List String :=
  ["4c87e7245142cb33a8ed4f039b7f33d4e4dd6b541a42a55992fd88efeefc40d1",
   "7089a8faf5bddf8640a3cb41338f1ec2cdd063b1622e3b27923e2c1c31c55418",
   "ad5d15085594b8f2643f058b05931c3e60966128b4c33298206e70bdf9d41c22"]

/-- The source-asset decision of `get_tx_asset_types` (source lines 376 to
391) on `sat`, the elements of `source_asset_types` in ascending order. -/
def select_source (cfg : Config) (version : Nat) (sat : List String) : Option String :=
  if version ≥ cfg.COLLATERAL_TRANSACTION_VERSION ∧ sat.length = 2 then
    if (sat.getD 0 "" = "XHV" ∧ sat.getD 1 "" = "XUSD")
        ∨ (sat.getD 0 "" = "XUSD" ∧ sat.getD 1 "" = "XHV") then
      some "XUSD"
    else none
  else
    if sat.length ≠ 1 then none
    else some (sat.getD 0 "")

/-- The destination decision of `get_tx_asset_types` (source lines 418 to
459) on `sat`, `dat` and the source already chosen. -/
def select_destination (is_miner_tx : Bool) (source : String) (sat dat : List String) :
    Option String :=
  if dat.length = 0 then none
  else if is_miner_tx then some "XHV"
  else if dat.length > 2 then none
  else if dat.length = 1 then
    if sat.length ≠ 1 then none
    else if dat.getD 0 "" ≠ source then none
    else some (dat.getD 0 "")
  else
    if sat.length = 2
        ∧ ¬ ((dat.getD 0 "" = "XHV" ∧ dat.getD 1 "" = "XUSD")
          ∨ (dat.getD 0 "" = "XUSD" ∧ dat.getD 1 "" = "XHV")) then none
    else if dat.getD 0 "" = source then some (dat.getD 1 "")
    else if dat.getD 1 "" = source then some (dat.getD 0 "")
    else none

/-- The function `get_tx_asset_types`: `some (source, destination)` where the
source returns `true` with these two strings, `none` where it returns `false`. -/
def get_tx_asset_types (cfg : Config) (tx : transaction) (txid : hash) (is_miner_tx : Bool) :
    Option (String × String) :=
  match source_asset_types is_miner_tx tx.vin [] with
  | none => none
  | some sat =>
    match select_source cfg tx.version sat with
    | none => none
    | some source =>
      match destination_asset_types tx.vout [] with
      | none => none
      | some dat =>
        match select_destination is_miner_tx source sat dat with
        | none => none
        | some destination =>
          if source ∉ cfg.ASSET_TYPES then none
          else if destination ∉ cfg.ASSET_TYPES then none
          else if pod_to_hex txid ∈ exploit_txs then some (source, "XJPY")
          else some (source, destination)

/-- The function `get_tx_type`: `some type` where the source returns `true`
and sets `type`, `none` where it returns `false`. -/
def get_tx_type (cfg : Config) (source destination : String) : Option transaction_type :=
  if source ∉ cfg.ASSET_TYPES then none
  else if destination ∉ cfg.ASSET_TYPES then none
  else if source = destination then
    if source = "XHV" then some .TRANSFER
    else if source = "XUSD" then some .OFFSHORE_TRANSFER
    else some .XASSET_TRANSFER
  else
    if source = "XHV" ∧ destination = "XUSD" then some .OFFSHORE
    else if source = "XUSD" ∧ destination = "XHV" then some .ONSHORE
    else if source = "XUSD" ∧ destination ≠ "XHV" then some .XUSD_TO_XASSET
    else if destination = "XUSD" ∧ source ≠ "XHV" then some .XASSET_TO_XUSD
    else none

/-- The string that the first loop of `get_tx_asset_types` inserts into
`source_asset_types` for an input, for the alternatives it inserts one for. -/
def input_asset : txin_v → Option String
  | .gen _ => some "XHV"
  | .to_key _ => some "XHV"
  | .offshore _ => some "XUSD"
  | .onshore _ => some "XUSD"
  | .xasset x => some x.asset_type
  | _ => none

/-- The string that the second loop of `get_tx_asset_types` inserts into
`destination_asset_types` for an output, for the alternatives it inserts one for. -/
def output_asset (out : tx_out) : Option String :=
  match out.target with
  | .to_key _ => some "XHV"
  | .offshore _ => some "XUSD"
  | .xasset x => some x.asset_type
  | _ => none

/-! ## Conversion economics (`cryptonote_tx_utils.cpp`) -/

/-- The struct `account_public_address`. -/
structure account_public_address where
  m_spend_public_key : public_key
  m_view_public_key : public_key
deriving DecidableEq, Repr

/-- Modelled from the spec: the struct `tx_destination_entry`
(`cryptonote_tx_utils.h` is not among the sources). Its data members are the ones
`cryptonote_tx_utils.cpp` reads; the three amounts are `uint64_t`. -/
structure tx_destination_entry where
  original : String
  amount : Nat
  amount_usd : Nat
  amount_xasset : Nat
  asset_type : String
  addr : account_public_address
  is_subaddress : Bool
  is_integrated : Bool
  is_collateral : Bool
deriving DecidableEq, Repr

/-- Modelled from the spec: the type `offshore::pricing_record`
(`offshore/pricing_record.h` is not among the sources): the spot rate `xUSD`,
the moving-average rate `unused1`, and one slot per xAsset indexed by asset tag. -/
structure pricing_record where
  xUSD : Nat
  unused1 : Nat
  slot : String → Nat

/-- Modelled from the spec: `pricing_record::operator[]`
(`offshore/pricing_record.cpp` is not among the sources): the rate of an asset
tag, which for `"XHV"` is the raw moving-average field and for any other tag
the slot of that tag. -/
def pricing_record.get (pr : pricing_record) (asset_type : String) : Nat :=
  if asset_type = "XHV" then pr.unused1 else pr.slot asset_type

/-- The loop "Calculate the amount being sent" of `get_offshore_fee`. -/
def offshore_fee_amount (dsts : List tx_destination_entry) : Nat :=
  dsts.foldl
    (fun amount dt =>
      if dt.amount_usd ≠ 0 ∧ dt.is_collateral = false then (amount + dt.amount) % 2 ^ 64
      else amount) 0

/-- The loop "Calculate the amount being sent" of `get_onshore_fee`. -/
def onshore_fee_amount (dsts : List tx_destination_entry) : Nat :=
  dsts.foldl
    (fun amount_usd dt =>
      if dt.amount ≠ 0 ∧ dt.is_collateral = false then (amount_usd + dt.amount_usd) % 2 ^ 64
      else amount_usd) 0

/-- The loop "Calculate the amount being sent" of `get_xasset_to_xusd_fee`. -/
def xasset_to_xusd_fee_amount (dsts : List tx_destination_entry) : Nat :=
  dsts.foldl
    (fun amount_xasset dt =>
      if dt.amount_usd ≠ 0 then (amount_xasset + dt.amount_xasset) % 2 ^ 64
      else amount_xasset) 0

/-- The loop "Calculate the amount being sent" of `get_xusd_to_xasset_fee`. -/
def xusd_to_xasset_fee_amount (dsts : List tx_destination_entry) : Nat :=
  dsts.foldl
    (fun amount_usd dt =>
      if dt.amount_xasset ≠ 0 then (amount_usd + dt.amount_usd) % 2 ^ 64
      else amount_usd) 0

/-- The function `get_offshore_fee`. -/
def get_offshore_fee (cfg : Config) (dsts : List tx_destination_entry)
    (unlock_time hf_version : Nat) : Nat :=
  let amount := offshore_fee_amount dsts
  if hf_version ≥ cfg.HF_VERSION_USE_COLLATERAL then
    (amount * 3) % 2 ^ 64 / 200
  else if hf_version ≥ cfg.HF_PER_OUTPUT_UNLOCK_VERSION then
    amount / 200
  else
    if unlock_time ≥ 5040 then amount / 500
    else if unlock_time ≥ 1440 then amount / 20
    else if unlock_time ≥ 720 then amount / 10
    else amount / 5

/-- The function `get_onshore_fee`. -/
def get_onshore_fee (cfg : Config) (dsts : List tx_destination_entry)
    (unlock_time hf_version : Nat) : Nat :=
  let amount_usd := onshore_fee_amount dsts
  if hf_version ≥ cfg.HF_VERSION_USE_COLLATERAL then
    (amount_usd * 3) % 2 ^ 64 / 200
  else if hf_version ≥ cfg.HF_PER_OUTPUT_UNLOCK_VERSION then
    amount_usd / 200
  else
    if unlock_time ≥ 5040 then amount_usd / 500
    else if unlock_time ≥ 1440 then amount_usd / 20
    else if unlock_time ≥ 720 then amount_usd / 10
    else amount_usd / 5

/-- The function `get_xasset_to_xusd_fee`. -/
def get_xasset_to_xusd_fee (cfg : Config) (dsts : List tx_destination_entry)
    (hf_version : Nat) : Nat :=
  let amount_xasset := xasset_to_xusd_fee_amount dsts
  if hf_version ≥ cfg.HF_VERSION_USE_COLLATERAL then
    (amount_xasset * 15) % 2 ^ 128 / 1000 % 2 ^ 64
  else if hf_version ≥ cfg.HF_VERSION_XASSET_FEES_V2 then
    (amount_xasset * 5) % 2 ^ 128 / 1000 % 2 ^ 64
  else
    (amount_xasset * 3) % 2 ^ 128 / 1000 % 2 ^ 64

/-- The function `get_xusd_to_xasset_fee`. -/
def get_xusd_to_xasset_fee (cfg : Config) (dsts : List tx_destination_entry)
    (hf_version : Nat) : Nat :=
  let amount_usd := xusd_to_xasset_fee_amount dsts
  if hf_version ≥ cfg.HF_VERSION_USE_COLLATERAL then
    (amount_usd * 15) % 2 ^ 128 / 1000 % 2 ^ 64
  else if hf_version ≥ cfg.HF_VERSION_XASSET_FEES_V2 then
    (amount_usd * 5) % 2 ^ 128 / 1000 % 2 ^ 64
  else
    (amount_usd * 3) % 2 ^ 128 / 1000 % 2 ^ 64

/-- The transaction id that `tx_pr_height_valid` lets pass with an old record. -/
def pr_height_exception_tx : String :=
  "3e61439c9f751a56777a1df1479ce70311755b9d42db5bcbbd873c6f09a020a6"

/-- The function `tx_pr_height_valid`; the subtraction
`current_height - PRICING_RECORD_VALID_BLOCKS` is one of `uint64_t`. -/
def tx_pr_height_valid (cfg : Config) (current_height pr_height : Nat) (tx_hash : hash) : Bool :=
  if pr_height ≥ current_height then false
  else if (current_height + 2 ^ 64 - cfg.PRICING_RECORD_VALID_BLOCKS % 2 ^ 64) % 2 ^ 64
      > pr_height then
    if pod_to_hex tx_hash ≠ pr_height_exception_tx then false
    else true
  else true

/-- The function `get_xasset_amount`. -/
def get_xasset_amount (xusd_amount : Nat) (to_asset_type : String) (pr : pricing_record) : Nat :=
  let xusd_128 := xusd_amount
  let exchange_128 := pr.get to_asset_type
  let xasset_128 := (xusd_128 * exchange_128) % 2 ^ 128
  xasset_128 / 1000000000000 % 2 ^ 64

/-- The rate that `get_xusd_amount` and `get_xhv_amount` select from
`HF_PER_OUTPUT_UNLOCK_VERSION` on: `std::max(pr.unused1, pr.xUSD)` for an
onshore, `std::min(pr.unused1, pr.xUSD)` otherwise. -/
def directional_rate (pr : pricing_record) (tx_type : transaction_type) : Nat :=
  if tx_type = transaction_type.ONSHORE then max pr.unused1 pr.xUSD
  else min pr.unused1 pr.xUSD

/-- The function `get_xusd_amount`. -/
def get_xusd_amount (cfg : Config) (amount : Nat) (amount_asset_type : String)
    (pr : pricing_record) (tx_type : transaction_type) (hf_version : Nat) : Except Err Nat :=
  if amount_asset_type = "XUSD" then .ok amount
  else
    let amount_128 := amount
    let exchange_128 := pr.get amount_asset_type
    if amount_asset_type = "XHV" then
      let exchange_128 :=
        if hf_version ≥ cfg.HF_PER_OUTPUT_UNLOCK_VERSION then directional_rate pr tx_type
        else exchange_128
      let xusd_128 := (amount_128 * exchange_128) % 2 ^ 128
      .ok (xusd_128 / 1000000000000 % 2 ^ 64)
    else
      let xusd_128 := (amount_128 * 1000000000000) % 2 ^ 128
      if exchange_128 = 0 then .error .division_by_zero
      else .ok (xusd_128 / exchange_128 % 2 ^ 64)

/-- The function `get_xhv_amount`. -/
def get_xhv_amount (cfg : Config) (xusd_amount : Nat) (pr : pricing_record)
    (tx_type : transaction_type) (hf_version : Nat) : Except Err Nat :=
  let xusd_128 := xusd_amount
  let exchange_128 := pr.unused1
  let xhv_128 := (xusd_128 * 1000000000000) % 2 ^ 128
  let exchange_128 :=
    if hf_version ≥ cfg.HF_PER_OUTPUT_UNLOCK_VERSION then directional_rate pr tx_type
    else exchange_128
  if exchange_128 = 0 then .error .division_by_zero
  else .ok (xhv_128 / exchange_128 % 2 ^ 64)

/-- The loop "Process the circulating supply data" of
`get_collateral_requirements` over the entries still to visit, with
`mcap_xassets` as summed so far. An entry is the asset tag and the number that
`uint128_t(i.second.c_str())` reads from the amount string. -/
def mcap_xassets_loop (cfg : Config) (pr : pricing_record) :
    List (String × Nat) → Nat → Except Err Nat
  | [], mcap_xassets => .ok mcap_xassets
  | i :: rest, mcap_xassets =>
    if i.1 = "XHV" then mcap_xassets_loop cfg pr rest mcap_xassets
    else
      let price_xasset := pr.get i.1
      let amount_xasset := (i.2 % 2 ^ 128 * cfg.COIN) % 2 ^ 128
      if price_xasset = 0 then .error .division_by_zero
      else mcap_xassets_loop cfg pr rest ((mcap_xassets + amount_xasset / price_xasset) % 2 ^ 128)

/-- The entry `map_amounts["XHV"]` after the loop: the amount of the last
entry tagged `"XHV"`, zero when there is none. -/
def map_amounts_xhv : List (String × Nat) → Nat
  | [] => 0
  | i :: rest =>
    if i.1 = "XHV" ∧ rest.all (fun j => decide (j.1 ≠ "XHV")) then i.2 % 2 ^ 128
    else map_amounts_xhv rest

/-- The function `get_collateral_requirements`: `.ok collateral` where the
source returns `true`. The parameter `vbs` stands for the floating-point part:
`vbs tx_type mcap_xassets mcap_xhv x` is the value of `static_cast<uint64_t>(vbs)`,
with `x` the `amount_usd_128` of an offshore and the `amount_128` of an onshore. -/
def get_collateral_requirements (cfg : Config)
    (vbs : transaction_type → Nat → Nat → Nat → Nat)
    (tx_type : transaction_type) (amount : Nat) (pr : pricing_record)
    (amounts : List (String × Nat)) : Except Err Nat :=
  match mcap_xassets_loop cfg pr amounts 0 with
  | .error e => .error e
  | .ok mcap_xassets =>
    let price_xhv :=
      if tx_type = transaction_type.OFFSHORE then min pr.unused1 pr.xUSD
      else if tx_type = transaction_type.ONSHORE then max pr.unused1 pr.xUSD
      else 0
    if cfg.COIN % 2 ^ 128 = 0 then .error .division_by_zero
    else
      let mcap_xhv := (map_amounts_xhv amounts * price_xhv) % 2 ^ 128 / (cfg.COIN % 2 ^ 128)
      let amount_128 := amount
      if tx_type = transaction_type.TRANSFER ∨ tx_type = transaction_type.OFFSHORE_TRANSFER
          ∨ tx_type = transaction_type.XASSET_TRANSFER then
        .ok 0
      else if tx_type = transaction_type.OFFSHORE then
        let amount_usd_128 := (amount * price_xhv) % 2 ^ 128 / (cfg.COIN % 2 ^ 128)
        let collateral_128 :=
          (vbs tx_type mcap_xassets mcap_xhv amount_usd_128 % 2 ^ 64 * amount_128) % 2 ^ 128
            / (cfg.COIN % 2 ^ 128)
        .ok (collateral_128 % 2 ^ 64)
      else if tx_type = transaction_type.ONSHORE then
        let collateral_128 :=
          (vbs tx_type mcap_xassets mcap_xhv amount_128 % 2 ^ 64 * amount_128) % 2 ^ 128
        if price_xhv = 0 then .error .division_by_zero
        else .ok (collateral_128 / price_xhv % 2 ^ 64)
      else if tx_type = transaction_type.XUSD_TO_XASSET
          ∨ tx_type = transaction_type.XASSET_TO_XUSD then
        .ok 0
      else .error .rejected

/-! ## The cached values of `transaction` (`cryptonote_basic.h`) -/

/-- The member `transaction::invalidate_hashes`. -/
def transaction.invalidate_hashes (self : transaction) : transaction :=
  { self with hash_valid := false, prunable_hash_valid := false, blob_size_valid := false }

/-- The member `transaction::set_null`: `transaction_prefix::set_null`, then
the members of `transaction`. -/
def transaction.set_null (cfg : Config) (self : transaction) : transaction :=
  { self with
    version := 1, unlock_time := 0, vin := [], vout := [], extra := []
    signatures := [], rct_signatures_type := cfg.RCTTypeNull
    hash_valid := false, prunable_hash_valid := false, blob_size_valid := false
    pruned := false, unprunable_size := 0, prefix_size := 0 }

/-- What the storage of the members `hash`, `prunable_hash` and `blob_size`
holds in an object under construction, before anything is written to them. -/
structure IndeterminateCache where
  hash : cryptonote.hash
  prunable_hash : cryptonote.hash
  blob_size : Nat

/-- The copy constructor `transaction::transaction(const transaction &t)`: the
base and the other members are copied, the three flags start `false`, and a
cached value is copied, and its flag set, only where the flag of `t` is set. -/
def transaction.copy (u : IndeterminateCache) (t : transaction) : transaction :=
  let self : transaction :=
    { t with hash_valid := false, prunable_hash_valid := false, blob_size_valid := false
             hash := u.hash, prunable_hash := u.prunable_hash, blob_size := u.blob_size }
  let self : transaction :=
    if t.hash_valid then { self with hash := t.hash, hash_valid := true } else self
  let self : transaction :=
    if t.blob_size_valid then { self with blob_size := t.blob_size, blob_size_valid := true }
    else self
  let self : transaction :=
    if t.prunable_hash_valid then
      { self with prunable_hash := t.prunable_hash, prunable_hash_valid := true }
    else self
  self

/-- The operator `transaction::operator=`: everything but the three cached
values is taken from `t`, the flags are cleared, and a cached value is copied,
and its flag set, only where the flag of `t` is set; otherwise the cached value
of the target stays. -/
def transaction.assign (self t : transaction) : transaction :=
  let self : transaction :=
    { t with hash_valid := false, prunable_hash_valid := false, blob_size_valid := false
             hash := self.hash, prunable_hash := self.prunable_hash, blob_size := self.blob_size }
  let self : transaction :=
    if t.hash_valid then { self with hash := t.hash, hash_valid := true } else self
  let self : transaction :=
    if t.prunable_hash_valid then
      { self with prunable_hash := t.prunable_hash, prunable_hash_valid := true }
    else self
  let self : transaction :=
    if t.blob_size_valid then { self with blob_size := t.blob_size, blob_size_valid := true }
    else self
  self

/-- The data that `transaction::serialize` reads after the prefix fields. -/
structure signature_data where
  signatures : List (List (List Nat))
  rct_signatures_type : Nat
  unprunable_size : Nat

/-- Readers of the signature part of an archive. The loop over the signatures
of a version 1 transaction and the members `serialize_rctsig_base` and
`serialize_rctsig_prunable` of `rct::rctSig` read through archive primitives of
other files; they are parameters. Each gets the object as loaded so far and the
fields left, and gives the data read and the fields left; `consumed a b` is
`b.getpos() - a.getpos()`, the number of bytes between two states of the archive. -/
structure signature_readers where
  signatures : transaction → List Field → Except Err (signature_data × List Field)
  rctsig : transaction → List Field → Except Err (signature_data × List Field)
  rctsig_base : transaction → List Field → Except Err (signature_data × List Field)
  consumed : List Field → List Field → Nat

/-- The first statement of `transaction::serialize` on a loading archive
(source lines 560 to 566). -/
def transaction.load_begin (self : transaction) : transaction :=
  { self with hash_valid := false, prunable_hash_valid := false, blob_size_valid := false }

/-- The member `transaction::serialize` on a loading archive; `binary` says
whether the archive is a `binary_archive`. -/
def transaction.load (cfg : Config) (u : Indeterminate) (rd : signature_readers)
    (binary : Bool) (self : transaction) (ar0 : List Field) :
    Except Err (transaction × List Field) :=
  let self : transaction := transaction.load_begin self
  match cryptonote.load cfg u ( transaction.totransaction_prefix self) ar0 with
  | .error e => .error e
  | .ok (p, ar) =>
    let self : transaction := { self with  totransaction_prefix := p }
    let self : transaction :=
      if binary then { self with prefix_size := rd.consumed ar0 ar % 2 ^ 32 } else self
    match (if self.version = 1 then rd.signatures self ar
           else if self.vin ≠ [] then rd.rctsig self ar
           else .ok (⟨self.signatures, self.rct_signatures_type, self.unprunable_size⟩, ar)) with
    | .error e => .error e
    | .ok (d, ar) =>
      .ok ({ self with signatures := d.signatures, rct_signatures_type := d.rct_signatures_type
                       unprunable_size := d.unprunable_size, pruned := false }, ar)

/-- The member `transaction::serialize_base` on a loading archive. -/
def transaction.load_base (cfg : Config) (u : Indeterminate) (rd : signature_readers)
    (self : transaction) (ar0 : List Field) : Except Err (transaction × List Field) :=
  match cryptonote.load cfg u ( transaction.totransaction_prefix self) ar0 with
  | .error e => .error e
  | .ok (p, ar) =>
    let self : transaction := { self with  totransaction_prefix := p }
    match (if self.version = 1 then .ok (⟨self.signatures, self.rct_signatures_type, self.unprunable_size⟩, ar)
           else if self.vin ≠ [] then rd.rctsig_base self ar
           else .ok (⟨self.signatures, self.rct_signatures_type, self.unprunable_size⟩, ar)) with
    | .error e => .error e
    | .ok (d, ar) =>
      .ok ({ self with rct_signatures_type := d.rct_signatures_type, pruned := true }, ar)

/-! ## Construction of transactions (`cryptonote_tx_utils.cpp`) -/

/-- The type `crypto::secret_key`, as its bytes. -/
structure secret_key where
  data : List Nat
deriving DecidableEq, Repr

/-- The type `crypto::key_derivation`, as its bytes. -/
structure key_derivation where
  data : List Nat
deriving DecidableEq, Repr

/-- The struct `keypair`. -/
structure keypair where
  pub : public_key
  sec : secret_key
deriving DecidableEq, Repr

/-- The struct `rct::ctkey`: a destination key and a commitment mask. -/
structure ctkey where
  dest : public_key
  mask : List Nat
deriving DecidableEq, Repr

/-- Modelled from the spec: the struct `tx_source_entry`
(`cryptonote_tx_utils.h` is not among the sources): the amount, the ring of
outputs (`outputs`, pairs of a global index and a `ctkey`), the position of the
real output in it, the transaction key and additional keys of the real output,
its index in its transaction, the `rct` flag and the mask. -/
structure tx_source_entry where
  outputs : List (Nat × ctkey)
  real_output : Nat
  real_out_tx_key : public_key
  real_out_additional_tx_keys : List public_key
  real_output_in_tx_index : Nat
  amount : Nat
  rct : Bool
  mask : List Nat
deriving DecidableEq, Repr

/-- Modelled from the spec: the struct `account_keys` (`account.h` is not among
the sources): the address and the two secret keys of the sender. -/
structure account_keys where
  m_account_address : account_public_address
  m_spend_secret_key : secret_key
  m_view_secret_key : secret_key
deriving DecidableEq, Repr

/-- What `hw::device::generate_output_ephemeral_keys` writes: the one-time key
and view tag of the output and the two vectors it appends to. -/
structure output_ephemeral_keys where
  out_eph_public_key : public_key
  view_tag : Nat
  additional_tx_public_keys : List public_key
  amount_keys : List (List Nat)

/-- What the builder reads of the value of `rct::genRctSimple` or
`rct::genRct`: the type of the signature and the size of `outSk`. -/
structure rct_result where
  rct_type : Nat
  outSk_size : Nat

/-- Functions and constants of other files that `cryptonote_tx_utils.cpp`
calls: the random sources, the helpers on the `extra` blob, the emission
schedule, the key derivations of the device and the signers. They are
parameters of the embedding. A function that returns `bool` and writes a result
is an `Option`, or a pair of the flag and the value written where the source
goes on after a failure. `keypair_generate n` is the value of the call number
`n` of `keypair::generate`. -/
structure Externals where
  keypair_generate : Nat → keypair
  open_tx : secret_key → secret_key
  shuffle : List tx_destination_entry → List tx_destination_entry
  add_tx_pub_key_to_extra : List Nat → public_key → List Nat
  add_extra_nonce_to_tx_extra : List Nat → List Nat → Bool × List Nat
  add_additional_tx_pub_keys_to_extra : List Nat → List public_key → List Nat
  remove_field_from_tx_extra : List Nat → String → List Nat
  sort_tx_extra : List Nat → Option (List Nat)
  parse_tx_extra : List Nat → Option (List (List Nat))
  find_tx_extra_nonce : List (List Nat) → Option (List Nat)
  get_encrypted_payment_id_from_tx_extra_nonce : List Nat → Option (List Nat)
  get_payment_id_from_tx_extra_nonce : List Nat → Option hash
  set_encrypted_payment_id_to_tx_extra_nonce : List Nat → List Nat
  null_pkey : public_key
  null_hash8 : List Nat
  uninitialized_view_tag : Nat
  uninitialized_address : account_public_address
  get_block_reward : Nat → Nat → Nat → Nat → Option Nat
  decompose_amount_into_digits : Nat → Nat → List Nat
  generate_key_derivation : public_key → secret_key → Option key_derivation
  derive_public_key : key_derivation → Nat → public_key → Option public_key
  derive_view_tag : key_derivation → Nat → Nat
  set_tx_out_target : public_key → Bool → Nat → txout_target_v
  generate_key_image_helper : account_keys → public_key → public_key → List public_key → Nat →
    Option (keypair × key_image)
  absolute_output_offsets_to_relative : List Nat → List Nat
  encrypt_payment_id : List Nat → public_key → secret_key → Bool × List Nat
  scalarmultKey : public_key → secret_key → public_key
  scalarmultBase : secret_key → public_key
  generate_output_ephemeral_keys : Nat → account_keys → public_key → secret_key →
    tx_destination_entry → Option account_public_address → Nat → Bool → List secret_key →
    List public_key → List (List Nat) → Bool → output_ephemeral_keys
  get_transaction_prefix_hash : transaction_prefix → hash
  generate_ring_signature : hash → key_image → List public_key → secret_key → Nat →
    List (List Nat)
  get_output_public_key : tx_out → public_key
  genRctSimple : hash → List tx_source_entry → List keypair → List public_key → List Nat →
    List Nat → Nat → List (List Nat) → rct_result
  genRct : hash → List tx_source_entry → List keypair → List public_key → List Nat →
    List (List Nat) → Nat → rct_result

/-- Modelled from the spec: the function `set_tx_out` of
`cryptonote_format_utils.cpp` (not among the sources): the output carries the
amount given; its target is built from the one-time key and, with view tags,
the view tag, by the parameter `target`. -/
def set_tx_out (target : public_key → Bool → Nat → txout_target_v) (amount : Nat)
    (output_public_key : public_key) (use_view_tags : Bool) (view_tag : Nat) : tx_out :=
  { amount := amount, target := target output_public_key use_view_tags view_tag }

/-- A sum kept in a `uint64_t`: `s += a` for each element. -/
def sum_u64 (l : List Nat) : Nat :=
  l.foldl (fun s a => (s + a) % 2 ^ 64) 0

/-! ### `classify_addresses` and `get_destination_view_key_pub` -/

/-- The loop of `classify_addresses` over the destinations still to visit:
`unique_dst_addresses`, the two counters and `single_dest_subaddress`. -/
def classify_addresses_loop (change_addr : Option account_public_address) :
    List tx_destination_entry → List account_public_address → Nat → Nat →
    account_public_address → Nat × Nat × account_public_address
  | [], _, num_stdaddresses, num_subaddresses, single_dest_subaddress =>
    (num_stdaddresses, num_subaddresses, single_dest_subaddress)
  | dst_entr :: rest, unique_dst_addresses, num_stdaddresses, num_subaddresses,
      single_dest_subaddress =>
    if change_addr = some dst_entr.addr then
      classify_addresses_loop change_addr rest unique_dst_addresses num_stdaddresses
        num_subaddresses single_dest_subaddress
    else if dst_entr.addr ∉ unique_dst_addresses then
      if dst_entr.is_subaddress then
        classify_addresses_loop change_addr rest (dst_entr.addr :: unique_dst_addresses)
          num_stdaddresses (num_subaddresses + 1) dst_entr.addr
      else
        classify_addresses_loop change_addr rest (dst_entr.addr :: unique_dst_addresses)
          (num_stdaddresses + 1) num_subaddresses single_dest_subaddress
    else
      classify_addresses_loop change_addr rest unique_dst_addresses num_stdaddresses
        num_subaddresses single_dest_subaddress

/-- The function `classify_addresses`: `(num_stdaddresses, num_subaddresses,
single_dest_subaddress)`; the last is passed in as the caller left it. -/
def classify_addresses (destinations : List tx_destination_entry)
    (change_addr : Option account_public_address)
    (single_dest_subaddress : account_public_address) :
    Nat × Nat × account_public_address :=
  classify_addresses_loop change_addr destinations [] 0 0 single_dest_subaddress

/-- The value of `need_additional_txkeys`, computed the same way in
`construct_tx_with_tx_key` and in `construct_tx_and_get_tx_key`. -/
def need_additional_txkeys (num_stdaddresses num_subaddresses : Nat) : Bool :=
  decide (num_subaddresses > 0 ∧ (num_stdaddresses > 0 ∨ num_subaddresses > 1))

/-- The loop of `get_destination_view_key_pub` over the destinations still to
visit, with `addr` and `count`, and the two `return`s after it. -/
def get_destination_view_key_pub_from (null_pkey : public_key)
    (change_addr : Option account_public_address) :
    List tx_destination_entry → account_public_address → Nat → public_key
  | [], addr, count =>
    match change_addr with
    | some c => if count = 0 then c.m_view_public_key else addr.m_view_public_key
    | none => addr.m_view_public_key
  | i :: rest, addr, count =>
    if i.amount = 0 then
      get_destination_view_key_pub_from null_pkey change_addr rest addr count
    else if change_addr = some i.addr then
      get_destination_view_key_pub_from null_pkey change_addr rest addr count
    else if i.addr = addr then
      get_destination_view_key_pub_from null_pkey change_addr rest addr count
    else if count > 0 then null_pkey
    else get_destination_view_key_pub_from null_pkey change_addr rest i.addr (count + 1)

/-- The function `get_destination_view_key_pub`. -/
def get_destination_view_key_pub (null_pkey : public_key)
    (destinations : List tx_destination_entry) (change_addr : Option account_public_address) :
    public_key :=
  get_destination_view_key_pub_from null_pkey change_addr destinations ⟨null_pkey, null_pkey⟩ 0

/-! ### `construct_miner_tx` -/

/-- The loop `while (max_outs < out_amounts.size())` of `construct_miner_tx` on
`out_amounts = first :: rest`: each round adds `out_amounts[0]` to
`out_amounts[1]`, moves the elements one place down and pops the last. A round
shortens the vector by one, so the loop is a recursion on `rest`. With one
element left and `max_outs = 0` the round reads `out_amounts[1]` past the end. -/
def collapse_from (max_outs : Nat) : Nat → List Nat → Except Err (List Nat)
  | first, [] => if max_outs < 1 then .error .out_of_range else .ok [first]
  | first, second :: rest =>
    if max_outs < rest.length + 2 then collapse_from max_outs ((second + first) % 2 ^ 64) rest
    else .ok (first :: second :: rest)

/-- The loop `while (max_outs < out_amounts.size())` of `construct_miner_tx`. -/
def collapse_out_amounts (max_outs : Nat) : List Nat → Except Err (List Nat)
  | [] => .ok []
  | first :: rest => collapse_from max_outs first rest

/-- The value of `block_reward` in `construct_miner_tx` after `block_reward +=
fee` and the rounding of hard forks 2 and 3, from the value that
`get_block_reward` wrote. -/
def miner_reward (cfg : Config) (block_reward fee hard_fork_version : Nat) : Nat :=
  let block_reward := (block_reward + fee) % 2 ^ 64
  if hard_fork_version ≥ 2 ∧ hard_fork_version < 4 then
    block_reward - block_reward % cfg.BASE_REWARD_CLAMP_THRESHOLD
  else block_reward

/-- The vector `out_amounts` of `construct_miner_tx` after the call of
`decompose_amount_into_digits`: the chunks and the dust in the order of the
calls of the two handlers, each handler taking a `uint64_t`. -/
def miner_chunks (cfg : Config) (ext : Externals) (hard_fork_version block_reward : Nat) :
    List Nat :=
  (ext.decompose_amount_into_digits block_reward
    (if hard_fork_version ≥ 2 then 0 else cfg.DEFAULT_DUST_THRESHOLD)).map
    (fun a_chunk => a_chunk % 2 ^ 64)

/-- The vector `out_amounts` of `construct_miner_tx` when the output loop
starts: the chunks of the decomposition, the test of `max_outs` and the
collapse or the size check. -/
def miner_out_amounts (cfg : Config) (ext : Externals)
    (height max_outs hard_fork_version block_reward : Nat) : Except Err (List Nat) :=
  let out_amounts := miner_chunks cfg ext hard_fork_version block_reward
  if ¬ 1 ≤ max_outs then .error .rejected
  else if height = 0 ∨ hard_fork_version ≥ 4 then collapse_out_amounts max_outs out_amounts
  else if ¬ max_outs ≥ out_amounts.length then .error .rejected
  else .ok out_amounts

/-- The output loop of `construct_miner_tx` from index `no` on: the outputs
pushed to `tx.vout`, or `none` where a key derivation fails. -/
def miner_outputs (cfg : Config) (ext : Externals) (miner_address : account_public_address)
    (txkey : keypair) (hard_fork_version : Nat) : Nat → List Nat → Option (List tx_out)
  | _, [] => some []
  | no, amount :: rest =>
    match ext.generate_key_derivation miner_address.m_view_public_key txkey.sec with
    | none => none
    | some derivation =>
      match ext.derive_public_key derivation no miner_address.m_spend_public_key with
      | none => none
      | some out_eph_public_key =>
        let use_view_tags := decide (hard_fork_version ≥ cfg.HF_VERSION_VIEW_TAGS)
        let view_tag :=
          if use_view_tags then ext.derive_view_tag derivation no else ext.uninitialized_view_tag
        match miner_outputs cfg ext miner_address txkey hard_fork_version (no + 1) rest with
        | none => none
        | some outs =>
          some (set_tx_out ext.set_tx_out_target amount out_eph_public_key use_view_tags view_tag
            :: outs)

/-- The first statements of `construct_miner_tx` on `tx.extra`, which
`tx.extra.clear()` has emptied: the transaction public key is added, then the
extra nonce if there is one, and the fields are sorted; `none` where the
source returns `false`. -/
def miner_extra (ext : Externals) (txkey : keypair) (extra_nonce : List Nat) :
    Option (List Nat) :=
  let extra := ext.add_tx_pub_key_to_extra [] txkey.pub
  let r :=
    if extra_nonce ≠ [] then ext.add_extra_nonce_to_tx_extra extra extra_nonce
    else (true, extra)
  if r.1 = false then none
  else ext.sort_tx_extra r.2

/-- The function `construct_miner_tx`; `tx` is the object before the call and
the value is the object after a call that returns `true`. -/
def construct_miner_tx (cfg : Config) (ext : Externals)
    (height median_weight already_generated_coins current_block_weight fee : Nat)
    (miner_address : account_public_address) (tx : transaction) (extra_nonce : List Nat)
    (max_outs hard_fork_version : Nat) : Except Err transaction :=
  let tx : transaction := { tx with vin := [], vout := [], extra := [] }
  let txkey := ext.keypair_generate 0
  match miner_extra ext txkey extra_nonce with
  | none => .error .rejected
  | some extra =>
    let tx : transaction := { tx with extra := extra }
    match ext.get_block_reward median_weight current_block_weight already_generated_coins
        hard_fork_version with
    | none => .error .rejected
    | some block_reward =>
      let block_reward := miner_reward cfg block_reward fee hard_fork_version
      match miner_out_amounts cfg ext height max_outs hard_fork_version block_reward with
      | .error e => .error e
      | .ok out_amounts =>
        match miner_outputs cfg ext miner_address txkey hard_fork_version 0 out_amounts with
        | none => .error .rejected
        | some outs =>
          let summary_amounts := sum_u64 out_amounts
          if summary_amounts ≠ block_reward then .error .rejected
          else
            .ok (transaction.invalidate_hashes
              { tx with vout := tx.vout ++ outs
                        version := if hard_fork_version ≥ 4 then 2 else 1
                        unlock_time :=
                          (height + cfg.CRYPTONOTE_MINED_MONEY_UNLOCK_WINDOW) % 2 ^ 64
                        vin := tx.vin ++ [.gen ⟨height⟩] })

/-! ### `construct_tx_with_tx_key` and `construct_tx_and_get_tx_key` -/

/-- The search for a payment id in `extra` (the body of `if
(find_tx_extra_field_by_type(tx_extra_fields, extra_nonce))` and the case
without a nonce): `none` where the source returns `false`, otherwise `tx.extra`
and `add_dummy_payment_id`. -/
def payment_id_from_extra (ext : Externals) (destinations : List tx_destination_entry)
    (change_addr : Option account_public_address) (tx_key : secret_key) (extra : List Nat)
    (tx_extra_fields : List (List Nat)) : Option (List Nat × Bool) :=
  match ext.find_tx_extra_nonce tx_extra_fields with
  | none => some (extra, true)
  | some nonce =>
    match ext.get_encrypted_payment_id_from_tx_extra_nonce nonce with
    | some payment_id8 =>
      let view_key_pub := get_destination_view_key_pub ext.null_pkey destinations change_addr
      if view_key_pub = ext.null_pkey then none
      else
        let r := ext.encrypt_payment_id payment_id8 view_key_pub tx_key
        if r.1 = false then none
        else
          let extra_nonce := ext.set_encrypted_payment_id_to_tx_extra_nonce r.2
          let extra := ext.remove_field_from_tx_extra extra "tx_extra_nonce"
          let a := ext.add_extra_nonce_to_tx_extra extra extra_nonce
          if a.1 = false then none
          else some (a.2, false)
    | none =>
      match ext.get_payment_id_from_tx_extra_nonce nonce with
      | some _ => some (extra, false)
      | none => some (extra, true)

/-- The body of `if (add_dummy_payment_id)`: `tx.extra` after it. A missing
view key and a failure of either call are only logged. -/
def add_dummy_payment_id (ext : Externals) (destinations : List tx_destination_entry)
    (change_addr : Option account_public_address) (tx_key : secret_key) (extra : List Nat) :
    List Nat :=
  let view_key_pub := get_destination_view_key_pub ext.null_pkey destinations change_addr
  if view_key_pub = ext.null_pkey then extra
  else
    let r := ext.encrypt_payment_id ext.null_hash8 view_key_pub tx_key
    let extra_nonce := ext.set_encrypted_payment_id_to_tx_extra_nonce r.2
    (ext.add_extra_nonce_to_tx_extra extra extra_nonce).2

/-- The payment-id part of `construct_tx_with_tx_key` (source lines 772 to
846): `none` where the source returns `false`, otherwise `tx.extra` after it. -/
def payment_id_stage (ext : Externals) (destinations : List tx_destination_entry)
    (change_addr : Option account_public_address) (tx_key : secret_key) (extra : List Nat) :
    Option (List Nat) :=
  match ext.parse_tx_extra extra with
  | none => some extra
  | some tx_extra_fields =>
    match payment_id_from_extra ext destinations change_addr tx_key extra tx_extra_fields with
    | none => none
    | some (extra, add_dummy) =>
      if add_dummy = true ∧ ¬ destinations.length > 2 then
        some (add_dummy_payment_id ext destinations change_addr tx_key extra)
      else some extra

/-- The loop "fill inputs" of `construct_tx_with_tx_key`: for every source the
input pushed to `tx.vin` and the ephemeral key pair pushed to `in_contexts`;
`none` where the source returns `false`. The first `match` is the test
`src_entr.real_output >= src_entr.outputs.size()`. -/
def fill_inputs (ext : Externals) (sender_account_keys : account_keys) :
    List tx_source_entry → Option (List (txin_v × keypair))
  | [] => some []
  | src_entr :: rest =>
    match src_entr.outputs[src_entr.real_output]? with
    | none => none
    | some real_out =>
      match ext.generate_key_image_helper sender_account_keys real_out.2.dest
          src_entr.real_out_tx_key src_entr.real_out_additional_tx_keys
          src_entr.real_output_in_tx_index with
      | none => none
      | some (in_ephemeral, img) =>
        if in_ephemeral.pub ≠ real_out.2.dest then none
        else
          let input_to_key : txin_to_key :=
            { amount := src_entr.amount, k_image := img
              key_offsets := ext.absolute_output_offsets_to_relative
                (src_entr.outputs.map (fun out_entry => out_entry.1)) }
          match fill_inputs ext sender_account_keys rest with
          | none => none
          | some ins => some ((.to_key input_to_key, in_ephemeral) :: ins)

/-- The key image read by `boost::get<txin_to_key>(e).k_image`; the builder
applies it to the `txin_to_key` inputs it has pushed. -/
def txin_k_image : txin_v → key_image
  | .to_key x => x.k_image
  | _ => ⟨[]⟩

/-- The bytes of the key image of `tx.vin[i]`. -/
def vin_k_image (vin : List txin_v) (i : Nat) : List Nat :=
  match vin[i]? with
  | some e => (txin_k_image e).data
  | none => []

/-- The vector `ins_order` after `std::sort`: the indices of `tx.vin`, an index
`i0` standing before `i1` when the key image of `tx.vin[i0]` is not below that
of `tx.vin[i1]` in `memcmp` order. -/
def ins_order (vin : List txin_v) : List Nat :=
  (List.range vin.length).insertionSort
    (fun i0 i1 => lex_lt (vin_k_image vin i0) (vin_k_image vin i1) = false)

/-- Modelled from the spec: the function `tools::apply_permutation`
(`common/apply_permutation.h` is not among the sources): position `n` of the
result holds the element that stood at position `permutation[n]`. -/
def apply_permutation {α : Type} (permutation : List Nat) (v : List α) : List α :=
  permutation.filterMap (fun i => v[i]?)

/-- The loop "fill outputs" of `construct_tx_with_tx_key` from `output_index`
on: the outputs pushed to `tx.vout`, `additional_tx_public_keys` and
`amount_keys`; `none` where the source returns `false`. -/
def fill_outputs (ext : Externals) (sender_account_keys : account_keys) (version : Nat)
    (txkey_pub : public_key) (tx_key : secret_key)
    (change_addr : Option account_public_address) (need_additional : Bool)
    (additional_tx_keys : List secret_key) (use_view_tags : Bool) :
    List tx_destination_entry → Nat → List public_key → List (List Nat) →
    Option (List tx_out × List public_key × List (List Nat))
  | [], _, additional_tx_public_keys, amount_keys =>
    some ([], additional_tx_public_keys, amount_keys)
  | dst_entr :: rest, output_index, additional_tx_public_keys, amount_keys =>
    if ¬ (dst_entr.amount > 0 ∨ version > 1) then none
    else
      let r := ext.generate_output_ephemeral_keys version sender_account_keys txkey_pub tx_key
        dst_entr change_addr output_index need_additional additional_tx_keys
        additional_tx_public_keys amount_keys use_view_tags
      let out := set_tx_out ext.set_tx_out_target dst_entr.amount r.out_eph_public_key
        use_view_tags r.view_tag
      match fill_outputs ext sender_account_keys version txkey_pub tx_key change_addr
          need_additional additional_tx_keys use_view_tags rest (output_index + 1)
          r.additional_tx_public_keys r.amount_keys with
      | none => none
      | some (outs, apk, ak) => some (out :: outs, apk, ak)

/-- The part of `construct_tx_with_tx_key` from `classify_addresses` to
`sort_tx_extra` (source lines 921 to 986): `none` where the source returns
`false`, otherwise `tx.extra`, `tx.vout` and `amount_keys`. -/
def outputs_stage (ext : Externals) (sender_account_keys : account_keys) (version : Nat)
    (destinations : List tx_destination_entry) (change_addr : Option account_public_address)
    (tx_key : secret_key) (additional_tx_keys : List secret_key) (use_view_tags : Bool)
    (extra : List Nat) : Option (List Nat × List tx_out × List (List Nat)) :=
  let c := classify_addresses destinations change_addr ext.uninitialized_address
  let txkey_pub :=
    if c.1 = 0 ∧ c.2.1 = 1 then ext.scalarmultKey c.2.2.m_spend_public_key tx_key
    else ext.scalarmultBase tx_key
  let extra := ext.remove_field_from_tx_extra extra "tx_extra_pub_key"
  let extra := ext.add_tx_pub_key_to_extra extra txkey_pub
  let need := need_additional_txkeys c.1 c.2.1
  if need = true ∧ destinations.length ≠ additional_tx_keys.length then none
  else
    match fill_outputs ext sender_account_keys version txkey_pub tx_key change_addr need
        additional_tx_keys use_view_tags destinations 0 [] [] with
    | none => none
    | some (vout, additional_tx_public_keys, amount_keys) =>
      if additional_tx_public_keys.length ≠ additional_tx_keys.length then none
      else
        let extra := ext.remove_field_from_tx_extra extra "tx_extra_additional_pub_keys"
        let extra :=
          if need then ext.add_additional_tx_pub_keys_to_extra extra additional_tx_public_keys
          else extra
        match ext.sort_tx_extra extra with
        | none => none
        | some extra => some (extra, vout, amount_keys)

/-- The branch `tx.version == 1` of `construct_tx_with_tx_key`: one vector of
signatures per source; with an all-zero spend secret key the vectors are only
resized. -/
def sign_v1 (ext : Externals) (sender_account_keys : account_keys) (tx : transaction)
    (in_contexts : List keypair) (sources : List tx_source_entry) : transaction :=
  let zero_secret_key := sender_account_keys.m_spend_secret_key.data.all (fun b => decide (b = 0))
  let tx_prefix_hash := ext.get_transaction_prefix_hash ( transaction.totransaction_prefix tx)
  let sigs := (List.zip sources (List.zip tx.vin in_contexts)).map (fun p =>
    if zero_secret_key then List.replicate p.1.outputs.length (List.replicate 64 0)
    else ext.generate_ring_signature tx_prefix_hash (txin_k_image p.2.1)
      (p.1.outputs.map (fun o => o.2.dest)) p.2.2.sec p.1.real_output)
  { tx with signatures := tx.signatures ++ sigs }

/-- The statement `boost::get<txin_to_key>(tx.vin[i]).amount = 0`. -/
def zero_input_amount : txin_v → txin_v
  | .to_key x => .to_key { x with amount := 0 }
  | e => e

/-- The two loops "zero out all amounts to mask rct outputs": the amount of
input `i` is set to 0 where `sources[i].rct` holds, the amount of every output
is set to 0. `sources` is the vector after the sort, of the size of `tx.vin`. -/
def rct_zero_amounts (tx : transaction) (sources : List tx_source_entry) : transaction :=
  { tx with
    vin := List.zipWith (fun e s => if s.rct then zero_input_amount e else e) tx.vin sources
    vout := tx.vout.map (fun o => { o with amount := 0 }) }

/-- The value of `use_simple_rct`. -/
def use_simple_rct (cfg : Config) (range_proof_type : Nat) (sources : List tx_source_entry) :
    Bool :=
  decide (sources.length > 1 ∨ range_proof_type ≠ cfg.RangeProofBorromean)

/-- The call of `rct::genRctSimple` or `rct::genRct` with the amounts read
before the zeroing and the prefix hash computed after it; `tx` is the object
before the zeroing and `first` is `sources[0]`. -/
def rct_signature (cfg : Config) (ext : Externals) (range_proof_type : Nat) (tx : transaction)
    (in_contexts : List keypair) (sources : List tx_source_entry) (first : tx_source_entry)
    (amount_keys : List (List Nat)) : rct_result :=
  let amount_in := sum_u64 (sources.map (fun s => s.amount))
  let inamounts := sources.map (fun s => s.amount)
  let destinations := tx.vout.map ext.get_output_public_key
  let outamounts := tx.vout.map (fun o => o.amount)
  let amount_out := sum_u64 outamounts
  let outamounts :=
    if use_simple_rct cfg range_proof_type sources = false ∧ amount_in > amount_out then
      outamounts ++ [amount_in - amount_out]
    else outamounts
  let tx_prefix_hash :=
    ext.get_transaction_prefix_hash ( transaction.totransaction_prefix (rct_zero_amounts tx sources))
  if use_simple_rct cfg range_proof_type sources then
    ext.genRctSimple tx_prefix_hash sources in_contexts destinations inamounts outamounts
      ((amount_in + 2 ^ 64 - amount_out) % 2 ^ 64) amount_keys
  else
    ext.genRct tx_prefix_hash sources in_contexts destinations outamounts amount_keys
      first.real_output

/-- The branch `tx.version != 1` of `construct_tx_with_tx_key`: the checks of
the non-simple case, the zeroing of the amounts and the rct signature; `none`
where the source returns `false`. `sources` and `in_contexts` are the vectors
after the sort. -/
def sign_rct (cfg : Config) (ext : Externals) (range_proof_type : Nat) (tx : transaction)
    (in_contexts : List keypair) (sources : List tx_source_entry)
    (amount_keys : List (List Nat)) : Option transaction :=
  match sources with
  | [] => none
  | first :: _ =>
    if use_simple_rct cfg range_proof_type sources = false
        ∧ (sources.any (fun src_entr => decide (src_entr.real_output ≠ first.real_output))
          ∨ (sources.drop 1).any
              (fun s => decide (first.outputs.length ≠ s.outputs.length))) then none
    else
      let r := rct_signature cfg ext range_proof_type tx in_contexts sources first amount_keys
      if (rct_zero_amounts tx sources).vout.length ≠ r.outSk_size then none
      else some { rct_zero_amounts tx sources with rct_signatures_type := r.rct_type }

/-- The function `construct_tx_with_tx_key`; `tx` is the object before the
call, `range_proof_type` the member of `rct_config` that the function reads,
and the value is the object after a call that returns `true`. The equal key
images that `std::sort` may order either way are kept in the order of the
sources. -/
def construct_tx_with_tx_key (cfg : Config) (ext : Externals)
    (sender_account_keys : account_keys) (sources : List tx_source_entry)
    (destinations : List tx_destination_entry) (change_addr : Option account_public_address)
    (extra : List Nat) (tx : transaction) (unlock_time : Nat) (tx_key : secret_key)
    (additional_tx_keys : List secret_key) (rct : Bool) (range_proof_type : Nat)
    (shuffle_outs use_view_tags : Bool) : Option transaction :=
  if sources = [] then none
  else
    let tx : transaction := tx.set_null cfg
    let tx : transaction :=
      { tx with version := if rct then 2 else 1, unlock_time := unlock_time, extra := extra }
    match payment_id_stage ext destinations change_addr tx_key tx.extra with
    | none => none
    | some extra =>
      match fill_inputs ext sender_account_keys sources with
      | none => none
      | some ins =>
        let summary_inputs_money := sum_u64 (sources.map (fun src_entr => src_entr.amount))
        let destinations := if shuffle_outs then ext.shuffle destinations else destinations
        let order := ins_order (ins.map (fun p => p.1))
        let vin := apply_permutation order (ins.map (fun p => p.1))
        let in_contexts := apply_permutation order (ins.map (fun p => p.2))
        let sources := apply_permutation order sources
        match outputs_stage ext sender_account_keys tx.version destinations change_addr tx_key
            additional_tx_keys use_view_tags extra with
        | none => none
        | some (extra, vout, amount_keys) =>
          let summary_outs_money := sum_u64 (destinations.map (fun dst_entr => dst_entr.amount))
          if summary_outs_money > summary_inputs_money then none
          else
            let tx : transaction := { tx with extra := extra, vin := vin, vout := vout }
            if tx.version = 1 then
              some (transaction.invalidate_hashes
                (sign_v1 ext sender_account_keys tx in_contexts sources))
            else
              match sign_rct cfg ext range_proof_type tx in_contexts sources amount_keys with
              | none => none
              | some tx => some (transaction.invalidate_hashes tx)

/-- The function `construct_tx_and_get_tx_key`: the result of the call of
`construct_tx_with_tx_key` and the values written to `tx_key` and
`additional_tx_keys`. -/
def construct_tx_and_get_tx_key (cfg : Config) (ext : Externals)
    (sender_account_keys : account_keys) (sources : List tx_source_entry)
    (destinations : List tx_destination_entry) (change_addr : Option account_public_address)
    (extra : List Nat) (tx : transaction) (unlock_time : Nat) (tx_key : secret_key)
    (additional_tx_keys : List secret_key) (rct : Bool) (range_proof_type : Nat)
    (use_view_tags : Bool) : Option transaction × secret_key × List secret_key :=
  let tx_key := ext.open_tx tx_key
  let c := classify_addresses destinations change_addr ext.uninitialized_address
  let need := need_additional_txkeys c.1 c.2.1
  let additional_tx_keys :=
    if need then (List.range destinations.length).map (fun i => (ext.keypair_generate i).sec)
    else additional_tx_keys
  (construct_tx_with_tx_key cfg ext sender_account_keys sources destinations change_addr extra
      tx unlock_time tx_key additional_tx_keys rct range_proof_type true use_view_tags,
    tx_key, additional_tx_keys)

/-- The destinations that count for the classification, in the words of the
claim on additional keys: the destinations whose address is not the change
address, each distinct address once, at its first occurrence. -/
def distinct_destinations (change_addr : Option account_public_address) :
    List tx_destination_entry → List tx_destination_entry
  | [] => []
  | d :: rest =>
    if change_addr = some d.addr then distinct_destinations change_addr rest
    else d :: (distinct_destinations change_addr rest).filter (fun e => decide (e.addr ≠ d.addr))

/-- The destinations that count for `get_destination_view_key_pub`, in the
words of the claim on it: the destinations with a non-zero amount whose address
differs from the change address. -/
def counted_destinations (change_addr : Option account_public_address)
    (destinations : List tx_destination_entry) : List tx_destination_entry :=
  destinations.filter (fun i => decide (i.amount ≠ 0 ∧ change_addr ≠ some i.addr))

/-! ## Concrete inputs used by the evaluations -/

def ex_key : public_key := ⟨[3]⟩

def ex_image : key_image := ⟨[9]⟩

/-- A version 4 archive: one `to_key` input, one `offshore` output. -/
def ex_archive_v4 : List Field :=
  [.varint 4, .varint 0, .inputs [.to_key ⟨5, [1, 2], ex_image⟩],
   .outputs [⟨7, .offshore ⟨ex_key⟩⟩], .bytes [], .varint 0, .bytes [], .varint 0, .varint 0]

/-- A version 6 archive: one `to_key` input, one `offshore` output. -/
def ex_archive_v6 : List Field :=
  [.varint 6, .inputs [.to_key ⟨5, [1, 2], ex_image⟩],
   .outputs [⟨7, .offshore ⟨ex_key⟩⟩], .bytes [], .varint 0, .vec_u64 [0], .varint 0, .varint 0]

/-- What `ex_archive_v6` loads to. -/
def ex_loaded_v6 : transaction_prefix :=
  { version := 6, unlock_time := 0
    vin := [.haven_key ⟨5, "XHV", [1, 2], ex_image⟩]
    vout := [⟨7, .haven_key ⟨ex_key, "XUSD", 0, false⟩⟩]
    extra := [], pricing_record_height := 0, offshore_data := []
    amount_burnt := 0, amount_minted := 0
    output_unlock_times := [0], collateral_indices := [] }

/-- A version 6 archive with one `to_key` input and no output. -/
def ex_archive_v6_no_output : List Field :=
  [.varint 6, .inputs [.to_key ⟨5, [1, 2], ex_image⟩],
   .outputs [], .bytes [], .varint 0, .vec_u64 [], .varint 0, .varint 0]

/-- What `ex_archive_v6_no_output` loads to. -/
def ex_loaded_v6_no_output : transaction_prefix :=
  { version := 6, unlock_time := 0
    vin := [.haven_key ⟨5, "XHV", [1, 2], ex_image⟩]
    vout := []
    extra := [], pricing_record_height := 0, offshore_data := []
    amount_burnt := 0, amount_minted := 0
    output_unlock_times := [], collateral_indices := [] }

/-- Storage contents used where an evaluation needs a concrete one. -/
def ex_indeterminate : Indeterminate := ⟨fun _ => 0, fun _ => ⟨[]⟩, fun _ => ⟨[]⟩⟩

/-- A version 6 archive: one `onshore` input, one `to_key` output. -/
def ex_archive_onshore : List Field :=
  [.varint 6, .inputs [.onshore ⟨5, [1, 2], ex_image⟩],
   .outputs [⟨7, .to_key ⟨ex_key⟩⟩], .bytes [], .varint 0, .vec_u64 [0], .varint 0, .varint 0]

/-- What `ex_archive_onshore` loads to. -/
def ex_loaded_onshore : transaction_prefix :=
  { version := 6, unlock_time := 0
    vin := [.haven_key ⟨5, "XHV", [1, 2], ex_image⟩]
    vout := [⟨7, .haven_key ⟨ex_key, "XHV", 0, false⟩⟩]
    extra := [], pricing_record_height := 0, offshore_data := []
    amount_burnt := 0, amount_minted := 0
    output_unlock_times := [0], collateral_indices := [] }

/-- A version 7 archive with a non-zero `amount_burnt`: one `offshore` input,
a `to_key`, an `offshore` and an `xasset` output, collateral indices 0 and 2. -/
def ex_archive_v7 : List Field :=
  [.varint 7, .inputs [.offshore ⟨5, [1, 2], ex_image⟩],
   .outputs [⟨7, .to_key ⟨ex_key⟩⟩, ⟨8, .offshore ⟨ex_key⟩⟩, ⟨9, .xasset ⟨ex_key, "XBTC"⟩⟩],
   .bytes [], .varint 0, .vec_u64 [10, 20, 30], .varint 4, .varint 0, .vec_u32 [0, 2]]

/-- What `ex_archive_v7` loads to. -/
def ex_loaded_v7 : transaction_prefix :=
  { version := 7, unlock_time := 0
    vin := [.haven_key ⟨5, "XUSD", [1, 2], ex_image⟩]
    vout := [⟨7, .haven_key ⟨ex_key, "XHV", 10, true⟩⟩, ⟨8, .haven_key ⟨ex_key, "XUSD", 20, false⟩⟩,
             ⟨9, .haven_key ⟨ex_key, "XBTC", 30, true⟩⟩]
    extra := [], pricing_record_height := 0, offshore_data := []
    amount_burnt := 4, amount_minted := 0
    output_unlock_times := [10, 20, 30], collateral_indices := [0, 2] }

/-- A version 8 archive (new format): one `haven_key` input and output,
`amount_burnt = 5`. -/
def ex_archive_v8 : List Field :=
  [.varint 8, .inputs [.haven_key ⟨5, "XUSD", [1, 2], ex_image⟩],
   .outputs [⟨0, .haven_key ⟨ex_key, "XUSD", 0, false⟩⟩], .bytes [], .varint 0, .varint 5, .varint 0]

/-- What `ex_archive_v8` loads to in a default-constructed prefix. -/
def ex_loaded_v8 : transaction_prefix :=
  { version := 8, unlock_time := 0
    vin := [.haven_key ⟨5, "XUSD", [1, 2], ex_image⟩]
    vout := [⟨0, .haven_key ⟨ex_key, "XUSD", 0, false⟩⟩]
    extra := [], pricing_record_height := 0, offshore_data := []
    amount_burnt := 5, amount_minted := 0
    output_unlock_times := [], collateral_indices := [] }

/-- A transaction with the given version, inputs and outputs, the other
members empty or zero. -/
def ex_transaction (version : Nat) (vin : List txin_v) (vout : List tx_out) : transaction :=
  { version := version, unlock_time := 0, vin := vin, vout := vout, extra := []
    pricing_record_height := 0, offshore_data := [], amount_burnt := 0, amount_minted := 0
    output_unlock_times := [], collateral_indices := []
    signatures := [], rct_signatures_type := 0
    hash_valid := false, prunable_hash_valid := false, blob_size_valid := false
    hash := ⟨[]⟩, prunable_hash := ⟨[]⟩, blob_size := 0
    pruned := false, unprunable_size := 0, prefix_size := 0 }

/-- A transaction id that is not in `exploit_txs`: 32 zero bytes. -/
def ex_txid : hash := ⟨List.replicate 32 0⟩

/-- The first transaction id of `exploit_txs`, as bytes. -/
def ex_exploit_txid : hash :=
  ⟨[0x4c, 0x87, 0xe7, 0x24, 0x51, 0x42, 0xcb, 0x33, 0xa8, 0xed, 0x4f, 0x03, 0x9b, 0x7f, 0x33, 0xd4,
    0xe4, 0xdd, 0x6b, 0x54, 0x1a, 0x42, 0xa5, 0x59, 0x92, 0xfd, 0x88, 0xef, 0xee, 0xfc, 0x40, 0xd1]⟩

/-- A version 7 onshore: a `to_key` (collateral) and an `onshore` input, a
`to_key` and an `offshore` (change) output. -/
def ex_tx_onshore : transaction :=
  ex_transaction 7 [.to_key ⟨0, [1], ex_image⟩, .onshore ⟨0, [2], ex_image⟩]
    [⟨0, .to_key ⟨ex_key⟩⟩, ⟨0, .offshore ⟨ex_key⟩⟩]

/-- A version 7 offshore: a `to_key` input, a `to_key` (change) and an
`offshore` output. -/
def ex_tx_offshore : transaction :=
  ex_transaction 7 [.to_key ⟨0, [1], ex_image⟩]
    [⟨0, .to_key ⟨ex_key⟩⟩, ⟨0, .offshore ⟨ex_key⟩⟩]

/-- A version 5 conversion from XJPY to XBTC: an `xasset` input tagged
`"XJPY"`, an `"XJPY"` (change) and an `"XBTC"` output. -/
def ex_tx_xjpy_to_xbtc : transaction :=
  ex_transaction 5 [.xasset ⟨0, "XJPY", [1], ex_image⟩]
    [⟨0, .xasset ⟨ex_key, "XJPY"⟩⟩, ⟨0, .xasset ⟨ex_key, "XBTC"⟩⟩]

/-- A miner transaction: a `gen` input and one `to_key` output. -/
def ex_tx_miner : transaction :=
  ex_transaction 2 [.gen ⟨100000⟩] [⟨5, .to_key ⟨ex_key⟩⟩]

/-- An address used by the concrete destinations. -/
def ex_address : account_public_address := ⟨ex_key, ex_key⟩

/-- A destination with the given amounts and collateral flag. -/
def ex_destination (amount amount_usd amount_xasset : Nat) (is_collateral : Bool) :
    tx_destination_entry :=
  { original := "", amount := amount, amount_usd := amount_usd, amount_xasset := amount_xasset
    asset_type := "", addr := ex_address, is_subaddress := false, is_integrated := false
    is_collateral := is_collateral }

/-- Destinations of an offshore of 1000 atomic units of XHV: the converted
destination, a change destination and a collateral destination. -/
def ex_offshore_dsts : List tx_destination_entry :=
  [ex_destination 1000 300 0 false, ex_destination 70 0 0 false, ex_destination 5000 5000 0 true]

/-- A pricing record with spot rate 0.25 and moving average 0.30 XUSD per XHV
and the rate 0.00002 for every xAsset slot. -/
def ex_pricing_record : pricing_record :=
  { xUSD := 250000000000, unused1 := 300000000000, slot := fun _ => 20000000 }

/-- A pricing record with spot rate and moving average 4 XUSD per XHV. -/
def ex_pricing_record_high : pricing_record :=
  { xUSD := 4000000000000, unused1 := 4000000000000, slot := fun _ => 20000000 }

/-- A circulating supply: XHV, XUSD and one xAsset, in whole coins. -/
def ex_supply : List (String × Nat) :=
  [("XHV", 30000000), ("XUSD", 5000000), ("XBTC", 12)]

/-- A version 8 archive of a coinbase: a `gen` input and a `haven_key` output. -/
def ex_archive_v8_miner : List Field :=
  [.varint 8, .inputs [.gen ⟨100000⟩],
   .outputs [⟨5, .haven_key ⟨ex_key, "XHV", 100060, false⟩⟩], .bytes [], .varint 0, .varint 0,
   .varint 0]

/-- A version 8 archive that carries legacy variants: a `to_key` input and a
`to_key` output. -/
def ex_archive_v8_to_key : List Field :=
  [.varint 8, .inputs [.to_key ⟨5, [1, 2], ex_image⟩],
   .outputs [⟨7, .to_key ⟨ex_key⟩⟩], .bytes [], .varint 0, .varint 0, .varint 0]

/-- Signature readers that read nothing and keep the signature data. -/
def ex_signature_readers : signature_readers :=
  { signatures := fun tx ar => .ok (⟨tx.signatures, tx.rct_signatures_type, tx.unprunable_size⟩, ar)
    rctsig := fun tx ar => .ok (⟨tx.signatures, tx.rct_signatures_type, tx.unprunable_size⟩, ar)
    rctsig_base := fun tx ar =>
      .ok (⟨tx.signatures, tx.rct_signatures_type, tx.unprunable_size⟩, ar)
    consumed := fun _ _ => 0 }

/-- The coinbase `ex_tx_miner` after its hash (here 32 bytes of 7) and its blob
size were computed and cached by `set_hash` and `set_blob_size`. -/
def ex_tx_cached : transaction :=
  { ex_tx_miner with hash_valid := true, hash := ⟨List.replicate 32 7⟩
                     blob_size_valid := true, blob_size := 90 }

/-- Decimal digits times their order, lowest first: the chunks of a
decomposition with a dust threshold of 0. -/
def ex_digit_chunks : Nat → Nat → Nat → List Nat
  | 0, _, _ => []
  | fuel + 1, order, amount =>
    if amount = 0 then []
    else (if amount % 10 = 0 then [] else [amount % 10 * order])
      ++ ex_digit_chunks fuel (order * 10) (amount / 10)

/-- An instance of the functions of other files, for the concrete evaluations:
every derivation succeeds, the `extra` helpers append tagged bytes, the
decomposition is `ex_digit_chunks`, the key image helper re-derives the key of
the real output, and the signers give one `outSk` entry per output. -/
def ex_externals : Externals :=
  { keypair_generate := fun n => ⟨⟨[n]⟩, ⟨[n]⟩⟩
    open_tx := fun k => k
    shuffle := fun l => l
    add_tx_pub_key_to_extra := fun extra k => extra ++ 1 :: k.data
    add_extra_nonce_to_tx_extra := fun extra nonce => (true, extra ++ 2 :: nonce.length :: nonce)
    add_additional_tx_pub_keys_to_extra := fun extra ks => extra ++ 4 :: ks.flatMap (fun k => k.data)
    remove_field_from_tx_extra := fun extra _ => extra
    sort_tx_extra := fun extra => some extra
    parse_tx_extra := fun extra => some (if extra = [] then [] else [extra])
    find_tx_extra_nonce := fun fields =>
      (fields.find? (fun f => f.head? = some 2)).map (fun f => f.drop 2)
    get_encrypted_payment_id_from_tx_extra_nonce := fun nonce =>
      if nonce.head? = some 1 ∧ nonce.length = 9 then some (nonce.drop 1) else none
    get_payment_id_from_tx_extra_nonce := fun nonce =>
      if nonce.head? = some 0 ∧ nonce.length = 33 then some ⟨nonce.drop 1⟩ else none
    set_encrypted_payment_id_to_tx_extra_nonce := fun id => 1 :: id
    null_pkey := ⟨List.replicate 32 0⟩
    null_hash8 := List.replicate 8 0
    uninitialized_view_tag := 0
    uninitialized_address := ⟨⟨[]⟩, ⟨[]⟩⟩
    get_block_reward := fun _ _ already_generated_coins _ =>
      some ((2 ^ 64 - 1 - already_generated_coins) / 2 ^ 20)
    decompose_amount_into_digits := fun amount _ => ex_digit_chunks 20 1 amount
    generate_key_derivation := fun k s => some ⟨k.data ++ s.data⟩
    derive_public_key := fun _ n k => some ⟨n :: k.data⟩
    derive_view_tag := fun d n => (d.data.sum + n) % 256
    set_tx_out_target := fun k use_view_tags view_tag =>
      if use_view_tags then .haven_tagged_key ⟨k, "XHV", 0, false, view_tag⟩
      else .haven_key ⟨k, "XHV", 0, false⟩
    generate_key_image_helper := fun _ out_key _ _ _ =>
      some (⟨out_key, ⟨out_key.data⟩⟩, ⟨out_key.data⟩)
    absolute_output_offsets_to_relative := fun l => List.zipWith (fun a b => a - b) l (0 :: l)
    encrypt_payment_id := fun id _ _ => (true, id)
    scalarmultKey := fun k s => ⟨k.data ++ s.data⟩
    scalarmultBase := fun s => ⟨s.data⟩
    generate_output_ephemeral_keys :=
      fun _ _ _ _ dst_entr _ output_index need _ additional_tx_public_keys amount_keys _ =>
        ⟨⟨output_index :: dst_entr.addr.m_spend_public_key.data⟩, output_index % 256,
          if need then additional_tx_public_keys ++ [⟨[output_index]⟩]
          else additional_tx_public_keys,
          amount_keys ++ [[output_index]]⟩
    get_transaction_prefix_hash := fun _ => ⟨List.replicate 32 1⟩
    generate_ring_signature := fun _ _ keys _ _ => keys.map (fun _ => List.replicate 64 1)
    get_output_public_key := fun o =>
      match o.target with
      | .haven_key x => x.key
      | .haven_tagged_key x => x.key
      | _ => ⟨[]⟩
    genRctSimple := fun _ _ _ destinations _ _ _ _ => ⟨5, destinations.length⟩
    genRct := fun _ _ _ destinations _ _ _ => ⟨1, destinations.length⟩ }

/-- The coinbase that `construct_miner_tx` builds in the object `ex_tx_onshore`
at height 100000 and hard fork 23 with `max_outs = 1`, no fee and no extra
nonce, the functions of other files being `ex_externals`. -/
def ex_coinbase : transaction :=
  { ex_tx_onshore with
    version := 2, unlock_time := 100060, vin := [.gen ⟨100000⟩]
    vout := [⟨17592186044415, .haven_tagged_key ⟨⟨[0, 3]⟩, "XHV", 0, false, 3⟩⟩]
    extra := [1, 0] }

/-- The keys of the sender of the concrete builds. -/
def ex_sender : account_keys := ⟨ex_address, ⟨[1]⟩, ⟨[2]⟩⟩

/-- A source of the given amount and `rct` flag: a ring of two outputs, the
real one first, whose key has the one byte `key_byte`. -/
def ex_source (amount : Nat) (rct : Bool) (key_byte : Nat) : tx_source_entry :=
  { outputs := [(10, ⟨⟨[key_byte]⟩, []⟩), (25, ⟨⟨[8]⟩, []⟩)], real_output := 0
    real_out_tx_key := ex_key, real_out_additional_tx_keys := []
    real_output_in_tx_index := 0, amount := amount, rct := rct, mask := [] }

/-- A second address. -/
def ex_address_b : account_public_address := ⟨⟨[4]⟩, ⟨[6]⟩⟩

/-- A destination of the given amount at the given address. -/
def ex_destination_to (addr : account_public_address) (amount : Nat) (is_subaddress : Bool) :
    tx_destination_entry :=
  { original := "", amount := amount, amount_usd := 0, amount_xasset := 0
    asset_type := "XHV", addr := addr, is_subaddress := is_subaddress, is_integrated := false
    is_collateral := false }

/-- An `extra` blob that holds a nonce with an encrypted short payment id, in
the encoding that `ex_externals` reads. -/
def ex_extra_payment_id : List Nat := [2, 9, 1, 7, 7, 7, 7, 7, 7, 7, 7]

/-- The version 2 transaction that `construct_tx_with_tx_key` builds in the
object `ex_tx_miner` from the two sources `ex_source 5 true 9` and
`ex_source 4 true 11`, both flagged `rct`, and one destination of 3, the
functions of other files being `ex_externals`. -/
def ex_built_rct : transaction :=
  { ex_transaction 2
      [.to_key ⟨0, [10, 15], ⟨[11]⟩⟩, .to_key ⟨0, [10, 15], ⟨[9]⟩⟩]
      [⟨0, .haven_key ⟨⟨[0, 3]⟩, "XHV", 0, false⟩⟩] with
    extra := [2, 9, 1, 0, 0, 0, 0, 0, 0, 0, 0, 1, 5], rct_signatures_type := 5 }

/-- A pricing record with spot rate and moving average 1 XUSD per XHV. -/
def ex_pricing_record_unit : pricing_record :=
  { xUSD := 1000000000000, unused1 := 1000000000000, slot := fun _ => 20000000 }

/-- A circulating supply of four million XHV (in atomic units) and nothing else. -/
def ex_supply_xhv_only : List (String × Nat) := [("XHV", 4000000000000000000)]

/-- A circulating supply of fifteen XHV (in atomic units) and nothing else. -/
def ex_supply_fifteen : List (String × Nat) := [("XHV", 15000000000000)]

/-- The value of `static_cast<uint64_t>(vbs)` in the offshore branch at four
points where every floating-point operation of the source is exact. With no
xAsset in circulation `ratio_mcap` and `rate_mcvbs` are 0 and `ratio_mcri` is
the absolute value of `ratio_mcap_new = amount_usd / (mcap_xhv - amount_usd)`,
a quotient of two floating-point numbers. For twice the denominator equal to
eight times the numerator that is 0.25, above 0.1, so the multiplier is 10 and
`vbs = max(sqrt(0.25) * 10, 1) * COIN = 5 * 10^12`; for numerator equal to
denominator it is 1 and `vbs = sqrt(1) * 10 * COIN = 10^13`. For an amount
above `mcap_xhv` the denominator is negative, `ratio_mcap_new` is below 0.1 and
the multiplier is 3: for `amount_usd = 16 * (amount_usd - mcap_xhv)` the ratio
is -16 and `vbs = sqrt(16) * 3 * COIN = 12 * 10^12`, for
`amount_usd = 4 * (amount_usd - mcap_xhv)` it is -4 and
`vbs = sqrt(4) * 3 * COIN = 6 * 10^12`. At the other points, which the
evaluations do not use, the value is the minimum `1.0 * COIN`. -/
def ex_vbs : transaction_type → Nat → Nat → Nat → Nat
  | .OFFSHORE, 0, mcap_xhv, amount_usd =>
    if 4 * amount_usd = mcap_xhv - amount_usd then 5000000000000
    else if amount_usd = mcap_xhv - amount_usd then 10000000000000
    else if mcap_xhv < amount_usd ∧ amount_usd = 16 * (amount_usd - mcap_xhv) then 12000000000000
    else if mcap_xhv < amount_usd ∧ amount_usd = 4 * (amount_usd - mcap_xhv) then 6000000000000
    else 1000000000000
  | _, _, _, _ => 1000000000000

/-- The coinbase `ex_tx_miner` with values in the six members that `set_null`
does not touch. -/
def ex_tx_legacy_fields : transaction :=
  { ex_tx_miner with
    pricing_record_height := 7, offshore_data := [1, 2], amount_burnt := 5, amount_minted := 6
    output_unlock_times := [9], collateral_indices := [0, 1] }

/-- A transaction whose prefix is `ex_loaded_v6`, the prefix that the version 6
archive `ex_archive_v6` loads to. -/
def ex_tx_loaded_v6 : transaction :=
  { ex_transaction 6 [] [] with  totransaction_prefix := ex_loaded_v6 }

/-- A pricing record whose spot rate, moving average and xAsset slots are all zero. -/
def ex_pricing_record_zero : pricing_record :=
  { xUSD := 0, unused1 := 0, slot := fun _ => 0 }

/-- A destination of amount 1 whose address has the spend key `ex_key` and the
null key of `ex_externals` as view key. -/
def ex_destination_null_view : tx_destination_entry :=
  ex_destination_to ⟨ex_key, ex_externals.null_pkey⟩ 1 false

/-- A version 1 archive: one `to_key` input, one `to_key` output, and the two
amounts that the loading branch reads at every legacy version. -/
def ex_archive_v1 : List Field :=
  [.varint 1, .varint 0, .inputs [.to_key ⟨5, [1, 2], ex_image⟩],
   .outputs [⟨7, .to_key ⟨ex_key⟩⟩], .bytes [], .varint 0, .varint 0]

/-- A version 6 archive of a coinbase: a `gen` input of height 100000, a
`to_key` output and a `to_scripthash` output. -/
def ex_archive_v6_miner : List Field :=
  [.varint 6, .inputs [.gen ⟨100000⟩],
   .outputs [⟨5, .to_key ⟨ex_key⟩⟩, ⟨6, .to_scripthash ⟨ex_txid⟩⟩], .bytes [], .varint 0,
   .vec_u64 [100060, 100060], .varint 0, .varint 0]

/-- What `ex_archive_v6_miner` loads to, with `ex_indeterminate` for the
members of the input and of the second output that the loops do not set. -/
def ex_loaded_v6_miner : transaction_prefix :=
  { version := 6, unlock_time := 0
    vin := [.haven_key ⟨0, "", [], ⟨[]⟩⟩]
    vout := [⟨5, .haven_key ⟨ex_key, "XHV", 100060, false⟩⟩,
             ⟨6, .haven_key ⟨⟨[]⟩, "", 100060, false⟩⟩]
    extra := [], pricing_record_height := 0, offshore_data := []
    amount_burnt := 0, amount_minted := 0
    output_unlock_times := [100060, 100060], collateral_indices := [] }

/-- A version 2 prefix (below `OFFSHORE_TRANSACTION_VERSION`) in the in-memory
form: one `haven_key` input tagged XHV, no output. -/
def ex_prefix_v2_no_output : transaction_prefix :=
  { version := 2, unlock_time := 0
    vin := [.haven_key ⟨5, "XHV", [1, 2], ex_image⟩], vout := []
    extra := [], pricing_record_height := 0, offshore_data := []
    amount_burnt := 0, amount_minted := 0
    output_unlock_times := [], collateral_indices := [] }

/-- A version 7 prefix in the in-memory form: one `haven_key` input tagged XHV,
no output, `pricing_record_height = 3`, nothing burnt or minted. -/
def ex_prefix_v7_no_output : transaction_prefix :=
  { version := 7, unlock_time := 0
    vin := [.haven_key ⟨5, "XHV", [1, 2], ex_image⟩], vout := []
    extra := [], pricing_record_height := 3, offshore_data := []
    amount_burnt := 0, amount_minted := 0
    output_unlock_times := [], collateral_indices := [] }

/-- A version 7 archive of a plain transfer: one `to_key` input, one `to_key`
output, nothing burnt, so that no `collateral_indices` field follows. -/
def ex_archive_v7_plain : List Field :=
  [.varint 7, .inputs [.to_key ⟨5, [1, 2], ex_image⟩],
   .outputs [⟨7, .to_key ⟨ex_key⟩⟩], .bytes [], .varint 0, .vec_u64 [0], .varint 0, .varint 0]

/-- What `ex_archive_v7_plain` loads to in the object `ex_loaded_v7`, which
held a conversion with the collateral indices 0 and 2. -/
def ex_loaded_v7_plain_reused : transaction_prefix :=
  { version := 7, unlock_time := 0
    vin := [.haven_key ⟨5, "XHV", [1, 2], ex_image⟩]
    vout := [⟨7, .haven_key ⟨ex_key, "XHV", 0, false⟩⟩]
    extra := [], pricing_record_height := 0, offshore_data := []
    amount_burnt := 0, amount_minted := 0
    output_unlock_times := [0], collateral_indices := [0, 2] }

/-- C1 (the code breaks the round-trip law). Evaluation of `load` and `save`
on three legacy archives, each loaded into a default-constructed prefix:
the version 4 archive of the claim (one `to_key` input, one `offshore`
output) does not load, because the output loop reads `output_unlock_times[0]`
of a vector that is only read from version 6 on; the same transaction at
version 6 loads into the `haven_key` form but saving that form reads
`vout_tmp[0]` of the empty `vout_tmp`; and a version 6 archive without
outputs loads and saves, but to different fields than those read. -/
theorem c1_round_trip_broken (u : Indeterminate) (p b m : Nat) :
    load haven_config u (default_constructed p b m) ex_archive_v4 = .error .out_of_range
    ∧ load haven_config u (default_constructed p b m) ex_archive_v6 = .ok (ex_loaded_v6, [])
    ∧ save haven_config u ex_loaded_v6 = .error .out_of_range
    ∧ load haven_config u (default_constructed p b m) ex_archive_v6_no_output
        = .ok (ex_loaded_v6_no_output, [])
    ∧ save haven_config u ex_loaded_v6_no_output
        = .ok [.varint 6, .inputs [.to_key ⟨5, [1, 2], ex_image⟩], .outputs [], .bytes [],
               .fixed 0, .fixed 0, .fixed 0, .vec_u64 []]
    ∧ save haven_config u ex_loaded_v6_no_output ≠ .ok ex_archive_v6_no_output := by
  have h : save haven_config u ex_loaded_v6_no_output
      = .ok [.varint 6, .inputs [.to_key ⟨5, [1, 2], ex_image⟩], .outputs [], .bytes [],
             .fixed 0, .fixed 0, .fixed 0, .vec_u64 []] := rfl
  refine ⟨rfl, rfl, rfl, rfl, h, ?_⟩
  rw [h]
  intro hc
  exact absurd (Except.ok.inj hc) (by decide)

/-! ### Inversion lemmas for the loading side -/

theorem load_vout_spec (cfg : Config) (u : Indeterminate) (v b : Nat) (times ci : List Nat) :
    ∀ (vout : List tx_out) (i : Nat) (res : List tx_out),
      load_vout cfg u v b times ci i vout = .ok res →
      res.length = vout.length ∧
      ∀ j o, vout[j]? = some o →
        ∃ t, times[i + j]? = some t ∧
          res[j]? = some
            { amount := o.amount
              target := .haven_key
                { key := (load_target u (i + j) o.target).2
                  asset_type := (load_target u (i + j) o.target).1
                  unlock_time := t
                  is_collateral :=
                    decide (v ≥ cfg.COLLATERAL_TRANSACTION_VERSION ∧ b ≠ 0 ∧ i + j ∈ ci) } } := by
  intro vout
  induction vout with
  | nil =>
    intro i res h
    simp [load_vout] at h
    subst h
    simp
  | cons o os ih =>
    intro i res h
    unfold load_vout at h
    cases h1 : load_txout cfg u v b times ci i o with
    | error e => simp [h1] at h
    | ok o1 =>
      cases h2 : load_vout cfg u v b times ci (i + 1) os with
      | error e => simp [h1, h2] at h
      | ok os1 =>
        simp [h1, h2] at h
        subst h
        obtain ⟨hl, hs⟩ := ih (i + 1) os1 h2
        refine ⟨by simp [hl], ?_⟩
        intro j o' hj
        cases j with
        | zero =>
          simp at hj
          subst hj
          unfold load_txout at h1
          cases ht : times[i]? with
          | none => simp [ht] at h1
          | some t =>
            simp [ht] at h1
            refine ⟨t, by simpa using ht, ?_⟩
            simp [← h1]
        | succ j =>
          simp at hj
          obtain ⟨t, ht, hr⟩ := hs j o' hj
          refine ⟨t, ?_, ?_⟩
          · rw [← ht]; congr 1; omega
          · simp only [List.getElem?_cons_succ]
            rw [hr]
            have : i + 1 + j = i + (j + 1) := by omega
            rw [this]


theorem load_vin_vout_extra_ok {self r : transaction_prefix} {ar rest : List Field}
    (h : load_vin_vout_extra self ar = .ok (r, rest)) :
    ∃ vin vout extra, ar = .inputs vin :: .outputs vout :: .bytes extra :: rest
      ∧ r = { self with vin := vin, vout := vout, extra := extra } := by
  unfold load_vin_vout_extra at h
  split at h
  · rename_i vin vout extra ar1
    simp only [Except.ok.injEq, Prod.mk.injEq] at h
    exact ⟨vin, vout, extra, by rw [h.2], h.1.symm⟩
  · simp at h

theorem load_pricing_record_height_ok {cfg : Config} {self r : transaction_prefix}
    {ar rest : List Field} (h : load_pricing_record_height cfg self ar = .ok (r, rest)) :
    r = { self with pricing_record_height := r.pricing_record_height,
                    offshore_data := r.offshore_data } := by
  unfold load_pricing_record_height at h
  repeat' split at h
  all_goals simp only [Except.ok.injEq, Prod.mk.injEq, reduceCtorEq] at h
  all_goals (try (obtain ⟨h1, _⟩ := h; subst h1; rfl))

theorem load_output_unlock_times_ok {cfg : Config} {self r : transaction_prefix}
    {ar rest : List Field} (h : load_output_unlock_times cfg self ar = .ok (r, rest)) :
    r = { self with output_unlock_times := r.output_unlock_times }
      ∧ (r.version ≥ cfg.POU_TRANSACTION_VERSION →
          r.vout.length = r.output_unlock_times.length) := by
  unfold load_output_unlock_times at h
  repeat' split at h
  all_goals simp only [Except.ok.injEq, Prod.mk.injEq, reduceCtorEq] at h
  all_goals (try (obtain ⟨h1, _⟩ := h; subst h1; refine ⟨rfl, ?_⟩; intro hv; simp_all))

theorem load_amounts_ok {self r : transaction_prefix} {ar rest : List Field}
    (h : load_amounts self ar = .ok (r, rest)) :
    r = { self with amount_burnt := r.amount_burnt, amount_minted := r.amount_minted } := by
  unfold load_amounts at h
  split at h
  · simp only [Except.ok.injEq, Prod.mk.injEq] at h
    obtain ⟨h1, _⟩ := h; subst h1; rfl
  · simp at h

theorem load_collateral_indices_ok {cfg : Config} {self r : transaction_prefix}
    {ar rest : List Field} (h : load_collateral_indices cfg self ar = .ok (r, rest)) :
    r = { self with collateral_indices := r.collateral_indices }
      ∧ (r.version ≥ cfg.COLLATERAL_TRANSACTION_VERSION → r.amount_burnt ≠ 0 →
          r.collateral_indices.length = 2 ∧ ∀ idx ∈ r.collateral_indices, idx < r.vout.length)
      ∧ (¬ (r.version ≥ cfg.COLLATERAL_TRANSACTION_VERSION ∧ r.amount_burnt ≠ 0) →
          r.collateral_indices = self.collateral_indices) := by
  unfold load_collateral_indices at h
  by_cases hg : self.version ≥ cfg.COLLATERAL_TRANSACTION_VERSION ∧ self.amount_burnt ≠ 0
  · rw [if_pos hg] at h
    cases ar with
    | nil => simp at h
    | cons f ar1 =>
      cases f with
      | vec_u32 c =>
        by_cases hlen : c.length ≠ 2
        · simp [hlen] at h
        · by_cases hany : c.any (fun vout_idx => decide (vout_idx ≥ self.vout.length)) = true
          · simp [hany] at h
          · simp only [hlen, hany, if_false, Bool.false_eq_true, Except.ok.injEq,
              Prod.mk.injEq] at h
            obtain ⟨h1, _⟩ := h
            subst h1
            refine ⟨rfl, ?_, ?_⟩
            · intro _ _
              refine ⟨by simpa using hlen, ?_⟩
              intro idx hidx
              simp only [List.any_eq_true, decide_eq_true_eq, not_exists, not_and] at hany
              have := hany idx hidx
              simpa using this
            · intro hn
              exact absurd hg hn
      | _ => simp at h
  · rw [if_neg hg] at h
    simp only [Except.ok.injEq, Prod.mk.injEq] at h
    obtain ⟨h1, _⟩ := h
    subst h1
    exact ⟨rfl, fun h1 h2 => absurd ⟨h1, h2⟩ hg, fun _ => rfl⟩


theorem load_legacy_fields_inv {cfg : Config} {self raw : transaction_prefix}
    {ar rest : List Field} (h : load_legacy_fields cfg self ar = .ok (raw, rest)) :
    ∃ vin vout tail, ar = .inputs vin :: .outputs vout :: tail
      ∧ raw.version = self.version ∧ raw.unlock_time = self.unlock_time
      ∧ raw.vin = vin ∧ raw.vout = vout
      ∧ (raw.version ≥ cfg.POU_TRANSACTION_VERSION →
          raw.vout.length = raw.output_unlock_times.length)
      ∧ (raw.version ≥ cfg.COLLATERAL_TRANSACTION_VERSION → raw.amount_burnt ≠ 0 →
          raw.collateral_indices.length = 2
            ∧ ∀ idx ∈ raw.collateral_indices, idx < raw.vout.length)
      ∧ (¬ (raw.version ≥ cfg.COLLATERAL_TRANSACTION_VERSION ∧ raw.amount_burnt ≠ 0) →
          raw.collateral_indices = self.collateral_indices) := by
  unfold load_legacy_fields at h
  cases h1 : load_vin_vout_extra self ar with
  | error e => simp [h1] at h
  | ok p1 =>
    obtain ⟨s1, ar1⟩ := p1
    simp only [h1] at h
    cases h2 : load_pricing_record_height cfg s1 ar1 with
    | error e => simp [h2] at h
    | ok p2 =>
      obtain ⟨s2, ar2⟩ := p2
      simp only [h2] at h
      cases h3 : load_output_unlock_times cfg s2 ar2 with
      | error e => simp [h3] at h
      | ok p3 =>
        obtain ⟨s3, ar3⟩ := p3
        simp only [h3] at h
        cases h4 : load_amounts s3 ar3 with
        | error e => simp [h4] at h
        | ok p4 =>
          obtain ⟨s4, ar4⟩ := p4
          simp only [h4] at h
          obtain ⟨vin, vout, extra, har, e1⟩ := load_vin_vout_extra_ok h1
          have e2 := load_pricing_record_height_ok h2
          obtain ⟨e3, c3⟩ := load_output_unlock_times_ok h3
          have e4 := load_amounts_ok h4
          obtain ⟨e5, c5, d5⟩ := load_collateral_indices_ok h
          have v5 : raw.version = s4.version := by rw [e5]
          have v4 : s4.version = s3.version := by rw [e4]
          have v3 : s3.version = s2.version := by rw [e3]
          have v2 : s2.version = s1.version := by rw [e2]
          have v1 : s1.version = self.version := by rw [e1]
          have t5 : raw.unlock_time = s4.unlock_time := by rw [e5]
          have t4 : s4.unlock_time = s3.unlock_time := by rw [e4]
          have t3 : s3.unlock_time = s2.unlock_time := by rw [e3]
          have t2 : s2.unlock_time = s1.unlock_time := by rw [e2]
          have t1 : s1.unlock_time = self.unlock_time := by rw [e1]
          have i5 : raw.vin = s4.vin := by rw [e5]
          have i4 : s4.vin = s3.vin := by rw [e4]
          have i3 : s3.vin = s2.vin := by rw [e3]
          have i2 : s2.vin = s1.vin := by rw [e2]
          have i1 : s1.vin = vin := by rw [e1]
          have o5 : raw.vout = s4.vout := by rw [e5]
          have o4 : s4.vout = s3.vout := by rw [e4]
          have o3 : s3.vout = s2.vout := by rw [e3]
          have o2 : s2.vout = s1.vout := by rw [e2]
          have o1 : s1.vout = vout := by rw [e1]
          have u5 : raw.output_unlock_times = s4.output_unlock_times := by rw [e5]
          have u4 : s4.output_unlock_times = s3.output_unlock_times := by rw [e4]
          have k4 : s4.collateral_indices = s3.collateral_indices := by rw [e4]
          have k3 : s3.collateral_indices = s2.collateral_indices := by rw [e3]
          have k2 : s2.collateral_indices = s1.collateral_indices := by rw [e2]
          have k1 : s1.collateral_indices = self.collateral_indices := by rw [e1]
          refine ⟨vin, vout, .bytes extra :: ar1, har, ?_, ?_, ?_, ?_, ?_, c5, ?_⟩
          · rw [v5, v4, v3, v2, v1]
          · rw [t5, t4, t3, t2, t1]
          · rw [i5, i4, i3, i2, i1]
          · rw [o5, o4, o3, o2, o1]
          · intro hv
            rw [o5, o4, u5, u4]
            exact c3 (by rw [← v4, ← v5]; exact hv)
          · intro hn
            rw [d5 hn, k4, k3, k2, k1]

theorem load_unlock_time_ok {cfg : Config} {self r : transaction_prefix}
    {ar rest : List Field} (h : load_unlock_time cfg self ar = .ok (r, rest)) :
    r = { self with unlock_time := r.unlock_time }
      ∧ (ar = rest ∨ ∃ t, ar = .varint t :: rest) := by
  unfold load_unlock_time at h
  by_cases hv : self.version < cfg.POU_TRANSACTION_VERSION
  · rw [if_pos hv] at h
    cases ar with
    | nil => simp at h
    | cons f ar1 =>
      cases f with
      | varint t =>
        simp only [Except.ok.injEq, Prod.mk.injEq] at h
        obtain ⟨h1, h2⟩ := h
        subst h1
        exact ⟨rfl, Or.inr ⟨t, by rw [h2]⟩⟩
      | _ => simp at h
  · rw [if_neg hv] at h
    simp only [Except.ok.injEq, Prod.mk.injEq] at h
    obtain ⟨h1, h2⟩ := h
    subst h1
    exact ⟨rfl, Or.inl h2⟩

theorem load_normalize_ok {cfg : Config} {u : Indeterminate} {raw tx : transaction_prefix}
    (h : load_normalize cfg u raw = .ok tx) :
    ∃ vout, load_vout cfg u raw.version raw.amount_burnt raw.output_unlock_times
        raw.collateral_indices 0 raw.vout = .ok vout
      ∧ tx = { raw with vin := load_vin u 0 raw.vin, vout := vout } := by
  unfold load_normalize at h
  cases h1 : load_vout cfg u raw.version raw.amount_burnt raw.output_unlock_times
      raw.collateral_indices 0 raw.vout with
  | error e => simp [h1] at h
  | ok vout =>
    simp only [h1, Except.ok.injEq] at h
    exact ⟨vout, rfl, h.symm⟩

theorem load_haven_fields_ok {self r : transaction_prefix} {ar rest : List Field}
    (h : load_haven_fields self ar = .ok (r, rest)) :
    r = { self with vin := r.vin, vout := r.vout, extra := r.extra,
                    pricing_record_height := r.pricing_record_height,
                    amount_burnt := r.amount_burnt, amount_minted := r.amount_minted } := by
  unfold load_haven_fields at h
  split at h
  · simp only [Except.ok.injEq, Prod.mk.injEq] at h
    obtain ⟨h1, _⟩ := h
    subst h1
    rfl
  · simp at h

theorem load_inv {cfg : Config} {u : Indeterminate} {self tx : transaction_prefix}
    {ar rest : List Field} (h : load cfg u self ar = .ok (tx, rest)) :
    ∃ version ar0 s1 ar1, ar = .varint version :: ar0
      ∧ version ≠ 0 ∧ version ≤ cfg.CURRENT_TRANSACTION_VERSION
      ∧ load_unlock_time cfg { self with version := version } ar0 = .ok (s1, ar1)
      ∧ ((s1.version < cfg.HAVEN_TYPES_TRANSACTION_VERSION
            ∧ ∃ raw, load_legacy_fields cfg s1 ar1 = .ok (raw, rest)
                ∧ load_normalize cfg u raw = .ok tx)
          ∨ (¬ s1.version < cfg.HAVEN_TYPES_TRANSACTION_VERSION
            ∧ load_haven_fields s1 ar1 = .ok (tx, rest))) := by
  cases ar with
  | nil => simp [load] at h
  | cons f ar0 =>
    cases f with
    | varint version =>
      rw [load] at h
      by_cases hv : version = 0 ∨ cfg.CURRENT_TRANSACTION_VERSION < version
      · rw [if_pos hv] at h
        simp at h
      · rw [if_neg hv] at h
        cases h1 : load_unlock_time cfg { self with version := version } ar0 with
        | error e => simp [h1] at h
        | ok p1 =>
          obtain ⟨s1, ar1⟩ := p1
          simp only [h1] at h
          refine ⟨version, ar0, s1, ar1, rfl, ?_, ?_, h1, ?_⟩
          · intro h0; exact hv (Or.inl h0)
          · exact Nat.le_of_not_lt (fun hlt => hv (Or.inr hlt))
          · by_cases hh : s1.version < cfg.HAVEN_TYPES_TRANSACTION_VERSION
            · rw [if_pos hh] at h
              left
              refine ⟨hh, ?_⟩
              cases h2 : load_legacy_fields cfg s1 ar1 with
              | error e => simp [h2] at h
              | ok p2 =>
                obtain ⟨raw, ar2⟩ := p2
                simp only [h2] at h
                cases h3 : load_normalize cfg u raw with
                | error e => simp [h3] at h
                | ok t =>
                  simp only [h3, Except.ok.injEq, Prod.mk.injEq] at h
                  obtain ⟨ht, hr⟩ := h
                  subst ht; subst hr
                  exact ⟨raw, rfl, h3⟩
            · rw [if_neg hh] at h
              exact Or.inr ⟨hh, h⟩
    | _ => simp [load] at h


/-! ### Claims on the loading side -/

/-- C2 (the code maps `onshore` to `"XHV"`). The loading loop turns a
`to_key` input into a `haven_key` input tagged `"XHV"`, an `offshore` input
into one tagged `"XUSD"` and an `xasset` input into one with the carried tag,
amount, offsets and key image unchanged, but an `onshore` input into one
tagged `"XHV"`, as in the load of the version 6 archive `ex_archive_onshore`;
`get_tx_asset_types` counts an `onshore` input as `"XUSD"`, and the saving
loop writes an `"XUSD"` input next to an `"XHV"` output as `onshore`. -/
theorem c2_onshore_input_loads_as_xhv (u : Indeterminate) (p b m i : Nat)
    (k : txin_to_key) (o : txin_offshore) (x : txin_onshore) (a : txin_xasset) :
    load haven_config u (default_constructed p b m) ex_archive_onshore = .ok (ex_loaded_onshore, [])
    ∧ load_txin u i (.onshore x) = ⟨x.amount, "XHV", x.key_offsets, x.k_image⟩
    ∧ load_txin u i (.to_key k) = ⟨k.amount, "XHV", k.key_offsets, k.k_image⟩
    ∧ load_txin u i (.offshore o) = ⟨o.amount, "XUSD", o.key_offsets, o.k_image⟩
    ∧ load_txin u i (.xasset a) = ⟨a.amount, a.asset_type, a.key_offsets, a.k_image⟩
    ∧ source_asset_types false [.onshore x] [] = some ["XUSD"]
    ∧ save_txin [⟨7, .haven_key ⟨ex_key, "XHV", 0, false⟩⟩]
          (.haven_key ⟨x.amount, "XUSD", x.key_offsets, x.k_image⟩) = .ok (.onshore x) :=
  ⟨rfl, rfl, rfl, rfl, rfl, rfl, rfl⟩

/-- C3, counterexample. The version 7 archive `ex_archive_v7_plain` burns
nothing, so the loading branch does not read `collateral_indices`. Loaded into
the object `ex_loaded_v7`, whose `collateral_indices` holds 0 and 2, the member
keeps these two entries, and the loaded output 0 has `is_collateral` false
although 0 is one of `collateral_indices`. -/
theorem c3_counterexample :
    load haven_config ex_indeterminate ex_loaded_v7 ex_archive_v7_plain
      = .ok (ex_loaded_v7_plain_reused, [])
    ∧ ex_loaded_v7_plain_reused.version < haven_config.HAVEN_TYPES_TRANSACTION_VERSION
    ∧ ex_loaded_v7_plain_reused.vout[0]?
        = some ⟨7, .haven_key ⟨ex_key, "XHV", 0, false⟩⟩
    ∧ 0 ∈ ex_loaded_v7_plain_reused.collateral_indices := by
  refine ⟨rfl, by decide, rfl, by decide⟩

/-- C3, amended. Loading a prefix of a version below
`HAVEN_TYPES_TRANSACTION_VERSION`: the archive has the layout version, optional
`unlock_time`, inputs, outputs, and for every position `i` of the outputs field
the loaded `vout[i]` is a `haven_key` output with the amount of legacy output
`i`, with the key of that output and the tag `"XHV"` for `to_key`, `"XUSD"` for
`offshore` and the carried tag for `xasset`, with
`unlock_time = output_unlock_times[i]`, and with `is_collateral` true exactly
when the version is at least `COLLATERAL_TRANSACTION_VERSION`, `amount_burnt`
is not zero and `i` is one of `collateral_indices`. When the object held an
empty `collateral_indices` before the call (a newly constructed one),
`is_collateral` is true exactly when `i` is one of `collateral_indices`. -/
theorem c3_load_outputs (cfg : Config) (u : Indeterminate) (self tx : transaction_prefix)
    (ar rest : List Field)
    (hload : load cfg u self ar = .ok (tx, rest))
    (hlegacy : tx.version < cfg.HAVEN_TYPES_TRANSACTION_VERSION) :
    ∃ head vin vout tail,
      ar = .varint tx.version :: (head ++ .inputs vin :: .outputs vout :: tail)
      ∧ (head = [] ∨ ∃ t, head = [.varint t])
      ∧ tx.vout.length = vout.length
      ∧ ∀ i o, vout[i]? = some o →
          ∃ out, tx.vout[i]? = some { amount := o.amount, target := .haven_key out }
            ∧ tx.output_unlock_times[i]? = some out.unlock_time
            ∧ (out.is_collateral = true ↔
                tx.version ≥ cfg.COLLATERAL_TRANSACTION_VERSION ∧ tx.amount_burnt ≠ 0
                  ∧ i ∈ tx.collateral_indices)
            ∧ (self.collateral_indices = [] →
                (out.is_collateral = true ↔ i ∈ tx.collateral_indices))
            ∧ (∀ x, o.target = .to_key x → out.key = x.key ∧ out.asset_type = "XHV")
            ∧ (∀ x, o.target = .offshore x → out.key = x.key ∧ out.asset_type = "XUSD")
            ∧ (∀ x, o.target = .xasset x → out.key = x.key ∧ out.asset_type = x.asset_type) := by
  obtain ⟨version, ar0, s1, ar1, har, _, _, hu, hcase⟩ := load_inv hload
  obtain ⟨es1, hhead⟩ := load_unlock_time_ok hu
  have vs1 : s1.version = version := by rw [es1]
  have ks1 : s1.collateral_indices = self.collateral_indices := by rw [es1]
  rcases hcase with ⟨_, raw, hraw, hnorm⟩ | ⟨hnot, hhav⟩
  · obtain ⟨vin, vout, tail, har1, vraw, _, _, oraw, _, _, kraw⟩ := load_legacy_fields_inv hraw
    obtain ⟨vout1, hvout, etx⟩ := load_normalize_ok hnorm
    have vtx : tx.version = raw.version := by rw [etx]
    have otx : tx.vout = vout1 := by rw [etx]
    have utx : tx.output_unlock_times = raw.output_unlock_times := by rw [etx]
    have ktx : tx.collateral_indices = raw.collateral_indices := by rw [etx]
    have atx : tx.amount_burnt = raw.amount_burnt := by rw [etx]
    obtain ⟨hlen, hspec⟩ := load_vout_spec cfg u _ _ _ _ _ _ _ hvout
    refine ⟨if ar0 = ar1 then [] else ar0.take 1, vin, vout, tail, ?_, ?_, ?_, ?_⟩
    · rw [har, vtx, vraw, vs1]
      congr 1
      rcases hhead with he | ⟨t, he⟩
      · simp [he, har1]
      · have : ar0 ≠ ar1 := by
          rw [he]; intro hc
          have := congrArg List.length hc
          simp at this
        simp [this, he, har1]
    · rcases hhead with he | ⟨t, he⟩
      · left; simp [he]
      · right
        have : ar0 ≠ ar1 := by
          rw [he]; intro hc
          have := congrArg List.length hc
          simp at this
        exact ⟨t, by simp [this, he]⟩
    · rw [otx, hlen, oraw]
    · intro i o hio
      rw [oraw] at hspec
      obtain ⟨t, ht, hr⟩ := hspec i o hio
      simp only [Nat.zero_add] at ht hr
      refine ⟨_, by rw [otx]; exact hr, by rw [utx]; exact ht, ?_, ?_, ?_, ?_, ?_⟩
      · simp only [decide_eq_true_eq]
        rw [vtx, atx, ktx]
      · intro hfresh
        simp only [decide_eq_true_eq]
        rw [ktx]
        constructor
        · intro h; exact h.2.2
        · intro h
          by_cases hg : raw.version ≥ cfg.COLLATERAL_TRANSACTION_VERSION ∧ raw.amount_burnt ≠ 0
          · exact ⟨hg.1, hg.2, h⟩
          · rw [kraw hg, ks1, hfresh] at h
            simp at h
      · intro x hx; simp [hx, load_target]
      · intro x hx; simp [hx, load_target]
      · intro x hx; simp [hx, load_target]
  · exfalso
    have etx := load_haven_fields_ok hhav
    have : tx.version = s1.version := by rw [etx]
    exact hnot (this ▸ hlegacy)


/-- Witness of C3: the version 7 archive `ex_archive_v7` loaded into a
default-constructed prefix. -/
theorem c3_load_outputs_witness :
    load haven_config ex_indeterminate (default_constructed 0 0 0) ex_archive_v7 = .ok (ex_loaded_v7, [])
    ∧ ex_loaded_v7.version < haven_config.HAVEN_TYPES_TRANSACTION_VERSION
    ∧ ∃ head vin vout tail,
      ex_archive_v7 = .varint ex_loaded_v7.version :: (head ++ .inputs vin :: .outputs vout :: tail)
      ∧ (head = [] ∨ ∃ t, head = [.varint t])
      ∧ ex_loaded_v7.vout.length = vout.length
      ∧ ∀ i o, vout[i]? = some o →
          ∃ out, ex_loaded_v7.vout[i]? = some { amount := o.amount, target := .haven_key out }
            ∧ ex_loaded_v7.output_unlock_times[i]? = some out.unlock_time
            ∧ (out.is_collateral = true ↔
                ex_loaded_v7.version ≥ haven_config.COLLATERAL_TRANSACTION_VERSION
                  ∧ ex_loaded_v7.amount_burnt ≠ 0 ∧ i ∈ ex_loaded_v7.collateral_indices)
            ∧ ((default_constructed 0 0 0).collateral_indices = [] →
                (out.is_collateral = true ↔ i ∈ ex_loaded_v7.collateral_indices))
            ∧ (∀ x, o.target = .to_key x → out.key = x.key ∧ out.asset_type = "XHV")
            ∧ (∀ x, o.target = .offshore x → out.key = x.key ∧ out.asset_type = "XUSD")
            ∧ (∀ x, o.target = .xasset x → out.key = x.key ∧ out.asset_type = x.asset_type) :=
  ⟨rfl, by decide,
    c3_load_outputs haven_config ex_indeterminate (default_constructed 0 0 0) ex_loaded_v7 ex_archive_v7 []
      rfl (by decide)⟩

/-- C6, counterexample. With the main-network constants the version 8
archive `ex_archive_v8` is accepted into a default-constructed prefix although
its version is at least `POU_TRANSACTION_VERSION` and
`COLLATERAL_TRANSACTION_VERSION`, `amount_burnt` is 5, `output_unlock_times`
is empty next to one output and `collateral_indices` has no entry. The same
happens for any constants with `POU_TRANSACTION_VERSION ≤
HAVEN_TYPES_TRANSACTION_VERSION ≤ CURRENT_TRANSACTION_VERSION`, at the version
`HAVEN_TYPES_TRANSACTION_VERSION`. -/
theorem c6_counterexample :
    (load haven_config ex_indeterminate (default_constructed 0 0 0) ex_archive_v8
        = .ok (ex_loaded_v8, [])
      ∧ ex_loaded_v8.version ≥ haven_config.POU_TRANSACTION_VERSION
      ∧ ex_loaded_v8.output_unlock_times.length ≠ ex_loaded_v8.vout.length
      ∧ ex_loaded_v8.version ≥ haven_config.COLLATERAL_TRANSACTION_VERSION
      ∧ ex_loaded_v8.amount_burnt ≠ 0
      ∧ ex_loaded_v8.collateral_indices.length ≠ 2)
    ∧ (∀ (cfg : Config) (o : tx_out), 1 ≤ cfg.HAVEN_TYPES_TRANSACTION_VERSION →
        cfg.POU_TRANSACTION_VERSION ≤ cfg.HAVEN_TYPES_TRANSACTION_VERSION →
        cfg.HAVEN_TYPES_TRANSACTION_VERSION ≤ cfg.CURRENT_TRANSACTION_VERSION →
        ∃ tx, load cfg ex_indeterminate (default_constructed 0 0 0)
            [.varint cfg.HAVEN_TYPES_TRANSACTION_VERSION, .inputs [], .outputs [o], .bytes [],
              .varint 0, .varint 5, .varint 0] = .ok (tx, [])
          ∧ tx.version ≥ cfg.POU_TRANSACTION_VERSION
          ∧ tx.output_unlock_times.length ≠ tx.vout.length) := by
  refine ⟨⟨rfl, ?_, ?_, ?_, ?_, ?_⟩, ?_⟩
  · decide
  · decide
  · decide
  · decide
  · decide
  · intro cfg o h1 h2 h3
    have hv : ¬ (cfg.HAVEN_TYPES_TRANSACTION_VERSION = 0
        ∨ cfg.CURRENT_TRANSACTION_VERSION < cfg.HAVEN_TYPES_TRANSACTION_VERSION) := by omega
    have hp : ¬ cfg.HAVEN_TYPES_TRANSACTION_VERSION < cfg.POU_TRANSACTION_VERSION := by omega
    refine ⟨{ default_constructed 0 0 0 with
        version := cfg.HAVEN_TYPES_TRANSACTION_VERSION, vin := [], vout := [o], extra := [],
        pricing_record_height := 0, amount_burnt := 5, amount_minted := 0 }, ?_, h2, ?_⟩
    · simp [load, load_unlock_time, load_haven_fields, hv, hp]
    · simp [default_constructed, set_null]

/-- C6, amended. A load succeeds only if `1 ≤ version ≤
CURRENT_TRANSACTION_VERSION`; for a version from `POU_TRANSACTION_VERSION`
up to, but not including, `HAVEN_TYPES_TRANSACTION_VERSION` only if
`output_unlock_times` and `vout` have the same size; for a version from
`COLLATERAL_TRANSACTION_VERSION` up to, but not including,
`HAVEN_TYPES_TRANSACTION_VERSION` with `amount_burnt ≠ 0` only if
`collateral_indices` has exactly two entries, each smaller than the size of
`vout`. An archive whose version is 0 or above the current one, and an archive
of such a version whose `output_unlock_times` or `collateral_indices` field
violates its condition, is rejected (`serialize` returns `false`). -/
theorem c6_decode_checks (cfg : Config) (u : Indeterminate) (self tx : transaction_prefix)
    (ar rest : List Field) (hload : load cfg u self ar = .ok (tx, rest)) :
    (1 ≤ tx.version ∧ tx.version ≤ cfg.CURRENT_TRANSACTION_VERSION)
    ∧ (cfg.POU_TRANSACTION_VERSION ≤ tx.version →
        tx.version < cfg.HAVEN_TYPES_TRANSACTION_VERSION →
        tx.output_unlock_times.length = tx.vout.length)
    ∧ (cfg.COLLATERAL_TRANSACTION_VERSION ≤ tx.version →
        tx.version < cfg.HAVEN_TYPES_TRANSACTION_VERSION → tx.amount_burnt ≠ 0 →
        tx.collateral_indices.length = 2 ∧ ∀ idx ∈ tx.collateral_indices, idx < tx.vout.length)
    ∧ (∀ v tail, (v = 0 ∨ cfg.CURRENT_TRANSACTION_VERSION < v) →
        load cfg u self (.varint v :: tail) = .error .rejected)
    ∧ (∀ v vin vout extra h d t tail,
        1 ≤ v → v ≤ cfg.CURRENT_TRANSACTION_VERSION →
        cfg.POU_TRANSACTION_VERSION ≤ v → v < cfg.HAVEN_TYPES_TRANSACTION_VERSION →
        vout.length ≠ t.length →
        load cfg u self (.varint v :: .inputs vin :: .outputs vout :: .bytes extra ::
          ((if v ≥ cfg.OFFSHORE_TRANSACTION_VERSION then
              .varint h :: (if v < 5 then [.bytes d] else []) else [])
            ++ .vec_u64 t :: tail)) = .error .rejected)
    ∧ (∀ v vin vout extra h d t b m c tail,
        1 ≤ v → v ≤ cfg.CURRENT_TRANSACTION_VERSION →
        cfg.POU_TRANSACTION_VERSION ≤ v → cfg.COLLATERAL_TRANSACTION_VERSION ≤ v →
        v < cfg.HAVEN_TYPES_TRANSACTION_VERSION → b ≠ 0 →
        (c.length ≠ 2 ∨ ∃ idx ∈ c, vout.length ≤ idx) →
        load cfg u self (.varint v :: .inputs vin :: .outputs vout :: .bytes extra ::
          ((if v ≥ cfg.OFFSHORE_TRANSACTION_VERSION then
              .varint h :: (if v < 5 then [.bytes d] else []) else [])
            ++ .vec_u64 t :: .varint b :: .varint m :: .vec_u32 c :: tail)) = .error .rejected) := by
  have hfacts : (1 ≤ tx.version ∧ tx.version ≤ cfg.CURRENT_TRANSACTION_VERSION)
      ∧ (tx.version < cfg.HAVEN_TYPES_TRANSACTION_VERSION →
          (cfg.POU_TRANSACTION_VERSION ≤ tx.version →
            tx.output_unlock_times.length = tx.vout.length)
          ∧ (cfg.COLLATERAL_TRANSACTION_VERSION ≤ tx.version → tx.amount_burnt ≠ 0 →
            tx.collateral_indices.length = 2
              ∧ ∀ idx ∈ tx.collateral_indices, idx < tx.vout.length)) := by
    obtain ⟨version, ar0, s1, ar1, _, hv0, hvc, hu, hcase⟩ := load_inv hload
    obtain ⟨es1, _⟩ := load_unlock_time_ok hu
    have vs1 : s1.version = version := by rw [es1]
    rcases hcase with ⟨_, raw, hraw, hnorm⟩ | ⟨hnot, hhav⟩
    · obtain ⟨vin, vout, tail, _, vraw, _, _, oraw, craw, kraw, _⟩ := load_legacy_fields_inv hraw
      obtain ⟨vout1, hvout, etx⟩ := load_normalize_ok hnorm
      have vtx : tx.version = raw.version := by rw [etx]
      have otx : tx.vout = vout1 := by rw [etx]
      have utx : tx.output_unlock_times = raw.output_unlock_times := by rw [etx]
      have ktx : tx.collateral_indices = raw.collateral_indices := by rw [etx]
      have btx : tx.amount_burnt = raw.amount_burnt := by rw [etx]
      obtain ⟨hlen, _⟩ := load_vout_spec cfg u _ _ _ _ _ _ _ hvout
      have hv : tx.version = version := by rw [vtx, vraw, vs1]
      refine ⟨⟨by omega, by omega⟩, fun _ => ⟨?_, ?_⟩⟩
      · intro hp
        rw [utx, otx, hlen]
        exact (craw (by rw [← vtx]; exact hp)).symm
      · intro hc hb
        rw [ktx, otx, hlen]
        exact kraw (by rw [← vtx]; exact hc) (by rw [← btx]; exact hb)
    · have etx := load_haven_fields_ok hhav
      have vtx : tx.version = s1.version := by rw [etx]
      have hv : tx.version = version := by rw [vtx, vs1]
      refine ⟨⟨by omega, by omega⟩, fun hl => ?_⟩
      exact absurd (vtx ▸ hl) hnot
  refine ⟨hfacts.1, fun hp hl => (hfacts.2 hl).1 hp, fun hc hl hb => (hfacts.2 hl).2 hc hb,
    ?_, ?_, ?_⟩
  · intro v tail hv
    simp [load, hv]
  · intro v vin vout extra h d t tail h1 h2 h3 h4 hne
    have hv : ¬ (v = 0 ∨ cfg.CURRENT_TRANSACTION_VERSION < v) := by omega
    have hp : ¬ v < cfg.POU_TRANSACTION_VERSION := by omega
    by_cases ho : v ≥ cfg.OFFSHORE_TRANSACTION_VERSION <;> by_cases h5 : v < 5 <;>
      simp [load, load_unlock_time, load_legacy_fields, load_vin_vout_extra,
        load_pricing_record_height, load_output_unlock_times, hv, hp, h4, ho, h5, h3, hne]
  · intro v vin vout extra h d t b m c tail h1 h2 h3 h3' h4 hb hc
    have hv : ¬ (v = 0 ∨ cfg.CURRENT_TRANSACTION_VERSION < v) := by omega
    have hp : ¬ v < cfg.POU_TRANSACTION_VERSION := by omega
    by_cases hne : vout.length = t.length
    · have hc' : c.length ≠ 2 ∨ (c.length = 2 ∧ ∃ idx ∈ c, vout.length ≤ idx) := by
        by_cases hl : c.length = 2
        · rcases hc with hc | hc
          · exact Or.inl hc
          · exact Or.inr ⟨hl, hc⟩
        · exact Or.inl hl
      rcases hc' with hc' | ⟨hl, hc'⟩
      · by_cases ho : v ≥ cfg.OFFSHORE_TRANSACTION_VERSION <;> by_cases h5 : v < 5 <;>
          simp [load, load_unlock_time, load_legacy_fields, load_vin_vout_extra,
            load_pricing_record_height, load_output_unlock_times, load_amounts,
            load_collateral_indices, hv, hp, h4, ho, h5, h3, h3', hne, hb, hc']
      · rw [hne] at hc'
        by_cases ho : v ≥ cfg.OFFSHORE_TRANSACTION_VERSION <;> by_cases h5 : v < 5 <;>
          simp [load, load_unlock_time, load_legacy_fields, load_vin_vout_extra,
            load_pricing_record_height, load_output_unlock_times, load_amounts,
            load_collateral_indices, hv, hp, h4, ho, h5, h3, h3', hne, hb, hc', hl]
    · by_cases ho : v ≥ cfg.OFFSHORE_TRANSACTION_VERSION <;> by_cases h5 : v < 5 <;>
        simp [load, load_unlock_time, load_legacy_fields, load_vin_vout_extra,
          load_pricing_record_height, load_output_unlock_times, hv, hp, h4, ho, h5, h3, hne]


/-- Witness of C6: the version 7 archive `ex_archive_v7`, with
`amount_burnt = 4` and collateral indices 0 and 2 among three outputs. -/
theorem c6_decode_checks_witness :
    load haven_config ex_indeterminate (default_constructed 0 0 0) ex_archive_v7 = .ok (ex_loaded_v7, [])
    ∧ (1 ≤ ex_loaded_v7.version
        ∧ ex_loaded_v7.version ≤ haven_config.CURRENT_TRANSACTION_VERSION)
    ∧ (haven_config.POU_TRANSACTION_VERSION ≤ ex_loaded_v7.version →
        ex_loaded_v7.version < haven_config.HAVEN_TYPES_TRANSACTION_VERSION →
        ex_loaded_v7.output_unlock_times.length = ex_loaded_v7.vout.length)
    ∧ (haven_config.COLLATERAL_TRANSACTION_VERSION ≤ ex_loaded_v7.version →
        ex_loaded_v7.version < haven_config.HAVEN_TYPES_TRANSACTION_VERSION →
        ex_loaded_v7.amount_burnt ≠ 0 →
        ex_loaded_v7.collateral_indices.length = 2
          ∧ ∀ idx ∈ ex_loaded_v7.collateral_indices, idx < ex_loaded_v7.vout.length) :=
  ⟨rfl,
    (c6_decode_checks haven_config ex_indeterminate (default_constructed 0 0 0) ex_loaded_v7
      ex_archive_v7 [] rfl).1,
    (c6_decode_checks haven_config ex_indeterminate (default_constructed 0 0 0) ex_loaded_v7
      ex_archive_v7 [] rfl).2.1,
    (c6_decode_checks haven_config ex_indeterminate (default_constructed 0 0 0) ex_loaded_v7
      ex_archive_v7 [] rfl).2.2.1⟩

/-! ### Claims on the saving side -/


/-- C5 (the code does not translate the outputs back). For every prefix with
at least one output the output loop of the saving branch stops at a read past
the end of a vector (`output_unlock_times[0]` or `vout_tmp[0]`), as in the
save of the loaded form `ex_loaded_v7` with an `"XHV"`, an `"XUSD"` and an
`"XBTC"` output; for a prefix without inputs and outputs the save completes
and writes the members `output_unlock_times` and `collateral_indices` as they
are. -/
theorem c5_save_outputs_broken (cfg : Config) (u : Indeterminate) (self : transaction_prefix)
    (o : tx_out) (os : List tx_out) :
    save_vout cfg u self 0 (o :: os) [] = .error .out_of_range
    ∧ save haven_config u ex_loaded_v7 = .error .out_of_range
    ∧ (self.version ≠ 0 → self.version ≤ cfg.CURRENT_TRANSACTION_VERSION →
        self.version < cfg.HAVEN_TYPES_TRANSACTION_VERSION →
        cfg.POU_TRANSACTION_VERSION ≤ self.version →
        cfg.COLLATERAL_TRANSACTION_VERSION ≤ self.version →
        self.vin = [] → self.vout = [] →
        ∃ pre, save cfg u self
          = .ok (pre ++ [.vec_u64 self.output_unlock_times, .vec_u32 self.collateral_indices])) := by
  refine ⟨?_, rfl, ?_⟩
  · cases h : self.output_unlock_times[0]? <;> simp [save_vout, h]
  · intro h0 hc hh hp hcol hvin hvout
    have hver : ¬ (self.version = 0 ∨ cfg.CURRENT_TRANSACTION_VERSION < self.version) := by omega
    have hp' : ¬ self.version < cfg.POU_TRANSACTION_VERSION := by omega
    by_cases ho : self.version ≥ cfg.OFFSHORE_TRANSACTION_VERSION <;>
      by_cases h5 : self.version < 5 <;>
      simp [save, save_legacy_tail, save_vin, save_vout, hver, hh, hp, hp', hcol, hvin, hvout,
        ho, h5]
    all_goals first
      | exact ⟨[_, _, _, _, _, _, _, _], rfl⟩
      | exact ⟨[_, _, _, _, _, _, _], rfl⟩
      | exact ⟨[_, _, _, _], rfl⟩


/-! ### Inversion lemmas for the classification -/


theorem mem_set_insert (a x : String) (s : List String) :
    a ∈ set_insert x s ↔ a = x ∨ a ∈ s := by
  induction s with
  | nil => simp [set_insert]
  | cons y ys ih =>
    unfold set_insert
    by_cases h1 : string_lt x y = true
    · rw [if_pos h1]; simp
    · rw [if_neg h1]
      by_cases h2 : x = y
      · rw [if_pos h2]; subst h2; simp
      · rw [if_neg h2]
        simp only [List.mem_cons, ih]
        tauto

theorem source_asset_types_mem (m : Bool) (vin : List txin_v) :
    ∀ (acc sat : List String), source_asset_types m vin acc = some sat →
      ∀ t, t ∈ sat ↔ t ∈ acc ∨ t ∈ vin.filterMap input_asset := by
  induction vin with
  | nil =>
    intro acc sat h t
    simp [source_asset_types] at h
    subst h
    simp
  | cons e es ih =>
    intro acc sat h t
    cases e with
    | gen x =>
      rw [source_asset_types] at h
      by_cases hm : (!m) = true
      · rw [if_pos hm] at h; simp at h
      · rw [if_neg hm] at h
        rw [ih _ _ h t, mem_set_insert]
        simp [input_asset]; tauto
    | to_key x =>
      rw [source_asset_types] at h
      rw [ih _ _ h t, mem_set_insert]
      simp [input_asset]; tauto
    | offshore x =>
      rw [source_asset_types] at h
      rw [ih _ _ h t, mem_set_insert]
      simp [input_asset]; tauto
    | onshore x =>
      rw [source_asset_types] at h
      rw [ih _ _ h t, mem_set_insert]
      simp [input_asset]; tauto
    | xasset x =>
      rw [source_asset_types] at h
      by_cases hx : x.asset_type = "XHV" ∨ x.asset_type = "XUSD"
      · rw [if_pos hx] at h; simp at h
      · rw [if_neg hx] at h
        rw [ih _ _ h t, mem_set_insert]
        simp [input_asset]; tauto
    | to_script x => simp [source_asset_types] at h
    | to_scripthash x => simp [source_asset_types] at h
    | haven_key x => simp [source_asset_types] at h

theorem destination_asset_types_mem (vout : List tx_out) :
    ∀ (acc dat : List String), destination_asset_types vout acc = some dat →
      ∀ t, t ∈ dat ↔ t ∈ acc ∨ t ∈ vout.filterMap output_asset := by
  induction vout with
  | nil =>
    intro acc dat h t
    simp [destination_asset_types] at h
    subst h
    simp
  | cons o os ih =>
    intro acc dat h t
    rw [destination_asset_types] at h
    cases ho : o.target with
    | to_key x =>
      simp only [ho] at h
      rw [ih _ _ h t, mem_set_insert]
      simp [output_asset, ho]; tauto
    | offshore x =>
      simp only [ho] at h
      rw [ih _ _ h t, mem_set_insert]
      simp [output_asset, ho]; tauto
    | xasset x =>
      simp only [ho] at h
      by_cases hx : x.asset_type = "XHV" ∨ x.asset_type = "XUSD"
      · rw [if_pos hx] at h; simp at h
      · rw [if_neg hx] at h
        rw [ih _ _ h t, mem_set_insert]
        simp [output_asset, ho]; tauto
    | to_script x => simp [ho] at h
    | to_scripthash x => simp [ho] at h
    | haven_key x => simp [ho] at h
    | haven_tagged_key x => simp [ho] at h

theorem select_source_inv {cfg : Config} {v : Nat} {sat : List String} {src : String}
    (h : select_source cfg v sat = some src) :
    (v ≥ cfg.COLLATERAL_TRANSACTION_VERSION ∧ src = "XUSD"
        ∧ (sat = ["XHV", "XUSD"] ∨ sat = ["XUSD", "XHV"]))
      ∨ sat = [src] := by
  unfold select_source at h
  by_cases h1 : v ≥ cfg.COLLATERAL_TRANSACTION_VERSION ∧ sat.length = 2
  · rw [if_pos h1] at h
    obtain ⟨hv, hl⟩ := h1
    cases sat with
    | nil => simp at hl
    | cons a r =>
      cases r with
      | nil => simp at hl
      | cons b r2 =>
        cases r2 with
        | cons c r3 => simp at hl
        | nil =>
          simp only [List.getD_cons_zero, List.getD_cons_succ] at h
          by_cases h2 : (a = "XHV" ∧ b = "XUSD") ∨ (a = "XUSD" ∧ b = "XHV")
          · rw [if_pos h2] at h
            simp only [Option.some.injEq] at h
            left
            refine ⟨hv, h.symm, ?_⟩
            rcases h2 with ⟨rfl, rfl⟩ | ⟨rfl, rfl⟩
            · exact Or.inl rfl
            · exact Or.inr rfl
          · rw [if_neg h2] at h; simp at h
  · rw [if_neg h1] at h
    by_cases h2 : sat.length ≠ 1
    · rw [if_pos h2] at h; simp at h
    · rw [if_neg h2] at h
      cases sat with
      | nil => simp at h2
      | cons a r =>
        cases r with
        | cons b r2 => simp at h2
        | nil =>
          simp only [List.getD_cons_zero, Option.some.injEq] at h
          right; rw [h]

theorem select_destination_inv {m : Bool} {source : String} {sat dat : List String}
    {dst : String} (h : select_destination m source sat dat = some dst) :
    (m = true ∧ dat ≠ [] ∧ dst = "XHV")
      ∨ (m = false ∧ dat = [dst] ∧ sat.length = 1 ∧ dst = source)
      ∨ (m = false ∧ ∃ a b, dat = [a, b]
          ∧ (sat.length = 2 → (a = "XHV" ∧ b = "XUSD") ∨ (a = "XUSD" ∧ b = "XHV"))
          ∧ ((a = source ∧ dst = b) ∨ (a ≠ source ∧ b = source ∧ dst = a))) := by
  unfold select_destination at h
  match dat with
  | [] => simp at h
  | [a] =>
    cases m with
    | true => simp at h; left; exact ⟨rfl, by simp, h.symm⟩
    | false =>
      simp only [List.length_singleton, one_ne_zero, if_false, Bool.false_eq_true,
        List.getD_cons_zero] at h
      by_cases h1 : sat.length ≠ 1
      · simp [h1] at h
      · by_cases h2 : a ≠ source
        · simp [h1, h2] at h
        · simp only [ne_eq, not_not] at h1 h2
          simp [h1, h2] at h
          right; left
          subst h2
          exact ⟨rfl, by rw [h], h1, h.symm⟩
  | [a, b] =>
    cases m with
    | true => simp at h; left; exact ⟨rfl, by simp, h.symm⟩
    | false =>
      simp only [List.length_cons, List.length_singleton, List.length_nil, Nat.reduceAdd,
        OfNat.ofNat_ne_zero, if_false, Bool.false_eq_true, gt_iff_lt, lt_self_iff_false,
        OfNat.ofNat_ne_one, List.getD_cons_zero, List.getD_cons_succ] at h
      right; right
      refine ⟨rfl, a, b, rfl, ?_⟩
      by_cases h1 : sat.length = 2 ∧
          ¬ ((a = "XHV" ∧ b = "XUSD") ∨ (a = "XUSD" ∧ b = "XHV"))
      · rw [if_pos h1] at h; simp at h
      · rw [if_neg h1] at h
        refine ⟨fun hs => by_contra fun hn => h1 ⟨hs, hn⟩, ?_⟩
        by_cases h2 : a = source
        · rw [if_pos h2] at h
          simp only [Option.some.injEq] at h
          exact Or.inl ⟨h2, h.symm⟩
        · rw [if_neg h2] at h
          by_cases h3 : b = source
          · rw [if_pos h3] at h
            simp only [Option.some.injEq] at h
            exact Or.inr ⟨h2, h3, h.symm⟩
          · rw [if_neg h3] at h; simp at h
  | a :: b :: c :: rest =>
    cases m with
    | true => simp at h; left; exact ⟨rfl, by simp, h.symm⟩
    | false =>
      simp [List.length_cons] at h

theorem get_tx_asset_types_inv {cfg : Config} {tx : transaction} {txid : hash} {m : Bool}
    {s d : String} (h : get_tx_asset_types cfg tx txid m = some (s, d)) :
    ∃ sat dat dst, source_asset_types m tx.vin [] = some sat
      ∧ select_source cfg tx.version sat = some s
      ∧ destination_asset_types tx.vout [] = some dat
      ∧ select_destination m s sat dat = some dst
      ∧ s ∈ cfg.ASSET_TYPES ∧ dst ∈ cfg.ASSET_TYPES
      ∧ d = (if pod_to_hex txid ∈ exploit_txs then "XJPY" else dst) := by
  unfold get_tx_asset_types at h
  cases h1 : source_asset_types m tx.vin [] with
  | none => simp [h1] at h
  | some sat =>
    simp only [h1] at h
    cases h2 : select_source cfg tx.version sat with
    | none => simp [h2] at h
    | some src =>
      simp only [h2] at h
      cases h3 : destination_asset_types tx.vout [] with
      | none => simp [h3] at h
      | some dat =>
        simp only [h3] at h
        cases h4 : select_destination m src sat dat with
        | none => simp [h4] at h
        | some dst =>
          simp only [h4] at h
          by_cases h5 : src ∉ cfg.ASSET_TYPES
          · rw [if_pos h5] at h; simp at h
          · rw [if_neg h5] at h
            by_cases h6 : dst ∉ cfg.ASSET_TYPES
            · rw [if_pos h6] at h; simp at h
            · rw [if_neg h6] at h
              by_cases h7 : pod_to_hex txid ∈ exploit_txs
              · rw [if_pos h7] at h
                simp only [Option.some.injEq, Prod.mk.injEq] at h
                obtain ⟨rfl, rfl⟩ := h
                exact ⟨sat, dat, dst, rfl, h2, rfl, h4, not_not.mp h5, not_not.mp h6,
                  by rw [if_pos h7]⟩
              · rw [if_neg h7] at h
                simp only [Option.some.injEq, Prod.mk.injEq] at h
                obtain ⟨rfl, rfl⟩ := h
                exact ⟨sat, dat, dst, rfl, h2, rfl, h4, not_not.mp h5, not_not.mp h6,
                  by rw [if_neg h7]⟩


/-! ### Claims on the classification -/

/-- C7. Decision table of `get_tx_type`: for source and destination in the
catalog it returns `TRANSFER` for (XHV, XHV), `OFFSHORE_TRANSFER` for
(XUSD, XUSD), `XASSET_TRANSFER` for (A, A) with A any other asset, `OFFSHORE`
for (XHV, XUSD), `ONSHORE` for (XUSD, XHV), `XUSD_TO_XASSET` for (XUSD, A) and
`XASSET_TO_XUSD` for (A, XUSD) with A neither XHV nor XUSD; and it fails
exactly when a tag is not in the catalog or the two tags differ and neither
is XUSD. -/
theorem c7_get_tx_type_table (cfg : Config) (s d : String) :
    (s ∈ cfg.ASSET_TYPES → d ∈ cfg.ASSET_TYPES →
      (s = "XHV" → d = "XHV" → get_tx_type cfg s d = some .TRANSFER)
      ∧ (s = "XUSD" → d = "XUSD" → get_tx_type cfg s d = some .OFFSHORE_TRANSFER)
      ∧ (s = d → s ≠ "XHV" → s ≠ "XUSD" → get_tx_type cfg s d = some .XASSET_TRANSFER)
      ∧ (s = "XHV" → d = "XUSD" → get_tx_type cfg s d = some .OFFSHORE)
      ∧ (s = "XUSD" → d = "XHV" → get_tx_type cfg s d = some .ONSHORE)
      ∧ (s = "XUSD" → d ≠ "XHV" → d ≠ "XUSD" → get_tx_type cfg s d = some .XUSD_TO_XASSET)
      ∧ (d = "XUSD" → s ≠ "XHV" → s ≠ "XUSD" → get_tx_type cfg s d = some .XASSET_TO_XUSD))
    ∧ (get_tx_type cfg s d = none ↔
        (s ∉ cfg.ASSET_TYPES ∨ d ∉ cfg.ASSET_TYPES ∨ (s ≠ d ∧ s ≠ "XUSD" ∧ d ≠ "XUSD"))) := by
  have hne : ("XHV" : String) ≠ "XUSD" := by decide
  have hne' : ("XUSD" : String) ≠ "XHV" := by decide
  constructor
  · intro hs hd
    unfold get_tx_type
    rw [if_neg (not_not_intro hs), if_neg (not_not_intro hd)]
    refine ⟨?_, ?_, ?_, ?_, ?_, ?_, ?_⟩
    · rintro rfl rfl; simp
    · rintro rfl rfl; simp [hne']
    · rintro rfl h1 h2; simp [h1, h2]
    · rintro rfl rfl; simp [hne]
    · rintro rfl rfl; simp [hne, hne']
    · rintro rfl h1 h2
      have : ("XUSD" : String) ≠ d := fun h => h2 h.symm
      simp [this, h1, hne']
    · rintro rfl h1 h2
      simp [h1, h2]
  · unfold get_tx_type
    by_cases hs : s ∈ cfg.ASSET_TYPES
    · by_cases hd : d ∈ cfg.ASSET_TYPES
      · rw [if_neg (not_not_intro hs), if_neg (not_not_intro hd)]
        by_cases hsd : s = d
        · subst hsd
          by_cases h1 : s = "XHV"
          · subst h1; simp [hs]
          · by_cases h2 : s = "XUSD"
            · subst h2; simp [hs, hne']
            · simp [hs, h1, h2]
        · rw [if_neg hsd]
          by_cases h1 : s = "XUSD"
          · subst h1
            by_cases h3 : d = "XHV"
            · subst h3; simp [hs, hd, hne']
            · simp [hs, hd, h3, hsd, hne']
          · by_cases h2 : d = "XUSD"
            · subst h2
              by_cases h3 : s = "XHV"
              · subst h3; simp [hs, hd, hne]
              · simp [hs, hd, h3, h1]
            · simp [hs, hd, h1, h2, hsd]
      · simp [hs, hd]
    · simp [hs]


/-- C8. With the source assets implied by the inputs taken per input
(`input_asset`): `get_tx_asset_types` fails for every transaction whose inputs
imply two distinct source assets, unless all implied assets are XHV or XUSD
and `tx.version ≥ COLLATERAL_TRANSACTION_VERSION`; and it fails when the inputs
imply no source asset. -/
theorem c8_source_set_rule (cfg : Config) (tx : transaction) (txid : hash) (is_miner_tx : Bool) :
    ((∃ a b, a ∈ tx.vin.filterMap input_asset ∧ b ∈ tx.vin.filterMap input_asset ∧ a ≠ b) →
      ¬ ((∀ t ∈ tx.vin.filterMap input_asset, t = "XHV" ∨ t = "XUSD")
          ∧ tx.version ≥ cfg.COLLATERAL_TRANSACTION_VERSION) →
      get_tx_asset_types cfg tx txid is_miner_tx = none)
    ∧ (tx.vin.filterMap input_asset = [] →
      get_tx_asset_types cfg tx txid is_miner_tx = none) := by
  constructor
  · rintro ⟨a, b, ha, hb, hab⟩ hnot
    cases h : get_tx_asset_types cfg tx txid is_miner_tx with
    | none => rfl
    | some p =>
      exfalso
      obtain ⟨s, d⟩ := p
      obtain ⟨sat, dat, dst, h1, h2, _, _, _, _, _⟩ := get_tx_asset_types_inv h
      have hsat : ∀ t, t ∈ sat ↔ t ∈ tx.vin.filterMap input_asset := by
        intro t
        rw [source_asset_types_mem _ _ _ _ h1 t]
        simp
      rcases select_source_inv h2 with ⟨hv, _, hpair⟩ | hone
      · apply hnot
        refine ⟨?_, hv⟩
        intro t ht
        have := (hsat t).mpr ht
        rcases hpair with hp | hp <;> rw [hp] at this <;> simp at this <;> tauto
      · have ha' := (hsat a).mpr ha
        have hb' := (hsat b).mpr hb
        rw [hone] at ha' hb'
        simp only [List.mem_singleton] at ha' hb'
        exact hab (ha'.trans hb'.symm)
  · intro hnil
    cases h : get_tx_asset_types cfg tx txid is_miner_tx with
    | none => rfl
    | some p =>
      exfalso
      obtain ⟨s, d⟩ := p
      obtain ⟨sat, dat, dst, h1, h2, _, _, _, _, _⟩ := get_tx_asset_types_inv h
      have hsat : ∀ t, t ∈ sat ↔ t ∈ tx.vin.filterMap input_asset := by
        intro t
        rw [source_asset_types_mem _ _ _ _ h1 t]
        simp
      rw [hnil] at hsat
      rcases select_source_inv h2 with ⟨_, _, hpair⟩ | hone
      · rcases hpair with hp | hp <;> rw [hp] at hsat <;> simpa using hsat "XHV"
      · rw [hone] at hsat
        simpa using hsat s


/-- C9. Whenever `get_tx_asset_types` succeeds on a non-miner transaction whose
inputs imply both XHV and XUSD and whose id is not one of the three exploit
hashes, the outputs imply exactly XHV and XUSD, the returned source is XUSD,
the returned destination is XHV (the version is then at least
`COLLATERAL_TRANSACTION_VERSION`), and `get_tx_type` on the result yields
`ONSHORE`. -/
theorem c9_two_asset_source_is_onshore (cfg : Config) (tx : transaction) (txid : hash)
    (s d : String)
    (hok : get_tx_asset_types cfg tx txid false = some (s, d))
    (hxhv : "XHV" ∈ tx.vin.filterMap input_asset)
    (hxusd : "XUSD" ∈ tx.vin.filterMap input_asset)
    (hex : pod_to_hex txid ∉ exploit_txs) :
    ("XHV" ∈ tx.vout.filterMap output_asset ∧ "XUSD" ∈ tx.vout.filterMap output_asset
        ∧ ∀ t ∈ tx.vout.filterMap output_asset, t = "XHV" ∨ t = "XUSD")
    ∧ s = "XUSD" ∧ d = "XHV"
    ∧ tx.version ≥ cfg.COLLATERAL_TRANSACTION_VERSION
    ∧ get_tx_type cfg s d = some .ONSHORE := by
  have hne : ("XHV" : String) ≠ "XUSD" := by decide
  have hne' : ("XUSD" : String) ≠ "XHV" := by decide
  obtain ⟨sat, dat, dst, h1, h2, h3, h4, hs, hdst, hd⟩ := get_tx_asset_types_inv hok
  rw [if_neg hex] at hd
  subst hd
  have hsat : ∀ t, t ∈ sat ↔ t ∈ tx.vin.filterMap input_asset := by
    intro t
    rw [source_asset_types_mem _ _ _ _ h1 t]
    simp
  have hdat : ∀ t, t ∈ dat ↔ t ∈ tx.vout.filterMap output_asset := by
    intro t
    rw [destination_asset_types_mem _ _ _ h3 t]
    simp
  have hsrc : tx.version ≥ cfg.COLLATERAL_TRANSACTION_VERSION ∧ s = "XUSD" ∧ sat.length = 2 := by
    rcases select_source_inv h2 with ⟨hv, hs', hpair⟩ | hone
    · refine ⟨hv, hs', ?_⟩
      rcases hpair with hp | hp <;> rw [hp] <;> rfl
    · exfalso
      have a := (hsat "XHV").mpr hxhv
      have b := (hsat "XUSD").mpr hxusd
      rw [hone] at a b
      simp only [List.mem_singleton] at a b
      exact hne (a.trans b.symm)
  obtain ⟨hv, hs', hlen⟩ := hsrc
  subst hs'
  have hdest : d = "XHV" ∧ (dat = ["XHV", "XUSD"] ∨ dat = ["XUSD", "XHV"]) := by
    rcases select_destination_inv h4 with ⟨hm, _, _⟩ | ⟨_, _, hl1, _⟩ | ⟨_, a, b, hab, hp, hsel⟩
    · simp at hm
    · omega
    · rcases hp hlen with ⟨rfl, rfl⟩ | ⟨rfl, rfl⟩
      · rcases hsel with ⟨ha, _⟩ | ⟨_, _, hd⟩
        · exact absurd ha hne
        · exact ⟨hd, Or.inl hab⟩
      · rcases hsel with ⟨_, hd⟩ | ⟨ha, _, _⟩
        · exact ⟨hd, Or.inr hab⟩
        · exact absurd rfl ha
  obtain ⟨hd, hpair⟩ := hdest
  subst hd
  refine ⟨⟨?_, ?_, ?_⟩, rfl, rfl, hv, ?_⟩
  · rw [← hdat]; rcases hpair with hp | hp <;> rw [hp] <;> simp
  · rw [← hdat]; rcases hpair with hp | hp <;> rw [hp] <;> simp
  · intro t ht
    have := (hdat t).mpr ht
    rcases hpair with hp | hp <;> rw [hp] at this <;> simp at this <;> tauto
  · unfold get_tx_type
    rw [if_neg (not_not_intro hs), if_neg (not_not_intro hdst), if_neg hne']
    simp [hne']


/-- Witness of C9: the version 7 onshore transaction `ex_tx_onshore`. -/
theorem c9_two_asset_source_is_onshore_witness :
    get_tx_asset_types haven_config ex_tx_onshore ex_txid false = some ("XUSD", "XHV")
    ∧ "XHV" ∈ ex_tx_onshore.vin.filterMap input_asset
    ∧ "XUSD" ∈ ex_tx_onshore.vin.filterMap input_asset
    ∧ pod_to_hex ex_txid ∉ exploit_txs
    ∧ ("XHV" ∈ ex_tx_onshore.vout.filterMap output_asset
        ∧ "XUSD" ∈ ex_tx_onshore.vout.filterMap output_asset
        ∧ ∀ t ∈ ex_tx_onshore.vout.filterMap output_asset, t = "XHV" ∨ t = "XUSD")
    ∧ "XUSD" = "XUSD" ∧ "XHV" = "XHV"
    ∧ ex_tx_onshore.version ≥ haven_config.COLLATERAL_TRANSACTION_VERSION
    ∧ get_tx_type haven_config "XUSD" "XHV" = some .ONSHORE :=
  ⟨by decide, by decide, by decide, by decide,
    c9_two_asset_source_is_onshore haven_config ex_tx_onshore ex_txid "XUSD" "XHV"
      (by decide) (by decide) (by decide) (by decide)⟩

/-- C10, counterexample. With the id of the first exploit transaction, a
non-miner transaction with the single source asset XJPY whose outputs imply
XJPY and XBTC is given the destination XJPY, not the other output asset XBTC;
and a miner transaction is given the destination XJPY, not XHV. -/
theorem c10_counterexample :
    ex_tx_xjpy_to_xbtc.vin.filterMap input_asset = ["XJPY"]
    ∧ ex_tx_xjpy_to_xbtc.vout.filterMap output_asset = ["XJPY", "XBTC"]
    ∧ get_tx_asset_types haven_config ex_tx_xjpy_to_xbtc ex_exploit_txid false
        = some ("XJPY", "XJPY")
    ∧ ex_tx_miner.vin.filterMap input_asset = ["XHV"]
    ∧ get_tx_asset_types haven_config ex_tx_miner ex_exploit_txid true = some ("XHV", "XJPY") := by
  decide


/-- C10, amended. For a transaction with a single source asset `S` whose id is
not one of the three exploit hashes: if `get_tx_asset_types` succeeds the
returned source is `S`; in a miner transaction the returned destination is
XHV; in a non-miner transaction, if the outputs imply exactly one asset `D`
then `D = S` and the returned destination is `S`, and if they imply exactly two
assets then `S` is one of them and the returned destination is the other; a
non-miner transaction whose outputs imply no asset or three distinct assets
fails. -/
theorem c10_destination_rule (cfg : Config) (tx : transaction) (txid : hash)
    (is_miner_tx : Bool) (S : String)
    (hsingle : tx.vin.filterMap input_asset ≠ []
      ∧ ∀ t ∈ tx.vin.filterMap input_asset, t = S)
    (hex : pod_to_hex txid ∉ exploit_txs) :
    (∀ s d, get_tx_asset_types cfg tx txid is_miner_tx = some (s, d) →
      s = S
      ∧ (is_miner_tx = true → d = "XHV")
      ∧ (is_miner_tx = false →
          (∀ D, tx.vout.filterMap output_asset ≠ [] →
              (∀ t ∈ tx.vout.filterMap output_asset, t = D) → D = S ∧ d = S)
          ∧ (∀ D1 D2, D1 ≠ D2 → D1 ∈ tx.vout.filterMap output_asset →
              D2 ∈ tx.vout.filterMap output_asset →
              (∀ t ∈ tx.vout.filterMap output_asset, t = D1 ∨ t = D2) →
              (S = D1 ∧ d = D2) ∨ (S = D2 ∧ d = D1))))
    ∧ (is_miner_tx = false → tx.vout.filterMap output_asset = [] →
        get_tx_asset_types cfg tx txid is_miner_tx = none)
    ∧ (is_miner_tx = false →
        (∃ a b c, a ∈ tx.vout.filterMap output_asset ∧ b ∈ tx.vout.filterMap output_asset
          ∧ c ∈ tx.vout.filterMap output_asset ∧ a ≠ b ∧ a ≠ c ∧ b ≠ c) →
        get_tx_asset_types cfg tx txid is_miner_tx = none) := by
  have hne : ("XHV" : String) ≠ "XUSD" := by decide
  obtain ⟨hnil, hall⟩ := hsingle
  have key : ∀ s d, get_tx_asset_types cfg tx txid is_miner_tx = some (s, d) →
      ∃ dat, (∀ t, t ∈ dat ↔ t ∈ tx.vout.filterMap output_asset) ∧ s = S
        ∧ ((is_miner_tx = true ∧ dat ≠ [] ∧ d = "XHV")
          ∨ (is_miner_tx = false ∧ dat = [d] ∧ d = s)
          ∨ (is_miner_tx = false ∧ ∃ a b, dat = [a, b]
              ∧ ((a = s ∧ d = b) ∨ (a ≠ s ∧ b = s ∧ d = a)))) := by
    intro s d hok
    obtain ⟨sat, dat, dst, h1, h2, h3, h4, _, _, hd⟩ := get_tx_asset_types_inv hok
    rw [if_neg hex] at hd
    subst hd
    have hsat : ∀ t, t ∈ sat ↔ t ∈ tx.vin.filterMap input_asset := by
      intro t
      rw [source_asset_types_mem _ _ _ _ h1 t]
      simp
    have hdat : ∀ t, t ∈ dat ↔ t ∈ tx.vout.filterMap output_asset := by
      intro t
      rw [destination_asset_types_mem _ _ _ h3 t]
      simp
    have hs : s = S := by
      rcases select_source_inv h2 with ⟨_, _, hpair⟩ | hone
      · exfalso
        have a : "XHV" ∈ sat := by rcases hpair with hp | hp <;> rw [hp] <;> simp
        have b : "XUSD" ∈ sat := by rcases hpair with hp | hp <;> rw [hp] <;> simp
        exact hne ((hall _ ((hsat _).mp a)).trans (hall _ ((hsat _).mp b)).symm)
      · exact hall s ((hsat s).mp (by rw [hone]; simp))
    refine ⟨dat, hdat, hs, ?_⟩
    rcases select_destination_inv h4 with h | ⟨hm, hd1, _, hd2⟩ | ⟨hm, a, b, hab, _, hsel⟩
    · exact Or.inl h
    · exact Or.inr (Or.inl ⟨hm, hd1, hd2⟩)
    · exact Or.inr (Or.inr ⟨hm, a, b, hab, hsel⟩)
  refine ⟨?_, ?_, ?_⟩
  · intro s d hok
    obtain ⟨dat, hdat, hs, hcases⟩ := key s d hok
    subst hs
    refine ⟨rfl, ?_, ?_⟩
    · intro hm
      rcases hcases with ⟨_, _, hd⟩ | ⟨hm', _⟩ | ⟨hm', _⟩
      · exact hd
      · rw [hm] at hm'; simp at hm'
      · rw [hm] at hm'; simp at hm'
    · intro hm
      rcases hcases with ⟨hm', _⟩ | ⟨_, hd1, hd2⟩ | ⟨_, a, b, hab, hsel⟩
      · rw [hm] at hm'; simp at hm'
      · have hmem : d ∈ tx.vout.filterMap output_asset := (hdat d).mp (by rw [hd1]; simp)
        constructor
        · intro D _ hD
          have := hD d hmem
          exact ⟨by rw [← this, hd2], hd2⟩
        · intro D1 D2 hne12 h1 h2 _
          exfalso
          have a1 := (hdat D1).mpr h1
          have a2 := (hdat D2).mpr h2
          rw [hd1] at a1 a2
          simp only [List.mem_singleton] at a1 a2
          exact hne12 (a1.trans a2.symm)
      · have ha : a ∈ tx.vout.filterMap output_asset := (hdat a).mp (by rw [hab]; simp)
        have hb : b ∈ tx.vout.filterMap output_asset := (hdat b).mp (by rw [hab]; simp)
        constructor
        · intro D _ hD
          have ea := hD a ha
          have eb := hD b hb
          rcases hsel with ⟨h1, h2⟩ | ⟨h1, h2, _⟩
          · exact ⟨by rw [← ea, h1], by rw [h2, eb, ← ea, h1]⟩
          · exact absurd (ea.trans (eb.symm.trans h2)) h1
        · intro D1 D2 hne12 h1 h2 hD
          have m1 := (hdat D1).mpr h1
          have m2 := (hdat D2).mpr h2
          rw [hab] at m1 m2
          simp only [List.mem_cons, List.mem_singleton, List.not_mem_nil, or_false] at m1 m2
          rcases hsel with ⟨e1, e2⟩ | ⟨_, e1, e2⟩
          · rcases m1 with m1 | m1 <;> rcases m2 with m2 | m2
            · exact absurd (m1.trans m2.symm) hne12
            · left; exact ⟨by rw [m1, e1], by rw [m2, e2]⟩
            · right; exact ⟨by rw [m2, e1], by rw [m1, e2]⟩
            · exact absurd (m1.trans m2.symm) hne12
          · rcases m1 with m1 | m1 <;> rcases m2 with m2 | m2
            · exact absurd (m1.trans m2.symm) hne12
            · right; exact ⟨by rw [m2, e1], by rw [m1, e2]⟩
            · left; exact ⟨by rw [m1, e1], by rw [m2, e2]⟩
            · exact absurd (m1.trans m2.symm) hne12
  · intro hm hnil'
    cases h : get_tx_asset_types cfg tx txid is_miner_tx with
    | none => rfl
    | some p =>
      exfalso
      obtain ⟨s, d⟩ := p
      obtain ⟨dat, hdat, _, hcases⟩ := key s d h
      rw [hnil'] at hdat
      rcases hcases with ⟨hm', _⟩ | ⟨_, hd1, _⟩ | ⟨_, a, b, hab, _⟩
      · rw [hm] at hm'; simp at hm'
      · rw [hd1] at hdat; simpa using hdat d
      · rw [hab] at hdat; simpa using hdat a
  · rintro hm ⟨a, b, c, ha, hb, hc, hab, hac, hbc⟩
    cases h : get_tx_asset_types cfg tx txid is_miner_tx with
    | none => rfl
    | some p =>
      exfalso
      obtain ⟨s, d⟩ := p
      obtain ⟨dat, hdat, _, hcases⟩ := key s d h
      have ma := (hdat a).mpr ha
      have mb := (hdat b).mpr hb
      have mc := (hdat c).mpr hc
      rcases hcases with ⟨hm', _⟩ | ⟨_, hd1, _⟩ | ⟨_, x, y, hxy, _⟩
      · rw [hm] at hm'; simp at hm'
      · rw [hd1] at ma mb
        simp only [List.mem_singleton] at ma mb
        exact hab (ma.trans mb.symm)
      · rw [hxy] at ma mb mc
        simp only [List.mem_cons, List.mem_singleton, List.not_mem_nil, or_false] at ma mb mc
        rcases ma with ma | ma <;> rcases mb with mb | mb <;> rcases mc with mc | mc <;>
          first
            | exact hab (ma.trans mb.symm)
            | exact hac (ma.trans mc.symm)
            | exact hbc (mb.trans mc.symm)


/-- Witness of C10: the version 7 offshore transaction `ex_tx_offshore`, with
the single source asset XHV and the outputs XHV and XUSD. -/
theorem c10_destination_rule_witness :
    get_tx_asset_types haven_config ex_tx_offshore ex_txid false = some ("XHV", "XUSD")
    ∧ (ex_tx_offshore.vin.filterMap input_asset ≠ []
      ∧ ∀ t ∈ ex_tx_offshore.vin.filterMap input_asset, t = "XHV")
    ∧ pod_to_hex ex_txid ∉ exploit_txs
    ∧ (∀ s d, get_tx_asset_types haven_config ex_tx_offshore ex_txid false = some (s, d) →
      s = "XHV"
      ∧ (false = true → d = "XHV")
      ∧ (false = false →
          (∀ D, ex_tx_offshore.vout.filterMap output_asset ≠ [] →
              (∀ t ∈ ex_tx_offshore.vout.filterMap output_asset, t = D) → D = "XHV" ∧ d = "XHV")
          ∧ (∀ D1 D2, D1 ≠ D2 → D1 ∈ ex_tx_offshore.vout.filterMap output_asset →
              D2 ∈ ex_tx_offshore.vout.filterMap output_asset →
              (∀ t ∈ ex_tx_offshore.vout.filterMap output_asset, t = D1 ∨ t = D2) →
              ("XHV" = D1 ∧ d = D2) ∨ ("XHV" = D2 ∧ d = D1)))) :=
  ⟨by decide, by decide, by decide,
    (c10_destination_rule haven_config ex_tx_offshore ex_txid false "XHV"
      (by decide) (by decide)).1⟩

/-! ### Claims on variant legality and the exploit override -/

theorem source_asset_types_gen_non_miner (vin : List txin_v) (x : txin_gen)
    (hx : txin_v.gen x ∈ vin) : ∀ acc, source_asset_types false vin acc = none := by
  induction vin with
  | nil => simp at hx
  | cons e es ih =>
    intro acc
    rcases List.mem_cons.mp hx with h | h
    · subst h
      simp [source_asset_types]
    · cases e with
      | gen y => simp [source_asset_types]
      | to_key y => rw [source_asset_types]; exact ih h _
      | offshore y => rw [source_asset_types]; exact ih h _
      | onshore y => rw [source_asset_types]; exact ih h _
      | xasset y =>
        rw [source_asset_types]
        by_cases hy : y.asset_type = "XHV" ∨ y.asset_type = "XUSD"
        · rw [if_pos hy]
        · rw [if_neg hy]; exact ih h _
      | to_script y => simp [source_asset_types]
      | to_scripthash y => simp [source_asset_types]
      | haven_key y => simp [source_asset_types]

theorem source_asset_types_bad_xasset (m : Bool) (vin : List txin_v) (x : txin_xasset)
    (hx : txin_v.xasset x ∈ vin) (hbad : x.asset_type = "XHV" ∨ x.asset_type = "XUSD") :
    ∀ acc, source_asset_types m vin acc = none := by
  induction vin with
  | nil => simp at hx
  | cons e es ih =>
    intro acc
    rcases List.mem_cons.mp hx with h | h
    · subst h
      rw [source_asset_types, if_pos hbad]
    · cases e with
      | gen y =>
        rw [source_asset_types]
        by_cases hm : (!m) = true
        · rw [if_pos hm]
        · rw [if_neg hm]; exact ih h _
      | to_key y => rw [source_asset_types]; exact ih h _
      | offshore y => rw [source_asset_types]; exact ih h _
      | onshore y => rw [source_asset_types]; exact ih h _
      | xasset y =>
        rw [source_asset_types]
        by_cases hy : y.asset_type = "XHV" ∨ y.asset_type = "XUSD"
        · rw [if_pos hy]
        · rw [if_neg hy]; exact ih h _
      | to_script y => simp [source_asset_types]
      | to_scripthash y => simp [source_asset_types]
      | haven_key y => simp [source_asset_types]

theorem destination_asset_types_bad_xasset (vout : List tx_out) (o : tx_out) (x : txout_xasset)
    (ho : o ∈ vout) (hx : o.target = .xasset x)
    (hbad : x.asset_type = "XHV" ∨ x.asset_type = "XUSD") :
    ∀ acc, destination_asset_types vout acc = none := by
  induction vout with
  | nil => simp at ho
  | cons e es ih =>
    intro acc
    rw [destination_asset_types]
    rcases List.mem_cons.mp ho with h | h
    · subst h
      simp only [hx]
      rw [if_pos hbad]
    · cases he : e.target with
      | to_key y => simp only []; exact ih h _
      | offshore y => simp only []; exact ih h _
      | xasset y =>
        simp only []
        by_cases hy : y.asset_type = "XHV" ∨ y.asset_type = "XUSD"
        · rw [if_pos hy]
        · rw [if_neg hy]; exact ih h _
      | to_script y => rfl
      | to_scripthash y => rfl
      | haven_key y => rfl
      | haven_tagged_key y => rfl

/-- C11. `get_tx_asset_types` fails for every transaction that contains a `gen`
input while `is_miner_tx` is false, for every transaction with an `xasset`
input tagged XHV or XUSD, and for every transaction with an `xasset` output
tagged XHV or XUSD; in a miner transaction the source loop inserts `"XHV"` for a
`gen` input, so XHV is in the source set whenever the loop completes. -/
theorem c11_variant_legality (cfg : Config) (tx : transaction) (txid : hash) (is_miner_tx : Bool) :
    ((is_miner_tx = false ∧ ∃ x, txin_v.gen x ∈ tx.vin) →
      get_tx_asset_types cfg tx txid is_miner_tx = none)
    ∧ ((∃ x, txin_v.xasset x ∈ tx.vin ∧ (x.asset_type = "XHV" ∨ x.asset_type = "XUSD")) →
      get_tx_asset_types cfg tx txid is_miner_tx = none)
    ∧ ((∃ o ∈ tx.vout, ∃ x, o.target = .xasset x
          ∧ (x.asset_type = "XHV" ∨ x.asset_type = "XUSD")) →
      get_tx_asset_types cfg tx txid is_miner_tx = none)
    ∧ (∀ x rest acc, source_asset_types true (.gen x :: rest) acc
        = source_asset_types true rest (set_insert "XHV" acc))
    ∧ (∀ x sat, is_miner_tx = true → txin_v.gen x ∈ tx.vin →
        source_asset_types is_miner_tx tx.vin [] = some sat → "XHV" ∈ sat) := by
  refine ⟨?_, ?_, ?_, ?_, ?_⟩
  · rintro ⟨hm, x, hx⟩
    subst hm
    rw [get_tx_asset_types, source_asset_types_gen_non_miner tx.vin x hx]
  · rintro ⟨x, hx, hbad⟩
    rw [get_tx_asset_types, source_asset_types_bad_xasset is_miner_tx tx.vin x hx hbad]
  · rintro ⟨o, ho, x, hx, hbad⟩
    rw [get_tx_asset_types, destination_asset_types_bad_xasset tx.vout o x ho hx hbad]
    cases source_asset_types is_miner_tx tx.vin [] with
    | none => rfl
    | some sat =>
      simp only []
      cases select_source cfg tx.version sat with
      | none => rfl
      | some src => rfl
  · intro x rest acc
    simp [source_asset_types]
  · intro x sat _ hx hsat
    rw [source_asset_types_mem _ _ _ _ hsat "XHV"]
    right
    rw [List.mem_filterMap]
    exact ⟨_, hx, rfl⟩

/-- C12. For an id that is one of the three exploit hashes every successful
call of `get_tx_asset_types` returns the destination XJPY, and the call is the
call with any other id with the destination replaced by XJPY (it succeeds on
the same transactions, with the same source); for every other id the returned
destination is the one that the destination rule `select_destination` gives.
The XJPY to XBTC conversion `ex_tx_xjpy_to_xbtc` is classified (XJPY, XJPY)
under the first exploit hash and (XJPY, XBTC) under another id. -/
theorem c12_exploit_override (cfg : Config) (tx : transaction) (txid : hash)
    (is_miner_tx : Bool) :
    (pod_to_hex txid ∈ exploit_txs →
      (∀ s d, get_tx_asset_types cfg tx txid is_miner_tx = some (s, d) → d = "XJPY")
      ∧ (∀ txid', pod_to_hex txid' ∉ exploit_txs →
          get_tx_asset_types cfg tx txid is_miner_tx
            = (get_tx_asset_types cfg tx txid' is_miner_tx).map (fun p => (p.1, "XJPY"))))
    ∧ (pod_to_hex txid ∉ exploit_txs →
      ∀ s d, get_tx_asset_types cfg tx txid is_miner_tx = some (s, d) →
        ∃ sat dat, source_asset_types is_miner_tx tx.vin [] = some sat
          ∧ destination_asset_types tx.vout [] = some dat
          ∧ select_destination is_miner_tx s sat dat = some d)
    ∧ get_tx_asset_types haven_config ex_tx_xjpy_to_xbtc ex_exploit_txid false
        = some ("XJPY", "XJPY")
    ∧ get_tx_asset_types haven_config ex_tx_xjpy_to_xbtc ex_txid false
        = some ("XJPY", "XBTC") := by
  refine ⟨?_, ?_, by decide, by decide⟩
  · intro hex
    constructor
    · intro s d h
      obtain ⟨_, _, _, _, _, _, _, _, _, hd⟩ := get_tx_asset_types_inv h
      rw [if_pos hex] at hd
      exact hd
    · intro txid' hex'
      simp only [get_tx_asset_types]
      cases source_asset_types is_miner_tx tx.vin [] with
      | none => rfl
      | some sat =>
        simp only []
        cases select_source cfg tx.version sat with
        | none => rfl
        | some src =>
          simp only []
          cases destination_asset_types tx.vout [] with
          | none => rfl
          | some dat =>
            simp only []
            cases select_destination is_miner_tx src sat dat with
            | none => rfl
            | some dst =>
              simp only []
              by_cases h1 : src ∉ cfg.ASSET_TYPES
              · rw [if_pos h1, if_pos h1]; rfl
              · rw [if_neg h1, if_neg h1]
                by_cases h2 : dst ∉ cfg.ASSET_TYPES
                · rw [if_pos h2, if_pos h2]; rfl
                · rw [if_neg h2, if_neg h2, if_pos hex, if_neg hex']; rfl
  · intro hex s d h
    obtain ⟨sat, dat, dst, h1, _, h3, h4, _, _, hd⟩ := get_tx_asset_types_inv h
    rw [if_neg hex] at hd
    subst hd
    exact ⟨sat, dat, h1, h3, h4⟩


/-! ### Lemmas on the fee functions -/


theorem foldl_wrapping_sum {α : Type} (p : α → Prop) [DecidablePred p] (f : α → Nat) (M : Nat)
    (l : List α) :
    ∀ a, a < M →
      List.foldl (fun acc x => if p x then (acc + f x) % M else acc) a l
        = (a + ((l.filter (fun x => decide (p x))).map f).sum) % M := by
  induction l with
  | nil =>
    intro a ha
    simp [Nat.mod_eq_of_lt ha]
  | cons x xs ih =>
    intro a ha
    have hM : 0 < M := Nat.lt_of_le_of_lt (Nat.zero_le _) ha
    simp only [List.foldl_cons]
    by_cases hx : p x
    · rw [if_pos hx, ih _ (Nat.mod_lt _ hM)]
      simp only [List.filter_cons, hx, decide_True, if_true, List.map_cons, List.sum_cons]
      rw [Nat.add_mod, Nat.mod_mod, ← Nat.add_mod, Nat.add_assoc]
    · rw [if_neg hx, ih _ ha]
      simp [List.filter_cons, hx]

theorem offshore_fee_amount_eq (dsts : List tx_destination_entry) :
    offshore_fee_amount dsts
      = (((dsts.filter
            (fun dt => decide (dt.amount_usd ≠ 0 ∧ dt.is_collateral = false))).map
          (fun dt => dt.amount)).sum) % 2 ^ 64 := by
  unfold offshore_fee_amount
  rw [foldl_wrapping_sum (fun dt : tx_destination_entry =>
    dt.amount_usd ≠ 0 ∧ dt.is_collateral = false) (fun dt => dt.amount) (2 ^ 64) dsts 0
    (by norm_num)]
  simp

theorem onshore_fee_amount_eq (dsts : List tx_destination_entry) :
    onshore_fee_amount dsts
      = (((dsts.filter
            (fun dt => decide (dt.amount ≠ 0 ∧ dt.is_collateral = false))).map
          (fun dt => dt.amount_usd)).sum) % 2 ^ 64 := by
  unfold onshore_fee_amount
  rw [foldl_wrapping_sum (fun dt : tx_destination_entry =>
    dt.amount ≠ 0 ∧ dt.is_collateral = false) (fun dt => dt.amount_usd) (2 ^ 64) dsts 0
    (by norm_num)]
  simp

theorem xasset_to_xusd_fee_amount_eq (dsts : List tx_destination_entry) :
    xasset_to_xusd_fee_amount dsts
      = (((dsts.filter (fun dt => decide (dt.amount_usd ≠ 0))).map
          (fun dt => dt.amount_xasset)).sum) % 2 ^ 64 := by
  unfold xasset_to_xusd_fee_amount
  rw [foldl_wrapping_sum (fun dt : tx_destination_entry => dt.amount_usd ≠ 0)
    (fun dt => dt.amount_xasset) (2 ^ 64) dsts 0 (by norm_num)]
  simp

theorem xusd_to_xasset_fee_amount_eq (dsts : List tx_destination_entry) :
    xusd_to_xasset_fee_amount dsts
      = (((dsts.filter (fun dt => decide (dt.amount_xasset ≠ 0))).map
          (fun dt => dt.amount_usd)).sum) % 2 ^ 64 := by
  unfold xusd_to_xasset_fee_amount
  rw [foldl_wrapping_sum (fun dt : tx_destination_entry => dt.amount_xasset ≠ 0)
    (fun dt => dt.amount_usd) (2 ^ 64) dsts 0 (by norm_num)]
  simp

theorem xasset_fee_exact (A k : Nat) (hA : A < 2 ^ 64) (hk : k ≤ 15) :
    (A * k) % 2 ^ 128 / 1000 % 2 ^ 64 = A * k / 1000 := by
  have h1 : A * k < 2 ^ 128 := by
    have : A * k ≤ A * 15 := Nat.mul_le_mul_left _ hk
    have : 2 ^ 64 * 15 < 2 ^ 128 := by norm_num
    omega
  rw [Nat.mod_eq_of_lt h1]
  apply Nat.mod_eq_of_lt
  have : A * k / 1000 ≤ A * k / 15 := Nat.div_le_div_left (by norm_num) (by norm_num)
  have : A * k / 15 ≤ A := by
    apply Nat.div_le_of_le_mul
    calc A * k ≤ A * 15 := Nat.mul_le_mul_left _ hk
      _ = 15 * A := Nat.mul_comm _ _
  omega


/-! ### Claims on the fee functions -/

/-- C13. With `A` the amount a fee function has summed, and `3 * A` below
`2^64` for `get_offshore_fee` and `get_onshore_fee`: these two return
`⌊15 A / 1000⌋` (1.5 %) from `HF_VERSION_USE_COLLATERAL` on, `⌊5 A / 1000⌋`
(0.5 %) from `HF_PER_OUTPUT_UNLOCK_VERSION` up to it, and before both
`⌊A / 500⌋` for `unlock_time ≥ 5040`, `⌊A / 20⌋` from 1440, `⌊A / 10⌋` from 720
and `⌊A / 5⌋` below 720; `get_xasset_to_xusd_fee` and `get_xusd_to_xasset_fee`
return `⌊15 A / 1000⌋` from `HF_VERSION_USE_COLLATERAL` on, `⌊5 A / 1000⌋` from
`HF_VERSION_XASSET_FEES_V2` up to it, and `⌊3 A / 1000⌋` (0.3 %) before both. -/
theorem c13_fee_table (cfg : Config) (dsts : List tx_destination_entry)
    (unlock_time hf_version : Nat)
    (h_off : offshore_fee_amount dsts * 3 < 2 ^ 64)
    (h_on : onshore_fee_amount dsts * 3 < 2 ^ 64) :
    ((cfg.HF_VERSION_USE_COLLATERAL ≤ hf_version →
        get_offshore_fee cfg dsts unlock_time hf_version = offshore_fee_amount dsts * 15 / 1000
        ∧ get_onshore_fee cfg dsts unlock_time hf_version = onshore_fee_amount dsts * 15 / 1000)
      ∧ (cfg.HF_PER_OUTPUT_UNLOCK_VERSION ≤ hf_version →
          hf_version < cfg.HF_VERSION_USE_COLLATERAL →
        get_offshore_fee cfg dsts unlock_time hf_version = offshore_fee_amount dsts * 5 / 1000
        ∧ get_onshore_fee cfg dsts unlock_time hf_version = onshore_fee_amount dsts * 5 / 1000)
      ∧ (hf_version < cfg.HF_PER_OUTPUT_UNLOCK_VERSION →
          hf_version < cfg.HF_VERSION_USE_COLLATERAL →
        (5040 ≤ unlock_time →
          get_offshore_fee cfg dsts unlock_time hf_version = offshore_fee_amount dsts / 500
          ∧ get_onshore_fee cfg dsts unlock_time hf_version = onshore_fee_amount dsts / 500)
        ∧ (1440 ≤ unlock_time → unlock_time < 5040 →
          get_offshore_fee cfg dsts unlock_time hf_version = offshore_fee_amount dsts / 20
          ∧ get_onshore_fee cfg dsts unlock_time hf_version = onshore_fee_amount dsts / 20)
        ∧ (720 ≤ unlock_time → unlock_time < 1440 →
          get_offshore_fee cfg dsts unlock_time hf_version = offshore_fee_amount dsts / 10
          ∧ get_onshore_fee cfg dsts unlock_time hf_version = onshore_fee_amount dsts / 10)
        ∧ (unlock_time < 720 →
          get_offshore_fee cfg dsts unlock_time hf_version = offshore_fee_amount dsts / 5
          ∧ get_onshore_fee cfg dsts unlock_time hf_version = onshore_fee_amount dsts / 5)))
    ∧ ((cfg.HF_VERSION_USE_COLLATERAL ≤ hf_version →
        get_xasset_to_xusd_fee cfg dsts hf_version = xasset_to_xusd_fee_amount dsts * 15 / 1000
        ∧ get_xusd_to_xasset_fee cfg dsts hf_version
            = xusd_to_xasset_fee_amount dsts * 15 / 1000)
      ∧ (cfg.HF_VERSION_XASSET_FEES_V2 ≤ hf_version →
          hf_version < cfg.HF_VERSION_USE_COLLATERAL →
        get_xasset_to_xusd_fee cfg dsts hf_version = xasset_to_xusd_fee_amount dsts * 5 / 1000
        ∧ get_xusd_to_xasset_fee cfg dsts hf_version
            = xusd_to_xasset_fee_amount dsts * 5 / 1000)
      ∧ (hf_version < cfg.HF_VERSION_XASSET_FEES_V2 →
          hf_version < cfg.HF_VERSION_USE_COLLATERAL →
        get_xasset_to_xusd_fee cfg dsts hf_version = xasset_to_xusd_fee_amount dsts * 3 / 1000
        ∧ get_xusd_to_xasset_fee cfg dsts hf_version
            = xusd_to_xasset_fee_amount dsts * 3 / 1000)) := by
  have hx : xasset_to_xusd_fee_amount dsts < 2 ^ 64 := by
    rw [xasset_to_xusd_fee_amount_eq]; exact Nat.mod_lt _ (by norm_num)
  have hy : xusd_to_xasset_fee_amount dsts < 2 ^ 64 := by
    rw [xusd_to_xasset_fee_amount_eq]; exact Nat.mod_lt _ (by norm_num)
  have e_off : (offshore_fee_amount dsts * 3) % 2 ^ 64 / 200
      = offshore_fee_amount dsts * 15 / 1000 := by
    rw [Nat.mod_eq_of_lt h_off]; omega
  have e_on : (onshore_fee_amount dsts * 3) % 2 ^ 64 / 200
      = onshore_fee_amount dsts * 15 / 1000 := by
    rw [Nat.mod_eq_of_lt h_on]; omega
  refine ⟨⟨?_, ?_, ?_⟩, ⟨?_, ?_, ?_⟩⟩
  · intro h
    simp only [get_offshore_fee, get_onshore_fee, ge_iff_le, h, if_true]
    exact ⟨e_off, e_on⟩
  · intro h1 h2
    have h2' : ¬ cfg.HF_VERSION_USE_COLLATERAL ≤ hf_version := by omega
    simp only [get_offshore_fee, get_onshore_fee, ge_iff_le, h1, h2', if_true, if_false]
    constructor <;> omega
  · intro h1 h2
    have h1' : ¬ cfg.HF_PER_OUTPUT_UNLOCK_VERSION ≤ hf_version := by omega
    have h2' : ¬ cfg.HF_VERSION_USE_COLLATERAL ≤ hf_version := by omega
    simp only [get_offshore_fee, get_onshore_fee, ge_iff_le, h1', h2', if_false]
    refine ⟨?_, ?_, ?_, ?_⟩
    · intro h; simp only [h, if_true, and_self]
    · intro ha hb
      have : ¬ 5040 ≤ unlock_time := by omega
      simp only [this, ha, if_true, if_false, and_self]
    · intro ha hb
      have h5 : ¬ 5040 ≤ unlock_time := by omega
      have h4 : ¬ 1440 ≤ unlock_time := by omega
      simp only [h5, h4, ha, if_true, if_false, and_self]
    · intro ha
      have h5 : ¬ 5040 ≤ unlock_time := by omega
      have h4 : ¬ 1440 ≤ unlock_time := by omega
      have h3 : ¬ 720 ≤ unlock_time := by omega
      simp only [h5, h4, h3, if_false, and_self]
  · intro h
    simp only [get_xasset_to_xusd_fee, get_xusd_to_xasset_fee, ge_iff_le, h, if_true]
    exact ⟨xasset_fee_exact _ 15 hx (by norm_num), xasset_fee_exact _ 15 hy (by norm_num)⟩
  · intro h1 h2
    have h2' : ¬ cfg.HF_VERSION_USE_COLLATERAL ≤ hf_version := by omega
    simp only [get_xasset_to_xusd_fee, get_xusd_to_xasset_fee, ge_iff_le, h1, h2', if_true,
      if_false]
    exact ⟨xasset_fee_exact _ 5 hx (by norm_num), xasset_fee_exact _ 5 hy (by norm_num)⟩
  · intro h1 h2
    have h1' : ¬ cfg.HF_VERSION_XASSET_FEES_V2 ≤ hf_version := by omega
    have h2' : ¬ cfg.HF_VERSION_USE_COLLATERAL ≤ hf_version := by omega
    simp only [get_xasset_to_xusd_fee, get_xusd_to_xasset_fee, ge_iff_le, h1', h2', if_false]
    exact ⟨xasset_fee_exact _ 3 hx (by norm_num), xasset_fee_exact _ 3 hy (by norm_num)⟩


/-- Witness of C13: the destinations `ex_offshore_dsts` at hard fork 20. -/
theorem c13_fee_table_witness :
    offshore_fee_amount ex_offshore_dsts * 3 < 2 ^ 64
    ∧ onshore_fee_amount ex_offshore_dsts * 3 < 2 ^ 64
    ∧ (haven_config.HF_VERSION_USE_COLLATERAL ≤ 20 →
        get_offshore_fee haven_config ex_offshore_dsts 0 20
            = offshore_fee_amount ex_offshore_dsts * 15 / 1000
        ∧ get_onshore_fee haven_config ex_offshore_dsts 0 20
            = onshore_fee_amount ex_offshore_dsts * 15 / 1000)
    ∧ get_offshore_fee haven_config ex_offshore_dsts 0 20 = 15 :=
  ⟨by decide, by decide,
    (c13_fee_table haven_config ex_offshore_dsts 0 20 (by decide) (by decide)).1.1,
    by decide⟩

/-- C14 (the 64-bit product of the offshore and onshore fee wraps). At hard
fork 20 and a converted amount of `2^63`, `get_offshore_fee` and
`get_onshore_fee` return 46116860184273879, because `amount * 3` is reduced
modulo `2^64` before the division, where `⌊3 · 2^63 / 200⌋` is
138350580552821637; `get_xasset_to_xusd_fee` and `get_xusd_to_xasset_fee`, which
form the product in 128 bits, return the exact floor for every summed amount. -/
theorem c14_offshore_fee_wraps (cfg : Config) (dsts : List tx_destination_entry)
    (hf_version : Nat) :
    (get_offshore_fee haven_config [ex_destination (2 ^ 63) 1 0 false] 0 20
        = 46116860184273879
      ∧ 3 * 2 ^ 63 / 200 = 138350580552821637
      ∧ get_onshore_fee haven_config [ex_destination 1 (2 ^ 63) 0 false] 0 20
        = 46116860184273879)
    ∧ (get_xasset_to_xusd_fee cfg dsts hf_version
        = if hf_version ≥ cfg.HF_VERSION_USE_COLLATERAL
            then xasset_to_xusd_fee_amount dsts * 15 / 1000
          else if hf_version ≥ cfg.HF_VERSION_XASSET_FEES_V2
            then xasset_to_xusd_fee_amount dsts * 5 / 1000
          else xasset_to_xusd_fee_amount dsts * 3 / 1000)
    ∧ (get_xusd_to_xasset_fee cfg dsts hf_version
        = if hf_version ≥ cfg.HF_VERSION_USE_COLLATERAL
            then xusd_to_xasset_fee_amount dsts * 15 / 1000
          else if hf_version ≥ cfg.HF_VERSION_XASSET_FEES_V2
            then xusd_to_xasset_fee_amount dsts * 5 / 1000
          else xusd_to_xasset_fee_amount dsts * 3 / 1000) := by
  have hx : xasset_to_xusd_fee_amount dsts < 2 ^ 64 := by
    rw [xasset_to_xusd_fee_amount_eq]; exact Nat.mod_lt _ (by norm_num)
  have hy : xusd_to_xasset_fee_amount dsts < 2 ^ 64 := by
    rw [xusd_to_xasset_fee_amount_eq]; exact Nat.mod_lt _ (by norm_num)
  refine ⟨⟨by decide, by norm_num, by decide⟩, ?_, ?_⟩
  · unfold get_xasset_to_xusd_fee
    simp only [xasset_fee_exact _ 15 hx (by norm_num), xasset_fee_exact _ 5 hx (by norm_num),
      xasset_fee_exact _ 3 hx (by norm_num)]
  · unfold get_xusd_to_xasset_fee
    simp only [xasset_fee_exact _ 15 hy (by norm_num), xasset_fee_exact _ 5 hy (by norm_num),
      xasset_fee_exact _ 3 hy (by norm_num)]

/-- C15, counterexample. A destination flagged `is_collateral` whose
converted-side amount is not zero is counted by `get_xasset_to_xusd_fee` and by
`get_xusd_to_xasset_fee`: alone it gives the summed amount 1000 and the fee 15
at hard fork 20. -/
theorem c15_counterexample :
    (ex_destination 0 5 1000 true).is_collateral = true
    ∧ xasset_to_xusd_fee_amount [ex_destination 0 5 1000 true] = 1000
    ∧ get_xasset_to_xusd_fee haven_config [ex_destination 0 5 1000 true] 20 = 15
    ∧ xusd_to_xasset_fee_amount [ex_destination 0 1000 5 true] = 1000
    ∧ get_xusd_to_xasset_fee haven_config [ex_destination 0 1000 5 true] 20 = 15 := by
  decide

/-- C15, amended. The amount each fee function sums is the sum, kept in a
`uint64_t`, of the pre-conversion amounts of the destinations it selects, each
once: `get_offshore_fee` sums `amount` over the destinations with
`amount_usd ≠ 0` that are not flagged `is_collateral`, `get_onshore_fee` sums
`amount_usd` over those with `amount ≠ 0` that are not flagged `is_collateral`,
`get_xasset_to_xusd_fee` sums `amount_xasset` over those with `amount_usd ≠ 0`
and `get_xusd_to_xasset_fee` sums `amount_usd` over those with
`amount_xasset ≠ 0`, the last two whatever `is_collateral` says. -/
theorem c15_fee_amounts (dsts : List tx_destination_entry) :
    offshore_fee_amount dsts
      = (((dsts.filter
            (fun dt => decide (dt.amount_usd ≠ 0 ∧ dt.is_collateral = false))).map
          (fun dt => dt.amount)).sum) % 2 ^ 64
    ∧ onshore_fee_amount dsts
      = (((dsts.filter
            (fun dt => decide (dt.amount ≠ 0 ∧ dt.is_collateral = false))).map
          (fun dt => dt.amount_usd)).sum) % 2 ^ 64
    ∧ xasset_to_xusd_fee_amount dsts
      = (((dsts.filter (fun dt => decide (dt.amount_usd ≠ 0))).map
          (fun dt => dt.amount_xasset)).sum) % 2 ^ 64
    ∧ xusd_to_xasset_fee_amount dsts
      = (((dsts.filter (fun dt => decide (dt.amount_xasset ≠ 0))).map
          (fun dt => dt.amount_usd)).sum) % 2 ^ 64 :=
  ⟨offshore_fee_amount_eq dsts, onshore_fee_amount_eq dsts, xasset_to_xusd_fee_amount_eq dsts,
    xusd_to_xasset_fee_amount_eq dsts⟩

/-- C16. Each of the four fee functions returns 0 when the amount it has summed
is 0, for every hard-fork version and `unlock_time`, and two calls with equal
destinations, `unlock_time` and `hf_version` return the same fee. -/
theorem c16_fee_zero_and_pure (cfg : Config) (dsts : List tx_destination_entry)
    (unlock_time hf_version : Nat) :
    (offshore_fee_amount dsts = 0 → get_offshore_fee cfg dsts unlock_time hf_version = 0)
    ∧ (onshore_fee_amount dsts = 0 → get_onshore_fee cfg dsts unlock_time hf_version = 0)
    ∧ (xasset_to_xusd_fee_amount dsts = 0 → get_xasset_to_xusd_fee cfg dsts hf_version = 0)
    ∧ (xusd_to_xasset_fee_amount dsts = 0 → get_xusd_to_xasset_fee cfg dsts hf_version = 0)
    ∧ (∀ dsts' unlock_time' hf_version', dsts' = dsts → unlock_time' = unlock_time →
        hf_version' = hf_version →
        get_offshore_fee cfg dsts' unlock_time' hf_version'
            = get_offshore_fee cfg dsts unlock_time hf_version
        ∧ get_onshore_fee cfg dsts' unlock_time' hf_version'
            = get_onshore_fee cfg dsts unlock_time hf_version
        ∧ get_xasset_to_xusd_fee cfg dsts' hf_version'
            = get_xasset_to_xusd_fee cfg dsts hf_version
        ∧ get_xusd_to_xasset_fee cfg dsts' hf_version'
            = get_xusd_to_xasset_fee cfg dsts hf_version) := by
  refine ⟨?_, ?_, ?_, ?_, ?_⟩
  · intro h
    unfold get_offshore_fee
    rw [h]
    split_ifs <;> rfl
  · intro h
    unfold get_onshore_fee
    rw [h]
    split_ifs <;> rfl
  · intro h
    unfold get_xasset_to_xusd_fee
    rw [h]
    split_ifs <;> rfl
  · intro h
    unfold get_xusd_to_xasset_fee
    rw [h]
    split_ifs <;> rfl
  · rintro dsts' ul' hf' rfl rfl rfl
    exact ⟨rfl, rfl, rfl, rfl⟩


/-! ### Claim on the pricing-record window -/

/-- C17 (the window test wraps below the window). For a current height of at
least `PRICING_RECORD_VALID_BLOCKS`, `tx_pr_height_valid` returns true exactly
when `pr_height < current_height` and either `current_height - pr_height ≤
PRICING_RECORD_VALID_BLOCKS` or the id is the exception id; for a current height
below `PRICING_RECORD_VALID_BLOCKS` the `uint64_t` difference
`current_height - PRICING_RECORD_VALID_BLOCKS` wraps and the function returns
false for every id but the exception, as for `current_height = 5`,
`pr_height = 4` with the window 10. -/
theorem c17_pr_height_window (cfg : Config) (current_height pr_height : Nat) (tx_hash : hash) :
    (cfg.PRICING_RECORD_VALID_BLOCKS ≤ current_height → current_height < 2 ^ 64 →
      (tx_pr_height_valid cfg current_height pr_height tx_hash = true ↔
        pr_height < current_height
          ∧ (current_height - pr_height ≤ cfg.PRICING_RECORD_VALID_BLOCKS
            ∨ pod_to_hex tx_hash = pr_height_exception_tx)))
    ∧ (current_height < cfg.PRICING_RECORD_VALID_BLOCKS →
        cfg.PRICING_RECORD_VALID_BLOCKS < 2 ^ 64 →
        pod_to_hex tx_hash ≠ pr_height_exception_tx →
        tx_pr_height_valid cfg current_height pr_height tx_hash = false)
    ∧ (tx_pr_height_valid haven_config 5 4 ex_txid = false
        ∧ 4 < 5 ∧ 5 - 4 ≤ haven_config.PRICING_RECORD_VALID_BLOCKS) := by
  refine ⟨?_, ?_, ?_⟩
  · intro hw hc
    have hW : cfg.PRICING_RECORD_VALID_BLOCKS % 2 ^ 64 = cfg.PRICING_RECORD_VALID_BLOCKS :=
      Nat.mod_eq_of_lt (by omega)
    have hsub : (current_height + 2 ^ 64 - cfg.PRICING_RECORD_VALID_BLOCKS % 2 ^ 64) % 2 ^ 64
        = current_height - cfg.PRICING_RECORD_VALID_BLOCKS := by
      rw [hW]
      have : current_height + 2 ^ 64 - cfg.PRICING_RECORD_VALID_BLOCKS
          = (current_height - cfg.PRICING_RECORD_VALID_BLOCKS) + 2 ^ 64 := by omega
      rw [this, Nat.add_mod_right]
      exact Nat.mod_eq_of_lt (by omega)
    unfold tx_pr_height_valid
    rw [hsub]
    by_cases h1 : pr_height ≥ current_height
    · rw [if_pos h1]
      simp only [Bool.false_eq_true, false_iff, not_and]
      intro h; omega
    · rw [if_neg h1]
      by_cases h2 : current_height - cfg.PRICING_RECORD_VALID_BLOCKS > pr_height
      · rw [if_pos h2]
        by_cases h3 : pod_to_hex tx_hash ≠ pr_height_exception_tx
        · rw [if_pos h3]
          simp only [Bool.false_eq_true, false_iff, not_and, not_or]
          intro _
          exact ⟨by omega, h3⟩
        · rw [if_neg h3]
          simp only [true_iff]
          exact ⟨by omega, Or.inr (not_not.mp h3)⟩
      · rw [if_neg h2]
        simp only [true_iff]
        exact ⟨by omega, Or.inl (by omega)⟩
  · intro hw hW hne
    unfold tx_pr_height_valid
    by_cases h1 : pr_height ≥ current_height
    · rw [if_pos h1]
    · rw [if_neg h1]
      have hmod : cfg.PRICING_RECORD_VALID_BLOCKS % 2 ^ 64 = cfg.PRICING_RECORD_VALID_BLOCKS :=
        Nat.mod_eq_of_lt hW
      have h2 : (current_height + 2 ^ 64 - cfg.PRICING_RECORD_VALID_BLOCKS % 2 ^ 64) % 2 ^ 64
          > pr_height := by
        rw [hmod, Nat.mod_eq_of_lt (by omega)]
        omega
      rw [if_pos h2, if_pos hne]
  · decide


/-! ### Claims on the conversion amounts -/

/-- C18, counterexample. The result is cut to 64 bits: for `2^63` atomic units
of XHV at a rate of 4 XUSD per XHV `get_xusd_amount` returns 0 where
`⌊amount · rate / 10^12⌋` is `2^65`, and for `10^15` atomic units of an xAsset
with the rate `2 · 10^7` it returns 13106511852580896768 where
`⌊amount · 10^12 / rate⌋` is `5 · 10^19`. -/
theorem c18_counterexample :
    get_xusd_amount haven_config (2 ^ 63) "XHV" ex_pricing_record_high .OFFSHORE 20 = .ok 0
    ∧ 2 ^ 63 * min ex_pricing_record_high.unused1 ex_pricing_record_high.xUSD / 1000000000000
        = 2 ^ 65
    ∧ get_xusd_amount haven_config 1000000000000000 "XBTC" ex_pricing_record .OFFSHORE 20
        = .ok 13106511852580896768
    ∧ 1000000000000000 * 1000000000000 / ex_pricing_record.get "XBTC" = 50000000000000000000 := by
  refine ⟨rfl, by decide, rfl, by decide⟩

/-- C18, amended. For 64-bit arguments `get_xusd_amount` returns the amount
unchanged when the tag is XUSD; when the tag is XHV it returns
`⌊amount · rate / 10^12⌋` reduced modulo `2^64`, where from
`HF_PER_OUTPUT_UNLOCK_VERSION` on the rate is `max(ma, spot)` for an onshore and
`min(ma, spot)` otherwise and before it the raw moving-average field; for any
other tag with a non-zero rate it returns `⌊amount · 10^12 / rate⌋` reduced
modulo `2^64`. The products are the exact ones (formed in 128 bits). -/
theorem c18_get_xusd_amount (cfg : Config) (amount : Nat) (amount_asset_type : String)
    (pr : pricing_record) (tx_type : transaction_type) (hf_version : Nat)
    (hamount : amount < 2 ^ 64) (hma : pr.unused1 < 2 ^ 64) (hspot : pr.xUSD < 2 ^ 64)
    (hrate : pr.get amount_asset_type < 2 ^ 64) :
    (amount_asset_type = "XUSD" →
      get_xusd_amount cfg amount amount_asset_type pr tx_type hf_version = .ok amount)
    ∧ (amount_asset_type = "XHV" → hf_version ≥ cfg.HF_PER_OUTPUT_UNLOCK_VERSION →
        tx_type = .ONSHORE →
      get_xusd_amount cfg amount amount_asset_type pr tx_type hf_version
        = .ok (amount * max pr.unused1 pr.xUSD / 10 ^ 12 % 2 ^ 64))
    ∧ (amount_asset_type = "XHV" → hf_version ≥ cfg.HF_PER_OUTPUT_UNLOCK_VERSION →
        tx_type ≠ .ONSHORE →
      get_xusd_amount cfg amount amount_asset_type pr tx_type hf_version
        = .ok (amount * min pr.unused1 pr.xUSD / 10 ^ 12 % 2 ^ 64))
    ∧ (amount_asset_type = "XHV" → hf_version < cfg.HF_PER_OUTPUT_UNLOCK_VERSION →
      get_xusd_amount cfg amount amount_asset_type pr tx_type hf_version
        = .ok (amount * pr.unused1 / 10 ^ 12 % 2 ^ 64))
    ∧ (amount_asset_type ≠ "XUSD" → amount_asset_type ≠ "XHV" →
        pr.get amount_asset_type ≠ 0 →
      get_xusd_amount cfg amount amount_asset_type pr tx_type hf_version
        = .ok (amount * 10 ^ 12 / pr.get amount_asset_type % 2 ^ 64)) := by
  have hne : ("XHV" : String) ≠ "XUSD" := by decide
  have hprod : ∀ r, r < 2 ^ 64 → (amount * r) % 2 ^ 128 = amount * r := by
    intro r hr
    apply Nat.mod_eq_of_lt
    calc amount * r < 2 ^ 64 * 2 ^ 64 := Nat.mul_lt_mul'' hamount hr
      _ = 2 ^ 128 := by norm_num
  have hmax : max pr.unused1 pr.xUSD < 2 ^ 64 := max_lt hma hspot
  have hmin : min pr.unused1 pr.xUSD < 2 ^ 64 := lt_of_le_of_lt (min_le_left _ _) hma
  have hD : (1000000000000 : Nat) = 10 ^ 12 := by norm_num
  refine ⟨?_, ?_, ?_, ?_, ?_⟩
  · intro h
    rw [get_xusd_amount, if_pos h]
  · intro h hhf ht
    subst h
    rw [get_xusd_amount, if_neg hne]
    simp only [if_true, hhf, directional_rate, ht, hprod _ hmax, hD]
  · intro h hhf ht
    subst h
    rw [get_xusd_amount, if_neg hne]
    simp only [if_true, hhf, directional_rate, ht, if_false, hprod _ hmin, hD]
  · intro h hhf
    subst h
    have hhf' : ¬ hf_version ≥ cfg.HF_PER_OUTPUT_UNLOCK_VERSION := by omega
    rw [get_xusd_amount, if_neg hne]
    simp only [if_true, hhf', if_false, pricing_record.get, hprod _ hma, hD]
  · intro h1 h2 h3
    rw [get_xusd_amount, if_neg h1]
    simp only [h2, if_false, h3, hD]
    rw [hprod (10 ^ 12) (by norm_num)]


/-- Witness of C18: one XHV (`10^12` atomic units) offshore at hard fork 20
with `ex_pricing_record` gives 0.25 XUSD. -/
theorem c18_get_xusd_amount_witness :
    1000000000000 < 2 ^ 64
    ∧ ex_pricing_record.unused1 < 2 ^ 64
    ∧ ex_pricing_record.xUSD < 2 ^ 64
    ∧ ex_pricing_record.get "XHV" < 2 ^ 64
    ∧ get_xusd_amount haven_config 1000000000000 "XHV" ex_pricing_record .OFFSHORE 20
        = .ok (1000000000000 * min ex_pricing_record.unused1 ex_pricing_record.xUSD
            / 10 ^ 12 % 2 ^ 64)
    ∧ get_xusd_amount haven_config 1000000000000 "XHV" ex_pricing_record .OFFSHORE 20
        = .ok 250000000000 :=
  ⟨by decide, by decide, by decide, by decide,
    (c18_get_xusd_amount haven_config 1000000000000 "XHV" ex_pricing_record .OFFSHORE 20
      (by decide) (by decide) (by decide) (by decide)).2.2.1 rfl (by decide) (by decide),
    rfl⟩

/-- The rate chosen by `directional_rate` is non-zero and below `2^64` when
both fields of the record are. -/
theorem directional_rate_bounds (pr : pricing_record) (tx_type : transaction_type)
    (hma0 : pr.unused1 ≠ 0) (hspot0 : pr.xUSD ≠ 0)
    (hma : pr.unused1 < 2 ^ 64) (hspot : pr.xUSD < 2 ^ 64) :
    directional_rate pr tx_type ≠ 0 ∧ directional_rate pr tx_type < 2 ^ 64 := by
  unfold directional_rate
  by_cases h : tx_type = transaction_type.ONSHORE
  · rw [if_pos h]
    exact ⟨by
      have := le_max_left pr.unused1 pr.xUSD
      omega, max_lt hma hspot⟩
  · rw [if_neg h]
    refine ⟨?_, lt_of_le_of_lt (min_le_left _ _) hma⟩
    rcases min_choice pr.unused1 pr.xUSD with h1 | h1 <;> rw [h1] <;> assumption

/-- Integer fact behind the round trip: scaling `a` by `r / D` and back by
`D / r`, both rounded down, loses at most `⌈D / r⌉`. -/
theorem round_trip_bound (a r D : Nat) (hr : 0 < r) (hD : 0 < D) :
    a * r / D * D / r ≤ a ∧ a - a * r / D * D / r ≤ (D + r - 1) / r := by
  have h1 : a * r / D * D ≤ a * r := Nat.div_mul_le_self _ _
  have hb : a * r / D * D / r ≤ a := by
    apply Nat.div_le_of_le_mul
    rw [Nat.mul_comm r a]
    exact h1
  refine ⟨hb, ?_⟩
  have h2 : a * r < D * (a * r / D + 1) := Nat.lt_mul_div_succ _ hD
  have h3 : a * r / D * D < r * (a * r / D * D / r + 1) := Nat.lt_mul_div_succ _ hr
  have h4 : D + r - 1 < r * ((D + r - 1) / r + 1) := Nat.lt_mul_div_succ _ hr
  have h5 : D ≤ r * ((D + r - 1) / r) := by
    rw [Nat.mul_add, Nat.mul_one] at h4
    omega
  have h6 : a * r < r * (a * r / D * D / r + 1 + (D + r - 1) / r) := by
    rw [Nat.mul_add r]
    rw [Nat.mul_add D, Nat.mul_one, Nat.mul_comm D] at h2
    omega
  have h7 : a < a * r / D * D / r + 1 + (D + r - 1) / r := by
    by_contra hcon
    have h8 : r * (a * r / D * D / r + 1 + (D + r - 1) / r) ≤ r * a :=
      Nat.mul_le_mul_left r (Nat.le_of_not_lt hcon)
    rw [Nat.mul_comm r a] at h8
    exact absurd h6 (Nat.not_lt.mpr h8)
  omega

/-- C19. From `HF_PER_OUTPUT_UNLOCK_VERSION` on, for a pricing record with
non-zero 64-bit `ma` and spot, every transaction type and every 64-bit amount
`a` of XHV whose XUSD value fits in 64 bits, `get_xusd_amount` and then
`get_xhv_amount` both succeed with the same directional rate and give `b` with
`b ≤ a` and `a - b ≤ ⌈10^12 / rate⌉`; and for every tag other than XHV and XUSD
with a non-zero 64-bit rate, `get_xasset_amount` followed by `get_xusd_amount`
succeeds with a result not above the starting amount. When the xAsset value of
`x` fits in 64 bits, `get_xasset_amount` gives `⌊x * rate / 10^12⌋`, the way
back gives `y = ⌊⌊x * rate / 10^12⌋ * 10^12 / rate⌋`, and
`x - y ≤ ⌈10^12 / rate⌉` with the rate of the tag. -/
theorem c19_conversion_round_trip (cfg : Config) (a : Nat) (pr : pricing_record)
    (tx_type : transaction_type) (hf_version : Nat)
    (hhf : hf_version ≥ cfg.HF_PER_OUTPUT_UNLOCK_VERSION)
    (hma0 : pr.unused1 ≠ 0) (hspot0 : pr.xUSD ≠ 0)
    (ha : a < 2 ^ 64) (hma : pr.unused1 < 2 ^ 64) (hspot : pr.xUSD < 2 ^ 64)
    (hfit : a * directional_rate pr tx_type / 10 ^ 12 < 2 ^ 64) :
    (∃ u b, get_xusd_amount cfg a "XHV" pr tx_type hf_version = .ok u
      ∧ get_xhv_amount cfg u pr tx_type hf_version = .ok b
      ∧ b ≤ a
      ∧ a - b ≤ (10 ^ 12 + directional_rate pr tx_type - 1) / directional_rate pr tx_type)
    ∧ (∀ x A, x < 2 ^ 64 → A ≠ "XHV" → A ≠ "XUSD" → pr.get A ≠ 0 → pr.get A < 2 ^ 64 →
        ∃ y, get_xusd_amount cfg (get_xasset_amount x A pr) A pr tx_type hf_version = .ok y
          ∧ y ≤ x)
    ∧ (∀ x A, x < 2 ^ 64 → A ≠ "XHV" → A ≠ "XUSD" → pr.get A ≠ 0 → pr.get A < 2 ^ 64 →
        x * pr.get A / 10 ^ 12 < 2 ^ 64 →
        get_xasset_amount x A pr = x * pr.get A / 10 ^ 12
        ∧ get_xusd_amount cfg (get_xasset_amount x A pr) A pr tx_type hf_version
            = .ok (x * pr.get A / 10 ^ 12 * 10 ^ 12 / pr.get A)
        ∧ x * pr.get A / 10 ^ 12 * 10 ^ 12 / pr.get A ≤ x
        ∧ x - x * pr.get A / 10 ^ 12 * 10 ^ 12 / pr.get A
            ≤ (10 ^ 12 + pr.get A - 1) / pr.get A) := by
  have hne : ("XHV" : String) ≠ "XUSD" := by decide
  have hD : (1000000000000 : Nat) = 10 ^ 12 := by norm_num
  obtain ⟨hr0, hr⟩ := directional_rate_bounds pr tx_type hma0 hspot0 hma hspot
  refine ⟨?_, ?_, ?_⟩
  · have hprod : (a * directional_rate pr tx_type) % 2 ^ 128 = a * directional_rate pr tx_type := by
      apply Nat.mod_eq_of_lt
      calc a * directional_rate pr tx_type < 2 ^ 64 * 2 ^ 64 := Nat.mul_lt_mul'' ha hr
        _ = 2 ^ 128 := by norm_num
    obtain ⟨hb, hdiff⟩ := round_trip_bound a (directional_rate pr tx_type) (10 ^ 12)
      (Nat.pos_of_ne_zero hr0) (by norm_num)
    have hprod2 : (a * directional_rate pr tx_type / 10 ^ 12 * 10 ^ 12) % 2 ^ 128
        = a * directional_rate pr tx_type / 10 ^ 12 * 10 ^ 12 := by
      apply Nat.mod_eq_of_lt
      calc a * directional_rate pr tx_type / 10 ^ 12 * 10 ^ 12 < 2 ^ 64 * 2 ^ 64 :=
            Nat.mul_lt_mul'' hfit (by norm_num)
        _ = 2 ^ 128 := by norm_num
    refine ⟨a * directional_rate pr tx_type / 10 ^ 12,
      a * directional_rate pr tx_type / 10 ^ 12 * 10 ^ 12 / directional_rate pr tx_type,
      ?_, ?_, hb, hdiff⟩
    · rw [get_xusd_amount, if_neg hne]
      simp only [if_true, hhf, hprod, hD, Nat.mod_eq_of_lt hfit]
    · rw [get_xhv_amount]
      simp only [if_true, hhf, hD, hprod2, hr0, if_false]
      rw [Nat.mod_eq_of_lt (by omega)]
  · intro x A hx hA1 hA2 hp0 hp
    have hprod : (x * pr.get A) % 2 ^ 128 = x * pr.get A := by
      apply Nat.mod_eq_of_lt
      calc x * pr.get A < 2 ^ 64 * 2 ^ 64 := Nat.mul_lt_mul'' hx hp
        _ = 2 ^ 128 := by norm_num
    have hy0 : get_xasset_amount x A pr ≤ x * pr.get A / 10 ^ 12 := by
      unfold get_xasset_amount
      simp only [hprod, hD]
      exact Nat.mod_le _ _
    refine ⟨(get_xasset_amount x A pr * 10 ^ 12) % 2 ^ 128 / pr.get A % 2 ^ 64, ?_, ?_⟩
    · rw [get_xusd_amount, if_neg hA2]
      simp only [hA1, if_false, hp0, hD]
    · calc (get_xasset_amount x A pr * 10 ^ 12) % 2 ^ 128 / pr.get A % 2 ^ 64
          ≤ (get_xasset_amount x A pr * 10 ^ 12) % 2 ^ 128 / pr.get A := Nat.mod_le _ _
        _ ≤ get_xasset_amount x A pr * 10 ^ 12 / pr.get A :=
            Nat.div_le_div_right (Nat.mod_le _ _)
        _ ≤ x * pr.get A / 10 ^ 12 * 10 ^ 12 / pr.get A :=
            Nat.div_le_div_right (Nat.mul_le_mul_right _ hy0)
        _ ≤ x * pr.get A / pr.get A := Nat.div_le_div_right (Nat.div_mul_le_self _ _)
        _ = x := Nat.mul_div_cancel _ (Nat.pos_of_ne_zero hp0)
  · intro x A hx hA1 hA2 hp0 hp hfit2
    have hprod : (x * pr.get A) % 2 ^ 128 = x * pr.get A := by
      apply Nat.mod_eq_of_lt
      calc x * pr.get A < 2 ^ 64 * 2 ^ 64 := Nat.mul_lt_mul'' hx hp
        _ = 2 ^ 128 := by norm_num
    have hxa : get_xasset_amount x A pr = x * pr.get A / 10 ^ 12 := by
      unfold get_xasset_amount
      simp only [hprod, hD]
      exact Nat.mod_eq_of_lt hfit2
    obtain ⟨hb, hdiff⟩ := round_trip_bound x (pr.get A) (10 ^ 12)
      (Nat.pos_of_ne_zero hp0) (by norm_num)
    have hprod2 : (x * pr.get A / 10 ^ 12 * 10 ^ 12) % 2 ^ 128
        = x * pr.get A / 10 ^ 12 * 10 ^ 12 := by
      apply Nat.mod_eq_of_lt
      calc x * pr.get A / 10 ^ 12 * 10 ^ 12 < 2 ^ 64 * 2 ^ 64 :=
            Nat.mul_lt_mul'' hfit2 (by norm_num)
        _ = 2 ^ 128 := by norm_num
    refine ⟨hxa, ?_, hb, hdiff⟩
    rw [hxa, get_xusd_amount, if_neg hA2]
    simp only [hA1, if_false, hp0, hD, hprod2]
    rw [Nat.mod_eq_of_lt (by omega)]

/-- Witness of C19: 1000000000007 atomic units of XHV offshore at hard fork 20
with `ex_pricing_record` become 250000000001 units of XUSD and come back as
1000000000004; 1000000000007 units of XUSD become 20000000 units of XBTC at
the rate `0.00002` and come back as 1000000000000. -/
theorem c19_conversion_round_trip_witness :
    (20 ≥ haven_config.HF_PER_OUTPUT_UNLOCK_VERSION
      ∧ ex_pricing_record.unused1 ≠ 0 ∧ ex_pricing_record.xUSD ≠ 0
      ∧ 1000000000007 < 2 ^ 64
      ∧ ex_pricing_record.unused1 < 2 ^ 64 ∧ ex_pricing_record.xUSD < 2 ^ 64
      ∧ 1000000000007 * directional_rate ex_pricing_record .OFFSHORE / 10 ^ 12 < 2 ^ 64)
    ∧ ((∃ u b, get_xusd_amount haven_config 1000000000007 "XHV" ex_pricing_record .OFFSHORE 20
            = .ok u
          ∧ get_xhv_amount haven_config u ex_pricing_record .OFFSHORE 20 = .ok b
          ∧ b ≤ 1000000000007
          ∧ 1000000000007 - b ≤ (10 ^ 12 + directional_rate ex_pricing_record .OFFSHORE - 1)
              / directional_rate ex_pricing_record .OFFSHORE)
      ∧ (∀ x A, x < 2 ^ 64 → A ≠ "XHV" → A ≠ "XUSD" → ex_pricing_record.get A ≠ 0 →
          ex_pricing_record.get A < 2 ^ 64 →
          ∃ y, get_xusd_amount haven_config (get_xasset_amount x A ex_pricing_record) A
              ex_pricing_record .OFFSHORE 20 = .ok y ∧ y ≤ x)
      ∧ (∀ x A, x < 2 ^ 64 → A ≠ "XHV" → A ≠ "XUSD" → ex_pricing_record.get A ≠ 0 →
          ex_pricing_record.get A < 2 ^ 64 →
          x * ex_pricing_record.get A / 10 ^ 12 < 2 ^ 64 →
          get_xasset_amount x A ex_pricing_record = x * ex_pricing_record.get A / 10 ^ 12
          ∧ get_xusd_amount haven_config (get_xasset_amount x A ex_pricing_record) A
              ex_pricing_record .OFFSHORE 20
              = .ok (x * ex_pricing_record.get A / 10 ^ 12 * 10 ^ 12 / ex_pricing_record.get A)
          ∧ x * ex_pricing_record.get A / 10 ^ 12 * 10 ^ 12 / ex_pricing_record.get A ≤ x
          ∧ x - x * ex_pricing_record.get A / 10 ^ 12 * 10 ^ 12 / ex_pricing_record.get A
              ≤ (10 ^ 12 + ex_pricing_record.get A - 1) / ex_pricing_record.get A))
    ∧ get_xusd_amount haven_config 1000000000007 "XHV" ex_pricing_record .OFFSHORE 20
        = .ok 250000000001
    ∧ get_xhv_amount haven_config 250000000001 ex_pricing_record .OFFSHORE 20
        = .ok 1000000000004
    ∧ get_xasset_amount 1000000000007 "XBTC" ex_pricing_record = 20000000
    ∧ get_xusd_amount haven_config 20000000 "XBTC" ex_pricing_record .XASSET_TO_XUSD 20
        = .ok 1000000000000
    ∧ (10 ^ 12 + ex_pricing_record.get "XBTC" - 1) / ex_pricing_record.get "XBTC" = 50000 :=
  ⟨⟨by decide, by decide, by decide, by decide, by decide, by decide, by decide⟩,
    c19_conversion_round_trip haven_config 1000000000007 ex_pricing_record .OFFSHORE 20
      (by decide) (by decide) (by decide) (by decide) (by decide) (by decide) (by decide),
    rfl, rfl, rfl, rfl, by decide⟩

/-! ### Claims on the collateral requirement -/

/-- The supply loop of `get_collateral_requirements` runs to its end when every
asset other than XHV has a non-zero rate. -/
theorem mcap_xassets_loop_ok (cfg : Config) (pr : pricing_record)
    (amounts : List (String × Nat))
    (hrates : ∀ i ∈ amounts, i.1 ≠ "XHV" → pr.get i.1 ≠ 0) :
    ∀ acc, ∃ m, mcap_xassets_loop cfg pr amounts acc = .ok m := by
  induction amounts with
  | nil => intro acc; exact ⟨acc, rfl⟩
  | cons i rest ih =>
    intro acc
    have ih' := ih (fun j hj => hrates j (List.mem_cons_of_mem _ hj))
    rw [mcap_xassets_loop]
    by_cases hx : i.1 = "XHV"
    · rw [if_pos hx]; exact ih' _
    · rw [if_neg hx]
      simp only [hrates i (List.mem_cons_self _ _) hx, if_false]
      exact ih' _

/-- C20. For the types TRANSFER, OFFSHORE_TRANSFER, XASSET_TRANSFER,
XUSD_TO_XASSET and XASSET_TO_XUSD, `get_collateral_requirements` succeeds with
collateral 0, for every amount, every value of the floating-point part and every
supply list whose assets other than XHV have a non-zero rate (`COIN` being a
non-zero 64-bit constant). -/
theorem c20_no_collateral (cfg : Config) (vbs : transaction_type → Nat → Nat → Nat → Nat)
    (tx_type : transaction_type) (amount : Nat) (pr : pricing_record)
    (amounts : List (String × Nat))
    (htype : tx_type = .TRANSFER ∨ tx_type = .OFFSHORE_TRANSFER ∨ tx_type = .XASSET_TRANSFER
      ∨ tx_type = .XUSD_TO_XASSET ∨ tx_type = .XASSET_TO_XUSD)
    (hrates : ∀ i ∈ amounts, i.1 ≠ "XHV" → pr.get i.1 ≠ 0)
    (hcoin : 0 < cfg.COIN) (hcoin64 : cfg.COIN < 2 ^ 64) :
    get_collateral_requirements cfg vbs tx_type amount pr amounts = .ok 0 := by
  obtain ⟨m, hm⟩ := mcap_xassets_loop_ok cfg pr amounts hrates 0
  have hc : ¬ cfg.COIN % 2 ^ 128 = 0 := by
    rw [Nat.mod_eq_of_lt (by omega)]; omega
  unfold get_collateral_requirements
  simp only [hm, hc, if_false]
  rcases htype with h | h | h | h | h <;> subst h <;> simp


/-- Witness of C20: a transfer of ten coins against `ex_supply` needs no
collateral. -/
theorem c20_no_collateral_witness :
    ((transaction_type.TRANSFER = .TRANSFER ∨ transaction_type.TRANSFER = .OFFSHORE_TRANSFER
        ∨ transaction_type.TRANSFER = .XASSET_TRANSFER
        ∨ transaction_type.TRANSFER = .XUSD_TO_XASSET
        ∨ transaction_type.TRANSFER = .XASSET_TO_XUSD)
      ∧ (∀ i ∈ ex_supply, i.1 ≠ "XHV" → ex_pricing_record.get i.1 ≠ 0)
      ∧ 0 < haven_config.COIN ∧ haven_config.COIN < 2 ^ 64)
    ∧ get_collateral_requirements haven_config (fun _ _ _ _ => 0) .TRANSFER 10000000000000
        ex_pricing_record ex_supply = .ok 0 :=
  ⟨⟨Or.inl rfl, by decide, by decide, by decide⟩,
    c20_no_collateral haven_config (fun _ _ _ _ => 0) .TRANSFER 10000000000000
      ex_pricing_record ex_supply (Or.inl rfl) (by decide) (by decide) (by decide)⟩

/-! ### Claims on the shape of a loaded prefix and on the output loop of the saving side -/


/-- Every element that the input loop of the loading branch pushes is a `haven_key` input. -/
theorem load_vin_haven_key (u : Indeterminate) :
    ∀ (l : List txin_v) (i : Nat) (e : txin_v), e ∈ load_vin u i l → ∃ x, e = .haven_key x := by
  intro l
  induction l with
  | nil => intro i e h; simp [load_vin] at h
  | cons a as ih =>
    intro i e h
    simp only [load_vin, List.mem_cons] at h
    rcases h with h | h
    · exact ⟨_, h⟩
    · exact ih _ _ h

/-- Every output that the output loop of the loading branch pushes has a `haven_key` target. -/
theorem load_vout_haven_key (cfg : Config) (u : Indeterminate) (v b : Nat) (times ci : List Nat) :
    ∀ (vout : List tx_out) (i : Nat) (res : List tx_out),
      load_vout cfg u v b times ci i vout = .ok res →
      ∀ o ∈ res, ∃ x, o.target = .haven_key x := by
  intro vout
  induction vout with
  | nil =>
    intro i res h o ho
    simp [load_vout] at h
    subst h
    simp at ho
  | cons a as ih =>
    intro i res h o ho
    unfold load_vout at h
    cases h1 : load_txout cfg u v b times ci i a with
    | error e => simp [h1] at h
    | ok o1 =>
      cases h2 : load_vout cfg u v b times ci (i + 1) as with
      | error e => simp [h1, h2] at h
      | ok os1 =>
        simp [h1, h2] at h
        subst h
        simp only [List.mem_cons] at ho
        rcases ho with ho | ho
        · subst ho
          unfold load_txout at h1
          cases ht : times[i]? with
          | none => simp [ht] at h1
          | some t =>
            simp [ht] at h1
            subst h1
            exact ⟨_, rfl⟩
        · exact ih _ _ h2 o ho

/-- C29, counterexample. A version 8 archive of a coinbase loads with its `gen`
input unchanged, and a version 8 archive with a `to_key` input and a `to_key`
output loads with both unchanged: after these successful loads `vin` holds an
input that is not a `haven_key` input, and in the second `vout` holds a target
that is not a `haven_key` target. -/
theorem c29_counterexample :
    load haven_config ex_indeterminate (default_constructed 0 0 0) ex_archive_v8_miner
      = .ok ({ default_constructed 0 0 0 with
                version := 8, vin := [.gen ⟨100000⟩]
                vout := [⟨5, .haven_key ⟨ex_key, "XHV", 100060, false⟩⟩] }, [])
    ∧ (¬ ∃ x, txin_v.gen ⟨100000⟩ = .haven_key x)
    ∧ load haven_config ex_indeterminate (default_constructed 0 0 0) ex_archive_v8_to_key
      = .ok ({ default_constructed 0 0 0 with
                version := 8, vin := [.to_key ⟨5, [1, 2], ex_image⟩]
                vout := [⟨7, .to_key ⟨ex_key⟩⟩] }, [])
    ∧ (¬ ∃ x, txin_v.to_key ⟨5, [1, 2], ex_image⟩ = .haven_key x)
    ∧ (¬ ∃ x, txout_target_v.to_key ⟨ex_key⟩ = .haven_key x) := by
  refine ⟨rfl, ?_, rfl, ?_, ?_⟩
  · rintro ⟨x, hx⟩; cases hx
  · rintro ⟨x, hx⟩; cases hx
  · rintro ⟨x, hx⟩; cases hx

/-- C29, amended. After a successful load the version lies between 1 and
`CURRENT_TRANSACTION_VERSION`; below `HAVEN_TYPES_TRANSACTION_VERSION` every
element of `vin` is a `haven_key` input and every target in `vout` is a
`haven_key` target; from `HAVEN_TYPES_TRANSACTION_VERSION` on `vin` and `vout`
are the two vectors as the archive carries them, whatever their variants. -/
theorem c29_load_shape (cfg : Config) (u : Indeterminate) (self tx : transaction_prefix)
    (ar rest : List Field) (h : load cfg u self ar = .ok (tx, rest)) :
    (1 ≤ tx.version ∧ tx.version ≤ cfg.CURRENT_TRANSACTION_VERSION)
    ∧ (tx.version < cfg.HAVEN_TYPES_TRANSACTION_VERSION →
        (∀ e ∈ tx.vin, ∃ x, e = .haven_key x) ∧ (∀ o ∈ tx.vout, ∃ x, o.target = .haven_key x))
    ∧ (¬ tx.version < cfg.HAVEN_TYPES_TRANSACTION_VERSION →
        ∃ head tail, ar = head ++ .inputs tx.vin :: .outputs tx.vout :: tail) := by
  obtain ⟨version, ar0, s1, ar1, har, hv0, hvc, h1, hcase⟩ := load_inv h
  obtain ⟨hs1, har1⟩ := load_unlock_time_ok h1
  have hs1v : s1.version = version := by rw [hs1]
  rcases hcase with ⟨hlt, raw, hraw, hnorm⟩ | ⟨hge, hloadh⟩
  · obtain ⟨vin, vout, tail, _, hrv, _, _, _, _, _, _⟩ := load_legacy_fields_inv hraw
    obtain ⟨vo, hvo, htx⟩ := load_normalize_ok hnorm
    have htv : tx.version = version := by rw [htx]; simp only []; rw [hrv, hs1v]
    refine ⟨⟨by omega, by omega⟩, ?_, ?_⟩
    · intro _
      constructor
      · intro e he
        rw [htx] at he
        exact load_vin_haven_key u _ _ e he
      · intro o ho
        rw [htx] at ho
        exact load_vout_haven_key cfg u _ _ _ _ _ _ _ hvo o ho
    · intro hn
      exfalso
      rw [htv] at hn
      rw [hs1v] at hlt
      exact hn hlt
  · have htv : tx.version = version := by
      rw [load_haven_fields_ok hloadh]; simp only []; exact hs1v
    refine ⟨⟨by omega, by omega⟩, ?_, ?_⟩
    · intro hlt
      exfalso
      rw [htv] at hlt
      rw [hs1v] at hge
      exact hge hlt
    · intro _
      unfold load_haven_fields at hloadh
      split at hloadh
      · rename_i vin vout extra hh b m ar2
        simp only [Except.ok.injEq, Prod.mk.injEq] at hloadh
        obtain ⟨ht, _⟩ := hloadh
        subst ht
        rcases har1 with har1 | ⟨t, har1⟩
        · exact ⟨[.varint version], _, by rw [har, har1]; rfl⟩
        · exact ⟨[.varint version, .varint t], _, by rw [har, har1]; rfl⟩
      · simp at hloadh

/-- Witness of C29: the version 7 archive `ex_archive_v7`, which loads to `ex_loaded_v7`. -/
theorem c29_load_shape_witness :
    load haven_config ex_indeterminate (default_constructed 0 0 0) ex_archive_v7
        = .ok (ex_loaded_v7, [])
    ∧ ((1 ≤ ex_loaded_v7.version
          ∧ ex_loaded_v7.version ≤ haven_config.CURRENT_TRANSACTION_VERSION)
      ∧ (ex_loaded_v7.version < haven_config.HAVEN_TYPES_TRANSACTION_VERSION →
          (∀ e ∈ ex_loaded_v7.vin, ∃ x, e = .haven_key x)
          ∧ (∀ o ∈ ex_loaded_v7.vout, ∃ x, o.target = .haven_key x))
      ∧ (¬ ex_loaded_v7.version < haven_config.HAVEN_TYPES_TRANSACTION_VERSION →
          ∃ head tail, ex_archive_v7
            = head ++ .inputs ex_loaded_v7.vin :: .outputs ex_loaded_v7.vout :: tail)) :=
  ⟨rfl, c29_load_shape haven_config ex_indeterminate (default_constructed 0 0 0) ex_loaded_v7
    ex_archive_v7 [] rfl⟩

/-- C30 (the output loop of the saving side reads past the end). Iteration `i`
of the loop reads `vout_tmp[i]` while `vout_tmp` holds the `i` outputs pushed
so far, so with a vector of at most `i` elements the iteration ends at a read
past the end; hence no prefix below `HAVEN_TYPES_TRANSACTION_VERSION` with at
least one output is saved, and no amount is written. In `ex_loaded_onshore`
the element `output_unlock_times[0]` exists and the inputs are translated, and
the save still stops at the read of `vout_tmp[0]`. -/
theorem c30_save_reads_past_end (cfg : Config) (u : Indeterminate) (self : transaction_prefix) :
    (∀ (i : Nat) (o : tx_out) (todo vout_tmp : List tx_out), vout_tmp.length ≤ i →
        save_vout cfg u self i (o :: todo) vout_tmp = .error .out_of_range)
    ∧ (self.version ≠ 0 → self.version ≤ cfg.CURRENT_TRANSACTION_VERSION →
        self.version < cfg.HAVEN_TYPES_TRANSACTION_VERSION → self.vout ≠ [] →
        ∀ fields, save cfg u self ≠ .ok fields)
    ∧ (ex_loaded_onshore.output_unlock_times[0]? = some 0
        ∧ ex_loaded_onshore.vout.length = 1
        ∧ save_vin ex_loaded_onshore.vout ex_loaded_onshore.vin
            = .ok [.to_key ⟨5, [1, 2], ex_image⟩]
        ∧ save haven_config u ex_loaded_onshore = .error .out_of_range) := by
  have hloop : ∀ (i : Nat) (o : tx_out) (todo vout_tmp : List tx_out), vout_tmp.length ≤ i →
      save_vout cfg u self i (o :: todo) vout_tmp = .error .out_of_range := by
    intro i o todo vout_tmp hlen
    have hnone : vout_tmp[i]? = none := List.getElem?_eq_none hlen
    unfold save_vout
    cases ht : self.output_unlock_times[i]? with
    | none => rfl
    | some t => simp only [hnone]
  refine ⟨hloop, ?_, rfl, rfl, rfl, rfl⟩
  intro h0 hc hh hvout fields hsave
  have hver : ¬ (self.version = 0 ∨ cfg.CURRENT_TRANSACTION_VERSION < self.version) := by omega
  unfold save at hsave
  rw [if_neg hver] at hsave
  simp only [if_pos hh] at hsave
  cases hvin : save_vin self.vout self.vin with
  | error e => simp [hvin] at hsave
  | ok vin_tmp =>
    simp only [hvin] at hsave
    cases hvo : self.vout with
    | nil => exact hvout hvo
    | cons o os =>
      rw [hvo] at hsave
      rw [hloop 0 o os [] (Nat.le_refl _)] at hsave
      simp at hsave

/-! ### Claim on the validity flags of the cached values -/


/-- After a successful `transaction::serialize` on a loading archive the three flags are `false`. -/
theorem transaction_load_flags {cfg : Config} {u : Indeterminate} {rd : signature_readers}
    {binary : Bool} {self r : transaction} {ar rest : List Field}
    (h : transaction.load cfg u rd binary self ar = .ok (r, rest)) :
    r.hash_valid = false ∧ r.prunable_hash_valid = false ∧ r.blob_size_valid = false := by
  unfold transaction.load at h
  simp only [] at h
  split at h
  · simp at h
  · split at h
    · simp at h
    · simp only [Except.ok.injEq, Prod.mk.injEq] at h
      obtain ⟨h, _⟩ := h
      subst h
      cases binary <;> simp [transaction.load_begin]

/-- A successful `transaction::serialize_base` on a loading archive loads the
prefix and leaves the three flags and the three cached values as they were. -/
theorem transaction_load_base_flags {cfg : Config} {u : Indeterminate} {rd : signature_readers}
    {self r : transaction} {ar rest : List Field}
    (h : transaction.load_base cfg u rd self ar = .ok (r, rest)) :
    (r.hash_valid = self.hash_valid ∧ r.prunable_hash_valid = self.prunable_hash_valid
      ∧ r.blob_size_valid = self.blob_size_valid)
    ∧ (r.hash = self.hash ∧ r.prunable_hash = self.prunable_hash ∧ r.blob_size = self.blob_size)
    ∧ ∃ rest1, load cfg u ( transaction.totransaction_prefix self) ar
        = .ok ( transaction.totransaction_prefix r, rest1) := by
  unfold transaction.load_base at h
  split at h
  · simp at h
  · rename_i p ar1 hp
    simp only [] at h
    split at h
    · simp at h
    · simp only [Except.ok.injEq, Prod.mk.injEq] at h
      obtain ⟨h, _⟩ := h
      subst h
      exact ⟨⟨rfl, rfl, rfl⟩, ⟨rfl, rfl, rfl⟩, ar1, hp⟩

/-- C28 (`serialize_base` replaces the content and keeps the flags). The three
flags are `false` after `invalidate_hashes`, after `set_null` and after the
first statement of a loading `serialize`, and after every successful loading
`serialize`; after the copy constructor and after `operator=` each flag equals
the flag of the source and a cached value whose flag is set equals that of the
source. But a successful loading `serialize_base` loads a new prefix into the
object and leaves the three flags and cached values untouched: `ex_tx_cached`,
a coinbase with a cached hash and blob size, after `serialize_base` on
`ex_archive_v8` holds the inputs and outputs of that archive and still has
`hash_valid` and `blob_size_valid` set with the hash and size of the coinbase. -/
theorem c28_serialize_base_keeps_flags (cfg : Config) (u : Indeterminate)
    (rd : signature_readers) (uc : IndeterminateCache) (self t : transaction) :
    ((self.invalidate_hashes).hash_valid = false
      ∧ (self.invalidate_hashes).prunable_hash_valid = false
      ∧ (self.invalidate_hashes).blob_size_valid = false)
    ∧ ((self.set_null cfg).hash_valid = false ∧ (self.set_null cfg).prunable_hash_valid = false
      ∧ (self.set_null cfg).blob_size_valid = false)
    ∧ ((self.load_begin).hash_valid = false ∧ (self.load_begin).prunable_hash_valid = false
      ∧ (self.load_begin).blob_size_valid = false)
    ∧ (∀ binary ar r rest, transaction.load cfg u rd binary self ar = .ok (r, rest) →
        r.hash_valid = false ∧ r.prunable_hash_valid = false ∧ r.blob_size_valid = false)
    ∧ ((transaction.copy uc t).hash_valid = t.hash_valid
      ∧ (transaction.copy uc t).prunable_hash_valid = t.prunable_hash_valid
      ∧ (transaction.copy uc t).blob_size_valid = t.blob_size_valid
      ∧ (t.hash_valid = true → (transaction.copy uc t).hash = t.hash)
      ∧ (t.prunable_hash_valid = true → (transaction.copy uc t).prunable_hash = t.prunable_hash)
      ∧ (t.blob_size_valid = true → (transaction.copy uc t).blob_size = t.blob_size))
    ∧ ((self.assign t).hash_valid = t.hash_valid
      ∧ (self.assign t).prunable_hash_valid = t.prunable_hash_valid
      ∧ (self.assign t).blob_size_valid = t.blob_size_valid
      ∧ (t.hash_valid = true → (self.assign t).hash = t.hash)
      ∧ (t.prunable_hash_valid = true → (self.assign t).prunable_hash = t.prunable_hash)
      ∧ (t.blob_size_valid = true → (self.assign t).blob_size = t.blob_size))
    ∧ (∀ ar r rest, transaction.load_base cfg u rd self ar = .ok (r, rest) →
        (r.hash_valid = self.hash_valid ∧ r.prunable_hash_valid = self.prunable_hash_valid
          ∧ r.blob_size_valid = self.blob_size_valid)
        ∧ (r.hash = self.hash ∧ r.prunable_hash = self.prunable_hash
          ∧ r.blob_size = self.blob_size)
        ∧ ∃ rest1, load cfg u ( transaction.totransaction_prefix self) ar
            = .ok ( transaction.totransaction_prefix r, rest1))
    ∧ ((transaction.load_base haven_config ex_indeterminate ex_signature_readers ex_tx_cached
          ex_archive_v8).toOption.map
        (fun r => (r.1.hash_valid, r.1.blob_size_valid, r.1.hash, r.1.blob_size, r.1.vin, r.1.vout))
        = some (true, true, ex_tx_cached.hash, 90, ex_loaded_v8.vin, ex_loaded_v8.vout)
      ∧ ex_tx_cached.vin ≠ ex_loaded_v8.vin ∧ ex_tx_cached.vout ≠ ex_loaded_v8.vout) := by
  refine ⟨⟨rfl, rfl, rfl⟩, ⟨rfl, rfl, rfl⟩, ⟨rfl, rfl, rfl⟩, ?_, ?_, ?_, ?_, ?_⟩
  · intro binary ar r rest h
    exact transaction_load_flags h
  · unfold transaction.copy
    cases h1 : t.hash_valid <;> cases h2 : t.prunable_hash_valid <;>
      cases h3 : t.blob_size_valid <;> simp
  · unfold transaction.assign
    cases h1 : t.hash_valid <;> cases h2 : t.prunable_hash_valid <;>
      cases h3 : t.blob_size_valid <;> simp
  · intro ar r rest h
    exact transaction_load_base_flags h
  · refine ⟨rfl, by decide, by decide⟩

/-! ### Claims on `construct_miner_tx` -/



/-- A sum kept in a `uint64_t`, started at `a`, is the exact sum reduced modulo `2^64`. -/
theorem sum_u64_from (l : List Nat) :
    ∀ a, List.foldl (fun s x => (s + x) % 2 ^ 64) a l = (a + l.sum) % 2 ^ 64 ∨ l = [] := by
  induction l with
  | nil => intro a; right; rfl
  | cons x xs ih =>
    intro a
    left
    simp only [List.foldl_cons, List.sum_cons]
    rcases ih ((a + x) % 2 ^ 64) with h | h
    · rw [h, Nat.mod_add_mod, Nat.add_assoc]
    · subst h
      simp

/-- The value of `sum_u64` is the exact sum reduced modulo `2^64`. -/
theorem sum_u64_eq (l : List Nat) : sum_u64 l = l.sum % 2 ^ 64 := by
  unfold sum_u64
  rcases sum_u64_from l 0 with h | h
  · rw [h, Nat.zero_add]
  · subst h; rfl

/-- The collapse loop with `max_outs ≥ 1` on a vector of at least one element: it
ends, without a read past the end, with `min(size, max_outs)` elements, the
same sum modulo `2^64`, the same sum when that is below `2^64`, and 64-bit
elements. -/
theorem collapse_from_spec (max_outs : Nat) (hmax : 1 ≤ max_outs) :
    ∀ (rest : List Nat) (first : Nat),
      ∃ l, collapse_from max_outs first rest = .ok l
        ∧ l.length = min (rest.length + 1) max_outs
        ∧ l.sum % 2 ^ 64 = (first + rest.sum) % 2 ^ 64
        ∧ (first + rest.sum < 2 ^ 64 → l.sum = first + rest.sum)
        ∧ (first < 2 ^ 64 → (∀ x ∈ rest, x < 2 ^ 64) → ∀ x ∈ l, x < 2 ^ 64) := by
  intro rest
  induction rest with
  | nil =>
    intro first
    refine ⟨[first], ?_, ?_, ?_, ?_, ?_⟩
    · rw [collapse_from, if_neg (by omega)]
    · simp; omega
    · simp
    · intro _; simp
    · intro hf _ x hx
      simp only [List.mem_singleton] at hx
      subst hx
      exact hf
  | cons second rest ih =>
    intro first
    rw [collapse_from]
    by_cases hlt : max_outs < rest.length + 2
    · rw [if_pos hlt]
      obtain ⟨l, hl, hlen, hmod, hex, hb⟩ := ih ((second + first) % 2 ^ 64)
      refine ⟨l, hl, ?_, ?_, ?_, ?_⟩
      · rw [hlen]
        simp only [List.length_cons]
        omega
      · rw [hmod, List.sum_cons, Nat.mod_add_mod]
        congr 1
        omega
      · intro hfit
        rw [List.sum_cons] at hfit
        have h1 : (second + first) % 2 ^ 64 = second + first := Nat.mod_eq_of_lt (by omega)
        rw [h1] at hex
        rw [hex (by omega), List.sum_cons]
        omega
      · intro _ hrest
        exact hb (Nat.mod_lt _ (by norm_num))
          (fun x hx => hrest x (List.mem_cons_of_mem _ hx))
    · rw [if_neg hlt]
      refine ⟨first :: second :: rest, rfl, ?_, ?_, ?_, ?_⟩
      · simp only [List.length_cons]
        omega
      · simp [List.sum_cons]
      · intro _; simp [List.sum_cons]
      · intro hf hrest x hx
        rcases List.mem_cons.mp hx with h | h
        · subst h; exact hf
        · exact hrest x h

/-- The collapse loop with `max_outs ≥ 1` on any vector. -/
theorem collapse_out_amounts_spec (max_outs : Nat) (hmax : 1 ≤ max_outs) (l : List Nat) :
    ∃ l1, collapse_out_amounts max_outs l = .ok l1
      ∧ l1.length = min l.length max_outs
      ∧ l1.sum % 2 ^ 64 = l.sum % 2 ^ 64
      ∧ (l.sum < 2 ^ 64 → l1.sum = l.sum)
      ∧ ((∀ x ∈ l, x < 2 ^ 64) → ∀ x ∈ l1, x < 2 ^ 64) := by
  cases l with
  | nil => exact ⟨[], rfl, by simp, rfl, fun _ => rfl, fun h => h⟩
  | cons first rest =>
    obtain ⟨l1, h1, h2, h3, h4, h5⟩ := collapse_from_spec max_outs hmax rest first
    refine ⟨l1, h1, by simpa using h2, by simpa using h3, by simpa using h4, ?_⟩
    intro hall
    exact h5 (hall first (List.mem_cons_self _ _))
      (fun x hx => hall x (List.mem_cons_of_mem _ hx))

/-- The chunks pushed to `out_amounts` are 64-bit values. -/
theorem miner_chunks_lt (cfg : Config) (ext : Externals) (hf block_reward : Nat) :
    ∀ x ∈ miner_chunks cfg ext hf block_reward, x < 2 ^ 64 := by
  intro x hx
  unfold miner_chunks at hx
  obtain ⟨y, _, hy⟩ := List.mem_map.mp hx
  rw [← hy]
  exact Nat.mod_lt _ (by norm_num)

/-- What holds of `out_amounts` when the output loop of `construct_miner_tx` is reached. -/
theorem miner_out_amounts_spec {cfg : Config} {ext : Externals}
    {height max_outs hf block_reward : Nat} {out_amounts : List Nat}
    (h : miner_out_amounts cfg ext height max_outs hf block_reward = .ok out_amounts) :
    1 ≤ max_outs ∧ out_amounts.length ≤ max_outs
    ∧ out_amounts.sum % 2 ^ 64 = (miner_chunks cfg ext hf block_reward).sum % 2 ^ 64
    ∧ ((miner_chunks cfg ext hf block_reward).sum < 2 ^ 64 →
        out_amounts.sum = (miner_chunks cfg ext hf block_reward).sum)
    ∧ (∀ x ∈ out_amounts, x < 2 ^ 64) := by
  unfold miner_out_amounts at h
  simp only [] at h
  by_cases hm : 1 ≤ max_outs
  · rw [if_neg (not_not.mpr hm)] at h
    by_cases hc : height = 0 ∨ hf ≥ 4
    · rw [if_pos hc] at h
      obtain ⟨l1, h1, h2, h3, h4, h5⟩ := collapse_out_amounts_spec max_outs hm
        (miner_chunks cfg ext hf block_reward)
      rw [h1] at h
      have := Except.ok.inj h
      subst this
      exact ⟨hm, by rw [h2]; exact Nat.min_le_right _ _, h3, h4,
        h5 (miner_chunks_lt cfg ext hf block_reward)⟩
    · rw [if_neg hc] at h
      by_cases hs : max_outs ≥ (miner_chunks cfg ext hf block_reward).length
      · rw [if_neg (not_not.mpr hs)] at h
        have := Except.ok.inj h
        subst this
        exact ⟨hm, hs, rfl, fun _ => rfl, miner_chunks_lt cfg ext hf block_reward⟩
      · rw [if_pos hs] at h
        cases h
  · rw [if_pos hm] at h
    cases h

/-- The outputs that the output loop of `construct_miner_tx` pushes carry the amounts of `out_amounts`, in order. -/
theorem miner_outputs_amounts (cfg : Config) (ext : Externals)
    (miner_address : account_public_address) (txkey : keypair) (hf : Nat) :
    ∀ (out_amounts : List Nat) (no : Nat) (outs : List tx_out),
      miner_outputs cfg ext miner_address txkey hf no out_amounts = some outs →
      outs.map (fun o => o.amount) = out_amounts := by
  intro out_amounts
  induction out_amounts with
  | nil =>
    intro no outs h
    simp [miner_outputs] at h
    subst h
    rfl
  | cons amount rest ih =>
    intro no outs h
    unfold miner_outputs at h
    split at h
    · cases h
    · split at h
      · cases h
      · simp only [] at h
        split at h
        · cases h
        · rename_i outs1 hrest
          have := Option.some.inj h
          subst this
          simp only [List.map_cons, set_tx_out]
          rw [ih _ _ hrest]

/-- Inversion of a successful `construct_miner_tx`. -/
theorem construct_miner_tx_inv {cfg : Config} {ext : Externals}
    {height median_weight already_generated_coins current_block_weight fee : Nat}
    {miner_address : account_public_address} {tx tx1 : transaction} {extra_nonce : List Nat}
    {max_outs hf : Nat}
    (h : construct_miner_tx cfg ext height median_weight already_generated_coins
      current_block_weight fee miner_address tx extra_nonce max_outs hf = .ok tx1) :
    ∃ block_reward out_amounts outs,
      ext.get_block_reward median_weight current_block_weight already_generated_coins hf
        = some block_reward
      ∧ miner_out_amounts cfg ext height max_outs hf (miner_reward cfg block_reward fee hf)
        = .ok out_amounts
      ∧ miner_outputs cfg ext miner_address (ext.keypair_generate 0) hf 0 out_amounts = some outs
      ∧ sum_u64 out_amounts = miner_reward cfg block_reward fee hf
      ∧ tx1.vin = [.gen ⟨height⟩] ∧ tx1.vout = outs
      ∧ tx1.version = (if hf ≥ 4 then 2 else 1)
      ∧ tx1.unlock_time = (height + cfg.CRYPTONOTE_MINED_MONEY_UNLOCK_WINDOW) % 2 ^ 64
      ∧ tx1.hash_valid = false ∧ tx1.prunable_hash_valid = false
      ∧ tx1.blob_size_valid = false := by
  unfold construct_miner_tx at h
  simp only [] at h
  cases he : miner_extra ext (ext.keypair_generate 0) extra_nonce with
  | none => simp [he] at h
  | some extra =>
    simp only [he] at h
    cases hbr : ext.get_block_reward median_weight current_block_weight already_generated_coins
        hf with
    | none => simp [hbr] at h
    | some block_reward =>
      simp only [hbr] at h
      cases hout : miner_out_amounts cfg ext height max_outs hf
          (miner_reward cfg block_reward fee hf) with
      | error e => simp [hout] at h
      | ok out_amounts =>
        simp only [hout] at h
        cases houts : miner_outputs cfg ext miner_address (ext.keypair_generate 0) hf 0
            out_amounts with
        | none => simp [houts] at h
        | some outs =>
          simp only [houts] at h
          by_cases hsum : sum_u64 out_amounts ≠ miner_reward cfg block_reward fee hf
          · rw [if_pos hsum] at h
            cases h
          · rw [if_neg hsum] at h
            have := Except.ok.inj h
            subst this
            refine ⟨block_reward, out_amounts, outs, rfl, hout, houts, not_not.mp hsum, ?_, ?_,
              rfl, rfl, rfl, rfl, rfl⟩
            · simp [transaction.invalidate_hashes]
            · simp [transaction.invalidate_hashes]


/-- C23. Whenever `construct_miner_tx` succeeds, whatever the object held before,
the transaction has exactly one input, `gen{height}`, its `unlock_time` is
`height + CRYPTONOTE_MINED_MONEY_UNLOCK_WINDOW` (the 64-bit sum, which is the
sum itself when that is below `2^64`), and its version is 2 if
`hard_fork_version ≥ 4` and 1 otherwise. -/
theorem c23_miner_tx_shape (cfg : Config) (ext : Externals)
    (height median_weight already_generated_coins current_block_weight fee : Nat)
    (miner_address : account_public_address) (tx tx1 : transaction) (extra_nonce : List Nat)
    (max_outs hard_fork_version : Nat)
    (h : construct_miner_tx cfg ext height median_weight already_generated_coins
      current_block_weight fee miner_address tx extra_nonce max_outs hard_fork_version
        = .ok tx1) :
    tx1.vin = [.gen ⟨height⟩]
    ∧ tx1.unlock_time = (height + cfg.CRYPTONOTE_MINED_MONEY_UNLOCK_WINDOW) % 2 ^ 64
    ∧ (height + cfg.CRYPTONOTE_MINED_MONEY_UNLOCK_WINDOW < 2 ^ 64 →
        tx1.unlock_time = height + cfg.CRYPTONOTE_MINED_MONEY_UNLOCK_WINDOW)
    ∧ tx1.version = (if hard_fork_version ≥ 4 then 2 else 1) := by
  obtain ⟨_, _, _, _, _, _, _, hvin, _, hver, hul, _⟩ := construct_miner_tx_inv h
  refine ⟨hvin, hul, ?_, hver⟩
  intro hlt
  rw [hul, Nat.mod_eq_of_lt hlt]

/-- Witness of C23: the coinbase of height 100000 at hard fork 23 built in the
object `ex_tx_onshore`, which held two inputs and two outputs. -/
theorem c23_miner_tx_shape_witness :
    construct_miner_tx haven_config ex_externals 100000 0 0 0 0 ex_address ex_tx_onshore [] 1 23
        = .ok ex_coinbase
    ∧ ex_tx_onshore.vin.length = 2 ∧ ex_tx_onshore.vout.length = 2
    ∧ (ex_coinbase.vin = [.gen ⟨100000⟩]
      ∧ ex_coinbase.unlock_time
          = (100000 + haven_config.CRYPTONOTE_MINED_MONEY_UNLOCK_WINDOW) % 2 ^ 64
      ∧ (100000 + haven_config.CRYPTONOTE_MINED_MONEY_UNLOCK_WINDOW < 2 ^ 64 →
          ex_coinbase.unlock_time = 100000 + haven_config.CRYPTONOTE_MINED_MONEY_UNLOCK_WINDOW)
      ∧ ex_coinbase.version = (if 23 ≥ 4 then 2 else 1)) :=
  ⟨rfl, rfl, rfl,
    c23_miner_tx_shape haven_config ex_externals 100000 0 0 0 0 ex_address ex_tx_onshore
      ex_coinbase [] 1 23 rfl⟩

/-- C24. `construct_miner_tx` fails when `max_outs = 0`. Whenever it succeeds the
number of outputs is at most `max_outs` and the output amounts add up, modulo
`2^64`, to the reward `miner_reward` (and exactly to it when the chunks of the
decomposition add up to less than `2^64`), which is `block_reward + fee` when
that is below `2^64`, rounded down to a multiple of
`BASE_REWARD_CLAMP_THRESHOLD` for hard forks 2 and 3; with `max_outs = 1` and a
non-zero reward there is exactly one output, of that amount. The collapse loop
with `max_outs ≥ 1` ends without a read past the end, leaves
`min(size, max_outs)` chunks and keeps the sum. Evaluations: four chunks
collapsed to two, and a coinbase at hard fork 3 with fee 123 and six outputs. -/
theorem c24_coinbase_outputs (cfg : Config) (ext : Externals)
    (height median_weight already_generated_coins current_block_weight fee : Nat)
    (miner_address : account_public_address) (tx : transaction) (extra_nonce : List Nat)
    (max_outs hard_fork_version : Nat) :
    (max_outs = 0 →
      construct_miner_tx cfg ext height median_weight already_generated_coins
        current_block_weight fee miner_address tx extra_nonce max_outs hard_fork_version
          = .error .rejected)
    ∧ (∀ tx1, construct_miner_tx cfg ext height median_weight already_generated_coins
          current_block_weight fee miner_address tx extra_nonce max_outs hard_fork_version
            = .ok tx1 →
        tx1.vout.length ≤ max_outs
        ∧ ∃ block_reward,
            ext.get_block_reward median_weight current_block_weight already_generated_coins
              hard_fork_version = some block_reward
            ∧ (tx1.vout.map (fun o => o.amount)).sum % 2 ^ 64
                = miner_reward cfg block_reward fee hard_fork_version
            ∧ ((miner_chunks cfg ext hard_fork_version
                  (miner_reward cfg block_reward fee hard_fork_version)).sum < 2 ^ 64 →
                (tx1.vout.map (fun o => o.amount)).sum
                  = miner_reward cfg block_reward fee hard_fork_version)
            ∧ (block_reward + fee < 2 ^ 64 →
                miner_reward cfg block_reward fee hard_fork_version
                  = if hard_fork_version ≥ 2 ∧ hard_fork_version < 4 then
                      block_reward + fee
                        - (block_reward + fee) % cfg.BASE_REWARD_CLAMP_THRESHOLD
                    else block_reward + fee)
            ∧ (max_outs = 1 → miner_reward cfg block_reward fee hard_fork_version ≠ 0 →
                ∃ target,
                  tx1.vout = [⟨miner_reward cfg block_reward fee hard_fork_version, target⟩]))
    ∧ (1 ≤ max_outs → ∀ out_amounts : List Nat,
        ∃ l, collapse_out_amounts max_outs out_amounts = .ok l
          ∧ l.length = min out_amounts.length max_outs
          ∧ l.sum % 2 ^ 64 = out_amounts.sum % 2 ^ 64
          ∧ (out_amounts.sum < 2 ^ 64 → l.sum = out_amounts.sum)
          ∧ ((∀ x ∈ out_amounts, x < 2 ^ 64) → ∀ x ∈ l, x < 2 ^ 64))
    ∧ (collapse_out_amounts 2 [5, 10, 400, 4000] = .ok [415, 4000]
      ∧ (construct_miner_tx haven_config ex_externals 5 0 0 0 123 ex_address ex_tx_miner [] 20
            3).toOption.map (fun t => (t.version, t.vout.map (fun o => o.amount)))
          = some (1, [100000000, 2000000000, 90000000000, 500000000000, 7000000000000,
              10000000000000])
      ∧ miner_reward haven_config 17592186044415 123 3 = 17592100000000) := by
  refine ⟨?_, ?_, ?_, rfl, rfl, rfl⟩
  · intro h0
    subst h0
    unfold construct_miner_tx
    simp only []
    cases miner_extra ext (ext.keypair_generate 0) extra_nonce with
    | none => rfl
    | some extra =>
      simp only []
      cases ext.get_block_reward median_weight current_block_weight already_generated_coins
          hard_fork_version with
      | none => rfl
      | some block_reward =>
        simp only []
        have : miner_out_amounts cfg ext height 0 hard_fork_version
            (miner_reward cfg block_reward fee hard_fork_version) = .error .rejected := by
          unfold miner_out_amounts
          simp
        rw [this]
  · intro tx1 h
    obtain ⟨block_reward, out_amounts, outs, hbr, hout, houts, hsum, _, hvout, _⟩ :=
      construct_miner_tx_inv h
    obtain ⟨hmax, hlen, hmod, hexact, hbound⟩ := miner_out_amounts_spec hout
    have hamounts := miner_outputs_amounts cfg ext miner_address _ hard_fork_version _ _ _ houts
    have hlen2 : tx1.vout.length = out_amounts.length := by
      rw [hvout, ← hamounts, List.length_map]
    have hsum2 : out_amounts.sum % 2 ^ 64 = miner_reward cfg block_reward fee hard_fork_version := by
      rw [← sum_u64_eq, hsum]
    refine ⟨by omega, block_reward, hbr, ?_, ?_, ?_, ?_⟩
    · rw [hvout, hamounts, hsum2]
    · intro hfit
      rw [hvout, hamounts]
      have h1 := hexact hfit
      rw [← hsum2, h1, Nat.mod_eq_of_lt hfit]
    · intro hfit
      unfold miner_reward
      simp only [Nat.mod_eq_of_lt hfit]
    · intro h1 hne
      subst h1
      rw [hvout]
      rw [← hamounts] at hsum2 hlen hbound
      rw [List.length_map] at hlen
      cases outs with
      | nil =>
        exfalso
        apply hne
        rw [← hsum2]
        rfl
      | cons o os =>
        cases os with
        | nil =>
          refine ⟨o.target, ?_⟩
          have hlt : o.amount < 2 ^ 64 := hbound o.amount (by simp)
          simp only [List.map_cons, List.map_nil, List.sum_cons, List.sum_nil, Nat.add_zero]
            at hsum2
          rw [Nat.mod_eq_of_lt hlt] at hsum2
          rw [← hsum2]
        | cons o2 os2 =>
          simp at hlen
  · intro hmax out_amounts
    exact collapse_out_amounts_spec max_outs hmax out_amounts

/-! ### Claims on `construct_tx_with_tx_key` -/



/-- A successful `sign_rct` gives the object with the amounts zeroed and the type of the signature set. -/
theorem sign_rct_inv {cfg : Config} {ext : Externals} {range_proof_type : Nat}
    {tx t : transaction} {in_contexts : List keypair} {sources : List tx_source_entry}
    {amount_keys : List (List Nat)}
    (h : sign_rct cfg ext range_proof_type tx in_contexts sources amount_keys = some t) :
    ∃ ty, t = { rct_zero_amounts tx sources with rct_signatures_type := ty } := by
  unfold sign_rct at h
  cases sources with
  | nil => simp at h
  | cons first rest =>
    simp only [] at h
    split at h
    · cases h
    · split at h
      · cases h
      · have := Option.some.inj h
        subst this
        exact ⟨_, rfl⟩

/-- Inversion of a successful `construct_tx_with_tx_key`: the stages that
succeeded, the check of the two 64-bit sums, and the members of the result. -/
theorem construct_tx_with_tx_key_inv {cfg : Config} {ext : Externals}
    {sender_account_keys : account_keys} {sources : List tx_source_entry}
    {destinations : List tx_destination_entry} {change_addr : Option account_public_address}
    {extra : List Nat} {tx tx1 : transaction} {unlock_time : Nat} {tx_key : secret_key}
    {additional_tx_keys : List secret_key} {rct : Bool} {range_proof_type : Nat}
    {shuffle_outs use_view_tags : Bool}
    (h : construct_tx_with_tx_key cfg ext sender_account_keys sources destinations change_addr
      extra tx unlock_time tx_key additional_tx_keys rct range_proof_type shuffle_outs
      use_view_tags = some tx1) :
    ∃ extra1 ins extra2 vout amount_keys,
      sources ≠ []
      ∧ payment_id_stage ext destinations change_addr tx_key extra = some extra1
      ∧ fill_inputs ext sender_account_keys sources = some ins
      ∧ outputs_stage ext sender_account_keys (if rct then 2 else 1)
          (if shuffle_outs then ext.shuffle destinations else destinations) change_addr tx_key
          additional_tx_keys use_view_tags extra1 = some (extra2, vout, amount_keys)
      ∧ sum_u64 ((if shuffle_outs then ext.shuffle destinations else destinations).map
            (fun dst_entr => dst_entr.amount))
          ≤ sum_u64 (sources.map (fun src_entr => src_entr.amount))
      ∧ tx1.version = (if rct then 2 else 1) ∧ tx1.unlock_time = unlock_time
      ∧ tx1.extra = extra2
      ∧ (rct = false →
          tx1.vin = apply_permutation (ins_order (ins.map (fun p => p.1))) (ins.map (fun p => p.1))
          ∧ tx1.vout = vout)
      ∧ (rct = true →
          tx1.vin = List.zipWith (fun e s => if s.rct then zero_input_amount e else e)
            (apply_permutation (ins_order (ins.map (fun p => p.1))) (ins.map (fun p => p.1)))
            (apply_permutation (ins_order (ins.map (fun p => p.1))) sources)
          ∧ tx1.vout = vout.map (fun o => { o with amount := 0 }))
      ∧ (tx1.hash_valid = false ∧ tx1.prunable_hash_valid = false
          ∧ tx1.blob_size_valid = false)
      ∧ (tx1.pricing_record_height = tx.pricing_record_height
          ∧ tx1.offshore_data = tx.offshore_data ∧ tx1.amount_burnt = tx.amount_burnt
          ∧ tx1.amount_minted = tx.amount_minted
          ∧ tx1.output_unlock_times = tx.output_unlock_times
          ∧ tx1.collateral_indices = tx.collateral_indices) := by
  unfold construct_tx_with_tx_key at h
  by_cases hs : sources = []
  · rw [if_pos hs] at h
    cases h
  · rw [if_neg hs] at h
    simp only [] at h
    cases hp : payment_id_stage ext destinations change_addr tx_key extra with
    | none =>
      simp only [transaction.set_null, hp] at h
      cases h
    | some extra1 =>
      cases hi : fill_inputs ext sender_account_keys sources with
      | none =>
        simp only [transaction.set_null, hp, hi] at h
        cases h
      | some ins =>
        cases ho : outputs_stage ext sender_account_keys (if rct then 2 else 1)
            (if shuffle_outs then ext.shuffle destinations else destinations) change_addr tx_key
            additional_tx_keys use_view_tags extra1 with
        | none =>
          simp only [transaction.set_null, hp, hi, ho] at h
          cases h
        | some r =>
          obtain ⟨extra2, vout, amount_keys⟩ := r
          simp only [transaction.set_null, hp, hi, ho] at h
          by_cases hm : sum_u64 ((if shuffle_outs then ext.shuffle destinations
                else destinations).map (fun dst_entr => dst_entr.amount))
              > sum_u64 (sources.map (fun src_entr => src_entr.amount))
          · rw [if_pos hm] at h
            cases h
          · rw [if_neg hm] at h
            refine ⟨extra1, ins, extra2, vout, amount_keys, hs, rfl, rfl, ho,
              Nat.le_of_not_lt hm, ?_⟩
            cases rct with
            | false =>
              simp only [Bool.false_eq_true, if_false, if_true] at h
              have := Option.some.inj h
              subst this
              refine ⟨rfl, rfl, rfl, fun _ => ⟨rfl, rfl⟩, fun hc => ?_, ⟨rfl, rfl, rfl⟩,
                rfl, rfl, rfl, rfl, rfl, rfl⟩
              cases hc
            | true =>
              simp only [if_true] at h
              rw [if_neg (by decide)] at h
              split at h
              · cases h
              · rename_i t ht
                have := Option.some.inj h
                subst this
                obtain ⟨ty, hty⟩ := sign_rct_inv ht
                subst hty
                refine ⟨rfl, rfl, rfl, fun hc => ?_, fun _ => ⟨rfl, rfl⟩, ⟨rfl, rfl, rfl⟩,
                  rfl, rfl, rfl, rfl, rfl, rfl⟩
                cases hc



/-- An element of a permuted vector is an element of the vector. -/
theorem mem_apply_permutation {α : Type} (permutation : List Nat) (v : List α) (x : α)
    (h : x ∈ apply_permutation permutation v) : x ∈ v := by
  unfold apply_permutation at h
  obtain ⟨i, _, hi⟩ := List.mem_filterMap.mp h
  exact List.getElem?_mem hi

/-- An element of `zipWith f l1 l2` is `f a b` for an `a` of `l1` and a `b` of `l2`. -/
theorem mem_zipWith_of {α β γ : Type} (f : α → β → γ) :
    ∀ (l1 : List α) (l2 : List β) (x : γ), x ∈ List.zipWith f l1 l2 →
      ∃ a ∈ l1, ∃ b ∈ l2, x = f a b := by
  intro l1
  induction l1 with
  | nil => intro l2 x h; simp at h
  | cons a as ih =>
    intro l2 x h
    cases l2 with
    | nil => simp at h
    | cons b bs =>
      simp only [List.zipWith_cons_cons, List.mem_cons] at h
      rcases h with h | h
      · exact ⟨a, List.mem_cons_self _ _, b, List.mem_cons_self _ _, h⟩
      · obtain ⟨a1, ha1, b1, hb1, hx⟩ := ih bs x h
        exact ⟨a1, List.mem_cons_of_mem _ ha1, b1, List.mem_cons_of_mem _ hb1, hx⟩

/-- Every input that the input loop pushes is a `txin_to_key` with the amount of one of the sources. -/
theorem fill_inputs_mem (ext : Externals) (sender_account_keys : account_keys) :
    ∀ (sources : List tx_source_entry) (ins : List (txin_v × keypair)),
      fill_inputs ext sender_account_keys sources = some ins →
      ∀ p ∈ ins, ∃ x, p.1 = .to_key x ∧ ∃ s ∈ sources, x.amount = s.amount := by
  intro sources
  induction sources with
  | nil =>
    intro ins h p hp
    simp [fill_inputs] at h
    subst h
    simp at hp
  | cons src_entr rest ih =>
    intro ins h p hp
    unfold fill_inputs at h
    split at h
    · cases h
    · split at h
      · cases h
      · split at h
        · cases h
        · simp only [] at h
          split at h
          · cases h
          · rename_i ins1 hrest
            have := Option.some.inj h
            subst this
            rcases List.mem_cons.mp hp with hp | hp
            · subst hp
              exact ⟨_, rfl, src_entr, List.mem_cons_self _ _, rfl⟩
            · obtain ⟨x, hx, s, hs, hxs⟩ := ih _ hrest p hp
              exact ⟨x, hx, s, List.mem_cons_of_mem _ hs, hxs⟩

/-- The input loop pushes one input per source, in the order of the sources: the
input at index `j` is a `txin_to_key` with the amount of source `j`, the key
image derived for its real output and its relative key offsets. -/
theorem fill_inputs_spec (ext : Externals) (sender_account_keys : account_keys) :
    ∀ (sources : List tx_source_entry) (ins : List (txin_v × keypair)),
      fill_inputs ext sender_account_keys sources = some ins →
      ins.length = sources.length
      ∧ ∀ (j : Nat) (s : tx_source_entry), sources[j]? = some s →
          ∃ (real_out : Nat × ctkey) (in_ephemeral : keypair) (img : key_image),
            s.outputs[s.real_output]? = some real_out
            ∧ ext.generate_key_image_helper sender_account_keys real_out.2.dest
                s.real_out_tx_key s.real_out_additional_tx_keys s.real_output_in_tx_index
                = some (in_ephemeral, img)
            ∧ in_ephemeral.pub = real_out.2.dest
            ∧ ins[j]? = some
                (txin_v.to_key
                  { amount := s.amount, k_image := img
                    key_offsets := ext.absolute_output_offsets_to_relative
                      (s.outputs.map (fun out_entry => out_entry.1)) },
                 in_ephemeral) := by
  intro sources
  induction sources with
  | nil =>
    intro ins h
    simp [fill_inputs] at h
    subst h
    exact ⟨rfl, fun j s hj => by simp at hj⟩
  | cons src_entr rest ih =>
    intro ins h
    unfold fill_inputs at h
    cases hreal : src_entr.outputs[src_entr.real_output]? with
    | none => simp [hreal] at h
    | some real_out =>
      simp only [hreal] at h
      cases hhelper : ext.generate_key_image_helper sender_account_keys real_out.2.dest
          src_entr.real_out_tx_key src_entr.real_out_additional_tx_keys
          src_entr.real_output_in_tx_index with
      | none => simp [hhelper] at h
      | some r =>
        obtain ⟨in_ephemeral, img⟩ := r
        simp only [hhelper] at h
        by_cases hpub : in_ephemeral.pub ≠ real_out.2.dest
        · rw [if_pos hpub] at h
          cases h
        · rw [if_neg hpub] at h
          cases hrest : fill_inputs ext sender_account_keys rest with
          | none => simp [hrest] at h
          | some ins1 =>
            simp only [hrest, Option.some.injEq] at h
            subst h
            obtain ⟨hlen, hall⟩ := ih _ hrest
            refine ⟨by simp [hlen], ?_⟩
            intro j s hj
            cases j with
            | zero =>
              simp only [List.getElem?_cons_zero, Option.some.injEq] at hj
              subst hj
              exact ⟨real_out, in_ephemeral, img, hreal, hhelper, not_not.mp hpub, by simp⟩
            | succ k =>
              simp only [List.getElem?_cons_succ] at hj
              obtain ⟨r, e, i, h1, h2, h3, h4⟩ := hall k s hj
              exact ⟨r, e, i, h1, h2, h3, by simpa using h4⟩

/-- The sorted index vector of the inputs holds only valid indices. -/
theorem ins_order_lt (vin : List txin_v) : ∀ j ∈ ins_order vin, j < vin.length := by
  intro j hj
  unfold ins_order at hj
  have hperm := List.perm_insertionSort
    (fun i0 i1 => lex_lt (vin_k_image vin i0) (vin_k_image vin i1) = false)
    (List.range vin.length)
  exact List.mem_range.mp ((List.Perm.mem_iff hperm).mp hj)

/-- Two vectors of the same length permuted by the same valid indices stay
aligned: the zip of the permuted vectors is the zip taken index by index. -/
theorem zipWith_apply_permutation {α β γ : Type} (f : α → β → γ) (l1 : List α) (l2 : List β)
    (hlen : l1.length = l2.length) :
    ∀ (order : List Nat), (∀ j ∈ order, j < l1.length) →
      List.zipWith f (apply_permutation order l1) (apply_permutation order l2)
        = order.filterMap (fun j => (l1[j]?).bind (fun a => (l2[j]?).map (f a))) := by
  intro order
  induction order with
  | nil => intro _; rfl
  | cons j rest ih =>
    intro hall
    have hj : j < l1.length := hall j (List.mem_cons_self _ _)
    have hj2 : j < l2.length := hlen ▸ hj
    have ih1 := ih (fun k hk => hall k (List.mem_cons_of_mem _ hk))
    unfold apply_permutation at ih1 ⊢
    simp only [List.filterMap_cons, List.getElem?_eq_getElem hj, List.getElem?_eq_getElem hj2,
      List.zipWith_cons_cons, Option.some_bind, Option.map_some']
    rw [ih1]

/-- A `filterMap` that keeps every element keeps the length. -/
theorem filterMap_length_of_some {α β : Type} (g : α → Option β) :
    ∀ (l : List α), (∀ a ∈ l, ∃ b, g a = some b) → (l.filterMap g).length = l.length := by
  intro l
  induction l with
  | nil => intro _; rfl
  | cons a as ih =>
    intro hall
    obtain ⟨b, hb⟩ := hall a (List.mem_cons_self _ _)
    rw [List.filterMap_cons_some hb, List.length_cons, List.length_cons,
      ih (fun x hx => hall x (List.mem_cons_of_mem _ hx))]

/-- C22 (the conservation check compares two wrapped sums). A successful
`construct_tx_with_tx_key` only tells that the sum of the destination amounts
reduced modulo `2^64` does not exceed the sum of the source amounts reduced
modulo `2^64`. With one source of amount 1 and two destinations of amount
`2^63` each, `summary_outs_money` wraps to 0, the call succeeds, and the
version 1 transaction it produces has an input of amount 1 and two outputs of
amount `2^63`, whose sum is `2^64`. -/
theorem c22_conservation_check_wraps (cfg : Config) (ext : Externals)
    (sender_account_keys : account_keys) (sources : List tx_source_entry)
    (destinations : List tx_destination_entry) (change_addr : Option account_public_address)
    (extra : List Nat) (tx : transaction) (unlock_time : Nat) (tx_key : secret_key)
    (additional_tx_keys : List secret_key) (rct : Bool) (range_proof_type : Nat)
    (shuffle_outs use_view_tags : Bool) :
    (∀ tx1, construct_tx_with_tx_key cfg ext sender_account_keys sources destinations
          change_addr extra tx unlock_time tx_key additional_tx_keys rct range_proof_type
          shuffle_outs use_view_tags = some tx1 →
        ((if shuffle_outs then ext.shuffle destinations else destinations).map
            (fun dst_entr => dst_entr.amount)).sum % 2 ^ 64
          ≤ (sources.map (fun src_entr => src_entr.amount)).sum % 2 ^ 64)
    ∧ ((construct_tx_with_tx_key haven_config ex_externals ex_sender [ex_source 1 false 9]
          [ex_destination (2 ^ 63) 0 0 false, ex_destination (2 ^ 63) 0 0 false] none []
          ex_tx_miner 0 ⟨[5]⟩ [] false 0 false false).map
          (fun t => (t.version, t.vin, t.vout.map (fun o => o.amount)))
        = some (1, [.to_key ⟨1, [10, 15], ⟨[9]⟩⟩], [2 ^ 63, 2 ^ 63])
      ∧ ([ex_destination (2 ^ 63) 0 0 false, ex_destination (2 ^ 63) 0 0 false].map
          (fun dst_entr => dst_entr.amount)).sum = 2 ^ 64
      ∧ ([ex_source 1 false 9].map (fun src_entr => src_entr.amount)).sum = 1
      ∧ sum_u64 [2 ^ 63, 2 ^ 63] = 0) := by
  refine ⟨?_, rfl, rfl, rfl, rfl⟩
  intro tx1 h
  obtain ⟨_, _, _, _, _, _, _, _, _, hle, _⟩ := construct_tx_with_tx_key_inv h
  rw [sum_u64_eq, sum_u64_eq] at hle
  exact hle

/-- C26, counterexample. With one source of amount 5 that is not flagged `rct`
and `rct = true`, `construct_tx_with_tx_key` produces a version 2 transaction
whose input keeps the cleartext amount 5; the output amount is 0. -/
theorem c26_counterexample :
    (construct_tx_with_tx_key haven_config ex_externals ex_sender [ex_source 5 false 9]
        [ex_destination 3 0 0 false] none [] ex_tx_miner 0 ⟨[5]⟩ [] true 1 false false).map
        (fun t => (t.version, t.vin, t.vout.map (fun o => o.amount)))
      = some (2, [.to_key ⟨5, [10, 15], ⟨[9]⟩⟩], [0])
    ∧ (ex_source 5 false 9).rct = false := by
  exact ⟨rfl, rfl⟩

/-- C26, amended. In every version 2 transaction that `construct_tx_with_tx_key`
produces (`rct = true`) the cleartext amount of every output is 0; there is one
input per source, and every input is the `txin_to_key` built from one of the
sources, with the key image derived for that source, whose amount is 0 when
that source is flagged `rct` and the amount of that source when it is not; so
when every source is flagged `rct` the amount of every input is 0. -/
theorem c26_rct_amounts (cfg : Config) (ext : Externals)
    (sender_account_keys : account_keys) (sources : List tx_source_entry)
    (destinations : List tx_destination_entry) (change_addr : Option account_public_address)
    (extra : List Nat) (tx tx1 : transaction) (unlock_time : Nat) (tx_key : secret_key)
    (additional_tx_keys : List secret_key) (range_proof_type : Nat)
    (shuffle_outs use_view_tags : Bool)
    (h : construct_tx_with_tx_key cfg ext sender_account_keys sources destinations
      change_addr extra tx unlock_time tx_key additional_tx_keys true range_proof_type
      shuffle_outs use_view_tags = some tx1) :
    tx1.version = 2
    ∧ (∀ o ∈ tx1.vout, o.amount = 0)
    ∧ tx1.vin.length = sources.length
    ∧ (∀ e ∈ tx1.vin, ∃ s ∈ sources,
        ∃ (real_out : Nat × ctkey) (in_ephemeral : keypair) (img : key_image),
          s.outputs[s.real_output]? = some real_out
          ∧ ext.generate_key_image_helper sender_account_keys real_out.2.dest
              s.real_out_tx_key s.real_out_additional_tx_keys s.real_output_in_tx_index
              = some (in_ephemeral, img)
          ∧ e = .to_key
              { amount := if s.rct then 0 else s.amount, k_image := img
                key_offsets := ext.absolute_output_offsets_to_relative
                  (s.outputs.map (fun out_entry => out_entry.1)) })
    ∧ ((∀ s ∈ sources, s.rct = true) → ∀ e ∈ tx1.vin, ∃ x, e = .to_key x ∧ x.amount = 0) := by
  obtain ⟨extra1, ins, extra2, vout, amount_keys, _, _, hins, _, _, hver, _, _, _, hrct, _⟩ :=
    construct_tx_with_tx_key_inv h
  obtain ⟨hvin, hvout⟩ := hrct rfl
  obtain ⟨hlen, hspec⟩ := fill_inputs_spec ext sender_account_keys sources ins hins
  have hlen1 : (ins.map (fun p => p.1)).length = sources.length := by
    rw [List.length_map, hlen]
  have horder := ins_order_lt (ins.map (fun p => p.1))
  replace hvin := hvin.trans (zipWith_apply_permutation _ _ _ hlen1 _ horder)
  have hsome : ∀ j ∈ ins_order (ins.map (fun p => p.1)),
      ∃ s, sources[j]? = some s ∧
        ∃ (real_out : Nat × ctkey) (in_ephemeral : keypair) (img : key_image),
          s.outputs[s.real_output]? = some real_out
          ∧ ext.generate_key_image_helper sender_account_keys real_out.2.dest
              s.real_out_tx_key s.real_out_additional_tx_keys s.real_output_in_tx_index
              = some (in_ephemeral, img)
          ∧ ((ins.map (fun p => p.1))[j]?).bind (fun a => (sources[j]?).map
              (fun b => if b.rct then zero_input_amount a else a))
            = some (.to_key
              { amount := if s.rct then 0 else s.amount, k_image := img
                key_offsets := ext.absolute_output_offsets_to_relative
                  (s.outputs.map (fun out_entry => out_entry.1)) }) := by
    intro j hj
    have hj1 : j < sources.length := hlen1 ▸ horder j hj
    have hs : sources[j]? = some sources[j] := List.getElem?_eq_getElem hj1
    obtain ⟨real_out, in_ephemeral, img, h1, h2, _, h4⟩ := hspec j _ hs
    refine ⟨sources[j], hs, real_out, in_ephemeral, img, h1, h2, ?_⟩
    have h5 : (ins.map (fun p => p.1))[j]? = some (txin_v.to_key
        { amount := sources[j].amount, k_image := img
          key_offsets := ext.absolute_output_offsets_to_relative
            (sources[j].outputs.map (fun out_entry => out_entry.1)) }) := by
      rw [List.getElem?_map, h4]
      rfl
    rw [h5, hs]
    by_cases hr : sources[j].rct = true <;> simp [zero_input_amount, hr]
  have hin : ∀ e ∈ tx1.vin, ∃ s ∈ sources,
      ∃ (real_out : Nat × ctkey) (in_ephemeral : keypair) (img : key_image),
        s.outputs[s.real_output]? = some real_out
        ∧ ext.generate_key_image_helper sender_account_keys real_out.2.dest
            s.real_out_tx_key s.real_out_additional_tx_keys s.real_output_in_tx_index
            = some (in_ephemeral, img)
        ∧ e = .to_key
            { amount := if s.rct then 0 else s.amount, k_image := img
              key_offsets := ext.absolute_output_offsets_to_relative
                (s.outputs.map (fun out_entry => out_entry.1)) } := by
    intro e he
    rw [hvin] at he
    obtain ⟨j, hj, hje⟩ := List.mem_filterMap.mp he
    obtain ⟨s, hs, real_out, in_ephemeral, img, h1, h2, h3⟩ := hsome j hj
    exact ⟨s, List.getElem?_mem hs, real_out, in_ephemeral, img, h1, h2,
      Option.some.inj (hje.symm.trans h3)⟩
  refine ⟨hver, ?_, ?_, hin, ?_⟩
  · intro o ho
    rw [hvout] at ho
    obtain ⟨o1, _, ho1⟩ := List.mem_map.mp ho
    rw [← ho1]
  · rw [hvin, filterMap_length_of_some _ _ (fun j hj => by
      obtain ⟨s, _, _, _, _, _, _, h3⟩ := hsome j hj
      exact ⟨_, h3⟩)]
    unfold ins_order
    rw [List.length_insertionSort, List.length_range, hlen1]
  · intro hall e he
    obtain ⟨s, hs, _, _, img, _, _, hx⟩ := hin e he
    refine ⟨_, hx, ?_⟩
    simp [hall s hs]

/-- Witness of C26: two sources flagged `rct`, one destination; the result is `ex_built_rct`. -/
theorem c26_rct_amounts_witness :
    construct_tx_with_tx_key haven_config ex_externals ex_sender
        [ex_source 5 true 9, ex_source 4 true 11] [ex_destination 3 0 0 false] none []
        ex_tx_miner 0 ⟨[5]⟩ [] true 0 false false = some ex_built_rct
    ∧ (ex_built_rct.version = 2
      ∧ (∀ o ∈ ex_built_rct.vout, o.amount = 0)
      ∧ ex_built_rct.vin.length = [ex_source 5 true 9, ex_source 4 true 11].length
      ∧ (∀ e ∈ ex_built_rct.vin, ∃ s ∈ [ex_source 5 true 9, ex_source 4 true 11],
          ∃ (real_out : Nat × ctkey) (in_ephemeral : keypair) (img : key_image),
            s.outputs[s.real_output]? = some real_out
            ∧ ex_externals.generate_key_image_helper ex_sender real_out.2.dest
                s.real_out_tx_key s.real_out_additional_tx_keys s.real_output_in_tx_index
                = some (in_ephemeral, img)
            ∧ e = .to_key
                { amount := if s.rct then 0 else s.amount, k_image := img
                  key_offsets := ex_externals.absolute_output_offsets_to_relative
                    (s.outputs.map (fun out_entry => out_entry.1)) })
      ∧ ((∀ s ∈ [ex_source 5 true 9, ex_source 4 true 11], s.rct = true) →
          ∀ e ∈ ex_built_rct.vin, ∃ x, e = .to_key x ∧ x.amount = 0)) :=
  ⟨rfl, c26_rct_amounts haven_config ex_externals ex_sender
    [ex_source 5 true 9, ex_source 4 true 11] [ex_destination 3 0 0 false] none []
    ex_tx_miner ex_built_rct 0 ⟨[5]⟩ [] 0 false false rfl⟩

/-- C27, counterexample. With an encrypted short payment id in `extra` and two
destinations at different addresses, `get_destination_view_key_pub` gives the
null key and `construct_tx_with_tx_key` returns `false`; the same call with an
empty `extra` succeeds (the dummy payment id is given up and `extra` holds only
the transaction public key), and so does the call with the payment id and one
destination. -/
theorem c27_counterexample :
    construct_tx_with_tx_key haven_config ex_externals ex_sender [ex_source 5 false 9]
        [ex_destination 3 0 0 false, ex_destination_to ex_address_b 2 false] none
        ex_extra_payment_id ex_tx_miner 0 ⟨[5]⟩ [] true 1 false false = none
    ∧ payment_id_stage ex_externals
        [ex_destination 3 0 0 false, ex_destination_to ex_address_b 2 false] none ⟨[5]⟩
        ex_extra_payment_id = none
    ∧ get_destination_view_key_pub ex_externals.null_pkey
        [ex_destination 3 0 0 false, ex_destination_to ex_address_b 2 false] none
        = ex_externals.null_pkey
    ∧ (construct_tx_with_tx_key haven_config ex_externals ex_sender [ex_source 5 false 9]
        [ex_destination 3 0 0 false, ex_destination_to ex_address_b 2 false] none
        [] ex_tx_miner 0 ⟨[5]⟩ [] true 1 false false).map (fun t => t.extra) = some [1, 5]
    ∧ (construct_tx_with_tx_key haven_config ex_externals ex_sender [ex_source 5 false 9]
        [ex_destination 3 0 0 false] none
        ex_extra_payment_id ex_tx_miner 0 ⟨[5]⟩ [] true 1 false false).isSome = true := by
  refine ⟨rfl, rfl, rfl, rfl, rfl⟩

/-- The search for a payment id ends in `return false` exactly when an encrypted
short payment id is found and the view key is null, the device fails to encrypt
it, or the new nonce cannot be added. -/
theorem payment_id_from_extra_none (ext : Externals) (destinations : List tx_destination_entry)
    (change_addr : Option account_public_address) (tx_key : secret_key) (extra : List Nat)
    (fields : List (List Nat)) :
    payment_id_from_extra ext destinations change_addr tx_key extra fields = none ↔
      ∃ nonce payment_id8,
        ext.find_tx_extra_nonce fields = some nonce
        ∧ ext.get_encrypted_payment_id_from_tx_extra_nonce nonce = some payment_id8
        ∧ (get_destination_view_key_pub ext.null_pkey destinations change_addr = ext.null_pkey
          ∨ (ext.encrypt_payment_id payment_id8
              (get_destination_view_key_pub ext.null_pkey destinations change_addr) tx_key).1
              = false
          ∨ (ext.add_extra_nonce_to_tx_extra
              (ext.remove_field_from_tx_extra extra "tx_extra_nonce")
              (ext.set_encrypted_payment_id_to_tx_extra_nonce
                (ext.encrypt_payment_id payment_id8
                  (get_destination_view_key_pub ext.null_pkey destinations change_addr)
                  tx_key).2)).1 = false) := by
  unfold payment_id_from_extra
  cases hf : ext.find_tx_extra_nonce fields with
  | none => simp
  | some nonce =>
    simp only []
    cases hg : ext.get_encrypted_payment_id_from_tx_extra_nonce nonce with
    | none =>
      simp only []
      cases ext.get_payment_id_from_tx_extra_nonce nonce <;> simp [hg]
    | some payment_id8 =>
      simp only []
      by_cases hv : get_destination_view_key_pub ext.null_pkey destinations change_addr
          = ext.null_pkey
      · rw [if_pos hv]
        simp [hv, hg]
      · rw [if_neg hv]
        by_cases he : (ext.encrypt_payment_id payment_id8
            (get_destination_view_key_pub ext.null_pkey destinations change_addr) tx_key).1
            = false
        · rw [if_pos he]
          simp [he, hg]
        · rw [if_neg he]
          by_cases ha : (ext.add_extra_nonce_to_tx_extra
              (ext.remove_field_from_tx_extra extra "tx_extra_nonce")
              (ext.set_encrypted_payment_id_to_tx_extra_nonce
                (ext.encrypt_payment_id payment_id8
                  (get_destination_view_key_pub ext.null_pkey destinations change_addr)
                  tx_key).2)).1 = false
          · rw [if_pos ha]
            simp [ha, hg]
          · rw [if_neg ha]
            simp [hv, he, ha, hg]

/-- C27, amended. The payment-id part of `construct_tx_with_tx_key` returns
`false` exactly when `extra` parses, its nonce holds an encrypted short payment
id, and the destinations give no unique view key, or the device fails to
encrypt the id, or the encrypted nonce cannot be added to `extra`; then the
whole call returns `false`. When `extra` parses and holds no encrypted short
payment id, the part always goes on: the failures on the dummy payment id that
the builder adds itself are ignored. -/
theorem c27_payment_id_failures (cfg : Config) (ext : Externals)
    (sender_account_keys : account_keys) (sources : List tx_source_entry)
    (destinations : List tx_destination_entry) (change_addr : Option account_public_address)
    (extra : List Nat) (tx : transaction) (unlock_time : Nat) (tx_key : secret_key)
    (additional_tx_keys : List secret_key) (rct : Bool) (range_proof_type : Nat)
    (shuffle_outs use_view_tags : Bool) :
    (payment_id_stage ext destinations change_addr tx_key extra = none ↔
      ∃ fields nonce payment_id8,
        ext.parse_tx_extra extra = some fields
        ∧ ext.find_tx_extra_nonce fields = some nonce
        ∧ ext.get_encrypted_payment_id_from_tx_extra_nonce nonce = some payment_id8
        ∧ (get_destination_view_key_pub ext.null_pkey destinations change_addr = ext.null_pkey
          ∨ (ext.encrypt_payment_id payment_id8
              (get_destination_view_key_pub ext.null_pkey destinations change_addr) tx_key).1
              = false
          ∨ (ext.add_extra_nonce_to_tx_extra
              (ext.remove_field_from_tx_extra extra "tx_extra_nonce")
              (ext.set_encrypted_payment_id_to_tx_extra_nonce
                (ext.encrypt_payment_id payment_id8
                  (get_destination_view_key_pub ext.null_pkey destinations change_addr)
                  tx_key).2)).1 = false))
    ∧ (payment_id_stage ext destinations change_addr tx_key extra = none →
        construct_tx_with_tx_key cfg ext sender_account_keys sources destinations change_addr
          extra tx unlock_time tx_key additional_tx_keys rct range_proof_type shuffle_outs
          use_view_tags = none)
    ∧ (∀ fields,
        ext.parse_tx_extra extra = some fields →
        (∀ nonce, ext.find_tx_extra_nonce fields = some nonce →
          ext.get_encrypted_payment_id_from_tx_extra_nonce nonce = none) →
        ∃ extra1, payment_id_stage ext destinations change_addr tx_key extra = some extra1) := by
  have hiff : payment_id_stage ext destinations change_addr tx_key extra = none ↔
      ∃ fields, ext.parse_tx_extra extra = some fields
        ∧ payment_id_from_extra ext destinations change_addr tx_key extra fields = none := by
    unfold payment_id_stage
    cases hp : ext.parse_tx_extra extra with
    | none => simp
    | some fields =>
      simp only []
      cases hq : payment_id_from_extra ext destinations change_addr tx_key extra fields with
      | none => simp [hq]
      | some r =>
        obtain ⟨extra1, add_dummy⟩ := r
        simp only []
        split <;> simp [hq]
  refine ⟨?_, ?_, ?_⟩
  · rw [hiff]
    constructor
    · rintro ⟨fields, hp, hq⟩
      obtain ⟨nonce, id8, h1, h2, h3⟩ :=
        (payment_id_from_extra_none ext destinations change_addr tx_key extra fields).mp hq
      exact ⟨fields, nonce, id8, hp, h1, h2, h3⟩
    · rintro ⟨fields, nonce, id8, hp, h1, h2, h3⟩
      exact ⟨fields, hp,
        (payment_id_from_extra_none ext destinations change_addr tx_key extra fields).mpr
          ⟨nonce, id8, h1, h2, h3⟩⟩
  · intro hnone
    unfold construct_tx_with_tx_key
    by_cases hs : sources = []
    · rw [if_pos hs]
    · rw [if_neg hs]
      simp only [transaction.set_null, hnone]
  · intro fields hp hno
    cases hst : payment_id_stage ext destinations change_addr tx_key extra with
    | some extra1 => exact ⟨extra1, rfl⟩
    | none =>
      exfalso
      obtain ⟨fields1, hp1, hq⟩ := hiff.mp hst
      rw [hp] at hp1
      have := Option.some.inj hp1
      subst this
      obtain ⟨nonce, id8, h1, h2, _⟩ :=
        (payment_id_from_extra_none ext destinations change_addr tx_key extra fields).mp hq
      rw [hno nonce h1] at h2
      cases h2

/-- The loop of `classify_addresses` counts, among the distinct destinations off
the change address whose address is not yet in `unique_dst_addresses`, those
that are not and those that are flagged `is_subaddress`. -/
theorem classify_addresses_loop_spec (change_addr : Option account_public_address) :
    ∀ (dsts : List tx_destination_entry) (seen : List account_public_address)
      (num_std num_sub : Nat) (single : account_public_address),
      (classify_addresses_loop change_addr dsts seen num_std num_sub single).1
          = num_std + (((distinct_destinations change_addr dsts).filter
              (fun e => decide (e.addr ∉ seen))).countP (fun d => !d.is_subaddress))
      ∧ (classify_addresses_loop change_addr dsts seen num_std num_sub single).2.1
          = num_sub + (((distinct_destinations change_addr dsts).filter
              (fun e => decide (e.addr ∉ seen))).countP (fun d => d.is_subaddress)) := by
  intro dsts
  induction dsts with
  | nil =>
    intro seen num_std num_sub single
    simp [classify_addresses_loop, distinct_destinations]
  | cons d rest ih =>
    intro seen num_std num_sub single
    rw [classify_addresses_loop, distinct_destinations]
    by_cases hc : change_addr = some d.addr
    · rw [if_pos hc, if_pos hc]
      exact ih seen num_std num_sub single
    · rw [if_neg hc, if_neg hc]
      by_cases hseen : d.addr ∉ seen
      · rw [if_pos hseen]
        have hfilter : ((d :: (distinct_destinations change_addr rest).filter
              (fun e => decide (e.addr ≠ d.addr))).filter (fun e => decide (e.addr ∉ seen)))
            = d :: (distinct_destinations change_addr rest).filter
                (fun e => decide (e.addr ∉ d.addr :: seen)) := by
          rw [List.filter_cons_of_pos (by simpa using hseen), List.filter_filter]
          congr 1
          apply List.filter_congr
          intro x _
          simp only [List.mem_cons, not_or, ne_eq, Bool.decide_and, Bool.and_comm]
        rw [hfilter]
        cases hsub : d.is_subaddress with
        | true =>
          simp only [if_true]
          obtain ⟨h1, h2⟩ := ih (d.addr :: seen) num_std (num_sub + 1) d.addr
          rw [h1, h2]
          simp [List.countP_cons, hsub]
          omega
        | false =>
          simp only [Bool.false_eq_true, if_false]
          obtain ⟨h1, h2⟩ := ih (d.addr :: seen) (num_std + 1) num_sub single
          rw [h1, h2]
          simp [List.countP_cons, hsub]
          omega
      · rw [if_neg hseen]
        have hin : d.addr ∈ seen := not_not.mp hseen
        have hfilter : ((d :: (distinct_destinations change_addr rest).filter
              (fun e => decide (e.addr ≠ d.addr))).filter (fun e => decide (e.addr ∉ seen)))
            = (distinct_destinations change_addr rest).filter
                (fun e => decide (e.addr ∉ seen)) := by
          rw [List.filter_cons_of_neg (by simpa using hin), List.filter_filter]
          apply List.filter_congr
          intro x _
          by_cases hx : x.addr ∈ seen
          · simp [hx]
          · have : x.addr ≠ d.addr := fun heq => hx (heq ▸ hin)
            simp [hx, this]
        rw [hfilter]
        exact ih seen num_std num_sub single

/-- `classify_addresses` counts the standard addresses and the subaddresses among `distinct_destinations`. -/
theorem classify_addresses_spec (destinations : List tx_destination_entry)
    (change_addr : Option account_public_address) (single : account_public_address) :
    (classify_addresses destinations change_addr single).1
        = (distinct_destinations change_addr destinations).countP (fun d => !d.is_subaddress)
    ∧ (classify_addresses destinations change_addr single).2.1
        = (distinct_destinations change_addr destinations).countP (fun d => d.is_subaddress) := by
  obtain ⟨h1, h2⟩ := classify_addresses_loop_spec change_addr destinations [] 0 0 single
  unfold classify_addresses
  rw [h1, h2]
  simp



/-- When additional keys are needed and their number differs from the number of
destinations, the output part of the builder returns `false`. -/
theorem outputs_stage_none_of_need (ext : Externals) (sender_account_keys : account_keys)
    (version : Nat) (destinations : List tx_destination_entry)
    (change_addr : Option account_public_address) (tx_key : secret_key)
    (additional_tx_keys : List secret_key) (use_view_tags : Bool) (extra : List Nat)
    (hneed : need_additional_txkeys
      (classify_addresses destinations change_addr ext.uninitialized_address).1
      (classify_addresses destinations change_addr ext.uninitialized_address).2.1 = true)
    (hlen : destinations.length ≠ additional_tx_keys.length) :
    outputs_stage ext sender_account_keys version destinations change_addr tx_key
      additional_tx_keys use_view_tags extra = none := by
  unfold outputs_stage
  simp only []
  rw [if_pos ⟨hneed, hlen⟩]

/-- C25. `classify_addresses` counts each distinct address off the change address
once, as a subaddress or a standard address by the flag of its first
destination; `need_additional_txkeys` holds exactly when these include at least
one subaddress and either a standard address or more than one subaddress; when
it holds for the destinations as the builder classifies them (after the
shuffle) and the number of additional keys differs from the number of
destinations, `construct_tx_with_tx_key` returns `false`; and when it holds,
`construct_tx_and_get_tx_key` writes exactly one additional key per
destination. Evaluations: a standard address and a subaddress give the counts
(1, 1); the build fails without additional keys, succeeds with two, and
`construct_tx_and_get_tx_key` generates two. -/
theorem c25_additional_tx_keys (cfg : Config) (ext : Externals)
    (sender_account_keys : account_keys) (sources : List tx_source_entry)
    (destinations : List tx_destination_entry) (change_addr : Option account_public_address)
    (extra : List Nat) (tx : transaction) (unlock_time : Nat) (tx_key : secret_key)
    (additional_tx_keys : List secret_key) (rct : Bool) (range_proof_type : Nat)
    (shuffle_outs use_view_tags : Bool) (single : account_public_address) :
    ((classify_addresses destinations change_addr single).1
        = (distinct_destinations change_addr destinations).countP (fun d => !d.is_subaddress)
      ∧ (classify_addresses destinations change_addr single).2.1
        = (distinct_destinations change_addr destinations).countP (fun d => d.is_subaddress))
    ∧ (need_additional_txkeys (classify_addresses destinations change_addr single).1
          (classify_addresses destinations change_addr single).2.1 = true ↔
        (∃ d ∈ distinct_destinations change_addr destinations, d.is_subaddress = true)
        ∧ ((∃ d ∈ distinct_destinations change_addr destinations, d.is_subaddress = false)
          ∨ 1 < (distinct_destinations change_addr destinations).countP
              (fun d => d.is_subaddress)))
    ∧ (need_additional_txkeys
          (classify_addresses (if shuffle_outs then ext.shuffle destinations else destinations)
            change_addr ext.uninitialized_address).1
          (classify_addresses (if shuffle_outs then ext.shuffle destinations else destinations)
            change_addr ext.uninitialized_address).2.1 = true →
        (if shuffle_outs then ext.shuffle destinations else destinations).length
          ≠ additional_tx_keys.length →
        construct_tx_with_tx_key cfg ext sender_account_keys sources destinations change_addr
          extra tx unlock_time tx_key additional_tx_keys rct range_proof_type shuffle_outs
          use_view_tags = none)
    ∧ (need_additional_txkeys
          (classify_addresses destinations change_addr ext.uninitialized_address).1
          (classify_addresses destinations change_addr ext.uninitialized_address).2.1 = true →
        (construct_tx_and_get_tx_key cfg ext sender_account_keys sources destinations
          change_addr extra tx unlock_time tx_key additional_tx_keys rct range_proof_type
          use_view_tags).2.2.length = destinations.length)
    ∧ (classify_addresses
          [ex_destination 3 0 0 false, ex_destination_to ex_address_b 2 true] none ex_address
          = (1, 1, ex_address_b)
      ∧ construct_tx_with_tx_key haven_config ex_externals ex_sender [ex_source 5 false 9]
          [ex_destination 3 0 0 false, ex_destination_to ex_address_b 2 true] none []
          ex_tx_miner 0 ⟨[5]⟩ [] true 1 false false = none
      ∧ (construct_tx_with_tx_key haven_config ex_externals ex_sender [ex_source 5 false 9]
          [ex_destination 3 0 0 false, ex_destination_to ex_address_b 2 true] none []
          ex_tx_miner 0 ⟨[5]⟩ [⟨[0]⟩, ⟨[1]⟩] true 1 false false).isSome = true
      ∧ (construct_tx_and_get_tx_key haven_config ex_externals ex_sender [ex_source 5 false 9]
          [ex_destination 3 0 0 false, ex_destination_to ex_address_b 2 true] none []
          ex_tx_miner 0 ⟨[5]⟩ [] true 1 false).2.2 = [⟨[0]⟩, ⟨[1]⟩]) := by
  have hspec := classify_addresses_spec destinations change_addr single
  refine ⟨hspec, ?_, ?_, ?_, rfl, rfl, rfl, rfl⟩
  · rw [hspec.1, hspec.2]
    unfold need_additional_txkeys
    rw [decide_eq_true_iff]
    constructor
    · rintro ⟨h1, h2⟩
      refine ⟨?_, ?_⟩
      · obtain ⟨d, hd, hp⟩ := List.countP_pos_iff.mp h1
        exact ⟨d, hd, hp⟩
      · rcases h2 with h2 | h2
        · left
          obtain ⟨d, hd, hp⟩ := List.countP_pos_iff.mp h2
          exact ⟨d, hd, by simpa using hp⟩
        · right
          exact h2
    · rintro ⟨⟨d, hd, hp⟩, h2⟩
      refine ⟨List.countP_pos_iff.mpr ⟨d, hd, hp⟩, ?_⟩
      rcases h2 with ⟨d2, hd2, hp2⟩ | h2
      · left
        exact List.countP_pos_iff.mpr ⟨d2, hd2, by simpa using hp2⟩
      · right
        exact h2
  · intro hneed hlen
    unfold construct_tx_with_tx_key
    by_cases hs : sources = []
    · rw [if_pos hs]
    · rw [if_neg hs]
      simp only []
      cases hp : payment_id_stage ext destinations change_addr tx_key extra with
      | none => simp only [transaction.set_null, hp]
      | some extra1 =>
        cases hi : fill_inputs ext sender_account_keys sources with
        | none => simp only [transaction.set_null, hp, hi]
        | some ins =>
          simp only [transaction.set_null, hp, hi]
          rw [outputs_stage_none_of_need ext sender_account_keys _ _ change_addr tx_key
            additional_tx_keys use_view_tags extra1 hneed hlen]
  · intro hneed
    unfold construct_tx_and_get_tx_key
    simp only [hneed, if_true, List.length_map, List.length_range]

/-! ### Claim on the monotonicity of the collateral -/


/-- C21 (the collateral is cut to 64 bits). For an offshore the collateral is
`vbs * amount / COIN` reduced modulo `2^64`, with `vbs` the integer that the
floating-point part ends in. With a supply of four million XHV and no xAsset,
at a rate of 1 XUSD per XHV, an offshore of 0.8 million XHV has the factor
`5 * 10^12` and the collateral `4 * 10^18`; an offshore of 2 million XHV has the
factor `10^13`, the product `2 * 10^19` exceeds `2^64`, and the collateral
returned is 1553255926290448384: the larger amount gets the smaller collateral.
Apart from the cut, for amounts above the whole supply the factor itself
falls faster than the amount grows: with a supply of 15 XHV an offshore of
16 XHV has the factor `12 * 10^12` and the collateral `192 * 10^12`, an offshore
of 20 XHV the factor `6 * 10^12` and the collateral `120 * 10^12`. -/
theorem c21_collateral_wraps (cfg : Config) (vbs : transaction_type → Nat → Nat → Nat → Nat)
    (amount : Nat) (pr : pricing_record) (amounts : List (String × Nat)) :
    (∀ mcap_xassets, mcap_xassets_loop cfg pr amounts 0 = .ok mcap_xassets →
        0 < cfg.COIN → cfg.COIN < 2 ^ 128 →
        get_collateral_requirements cfg vbs .OFFSHORE amount pr amounts
          = .ok ((vbs .OFFSHORE mcap_xassets
                    ((map_amounts_xhv amounts * min pr.unused1 pr.xUSD) % 2 ^ 128 / cfg.COIN)
                    ((amount * min pr.unused1 pr.xUSD) % 2 ^ 128 / cfg.COIN) % 2 ^ 64
                  * amount) % 2 ^ 128 / cfg.COIN % 2 ^ 64))
    ∧ (ex_vbs .OFFSHORE 0 4000000000000000000 800000000000000000 = 5000000000000
      ∧ ex_vbs .OFFSHORE 0 4000000000000000000 2000000000000000000 = 10000000000000
      ∧ get_collateral_requirements haven_config ex_vbs .OFFSHORE 800000000000000000
          ex_pricing_record_unit ex_supply_xhv_only = .ok 4000000000000000000
      ∧ get_collateral_requirements haven_config ex_vbs .OFFSHORE 2000000000000000000
          ex_pricing_record_unit ex_supply_xhv_only = .ok 1553255926290448384
      ∧ 10000000000000 * 2000000000000000000 / 1000000000000 = 20000000000000000000
      ∧ 20000000000000000000 % 2 ^ 64 = 1553255926290448384
      ∧ 800000000000000000 ≤ 2000000000000000000
      ∧ ¬ 4000000000000000000 ≤ 1553255926290448384)
    ∧ (ex_vbs .OFFSHORE 0 15000000000000 16000000000000 = 12000000000000
      ∧ ex_vbs .OFFSHORE 0 15000000000000 20000000000000 = 6000000000000
      ∧ get_collateral_requirements haven_config ex_vbs .OFFSHORE 16000000000000
          ex_pricing_record_unit ex_supply_fifteen = .ok 192000000000000
      ∧ get_collateral_requirements haven_config ex_vbs .OFFSHORE 20000000000000
          ex_pricing_record_unit ex_supply_fifteen = .ok 120000000000000) := by
  refine ⟨?_, ⟨rfl, rfl, rfl, rfl, by decide, by decide, by decide, by decide⟩,
    rfl, rfl, rfl, rfl⟩
  intro mcap_xassets hm hpos hlt
  have hmod : cfg.COIN % 2 ^ 128 = cfg.COIN := Nat.mod_eq_of_lt hlt
  have hc : ¬ cfg.COIN = 0 := by omega
  unfold get_collateral_requirements
  simp only [hm, hmod, if_neg hc]
  simp

/-! ### Claim on the size of the conversion fees -/


/-- The amount that `get_offshore_fee` sums is a 64-bit value. -/
theorem offshore_fee_amount_lt (dsts : List tx_destination_entry) :
    offshore_fee_amount dsts < 2 ^ 64 := by
  rw [offshore_fee_amount_eq]; exact Nat.mod_lt _ (by norm_num)

/-- The amount that `get_onshore_fee` sums is a 64-bit value. -/
theorem onshore_fee_amount_lt (dsts : List tx_destination_entry) :
    onshore_fee_amount dsts < 2 ^ 64 := by
  rw [onshore_fee_amount_eq]; exact Nat.mod_lt _ (by norm_num)

/-- The amount that `get_xasset_to_xusd_fee` sums is a 64-bit value. -/
theorem xasset_to_xusd_fee_amount_lt (dsts : List tx_destination_entry) :
    xasset_to_xusd_fee_amount dsts < 2 ^ 64 := by
  rw [xasset_to_xusd_fee_amount_eq]; exact Nat.mod_lt _ (by norm_num)

/-- The amount that `get_xusd_to_xasset_fee` sums is a 64-bit value. -/
theorem xusd_to_xasset_fee_amount_lt (dsts : List tx_destination_entry) :
    xusd_to_xasset_fee_amount dsts < 2 ^ 64 := by
  rw [xusd_to_xasset_fee_amount_eq]; exact Nat.mod_lt _ (by norm_num)

/-- The 64-bit product `a * 3` divided by 200 is at most `a`, whether the product wraps or not. -/
theorem wrapped_triple_fee_le (a : Nat) : (a * 3) % 2 ^ 64 / 200 ≤ a := by
  have hM : (2 : Nat) ^ 64 = 18446744073709551616 := by norm_num
  rw [hM]
  by_cases h : a * 3 < 18446744073709551616
  · rw [Nat.mod_eq_of_lt h]
    omega
  · have h1 : a * 3 % 18446744073709551616 < 18446744073709551616 :=
      Nat.mod_lt _ (by norm_num)
    generalize a * 3 % 18446744073709551616 = x at h1
    omega

/-- A fee of `k` thousandths, `k ≤ 15`, of a 64-bit amount is at most the amount. -/
theorem xasset_fee_le (A k : Nat) (hA : A < 2 ^ 64) (hk : k ≤ 15) :
    (A * k) % 2 ^ 128 / 1000 % 2 ^ 64 ≤ A := by
  rw [xasset_fee_exact A k hA hk]
  apply Nat.div_le_of_le_mul
  calc A * k ≤ A * 1000 := Nat.mul_le_mul_left _ (by omega)
    _ = 1000 * A := Nat.mul_comm _ _

/-- C38. For every destination list, `unlock_time` and hard-fork version, each of
`get_offshore_fee`, `get_onshore_fee`, `get_xasset_to_xusd_fee` and
`get_xusd_to_xasset_fee` returns at most the 64-bit amount that its loop summed.
This includes the amounts for which the 64-bit product `amount * 3` of the first
two functions wraps: for a converted amount of `2^63` the product wraps to
`2^63` and the fee is 46116860184273879. -/
theorem c38_fee_le_amount (cfg : Config) (dsts : List tx_destination_entry)
    (unlock_time hf_version : Nat) :
    get_offshore_fee cfg dsts unlock_time hf_version ≤ offshore_fee_amount dsts
    ∧ get_onshore_fee cfg dsts unlock_time hf_version ≤ onshore_fee_amount dsts
    ∧ get_xasset_to_xusd_fee cfg dsts hf_version ≤ xasset_to_xusd_fee_amount dsts
    ∧ get_xusd_to_xasset_fee cfg dsts hf_version ≤ xusd_to_xasset_fee_amount dsts
    ∧ offshore_fee_amount dsts < 2 ^ 64 ∧ onshore_fee_amount dsts < 2 ^ 64
    ∧ xasset_to_xusd_fee_amount dsts < 2 ^ 64 ∧ xusd_to_xasset_fee_amount dsts < 2 ^ 64
    ∧ get_offshore_fee haven_config [ex_destination (2 ^ 63) 1 0 false] 0 20 = 46116860184273879
    ∧ (2 ^ 63 * 3) % 2 ^ 64 = 2 ^ 63 := by
  refine ⟨?_, ?_, ?_, ?_, offshore_fee_amount_lt dsts, onshore_fee_amount_lt dsts,
    xasset_to_xusd_fee_amount_lt dsts, xusd_to_xasset_fee_amount_lt dsts, ?_, by norm_num⟩
  · unfold get_offshore_fee
    simp only []
    split
    · exact wrapped_triple_fee_le _
    · split
      · exact Nat.div_le_self _ _
      · split
        · exact Nat.div_le_self _ _
        · split
          · exact Nat.div_le_self _ _
          · split
            · exact Nat.div_le_self _ _
            · exact Nat.div_le_self _ _
  · unfold get_onshore_fee
    simp only []
    split
    · exact wrapped_triple_fee_le _
    · split
      · exact Nat.div_le_self _ _
      · split
        · exact Nat.div_le_self _ _
        · split
          · exact Nat.div_le_self _ _
          · split
            · exact Nat.div_le_self _ _
            · exact Nat.div_le_self _ _
  · unfold get_xasset_to_xusd_fee
    simp only []
    split
    · exact xasset_fee_le _ 15 (xasset_to_xusd_fee_amount_lt dsts) (by omega)
    · split
      · exact xasset_fee_le _ 5 (xasset_to_xusd_fee_amount_lt dsts) (by omega)
      · exact xasset_fee_le _ 3 (xasset_to_xusd_fee_amount_lt dsts) (by omega)
  · unfold get_xusd_to_xasset_fee
    simp only []
    split
    · exact xasset_fee_le _ 15 (xusd_to_xasset_fee_amount_lt dsts) (by omega)
    · split
      · exact xasset_fee_le _ 5 (xusd_to_xasset_fee_amount_lt dsts) (by omega)
      · exact xasset_fee_le _ 3 (xusd_to_xasset_fee_amount_lt dsts) (by omega)
  · decide

/-! ### Claims on the choice of the rct signature and on `set_null` -/


/-- The vector `ins_order` has one index per input. -/
theorem ins_order_length (vin : List txin_v) : (ins_order vin).length = vin.length := by
  unfold ins_order
  rw [List.length_insertionSort, List.length_range]

/-- A vector permuted by valid indices has one element per index. -/
theorem apply_permutation_length {α : Type} (order : List Nat) (v : List α)
    (h : ∀ j ∈ order, j < v.length) : (apply_permutation order v).length = order.length := by
  unfold apply_permutation
  exact filterMap_length_of_some _ _ (fun j hj => ⟨_, List.getElem?_eq_getElem (h j hj)⟩)

/-- Inversion of a successful `construct_tx_with_tx_key` with `rct = true`: the
call of `sign_rct` on the sorted vectors that gave the result. -/
theorem construct_tx_with_tx_key_rct_inv {cfg : Config} {ext : Externals}
    {sender_account_keys : account_keys} {sources : List tx_source_entry}
    {destinations : List tx_destination_entry} {change_addr : Option account_public_address}
    {extra : List Nat} {tx tx1 : transaction} {unlock_time : Nat} {tx_key : secret_key}
    {additional_tx_keys : List secret_key} {rct : Bool} {range_proof_type : Nat}
    {shuffle_outs use_view_tags : Bool}
    (h : construct_tx_with_tx_key cfg ext sender_account_keys sources destinations change_addr
      extra tx unlock_time tx_key additional_tx_keys rct range_proof_type shuffle_outs
      use_view_tags = some tx1) (hr : rct = true) :
    ∃ ins tx0 amount_keys t,
      fill_inputs ext sender_account_keys sources = some ins
      ∧ sign_rct cfg ext range_proof_type tx0
          (apply_permutation (ins_order (ins.map (fun p => p.1))) (ins.map (fun p => p.2)))
          (apply_permutation (ins_order (ins.map (fun p => p.1))) sources) amount_keys = some t
      ∧ tx1 = transaction.invalidate_hashes t := by
  unfold construct_tx_with_tx_key at h
  by_cases hs : sources = []
  · rw [if_pos hs] at h
    cases h
  · rw [if_neg hs] at h
    simp only [] at h
    cases hp : payment_id_stage ext destinations change_addr tx_key extra with
    | none =>
      simp only [transaction.set_null, hp] at h
      cases h
    | some extra1 =>
      cases hi : fill_inputs ext sender_account_keys sources with
      | none =>
        simp only [transaction.set_null, hp, hi] at h
        cases h
      | some ins =>
        cases ho : outputs_stage ext sender_account_keys (if rct then 2 else 1)
            (if shuffle_outs then ext.shuffle destinations else destinations) change_addr tx_key
            additional_tx_keys use_view_tags extra1 with
        | none =>
          simp only [transaction.set_null, hp, hi, ho] at h
          cases h
        | some r =>
          obtain ⟨extra2, vout, amount_keys⟩ := r
          simp only [transaction.set_null, hp, hi, ho] at h
          by_cases hm : sum_u64 ((if shuffle_outs then ext.shuffle destinations
                else destinations).map (fun dst_entr => dst_entr.amount))
              > sum_u64 (sources.map (fun src_entr => src_entr.amount))
          · rw [if_pos hm] at h
            cases h
          · rw [if_neg hm] at h
            subst hr
            simp only [if_true] at h
            rw [if_neg (by decide)] at h
            split at h
            · cases h
            · rename_i t ht
              have := Option.some.inj h
              subst this
              exact ⟨ins, _, amount_keys, t, rfl, ht, rfl⟩

/-- Where `use_simple_rct` is false for a non-empty vector of sources, the vector has one element. -/
theorem use_simple_rct_false {cfg : Config} {range_proof_type : Nat}
    {first : tx_source_entry} {rest : List tx_source_entry}
    (h : use_simple_rct cfg range_proof_type (first :: rest) = false) : rest = [] := by
  unfold use_simple_rct at h
  have h1 := of_decide_eq_false h
  cases rest with
  | nil => rfl
  | cons a as =>
    exfalso
    apply h1
    left
    simp

/-- On a non-empty vector of sources `sign_rct` fails only on the size of `outSk`. -/
theorem sign_rct_spec (cfg : Config) (ext : Externals) (range_proof_type : Nat)
    (tx : transaction) (in_contexts : List keypair) (first : tx_source_entry)
    (rest : List tx_source_entry) (amount_keys : List (List Nat)) :
    sign_rct cfg ext range_proof_type tx in_contexts (first :: rest) amount_keys
      = if tx.vout.length ≠ (rct_signature cfg ext range_proof_type tx in_contexts
            (first :: rest) first amount_keys).outSk_size then none
        else some { rct_zero_amounts tx (first :: rest) with
          rct_signatures_type := (rct_signature cfg ext range_proof_type tx in_contexts
            (first :: rest) first amount_keys).rct_type } := by
  unfold sign_rct
  simp only []
  have hlen : (rct_zero_amounts tx (first :: rest)).vout.length = tx.vout.length := by
    simp [rct_zero_amounts]
  rw [hlen]
  by_cases hu : use_simple_rct cfg range_proof_type (first :: rest) = false
  · have hrest := use_simple_rct_false hu
    subst hrest
    rw [if_neg]
    simp
  · rw [if_neg]
    intro hc
    exact hu hc.1

/-- C33. The value `use_simple_rct` is true exactly when there is more than one
source or the range-proof type is not Borromean; the signature is the value of
`genRctSimple` when it is true and of `genRct` when it is false. When it is false
a non-empty vector of sources has exactly one element, both checks of the
non-simple case are false, and `sign_rct` returns `false` only for the size of
`outSk`. In a successful `construct_tx_with_tx_key` with `rct = true` the sorted
vector of sources has the length of the given one, and the type of the signature
of the result is that of the signer so chosen. Three builds evaluate it: one
source with a Borromean range proof is signed by `genRct`, one source with
another range proof and two sources by `genRctSimple`. -/
theorem c33_simple_rct_choice (cfg : Config) (ext : Externals) (range_proof_type : Nat)
    (tx : transaction) (in_contexts : List keypair) (sources : List tx_source_entry)
    (amount_keys : List (List Nat)) :
    (use_simple_rct cfg range_proof_type sources = true
        ↔ sources.length > 1 ∨ range_proof_type ≠ cfg.RangeProofBorromean)
    ∧ (∀ first, use_simple_rct cfg range_proof_type sources = true →
        ∃ tx_prefix_hash inamounts outamounts txn_fee,
          rct_signature cfg ext range_proof_type tx in_contexts sources first amount_keys
            = ext.genRctSimple tx_prefix_hash sources in_contexts
                (tx.vout.map ext.get_output_public_key) inamounts outamounts txn_fee amount_keys)
    ∧ (∀ first, use_simple_rct cfg range_proof_type sources = false →
        ∃ tx_prefix_hash outamounts,
          rct_signature cfg ext range_proof_type tx in_contexts sources first amount_keys
            = ext.genRct tx_prefix_hash sources in_contexts
                (tx.vout.map ext.get_output_public_key) outamounts amount_keys first.real_output)
    ∧ (use_simple_rct cfg range_proof_type sources = false → sources ≠ [] → sources.length = 1)
    ∧ (∀ first rest, sources = first :: rest →
        use_simple_rct cfg range_proof_type sources = false →
        sources.any (fun src_entr => decide (src_entr.real_output ≠ first.real_output)) = false
        ∧ (sources.drop 1).any
            (fun s => decide (first.outputs.length ≠ s.outputs.length)) = false)
    ∧ (∀ first rest, sources = first :: rest →
        sign_rct cfg ext range_proof_type tx in_contexts sources amount_keys
          = if tx.vout.length ≠ (rct_signature cfg ext range_proof_type tx in_contexts
                sources first amount_keys).outSk_size then none
            else some { rct_zero_amounts tx sources with
              rct_signatures_type := (rct_signature cfg ext range_proof_type tx in_contexts
                sources first amount_keys).rct_type })
    ∧ (∀ (sender_account_keys : account_keys) (destinations : List tx_destination_entry)
        (change_addr : Option account_public_address) (extra : List Nat) (tx1 : transaction)
        (unlock_time : Nat) (tx_key : secret_key) (additional_tx_keys : List secret_key)
        (shuffle_outs use_view_tags : Bool),
        construct_tx_with_tx_key cfg ext sender_account_keys sources destinations change_addr
          extra tx unlock_time tx_key additional_tx_keys true range_proof_type shuffle_outs
          use_view_tags = some tx1 →
        ∃ ins tx0 keys first,
          fill_inputs ext sender_account_keys sources = some ins
          ∧ (apply_permutation (ins_order (ins.map (fun p => p.1))) sources).length
              = sources.length
          ∧ (apply_permutation (ins_order (ins.map (fun p => p.1))) sources).head? = some first
          ∧ tx1.rct_signatures_type
              = (rct_signature cfg ext range_proof_type tx0
                  (apply_permutation (ins_order (ins.map (fun p => p.1))) (ins.map (fun p => p.2)))
                  (apply_permutation (ins_order (ins.map (fun p => p.1))) sources) first
                  keys).rct_type
          ∧ (use_simple_rct cfg range_proof_type
                (apply_permutation (ins_order (ins.map (fun p => p.1))) sources) = true
              ↔ sources.length > 1 ∨ range_proof_type ≠ cfg.RangeProofBorromean))
    ∧ ((construct_tx_with_tx_key haven_config ex_externals ex_sender [ex_source 5 true 9]
          [ex_destination 3 0 0 false] none [] ex_tx_miner 0 ⟨[5]⟩ [] true 0 false false).map
          (fun t => t.rct_signatures_type) = some 1
      ∧ (construct_tx_with_tx_key haven_config ex_externals ex_sender [ex_source 5 true 9]
          [ex_destination 3 0 0 false] none [] ex_tx_miner 0 ⟨[5]⟩ [] true 1 false false).map
          (fun t => t.rct_signatures_type) = some 5
      ∧ (construct_tx_with_tx_key haven_config ex_externals ex_sender
          [ex_source 5 true 9, ex_source 4 true 11]
          [ex_destination 3 0 0 false] none [] ex_tx_miner 0 ⟨[5]⟩ [] true 0 false false).map
          (fun t => t.rct_signatures_type) = some 5) := by
  have hiff : ∀ l : List tx_source_entry, (use_simple_rct cfg range_proof_type l = true
      ↔ l.length > 1 ∨ range_proof_type ≠ cfg.RangeProofBorromean) := by
    intro l
    unfold use_simple_rct
    exact decide_eq_true_iff
  refine ⟨hiff sources, ?_, ?_, ?_, ?_, ?_, ?_, rfl, rfl, rfl⟩
  · intro first hu
    unfold rct_signature
    simp only [hu, if_true]
    exact ⟨_, _, _, _, rfl⟩
  · intro first hu
    unfold rct_signature
    simp only [hu]
    exact ⟨_, _, rfl⟩
  · intro hu hne
    cases hsrc : sources with
    | nil => exact absurd hsrc hne
    | cons first rest =>
      rw [hsrc] at hu
      rw [use_simple_rct_false hu]
      rfl
  · intro first rest hsrc hu
    rw [hsrc] at hu
    have hrest := use_simple_rct_false hu
    subst hrest
    subst hsrc
    simp
  · intro first rest hsrc
    subst hsrc
    exact sign_rct_spec cfg ext range_proof_type tx in_contexts first rest amount_keys
  · intro sender_account_keys destinations change_addr extra tx1 unlock_time tx_key
      additional_tx_keys shuffle_outs use_view_tags h
    obtain ⟨ins, tx0, keys, t, hins, hsign, ht⟩ := construct_tx_with_tx_key_rct_inv h rfl
    obtain ⟨hlen, _⟩ := fill_inputs_spec ext sender_account_keys sources ins hins
    have hlen1 : (ins.map (fun p => p.1)).length = sources.length := by
      rw [List.length_map, hlen]
    have hplen : (apply_permutation (ins_order (ins.map (fun p => p.1))) sources).length
        = sources.length := by
      rw [apply_permutation_length _ _ (fun j hj => hlen1 ▸ ins_order_lt _ j hj),
        ins_order_length, hlen1]
    cases hsrc : apply_permutation (ins_order (ins.map (fun p => p.1))) sources with
    | nil =>
      rw [hsrc] at hsign
      simp [sign_rct] at hsign
    | cons first rest =>
      rw [hsrc] at hsign
      rw [sign_rct_spec] at hsign
      split at hsign
      · cases hsign
      · have := Option.some.inj hsign
        subst this
        subst ht
        refine ⟨ins, tx0, keys, first, hins, hplen, ?_, ?_, ?_⟩
        · rw [hsrc]; rfl
        · rw [hsrc]; rfl
        · rw [hiff, hplen]

/-- C37. The member `transaction_prefix::set_null` sets `version` to 1,
`unlock_time` to 0 and empties `vin`, `vout` and `extra`; the other six members
keep their values. The member `transaction::set_null` does the same on the
prefix, empties the signatures, sets the rct type to `RCTTypeNull`, clears the
three flags and `pruned` and zeroes the two sizes; the cached values stay. So the
six members `pricing_record_height`, `offshore_data`, `amount_burnt`,
`amount_minted`, `output_unlock_times` and `collateral_indices` of a
transaction that `construct_tx_with_tx_key` has built are those of the object
before the call. -/
theorem c37_set_null_frame (cfg : Config) (ext : Externals) (p : transaction_prefix)
    (t : transaction) :
    set_null p
        = { version := 1, unlock_time := 0, vin := [], vout := [], extra := []
            pricing_record_height := p.pricing_record_height, offshore_data := p.offshore_data
            amount_burnt := p.amount_burnt, amount_minted := p.amount_minted
            output_unlock_times := p.output_unlock_times
            collateral_indices := p.collateral_indices }
    ∧ t.set_null cfg
        = { set_null ( transaction.totransaction_prefix t) with
            signatures := [], rct_signatures_type := cfg.RCTTypeNull
            hash_valid := false, prunable_hash_valid := false, blob_size_valid := false
            hash := t.hash, prunable_hash := t.prunable_hash, blob_size := t.blob_size
            pruned := false, unprunable_size := 0, prefix_size := 0 }
    ∧ ((t.set_null cfg).pricing_record_height = t.pricing_record_height
        ∧ (t.set_null cfg).offshore_data = t.offshore_data
        ∧ (t.set_null cfg).amount_burnt = t.amount_burnt
        ∧ (t.set_null cfg).amount_minted = t.amount_minted
        ∧ (t.set_null cfg).output_unlock_times = t.output_unlock_times
        ∧ (t.set_null cfg).collateral_indices = t.collateral_indices)
    ∧ (∀ (sender_account_keys : account_keys) (sources : List tx_source_entry)
        (destinations : List tx_destination_entry) (change_addr : Option account_public_address)
        (extra : List Nat) (tx1 : transaction) (unlock_time : Nat) (tx_key : secret_key)
        (additional_tx_keys : List secret_key) (rct : Bool) (range_proof_type : Nat)
        (shuffle_outs use_view_tags : Bool),
        construct_tx_with_tx_key cfg ext sender_account_keys sources destinations change_addr
          extra t unlock_time tx_key additional_tx_keys rct range_proof_type shuffle_outs
          use_view_tags = some tx1 →
        tx1.pricing_record_height = t.pricing_record_height
        ∧ tx1.offshore_data = t.offshore_data ∧ tx1.amount_burnt = t.amount_burnt
        ∧ tx1.amount_minted = t.amount_minted
        ∧ tx1.output_unlock_times = t.output_unlock_times
        ∧ tx1.collateral_indices = t.collateral_indices)
    ∧ (construct_tx_with_tx_key haven_config ex_externals ex_sender [ex_source 5 false 9]
          [ex_destination 3 0 0 false] none [] ex_tx_legacy_fields 0 ⟨[5]⟩ [] false 0 false
          false).map
        (fun t1 => (t1.version, t1.vin.length, t1.vout.length, t1.pricing_record_height,
          t1.offshore_data, t1.amount_burnt, t1.amount_minted, t1.output_unlock_times,
          t1.collateral_indices))
      = some (1, 1, 1, 7, [1, 2], 5, 6, [9], [0, 1]) := by
  refine ⟨rfl, rfl, ⟨rfl, rfl, rfl, rfl, rfl, rfl⟩, ?_, rfl⟩
  intro sender_account_keys sources destinations change_addr extra tx1 unlock_time tx_key
    additional_tx_keys rct range_proof_type shuffle_outs use_view_tags h
  obtain ⟨_, _, _, _, _, _, _, _, _, _, _, _, _, _, _, _, hsix⟩ :=
    construct_tx_with_tx_key_inv h
  exact hsix

/-! ### Claims on the haven variants in `get_tx_asset_types` and on the divisions by a rate -/


/-- The first loop of `get_tx_asset_types` returns `false` when an input is a `haven_key` input. -/
theorem source_asset_types_haven_key (m : Bool) (vin : List txin_v) (x : txin_haven_key)
    (hx : txin_v.haven_key x ∈ vin) :
    ∀ acc, source_asset_types m vin acc = none := by
  induction vin with
  | nil => simp at hx
  | cons e es ih =>
    intro acc
    rcases List.mem_cons.mp hx with h | h
    · subst h
      simp [source_asset_types]
    · cases e with
      | gen y =>
        rw [source_asset_types]
        by_cases hm : (!m) = true
        · rw [if_pos hm]
        · rw [if_neg hm]; exact ih h _
      | to_key y => rw [source_asset_types]; exact ih h _
      | offshore y => rw [source_asset_types]; exact ih h _
      | onshore y => rw [source_asset_types]; exact ih h _
      | xasset y =>
        rw [source_asset_types]
        by_cases hy : y.asset_type = "XHV" ∨ y.asset_type = "XUSD"
        · rw [if_pos hy]
        · rw [if_neg hy]; exact ih h _
      | to_script y => simp [source_asset_types]
      | to_scripthash y => simp [source_asset_types]
      | haven_key y => simp [source_asset_types]

/-- The second loop of `get_tx_asset_types` returns `false` when a target is a `haven_key` or `haven_tagged_key` target. -/
theorem destination_asset_types_haven (vout : List tx_out) (o : tx_out)
    (ho : o ∈ vout)
    (hx : (∃ x, o.target = .haven_key x) ∨ ∃ x, o.target = .haven_tagged_key x) :
    ∀ acc, destination_asset_types vout acc = none := by
  induction vout with
  | nil => simp at ho
  | cons e es ih =>
    intro acc
    rw [destination_asset_types]
    rcases List.mem_cons.mp ho with h | h
    · subst h
      rcases hx with ⟨x, hx⟩ | ⟨x, hx⟩ <;> simp only [hx]
    · cases he : e.target with
      | to_key y => simp only []; exact ih h _
      | offshore y => simp only []; exact ih h _
      | xasset y =>
        simp only []
        by_cases hy : y.asset_type = "XHV" ∨ y.asset_type = "XUSD"
        · rw [if_pos hy]
        · rw [if_neg hy]; exact ih h _
      | to_script y => rfl
      | to_scripthash y => rfl
      | haven_key y => rfl
      | haven_tagged_key y => rfl

/-- After a successful load below `HAVEN_TYPES_TRANSACTION_VERSION` every input is a `haven_key` input. -/
theorem load_legacy_vin_haven_key {cfg : Config} {u : Indeterminate}
    {self tx : transaction_prefix} {ar rest : List Field}
    (h : load cfg u self ar = .ok (tx, rest))
    (hv : tx.version < cfg.HAVEN_TYPES_TRANSACTION_VERSION) :
    ∀ e ∈ tx.vin, ∃ x, e = .haven_key x := by
  obtain ⟨version, ar0, s1, ar1, har, hv0, hvc, h1, hcase⟩ := load_inv h
  obtain ⟨hs1, har1⟩ := load_unlock_time_ok h1
  have hs1v : s1.version = version := by rw [hs1]
  rcases hcase with ⟨hlt, raw, hraw, hnorm⟩ | ⟨hge, hloadh⟩
  · obtain ⟨vo, hvo, htx⟩ := load_normalize_ok hnorm
    intro e he
    rw [htx] at he
    exact load_vin_haven_key u _ _ e he
  · exfalso
    have htv : tx.version = version := by
      rw [load_haven_fields_ok hloadh]; simp only []; exact hs1v
    rw [htv] at hv
    rw [hs1v] at hge
    exact hge hv

/-- C34. The function `get_tx_asset_types` returns `false` for every transaction
that holds a `haven_key` input, and for every transaction that holds a
`haven_key` or `haven_tagged_key` output. So it returns `false` for every
transaction with at least one input whose prefix is the result of a successful
load at a version below `HAVEN_TYPES_TRANSACTION_VERSION`. The version 6 archive
`ex_archive_v6` loads to such a prefix; a version 8 transaction with a `to_key`
input is refused with a `haven_tagged_key` output and accepted with a `to_key`
output. -/
theorem c34_haven_types_rejected (cfg : Config) (tx : transaction) (txid : hash)
    (is_miner_tx : Bool) :
    ((∃ x, txin_v.haven_key x ∈ tx.vin) → get_tx_asset_types cfg tx txid is_miner_tx = none)
    ∧ ((∃ o ∈ tx.vout, (∃ x, o.target = .haven_key x) ∨ ∃ x, o.target = .haven_tagged_key x) →
        get_tx_asset_types cfg tx txid is_miner_tx = none)
    ∧ (∀ (u : Indeterminate) (self : transaction_prefix) (ar rest : List Field),
        load cfg u self ar = .ok ( transaction.totransaction_prefix tx, rest) →
        tx.version < cfg.HAVEN_TYPES_TRANSACTION_VERSION → tx.vin ≠ [] →
        get_tx_asset_types cfg tx txid is_miner_tx = none)
    ∧ (load haven_config ex_indeterminate (default_constructed 0 0 0) ex_archive_v6
          = .ok ( transaction.totransaction_prefix ex_tx_loaded_v6, [])
      ∧ get_tx_asset_types haven_config ex_tx_loaded_v6 ex_txid false = none
      ∧ get_tx_asset_types haven_config (ex_transaction 8 [.to_key ⟨5, [1, 2], ex_image⟩]
          [⟨7, .haven_tagged_key ⟨ex_key, "XHV", 0, false, 1⟩⟩]) ex_txid false = none
      ∧ get_tx_asset_types haven_config (ex_transaction 8 [.to_key ⟨5, [1, 2], ex_image⟩]
          [⟨7, .to_key ⟨ex_key⟩⟩]) ex_txid false = some ("XHV", "XHV")) := by
  have hin : (∃ x, txin_v.haven_key x ∈ tx.vin) →
      get_tx_asset_types cfg tx txid is_miner_tx = none := by
    rintro ⟨x, hx⟩
    unfold get_tx_asset_types
    rw [source_asset_types_haven_key is_miner_tx tx.vin x hx []]
  refine ⟨hin, ?_, ?_, rfl, rfl, rfl, rfl⟩
  · rintro ⟨o, ho, hx⟩
    unfold get_tx_asset_types
    cases hs : source_asset_types is_miner_tx tx.vin [] with
    | none => rfl
    | some sat =>
      simp only []
      cases hsel : select_source cfg tx.version sat with
      | none => rfl
      | some source =>
        simp only []
        rw [destination_asset_types_haven tx.vout o ho hx []]
  · intro u self ar rest hload hv hne
    have hall := load_legacy_vin_haven_key hload hv
    cases hvin : tx.vin with
    | nil => exact absurd hvin hne
    | cons e es =>
      have he : e ∈ tx.vin := by rw [hvin]; exact List.mem_cons_self _ _
      obtain ⟨x, hx⟩ := hall e he
      exact hin ⟨x, hx ▸ he⟩

/-- The supply loop of `get_collateral_requirements` ends early only by a division by a zero rate of an asset other than XHV. -/
theorem mcap_xassets_loop_error (cfg : Config) (pr : pricing_record) :
    ∀ (amounts : List (String × Nat)) (acc : Nat) (e : Err),
      mcap_xassets_loop cfg pr amounts acc = .error e →
      e = .division_by_zero ∧ ∃ i ∈ amounts, i.1 ≠ "XHV" ∧ pr.get i.1 = 0 := by
  intro amounts
  induction amounts with
  | nil => intro acc e h; simp [mcap_xassets_loop] at h
  | cons i rest ih =>
    intro acc e h
    rw [mcap_xassets_loop] at h
    by_cases hx : i.1 = "XHV"
    · rw [if_pos hx] at h
      obtain ⟨he, j, hj, hj1, hj2⟩ := ih _ _ h
      exact ⟨he, j, List.mem_cons_of_mem _ hj, hj1, hj2⟩
    · rw [if_neg hx] at h
      simp only [] at h
      by_cases hz : pr.get i.1 = 0
      · rw [if_pos hz] at h
        exact ⟨(Except.error.inj h).symm, i, List.mem_cons_self _ _, hx, hz⟩
      · rw [if_neg hz] at h
        obtain ⟨he, j, hj, hj1, hj2⟩ := ih _ _ h
        exact ⟨he, j, List.mem_cons_of_mem _ hj, hj1, hj2⟩

/-- The supply loop of `get_collateral_requirements` divides by zero when an asset other than XHV has a zero rate. -/
theorem mcap_xassets_loop_zero_rate (cfg : Config) (pr : pricing_record) :
    ∀ (amounts : List (String × Nat)) (acc : Nat),
      (∃ i ∈ amounts, i.1 ≠ "XHV" ∧ pr.get i.1 = 0) →
      mcap_xassets_loop cfg pr amounts acc = .error .division_by_zero := by
  intro amounts acc hex
  cases hr : mcap_xassets_loop cfg pr amounts acc with
  | error e =>
    rw [(mcap_xassets_loop_error cfg pr amounts acc e hr).1]
  | ok m =>
    exfalso
    obtain ⟨i, hi, hi1, hi2⟩ := hex
    revert acc m
    induction amounts with
    | nil => simp at hi
    | cons j rest ih =>
      intro acc m hr
      rw [mcap_xassets_loop] at hr
      by_cases hx : j.1 = "XHV"
      · rw [if_pos hx] at hr
        rcases List.mem_cons.mp hi with h | h
        · subst h; exact hi1 hx
        · exact ih h _ _ hr
      · rw [if_neg hx] at hr
        simp only [] at hr
        by_cases hz : pr.get j.1 = 0
        · rw [if_pos hz] at hr
          cases hr
        · rw [if_neg hz] at hr
          rcases List.mem_cons.mp hi with h | h
          · subst h; exact hz hi2
          · exact ih h _ _ hr

/-- C39. For a tag other than XUSD and XHV, `get_xusd_amount` divides by zero
exactly when the rate of the tag is zero, and otherwise returns the quotient; for
XUSD and XHV it does not divide by a rate. `get_xhv_amount` divides by zero
exactly when the rate it selects (the larger or smaller of moving average and
spot from `HF_PER_OUTPUT_UNLOCK_VERSION` on, the moving average before) is
zero. With a non-zero `COIN`, `get_collateral_requirements` divides by zero
exactly when an asset of the supply list other than XHV has a zero rate or the
type is ONSHORE and the larger of moving average and spot is zero. None of the
three tests the rate. -/
theorem c39_division_guards (cfg : Config) (vbs : transaction_type → Nat → Nat → Nat → Nat)
    (amount : Nat) (tag : String) (pr : pricing_record) (tx_type : transaction_type)
    (hf_version : Nat) (amounts : List (String × Nat)) :
    (tag ≠ "XUSD" → tag ≠ "XHV" →
      (get_xusd_amount cfg amount tag pr tx_type hf_version = .error .division_by_zero
        ↔ pr.get tag = 0)
      ∧ (pr.get tag ≠ 0 →
          get_xusd_amount cfg amount tag pr tx_type hf_version
            = .ok ((amount * 1000000000000) % 2 ^ 128 / pr.get tag % 2 ^ 64)))
    ∧ ((tag = "XUSD" ∨ tag = "XHV") →
        ∃ r, get_xusd_amount cfg amount tag pr tx_type hf_version = .ok r)
    ∧ (get_xhv_amount cfg amount pr tx_type hf_version = .error .division_by_zero
        ↔ (if hf_version ≥ cfg.HF_PER_OUTPUT_UNLOCK_VERSION then
            (if tx_type = .ONSHORE then max pr.unused1 pr.xUSD else min pr.unused1 pr.xUSD)
           else pr.unused1) = 0)
    ∧ (cfg.COIN % 2 ^ 128 ≠ 0 →
        (get_collateral_requirements cfg vbs tx_type amount pr amounts
            = .error .division_by_zero
          ↔ (∃ i ∈ amounts, i.1 ≠ "XHV" ∧ pr.get i.1 = 0)
            ∨ (tx_type = .ONSHORE ∧ max pr.unused1 pr.xUSD = 0)))
    ∧ (get_xusd_amount haven_config 5 "XBTC" ex_pricing_record_zero .XASSET_TO_XUSD 20
          = .error .division_by_zero
      ∧ get_xhv_amount haven_config 5 ex_pricing_record_zero .ONSHORE 20
          = .error .division_by_zero
      ∧ get_collateral_requirements haven_config vbs .TRANSFER 5 ex_pricing_record_zero
          [("XHV", 10), ("XBTC", 1)] = .error .division_by_zero
      ∧ get_collateral_requirements haven_config vbs .ONSHORE 5 ex_pricing_record_zero
          [("XHV", 10)] = .error .division_by_zero
      ∧ ∃ r, get_collateral_requirements haven_config vbs .OFFSHORE 5 ex_pricing_record_zero
          [("XHV", 10)] = .ok r) := by
  refine ⟨?_, ?_, ?_, ?_, rfl, rfl, rfl, rfl, ?_⟩
  · intro h1 h2
    unfold get_xusd_amount
    rw [if_neg h1]
    simp only []
    rw [if_neg h2]
    by_cases hz : pr.get tag = 0
    · rw [if_pos hz]
      exact ⟨⟨fun _ => hz, fun _ => rfl⟩, fun hn => absurd hz hn⟩
    · rw [if_neg hz]
      refine ⟨⟨fun h => ?_, fun h => absurd h hz⟩, fun _ => rfl⟩
      cases h
  · intro h
    unfold get_xusd_amount
    by_cases h1 : tag = "XUSD"
    · rw [if_pos h1]; exact ⟨_, rfl⟩
    · rw [if_neg h1]
      have h2 : tag = "XHV" := h.resolve_left h1
      simp only []
      rw [if_pos h2]
      exact ⟨_, rfl⟩
  · have key : ∀ r X : Nat,
        ((if r = 0 then (Except.error Err.division_by_zero : Except Err Nat)
          else .ok (X / r % 2 ^ 64)) = .error .division_by_zero ↔ r = 0) := by
      intro r X
      by_cases hz : r = 0
      · rw [if_pos hz]; exact ⟨fun _ => hz, fun _ => rfl⟩
      · rw [if_neg hz]; exact ⟨fun h => (by cases h), fun h => absurd h hz⟩
    unfold get_xhv_amount directional_rate
    exact key _ _
  · intro hcoin
    cases hm : mcap_xassets_loop cfg pr amounts 0 with
    | error e =>
      obtain ⟨he, hex⟩ := mcap_xassets_loop_error cfg pr amounts 0 e hm
      subst he
      unfold get_collateral_requirements
      rw [hm]
      exact ⟨fun _ => Or.inl hex, fun _ => rfl⟩
    | ok m =>
      have hno : ¬ ∃ i ∈ amounts, i.1 ≠ "XHV" ∧ pr.get i.1 = 0 := by
        intro hex
        rw [mcap_xassets_loop_zero_rate cfg pr amounts 0 hex] at hm
        cases hm
      unfold get_collateral_requirements
      rw [hm]
      simp only []
      rw [if_neg hcoin]
      cases tx_type <;> simp [hno]
  · exact ⟨_, rfl⟩

/-! ### Claim on `get_destination_view_key_pub` -/


/-- A destination with a zero amount or at the change address does not count. -/
theorem counted_destinations_cons_skip (change_addr : Option account_public_address)
    (i : tx_destination_entry) (rest : List tx_destination_entry)
    (h : i.amount = 0 ∨ change_addr = some i.addr) :
    counted_destinations change_addr (i :: rest) = counted_destinations change_addr rest := by
  unfold counted_destinations
  rw [List.filter_cons_of_neg]
  simp only [decide_eq_true_eq, not_and, not_not]
  intro h1
  rcases h with h | h
  · exact absurd h h1
  · exact h

/-- A destination with a non-zero amount off the change address counts. -/
theorem counted_destinations_cons_keep (change_addr : Option account_public_address)
    (i : tx_destination_entry) (rest : List tx_destination_entry)
    (h1 : i.amount ≠ 0) (h2 : change_addr ≠ some i.addr) :
    counted_destinations change_addr (i :: rest)
      = i :: counted_destinations change_addr rest := by
  unfold counted_destinations
  rw [List.filter_cons_of_pos]
  simp only [decide_eq_true_eq]
  exact ⟨h1, h2⟩

/-- The loop of `get_destination_view_key_pub` once an address is held: the view
key of that address when every remaining counted destination has it, the null
key otherwise. -/
theorem get_destination_view_key_pub_from_pos (null_pkey : public_key)
    (change_addr : Option account_public_address) :
    ∀ (rest : List tx_destination_entry) (addr : account_public_address) (count : Nat),
      count > 0 →
      get_destination_view_key_pub_from null_pkey change_addr rest addr count
        = if ∀ i ∈ counted_destinations change_addr rest, i.addr = addr
          then addr.m_view_public_key else null_pkey := by
  intro rest
  induction rest with
  | nil =>
    intro addr count hc
    have hc0 : ¬ count = 0 := by omega
    unfold get_destination_view_key_pub_from
    cases change_addr with
    | none => simp [counted_destinations]
    | some c => simp [counted_destinations, hc0]
  | cons i rest ih =>
    intro addr count hc
    unfold get_destination_view_key_pub_from
    by_cases h0 : i.amount = 0
    · rw [if_pos h0, ih addr count hc, counted_destinations_cons_skip _ _ _ (Or.inl h0)]
    · rw [if_neg h0]
      by_cases hch : change_addr = some i.addr
      · rw [if_pos hch, ih addr count hc, counted_destinations_cons_skip _ _ _ (Or.inr hch)]
      · rw [if_neg hch, counted_destinations_cons_keep _ _ _ h0 hch]
        by_cases ha : i.addr = addr
        · rw [if_pos ha, ih addr count hc]
          by_cases hall : ∀ j ∈ counted_destinations change_addr rest, j.addr = addr
          · rw [if_pos hall, if_pos]
            intro j hj
            rcases List.mem_cons.mp hj with h | h
            · rw [h]; exact ha
            · exact hall j h
          · rw [if_neg hall, if_neg]
            intro hc2
            exact hall (fun j hj => hc2 j (List.mem_cons_of_mem _ hj))
        · rw [if_neg ha, if_pos hc, if_neg]
          intro hc2
          exact ha (hc2 i (List.mem_cons_self _ _))

/-- The value of `get_destination_view_key_pub` by the counted destinations, when no destination has the all-null address. -/
theorem get_destination_view_key_pub_spec (null_pkey : public_key)
    (change_addr : Option account_public_address) :
    ∀ (destinations : List tx_destination_entry),
      (∀ i ∈ destinations, i.addr ≠ ⟨null_pkey, null_pkey⟩) →
      get_destination_view_key_pub_from null_pkey change_addr destinations
          ⟨null_pkey, null_pkey⟩ 0
        = match counted_destinations change_addr destinations with
          | [] =>
            (match change_addr with
             | some c => c.m_view_public_key
             | none => null_pkey)
          | a :: _ =>
            if ∀ j ∈ counted_destinations change_addr destinations, j.addr = a.addr
            then a.addr.m_view_public_key else null_pkey := by
  intro destinations
  induction destinations with
  | nil =>
    intro _
    unfold get_destination_view_key_pub_from
    cases change_addr with
    | none => simp [counted_destinations]
    | some c => simp [counted_destinations]
  | cons i rest ih =>
    intro hnull
    have ih1 := ih (fun j hj => hnull j (List.mem_cons_of_mem _ hj))
    unfold get_destination_view_key_pub_from
    by_cases h0 : i.amount = 0
    · rw [if_pos h0, ih1, counted_destinations_cons_skip _ _ _ (Or.inl h0)]
    · rw [if_neg h0]
      by_cases hch : change_addr = some i.addr
      · rw [if_pos hch, ih1, counted_destinations_cons_skip _ _ _ (Or.inr hch)]
      · rw [if_neg hch, if_neg (hnull i (List.mem_cons_self _ _)), if_neg (by omega),
          counted_destinations_cons_keep _ _ _ h0 hch,
          get_destination_view_key_pub_from_pos null_pkey change_addr rest i.addr (0 + 1)
            (by omega)]
        simp only []
        by_cases hall : ∀ j ∈ counted_destinations change_addr rest, j.addr = i.addr
        · rw [if_pos hall, if_pos]
          intro j hj
          rcases List.mem_cons.mp hj with h | h
          · rw [h]
          · exact hall j h
        · rw [if_neg hall, if_neg]
          intro hc2
          exact hall (fun j hj => hc2 j (List.mem_cons_of_mem _ hj))

/-- C40, counterexample. One destination of amount 1 whose address has a spend
key and the null key as view key, no change address: the counted destinations
hold exactly one address, which is not the all-null address, and the function
returns the null key. With no destination and no change address it returns the
null key as well, and no address is held. -/
theorem c40_counterexample :
    get_destination_view_key_pub ex_externals.null_pkey [ex_destination_null_view] none
        = ex_externals.null_pkey
    ∧ counted_destinations none [ex_destination_null_view] = [ex_destination_null_view]
    ∧ ex_destination_null_view.addr ≠ ⟨ex_externals.null_pkey, ex_externals.null_pkey⟩
    ∧ get_destination_view_key_pub ex_externals.null_pkey [] none = ex_externals.null_pkey
    ∧ counted_destinations none [] = [] := by
  refine ⟨rfl, rfl, by decide, rfl, rfl⟩

/-- C40, amended. When no destination has the all-null address,
`get_destination_view_key_pub` returns the null key if the counted destinations
(non-zero amount, address other than the change address) hold two different
addresses; the view key of their address if they all have the same one; and,
when there is none, the view key of the change address if one is given and the
null key otherwise. So the result is the null key exactly when the counted
destinations hold two different addresses, or one of them has the null key as
view key, or there is none and the change address is absent or has the null key
as view key. -/
theorem c40_destination_view_key (null_pkey : public_key)
    (destinations : List tx_destination_entry) (change_addr : Option account_public_address)
    (hnull : ∀ i ∈ destinations, i.addr ≠ ⟨null_pkey, null_pkey⟩) :
    ((∃ a ∈ counted_destinations change_addr destinations,
        ∃ b ∈ counted_destinations change_addr destinations, a.addr ≠ b.addr) →
      get_destination_view_key_pub null_pkey destinations change_addr = null_pkey)
    ∧ (∀ a ∈ counted_destinations change_addr destinations,
        (∀ b ∈ counted_destinations change_addr destinations, b.addr = a.addr) →
        get_destination_view_key_pub null_pkey destinations change_addr
          = a.addr.m_view_public_key)
    ∧ (counted_destinations change_addr destinations = [] →
        get_destination_view_key_pub null_pkey destinations change_addr
          = match change_addr with
            | some c => c.m_view_public_key
            | none => null_pkey)
    ∧ (get_destination_view_key_pub null_pkey destinations change_addr = null_pkey
        ↔ (∃ a ∈ counted_destinations change_addr destinations,
            ∃ b ∈ counted_destinations change_addr destinations, a.addr ≠ b.addr)
          ∨ (∃ a ∈ counted_destinations change_addr destinations,
              a.addr.m_view_public_key = null_pkey)
          ∨ (counted_destinations change_addr destinations = []
              ∧ ∀ c, change_addr = some c → c.m_view_public_key = null_pkey)) := by
  have hspec := get_destination_view_key_pub_spec null_pkey change_addr destinations hnull
  unfold get_destination_view_key_pub
  rw [hspec]
  cases hD : counted_destinations change_addr destinations with
  | nil =>
    simp only []
    refine ⟨?_, ?_, fun _ => trivial, ?_⟩
    · rintro ⟨a, ha, _⟩
      simp at ha
    · intro a ha
      simp at ha
    · cases change_addr with
      | none => simp
      | some c => simp
  | cons d rest =>
    simp only []
    by_cases hall : ∀ j ∈ d :: rest, j.addr = d.addr
    · rw [if_pos hall]
      refine ⟨?_, ?_, ?_, ?_⟩
      · rintro ⟨a, ha, b, hb, hab⟩
        exact absurd ((hall a ha).trans (hall b hb).symm) hab
      · intro a ha _
        rw [hall a ha]
      · intro hc
        cases hc
      · constructor
        · intro hv
          exact Or.inr (Or.inl ⟨d, List.mem_cons_self _ _, hv⟩)
        · rintro (⟨a, ha, b, hb, hab⟩ | ⟨a, ha, hv⟩ | ⟨hc, _⟩)
          · exact absurd ((hall a ha).trans (hall b hb).symm) hab
          · rw [← hall a ha]; exact hv
          · cases hc
    · rw [if_neg hall]
      have hex : ∃ a ∈ d :: rest, ∃ b ∈ d :: rest, a.addr ≠ b.addr := by
        by_contra hn
        apply hall
        intro j hj
        by_contra hne
        exact hn ⟨j, hj, d, List.mem_cons_self _ _, hne⟩
      refine ⟨fun _ => rfl, ?_, ?_, ?_⟩
      · intro a ha hsame
        exfalso
        obtain ⟨x, hx, y, hy, hxy⟩ := hex
        exact hxy ((hsame x hx).trans (hsame y hy).symm)
      · intro hc
        cases hc
      · exact ⟨fun _ => Or.inl hex, fun _ => rfl⟩

/-- Witness of C40: a destination of 3 at `ex_address` and one of amount 0 at `ex_address_b`; the result is the view key of `ex_address`. -/
theorem c40_destination_view_key_witness :
    (∀ i ∈ [ex_destination_to ex_address 3 false, ex_destination_to ex_address_b 0 false],
        i.addr ≠ ⟨ex_externals.null_pkey, ex_externals.null_pkey⟩)
    ∧ (((∃ a ∈ counted_destinations none
            [ex_destination_to ex_address 3 false, ex_destination_to ex_address_b 0 false],
          ∃ b ∈ counted_destinations none
            [ex_destination_to ex_address 3 false, ex_destination_to ex_address_b 0 false],
          a.addr ≠ b.addr) →
        get_destination_view_key_pub ex_externals.null_pkey
          [ex_destination_to ex_address 3 false, ex_destination_to ex_address_b 0 false] none
          = ex_externals.null_pkey)
      ∧ (∀ a ∈ counted_destinations none
            [ex_destination_to ex_address 3 false, ex_destination_to ex_address_b 0 false],
          (∀ b ∈ counted_destinations none
              [ex_destination_to ex_address 3 false, ex_destination_to ex_address_b 0 false],
            b.addr = a.addr) →
          get_destination_view_key_pub ex_externals.null_pkey
            [ex_destination_to ex_address 3 false, ex_destination_to ex_address_b 0 false] none
            = a.addr.m_view_public_key)
      ∧ (counted_destinations none
            [ex_destination_to ex_address 3 false, ex_destination_to ex_address_b 0 false] = [] →
          get_destination_view_key_pub ex_externals.null_pkey
            [ex_destination_to ex_address 3 false, ex_destination_to ex_address_b 0 false] none
            = match (none : Option account_public_address) with
              | some c => c.m_view_public_key
              | none => ex_externals.null_pkey)
      ∧ (get_destination_view_key_pub ex_externals.null_pkey
            [ex_destination_to ex_address 3 false, ex_destination_to ex_address_b 0 false] none
            = ex_externals.null_pkey
          ↔ (∃ a ∈ counted_destinations none
                [ex_destination_to ex_address 3 false, ex_destination_to ex_address_b 0 false],
              ∃ b ∈ counted_destinations none
                [ex_destination_to ex_address 3 false, ex_destination_to ex_address_b 0 false],
              a.addr ≠ b.addr)
            ∨ (∃ a ∈ counted_destinations none
                  [ex_destination_to ex_address 3 false, ex_destination_to ex_address_b 0 false],
                a.addr.m_view_public_key = ex_externals.null_pkey)
            ∨ (counted_destinations none
                  [ex_destination_to ex_address 3 false, ex_destination_to ex_address_b 0 false]
                  = []
                ∧ ∀ c, (none : Option account_public_address) = some c →
                    c.m_view_public_key = ex_externals.null_pkey)))
    ∧ get_destination_view_key_pub ex_externals.null_pkey
        [ex_destination_to ex_address 3 false, ex_destination_to ex_address_b 0 false] none
        = ex_key :=
  ⟨by decide,
    c40_destination_view_key ex_externals.null_pkey
      [ex_destination_to ex_address 3 false, ex_destination_to ex_address_b 0 false] none
      (by decide),
    rfl⟩

/-! ### Claims on the index safety and on the order kept by the legacy loading branch -/


/-- The fields that source lines 310 to 314 read, by the version. -/
theorem load_pricing_record_height_layout {cfg : Config} {self r : transaction_prefix}
    {ar rest : List Field} (h : load_pricing_record_height cfg self ar = .ok (r, rest)) :
    ar = (if self.version ≥ cfg.OFFSHORE_TRANSACTION_VERSION then
            Field.varint r.pricing_record_height ::
              (if self.version < 5 then [Field.bytes r.offshore_data] else [])
          else []) ++ rest
      ∧ (¬ self.version ≥ cfg.OFFSHORE_TRANSACTION_VERSION → r = self) := by
  unfold load_pricing_record_height at h
  by_cases hv : self.version ≥ cfg.OFFSHORE_TRANSACTION_VERSION
  · rw [if_pos hv] at h
    rw [if_pos hv]
    refine ⟨?_, fun hn => absurd hv hn⟩
    cases ar with
    | nil => simp at h
    | cons f ar1 =>
      cases f with
      | varint hh =>
        simp only [] at h
        by_cases h5 : self.version < 5
        · rw [if_pos h5] at h
          rw [if_pos h5]
          cases ar1 with
          | nil => simp at h
          | cons g ar2 =>
            cases g with
            | bytes d =>
              simp only [Except.ok.injEq, Prod.mk.injEq] at h
              obtain ⟨h1, h2⟩ := h
              subst h1
              subst h2
              rfl
            | _ => simp at h
        · rw [if_neg h5] at h
          rw [if_neg h5]
          simp only [Except.ok.injEq, Prod.mk.injEq] at h
          obtain ⟨h1, h2⟩ := h
          subst h1
          subst h2
          rfl
      | _ => simp at h
  · rw [if_neg hv] at h
    rw [if_neg hv]
    simp only [Except.ok.injEq, Prod.mk.injEq] at h
    obtain ⟨h1, h2⟩ := h
    exact ⟨by rw [h2]; rfl, fun _ => h1.symm⟩

/-- The field that source lines 316 to 320 read, by the version; below `POU_TRANSACTION_VERSION` the object is not touched. -/
theorem load_output_unlock_times_layout {cfg : Config} {self r : transaction_prefix}
    {ar rest : List Field} (h : load_output_unlock_times cfg self ar = .ok (r, rest)) :
    ar = (if self.version ≥ cfg.POU_TRANSACTION_VERSION then
            [Field.vec_u64 r.output_unlock_times] else []) ++ rest
      ∧ (¬ self.version ≥ cfg.POU_TRANSACTION_VERSION → r = self) := by
  unfold load_output_unlock_times at h
  by_cases hv : self.version ≥ cfg.POU_TRANSACTION_VERSION
  · rw [if_pos hv] at h
    rw [if_pos hv]
    refine ⟨?_, fun hn => absurd hv hn⟩
    cases ar with
    | nil => simp at h
    | cons f ar1 =>
      cases f with
      | vec_u64 t =>
        simp only [] at h
        by_cases hc : self.version ≥ cfg.POU_TRANSACTION_VERSION ∧ self.vout.length ≠ t.length
        · rw [if_pos hc] at h
          cases h
        · rw [if_neg hc] at h
          simp only [Except.ok.injEq, Prod.mk.injEq] at h
          obtain ⟨h1, h2⟩ := h
          subst h1
          subst h2
          rfl
      | _ => simp at h
  · rw [if_neg hv] at h
    rw [if_neg hv]
    rw [if_neg (fun hc => hv hc.1)] at h
    simp only [Except.ok.injEq, Prod.mk.injEq] at h
    obtain ⟨h1, h2⟩ := h
    exact ⟨by rw [h2]; rfl, fun _ => h1.symm⟩

/-- The two fields that source lines 323 and 324 read. -/
theorem load_amounts_layout {self r : transaction_prefix} {ar rest : List Field}
    (h : load_amounts self ar = .ok (r, rest)) :
    ar = Field.varint r.amount_burnt :: .varint r.amount_minted :: rest := by
  unfold load_amounts at h
  split at h
  · rename_i b m ar1
    simp only [Except.ok.injEq, Prod.mk.injEq] at h
    obtain ⟨h1, h2⟩ := h
    subst h1
    subst h2
    rfl
  · simp at h

/-- The field that source lines 326 to 336 read, by the version and `amount_burnt`. -/
theorem load_collateral_indices_layout {cfg : Config} {self r : transaction_prefix}
    {ar rest : List Field} (h : load_collateral_indices cfg self ar = .ok (r, rest)) :
    ar = (if self.version ≥ cfg.COLLATERAL_TRANSACTION_VERSION ∧ self.amount_burnt ≠ 0 then
            [Field.vec_u32 r.collateral_indices] else []) ++ rest := by
  unfold load_collateral_indices at h
  by_cases hg : self.version ≥ cfg.COLLATERAL_TRANSACTION_VERSION ∧ self.amount_burnt ≠ 0
  · rw [if_pos hg] at h
    rw [if_pos hg]
    cases ar with
    | nil => simp at h
    | cons f ar1 =>
      cases f with
      | vec_u32 c =>
        simp only [] at h
        by_cases hlen : c.length ≠ 2
        · rw [if_pos hlen] at h
          cases h
        · rw [if_neg hlen] at h
          by_cases hany : c.any (fun vout_idx => decide (vout_idx ≥ self.vout.length)) = true
          · rw [if_pos hany] at h
            cases h
          · rw [if_neg hany] at h
            simp only [Except.ok.injEq, Prod.mk.injEq] at h
            obtain ⟨h1, h2⟩ := h
            subst h1
            subst h2
            rfl
      | _ => simp at h
  · rw [if_neg hg] at h
    rw [if_neg hg]
    simp only [Except.ok.injEq, Prod.mk.injEq] at h
    rw [h.2]
    rfl

/-- The sequence of fields that the legacy loading branch reads, by the version:
an archive it accepts is this sequence followed by the fields left. Below
`POU_TRANSACTION_VERSION` the member `output_unlock_times` is the one the object
held before the call. -/
theorem load_legacy_fields_layout {cfg : Config} {self raw : transaction_prefix}
    {ar rest : List Field} (h : load_legacy_fields cfg self ar = .ok (raw, rest)) :
    ar = [Field.inputs raw.vin, .outputs raw.vout, .bytes raw.extra]
        ++ (if self.version ≥ cfg.OFFSHORE_TRANSACTION_VERSION then
              Field.varint raw.pricing_record_height ::
                (if self.version < 5 then [Field.bytes raw.offshore_data] else [])
            else [])
        ++ (if self.version ≥ cfg.POU_TRANSACTION_VERSION then
              [Field.vec_u64 raw.output_unlock_times] else [])
        ++ [Field.varint raw.amount_burnt, .varint raw.amount_minted]
        ++ (if self.version ≥ cfg.COLLATERAL_TRANSACTION_VERSION ∧ raw.amount_burnt ≠ 0 then
              [Field.vec_u32 raw.collateral_indices] else [])
        ++ rest
      ∧ (¬ self.version ≥ cfg.POU_TRANSACTION_VERSION →
          raw.output_unlock_times = self.output_unlock_times) := by
  unfold load_legacy_fields at h
  cases h1 : load_vin_vout_extra self ar with
  | error e => simp [h1] at h
  | ok p1 =>
    obtain ⟨s1, ar1⟩ := p1
    simp only [h1] at h
    cases h2 : load_pricing_record_height cfg s1 ar1 with
    | error e => simp [h2] at h
    | ok p2 =>
      obtain ⟨s2, ar2⟩ := p2
      simp only [h2] at h
      cases h3 : load_output_unlock_times cfg s2 ar2 with
      | error e => simp [h3] at h
      | ok p3 =>
        obtain ⟨s3, ar3⟩ := p3
        simp only [h3] at h
        cases h4 : load_amounts s3 ar3 with
        | error e => simp [h4] at h
        | ok p4 =>
          obtain ⟨s4, ar4⟩ := p4
          simp only [h4] at h
          obtain ⟨vin, vout, extra, har, e1⟩ := load_vin_vout_extra_ok h1
          have e2 := load_pricing_record_height_ok h2
          obtain ⟨e3, c3⟩ := load_output_unlock_times_ok h3
          have e4 := load_amounts_ok h4
          obtain ⟨e5, c5, d5⟩ := load_collateral_indices_ok h
          obtain ⟨l2, _⟩ := load_pricing_record_height_layout h2
          obtain ⟨l3, n3⟩ := load_output_unlock_times_layout h3
          have l4 := load_amounts_layout h4
          have l5 := load_collateral_indices_layout h
          have v4 : s4.version = s3.version := by rw [e4]
          have v3 : s3.version = s2.version := by rw [e3]
          have v2 : s2.version = s1.version := by rw [e2]
          have v1 : s1.version = self.version := by rw [e1]
          have i5 : raw.vin = s4.vin := by rw [e5]
          have i4 : s4.vin = s3.vin := by rw [e4]
          have i3 : s3.vin = s2.vin := by rw [e3]
          have i2 : s2.vin = s1.vin := by rw [e2]
          have i1 : s1.vin = vin := by rw [e1]
          have o5 : raw.vout = s4.vout := by rw [e5]
          have o4 : s4.vout = s3.vout := by rw [e4]
          have o3 : s3.vout = s2.vout := by rw [e3]
          have o2 : s2.vout = s1.vout := by rw [e2]
          have o1 : s1.vout = vout := by rw [e1]
          have x5 : raw.extra = s4.extra := by rw [e5]
          have x4 : s4.extra = s3.extra := by rw [e4]
          have x3 : s3.extra = s2.extra := by rw [e3]
          have x2 : s2.extra = s1.extra := by rw [e2]
          have x1 : s1.extra = extra := by rw [e1]
          have p5 : raw.pricing_record_height = s4.pricing_record_height := by rw [e5]
          have p4 : s4.pricing_record_height = s3.pricing_record_height := by rw [e4]
          have p3 : s3.pricing_record_height = s2.pricing_record_height := by rw [e3]
          have d5' : raw.offshore_data = s4.offshore_data := by rw [e5]
          have d4 : s4.offshore_data = s3.offshore_data := by rw [e4]
          have d3 : s3.offshore_data = s2.offshore_data := by rw [e3]
          have u5 : raw.output_unlock_times = s4.output_unlock_times := by rw [e5]
          have u4 : s4.output_unlock_times = s3.output_unlock_times := by rw [e4]
          have u2 : s2.output_unlock_times = s1.output_unlock_times := by rw [e2]
          have u1 : s1.output_unlock_times = self.output_unlock_times := by rw [e1]
          have b5 : raw.amount_burnt = s4.amount_burnt := by rw [e5]
          have m5 : raw.amount_minted = s4.amount_minted := by rw [e5]
          constructor
          · rw [har, l2, l3, l4, l5, i5, i4, i3, i2, i1, o5, o4, o3, o2, o1, x5, x4, x3, x2, x1,
              p5, p4, p3, d5', d4, d3, u5, u4, b5, m5, v4, v3, v2, v1]
            simp
          · intro hn
            have hn2 : ¬ s2.version ≥ cfg.POU_TRANSACTION_VERSION := by rw [v2, v1]; exact hn
            rw [u5, u4, n3 hn2, u2, u1]

/-- The output loop of the loading branch reads `output_unlock_times` past its end when the vector is shorter than the outputs to visit. -/
theorem load_vout_out_of_range (cfg : Config) (u : Indeterminate) (v b : Nat)
    (times ci : List Nat) :
    ∀ (vout : List tx_out) (i : Nat), i ≤ times.length → times.length < i + vout.length →
      load_vout cfg u v b times ci i vout = .error .out_of_range := by
  intro vout
  induction vout with
  | nil =>
    intro i hi h
    simp at h
    omega
  | cons o os ih =>
    intro i _ h
    unfold load_vout load_txout
    cases ht : times[i]? with
    | none => rfl
    | some t =>
      simp only []
      have hi : i < times.length := by
        by_contra hn
        rw [List.getElem?_eq_none (by omega)] at ht
        cases ht
      rw [ih (i + 1) (by omega) (by simp only [List.length_cons] at h; omega)]

/-- The output loop of the loading branch runs to its end when `output_unlock_times` covers the outputs to visit. -/
theorem load_vout_in_range (cfg : Config) (u : Indeterminate) (v b : Nat)
    (times ci : List Nat) :
    ∀ (vout : List tx_out) (i : Nat), i + vout.length ≤ times.length →
      ∃ res, load_vout cfg u v b times ci i vout = .ok res := by
  intro vout
  induction vout with
  | nil => intro i _; exact ⟨[], rfl⟩
  | cons o os ih =>
    intro i h
    simp only [List.length_cons] at h
    obtain ⟨res, hres⟩ := ih (i + 1) (by omega)
    unfold load_vout load_txout
    rw [List.getElem?_eq_getElem (by omega : i < times.length)]
    simp only []
    rw [hres]
    exact ⟨_, rfl⟩

/-- C35 (a legacy prefix below `POU_TRANSACTION_VERSION` reads
`output_unlock_times` past its end). The output loop of the loading branch reads
`output_unlock_times[i]` for every output; when the vector is shorter than
`vout` the read is past the end. Below `POU_TRANSACTION_VERSION` the vector is
not read from the archive: it is the one the object held before the call. From
`POU_TRANSACTION_VERSION` on the size check makes every read in bounds. So the
version 1 archive `ex_archive_v1` with one output, loaded into a
default-constructed prefix, whose vector is empty, reads
`output_unlock_times[0]` past the end; loaded into the object `ex_loaded_v7`
it gets the unlock time 10 that an earlier transaction left there. -/
theorem c35_unlock_times_read_past_end (cfg : Config) (u : Indeterminate) :
    (∀ raw : transaction_prefix, raw.output_unlock_times.length < raw.vout.length →
        load_normalize cfg u raw = .error .out_of_range)
    ∧ (∀ (self raw : transaction_prefix) (ar rest : List Field),
        load_legacy_fields cfg self ar = .ok (raw, rest) →
        ¬ self.version ≥ cfg.POU_TRANSACTION_VERSION →
        raw.output_unlock_times = self.output_unlock_times)
    ∧ (∀ (self raw : transaction_prefix) (ar rest : List Field),
        load_legacy_fields cfg self ar = .ok (raw, rest) →
        self.version ≥ cfg.POU_TRANSACTION_VERSION →
        ∃ tx, load_normalize cfg u raw = .ok tx)
    ∧ (load haven_config u (default_constructed 0 0 0) ex_archive_v1 = .error .out_of_range
      ∧ load_legacy_fields haven_config
          { default_constructed 0 0 0 with version := 1, unlock_time := 0 }
          (ex_archive_v1.drop 2)
        = .ok ({ default_constructed 0 0 0 with
                  vin := [.to_key ⟨5, [1, 2], ex_image⟩], vout := [⟨7, .to_key ⟨ex_key⟩⟩] }, [])
      ∧ (default_constructed 0 0 0).output_unlock_times = []
      ∧ load haven_config u ex_loaded_v7 ex_archive_v1
        = .ok ({ ex_loaded_v7 with
                  version := 1, vin := [.haven_key ⟨5, "XHV", [1, 2], ex_image⟩]
                  vout := [⟨7, .haven_key ⟨ex_key, "XHV", 10, false⟩⟩]
                  amount_burnt := 0 }, [])) := by
  refine ⟨?_, ?_, ?_, rfl, rfl, rfl, rfl⟩
  · intro raw hlt
    unfold load_normalize
    rw [load_vout_out_of_range cfg u _ _ _ _ raw.vout 0 (by omega) (by omega)]
  · intro self raw ar rest h hn
    exact (load_legacy_fields_layout h).2 hn
  · intro self raw ar rest h hv
    obtain ⟨vin, vout, tail, _, hrv, _, _, _, hlen, _, _⟩ := load_legacy_fields_inv h
    have hl := hlen (by rw [hrv]; exact hv)
    obtain ⟨res, hres⟩ := load_vout_in_range cfg u raw.version raw.amount_burnt
      raw.output_unlock_times raw.collateral_indices raw.vout 0 (by omega)
    unfold load_normalize
    rw [hres]
    exact ⟨_, rfl⟩

/-- The input loop of the loading branch keeps the positions: the input at position `j` is the `haven_key` form of the input read at position `j`. -/
theorem load_vin_getElem (u : Indeterminate) :
    ∀ (l : List txin_v) (i j : Nat) (e : txin_v), l[j]? = some e →
      (load_vin u i l)[j]? = some (txin_v.haven_key (load_txin u (i + j) e)) := by
  intro l
  induction l with
  | nil => intro i j e h; simp at h
  | cons a as ih =>
    intro i j e h
    cases j with
    | zero =>
      simp at h
      subst h
      simp [load_vin]
    | succ j =>
      simp at h
      simp only [load_vin, List.getElem?_cons_succ]
      rw [ih (i + 1) j e h]
      have : i + 1 + j = i + (j + 1) := by omega
      rw [this]

/-- The input loop of the loading branch keeps the number of inputs. -/
theorem load_vin_length (u : Indeterminate) :
    ∀ (l : List txin_v) (i : Nat), (load_vin u i l).length = l.length := by
  intro l
  induction l with
  | nil => intro i; rfl
  | cons a as ih => intro i; simp [load_vin, ih]

/-- C36. After a successful load below `HAVEN_TYPES_TRANSACTION_VERSION` the
prefix has as many inputs and outputs as the archive, in the same order: input
`i` is the `haven_key` form `load_txin` of input `i` of the archive, output `i` a
`haven_key` output with the amount of output `i` and the tag and key of
`load_target`. For an input that is none of `to_key`, `offshore`, `onshore`,
`xasset` the form has the empty asset tag and no key offsets; for a `gen` input
it does not depend on the height. For a target that is none of `to_key`,
`offshore`, `xasset` the tag is empty. -/
theorem c36_load_keeps_order (cfg : Config) (u : Indeterminate) (self tx : transaction_prefix)
    (ar rest : List Field) (h : load cfg u self ar = .ok (tx, rest))
    (hv : tx.version < cfg.HAVEN_TYPES_TRANSACTION_VERSION) :
    ∃ (head : List Field) (vin : List txin_v) (vout : List tx_out) (tail : List Field),
      ar = head ++ .inputs vin :: .outputs vout :: tail
      ∧ tx.vin.length = vin.length ∧ tx.vout.length = vout.length
      ∧ (∀ i e, vin[i]? = some e → tx.vin[i]? = some (txin_v.haven_key (load_txin u i e)))
      ∧ (∀ i e, (¬ ∃ x, e = txin_v.to_key x) → (¬ ∃ x, e = txin_v.offshore x) →
          (¬ ∃ x, e = txin_v.onshore x) → (¬ ∃ x, e = txin_v.xasset x) →
          (load_txin u i e).asset_type = "" ∧ (load_txin u i e).key_offsets = [])
      ∧ (∀ i height, load_txin u i (.gen ⟨height⟩) = ⟨u.amount i, "", [], u.k_image i⟩)
      ∧ (∀ i o, vout[i]? = some o →
          ∃ x, tx.vout[i]? = some (tx_out.mk o.amount (txout_target_v.haven_key x))
            ∧ x.asset_type = (load_target u i o.target).1
            ∧ x.key = (load_target u i o.target).2)
      ∧ (∀ i t, (¬ ∃ x, t = txout_target_v.to_key x) → (¬ ∃ x, t = txout_target_v.offshore x) →
          (¬ ∃ x, t = txout_target_v.xasset x) → (load_target u i t).1 = "") := by
  obtain ⟨version, ar0, s1, ar1, har, hv0, hvc, h1, hcase⟩ := load_inv h
  obtain ⟨hs1, har1⟩ := load_unlock_time_ok h1
  have hs1v : s1.version = version := by rw [hs1]
  have hin : ∀ i e, (¬ ∃ x, e = txin_v.to_key x) → (¬ ∃ x, e = txin_v.offshore x) →
      (¬ ∃ x, e = txin_v.onshore x) → (¬ ∃ x, e = txin_v.xasset x) →
      (load_txin u i e).asset_type = "" ∧ (load_txin u i e).key_offsets = [] := by
    intro i e n1 n2 n3 n4
    cases e with
    | to_key x => exact absurd ⟨x, rfl⟩ n1
    | offshore x => exact absurd ⟨x, rfl⟩ n2
    | onshore x => exact absurd ⟨x, rfl⟩ n3
    | xasset x => exact absurd ⟨x, rfl⟩ n4
    | gen x => exact ⟨rfl, rfl⟩
    | to_script x => exact ⟨rfl, rfl⟩
    | to_scripthash x => exact ⟨rfl, rfl⟩
    | haven_key x => exact ⟨rfl, rfl⟩
  have hout : ∀ i t, (¬ ∃ x, t = txout_target_v.to_key x) →
      (¬ ∃ x, t = txout_target_v.offshore x) →
      (¬ ∃ x, t = txout_target_v.xasset x) → (load_target u i t).1 = "" := by
    intro i t n1 n2 n3
    cases t with
    | to_key x => exact absurd ⟨x, rfl⟩ n1
    | offshore x => exact absurd ⟨x, rfl⟩ n2
    | xasset x => exact absurd ⟨x, rfl⟩ n3
    | to_script x => rfl
    | to_scripthash x => rfl
    | haven_key x => rfl
    | haven_tagged_key x => rfl
  rcases hcase with ⟨hlt, raw, hraw, hnorm⟩ | ⟨hge, hloadh⟩
  · obtain ⟨vin, vout, tail, har2, hrv, _, hrvin, hrvout, _, _, _⟩ := load_legacy_fields_inv hraw
    obtain ⟨vo, hvo, htx⟩ := load_normalize_ok hnorm
    obtain ⟨hlen, hspec⟩ := load_vout_spec cfg u _ _ _ _ _ _ _ hvo
    have hhead : ∃ head, ar = head ++ .inputs vin :: .outputs vout :: tail := by
      rcases har1 with har1 | ⟨t, har1⟩
      · exact ⟨[.varint version], by rw [har, har1, har2]; rfl⟩
      · exact ⟨[.varint version, .varint t], by rw [har, har1, har2]; rfl⟩
    obtain ⟨head, hhead⟩ := hhead
    refine ⟨head, vin, vout, tail, hhead, ?_, ?_, ?_, hin, fun _ _ => rfl, ?_, hout⟩
    · rw [htx]
      simp only []
      rw [load_vin_length, hrvin]
    · rw [htx]
      simp only []
      rw [hlen, hrvout]
    · intro i e hi
      rw [htx]
      simp only []
      rw [← hrvin] at hi
      have := load_vin_getElem u raw.vin 0 i e hi
      rw [Nat.zero_add] at this
      exact this
    · intro i o hi
      rw [← hrvout] at hi
      obtain ⟨t, _, hr⟩ := hspec i o hi
      rw [Nat.zero_add] at hr
      rw [htx]
      simp only []
      exact ⟨_, hr, rfl, rfl⟩
  · exfalso
    have htv : tx.version = version := by
      rw [load_haven_fields_ok hloadh]; simp only []; exact hs1v
    rw [htv] at hv
    rw [hs1v] at hge
    exact hge hv

/-- Witness of C36: the version 6 coinbase archive `ex_archive_v6_miner`, which loads to `ex_loaded_v6_miner`. -/
theorem c36_load_keeps_order_witness :
    load haven_config ex_indeterminate (default_constructed 0 0 0) ex_archive_v6_miner
        = .ok (ex_loaded_v6_miner, [])
    ∧ ex_loaded_v6_miner.version < haven_config.HAVEN_TYPES_TRANSACTION_VERSION
    ∧ ∃ (head : List Field) (vin : List txin_v) (vout : List tx_out) (tail : List Field),
      ex_archive_v6_miner = head ++ .inputs vin :: .outputs vout :: tail
      ∧ ex_loaded_v6_miner.vin.length = vin.length ∧ ex_loaded_v6_miner.vout.length = vout.length
      ∧ (∀ i e, vin[i]? = some e →
          ex_loaded_v6_miner.vin[i]? = some (txin_v.haven_key (load_txin ex_indeterminate i e)))
      ∧ (∀ i e, (¬ ∃ x, e = txin_v.to_key x) → (¬ ∃ x, e = txin_v.offshore x) →
          (¬ ∃ x, e = txin_v.onshore x) → (¬ ∃ x, e = txin_v.xasset x) →
          (load_txin ex_indeterminate i e).asset_type = ""
            ∧ (load_txin ex_indeterminate i e).key_offsets = [])
      ∧ (∀ i height, load_txin ex_indeterminate i (.gen ⟨height⟩)
          = ⟨ex_indeterminate.amount i, "", [], ex_indeterminate.k_image i⟩)
      ∧ (∀ i o, vout[i]? = some o →
          ∃ x, ex_loaded_v6_miner.vout[i]? = some (tx_out.mk o.amount (txout_target_v.haven_key x))
            ∧ x.asset_type = (load_target ex_indeterminate i o.target).1
            ∧ x.key = (load_target ex_indeterminate i o.target).2)
      ∧ (∀ i t, (¬ ∃ x, t = txout_target_v.to_key x) → (¬ ∃ x, t = txout_target_v.offshore x) →
          (¬ ∃ x, t = txout_target_v.xasset x) → (load_target ex_indeterminate i t).1 = "") :=
  ⟨rfl, by decide,
    c36_load_keeps_order haven_config ex_indeterminate (default_constructed 0 0 0)
      ex_loaded_v6_miner ex_archive_v6_miner [] rfl (by decide)⟩

/-! ### Claim on the symmetry of the legacy layout -/


/-- The sequence of fields that a successful save of a legacy prefix writes. -/
theorem save_legacy_inv {cfg : Config} {u : Indeterminate} {self : transaction_prefix}
    {ar : List Field} (hv : self.version < cfg.HAVEN_TYPES_TRANSACTION_VERSION)
    (h : save cfg u self = .ok ar) :
    ¬ (self.version = 0 ∨ cfg.CURRENT_TRANSACTION_VERSION < self.version)
      ∧ ∃ vin_tmp vout_tmp,
        ar = Field.varint self.version ::
            ((if self.version < cfg.POU_TRANSACTION_VERSION then [Field.varint self.unlock_time]
              else [])
            ++ (Field.inputs vin_tmp :: .outputs vout_tmp :: .bytes self.extra ::
                  save_legacy_tail cfg self)) := by
  unfold save at h
  by_cases hc : self.version = 0 ∨ cfg.CURRENT_TRANSACTION_VERSION < self.version
  · rw [if_pos hc] at h
    cases h
  · rw [if_neg hc] at h
    simp only [] at h
    rw [if_pos hv] at h
    cases h1 : save_vin self.vout self.vin with
    | error e =>
      rw [h1] at h
      cases h
    | ok vin_tmp =>
      rw [h1] at h
      simp only [] at h
      cases h2 : save_vout cfg u self 0 self.vout [] with
      | error e =>
        rw [h2] at h
        cases h
      | ok vout_tmp =>
        rw [h2] at h
        simp only [Except.ok.injEq] at h
        refine ⟨hc, vin_tmp, vout_tmp, ?_⟩
        rw [← h]
        simp

/-- The two `VARINT_FIELD` reads of the amounts do not find a varint where the saving branch has written `collateral_indices` or nothing. -/
theorem load_amounts_rejects_tail (cfg : Config) (s self : transaction_prefix) :
    load_amounts s
        (if self.version ≥ cfg.COLLATERAL_TRANSACTION_VERSION then
          [Field.vec_u32 self.collateral_indices] else [])
      = .error .rejected := by
  by_cases hc : self.version ≥ cfg.COLLATERAL_TRANSACTION_VERSION
  · rw [if_pos hc]; rfl
  · rw [if_neg hc]; rfl

/-- The field reads of the legacy loading branch do not match the fields that the saving branch writes after `extra`, at any version. -/
theorem load_legacy_fields_rejects_saved (cfg : Config) (s1 self : transaction_prefix)
    (hs : s1.version = self.version) (vi : List txin_v) (vo : List tx_out) (ex : List Nat) :
    load_legacy_fields cfg s1
        (Field.inputs vi :: .outputs vo :: .bytes ex :: save_legacy_tail cfg self)
      = .error .rejected := by
  unfold load_legacy_fields load_vin_vout_extra
  simp only []
  unfold save_legacy_tail
  by_cases hO : self.version ≥ cfg.OFFSHORE_TRANSACTION_VERSION
  · have h1 : load_pricing_record_height cfg
        { s1 with vin := vi, vout := vo, extra := ex }
        ((if self.version ≥ cfg.OFFSHORE_TRANSACTION_VERSION then
            [Field.fixed self.pricing_record_height, .fixed self.amount_burnt,
              .fixed self.amount_minted]
              ++ (if self.version < 5 then [Field.bytes self.offshore_data] else [])
          else [])
        ++ (if self.version ≥ cfg.POU_TRANSACTION_VERSION then
              [Field.vec_u64 self.output_unlock_times] else [])
        ++ (if self.version ≥ cfg.COLLATERAL_TRANSACTION_VERSION then
              [Field.vec_u32 self.collateral_indices] else []))
        = .error .rejected := by
      unfold load_pricing_record_height
      rw [if_pos hO, if_pos (by show s1.version ≥ _; rw [hs]; exact hO)]
      rfl
    rw [h1]
  · have h1 : load_pricing_record_height cfg
        { s1 with vin := vi, vout := vo, extra := ex }
        ((if self.version ≥ cfg.OFFSHORE_TRANSACTION_VERSION then
            [Field.fixed self.pricing_record_height, .fixed self.amount_burnt,
              .fixed self.amount_minted]
              ++ (if self.version < 5 then [Field.bytes self.offshore_data] else [])
          else [])
        ++ (if self.version ≥ cfg.POU_TRANSACTION_VERSION then
              [Field.vec_u64 self.output_unlock_times] else [])
        ++ (if self.version ≥ cfg.COLLATERAL_TRANSACTION_VERSION then
              [Field.vec_u32 self.collateral_indices] else []))
        = .ok ({ s1 with vin := vi, vout := vo, extra := ex },
            (if self.version ≥ cfg.POU_TRANSACTION_VERSION then
              [Field.vec_u64 self.output_unlock_times] else [])
            ++ (if self.version ≥ cfg.COLLATERAL_TRANSACTION_VERSION then
              [Field.vec_u32 self.collateral_indices] else [])) := by
      unfold load_pricing_record_height
      rw [if_neg hO, if_neg (by show ¬ s1.version ≥ _; rw [hs]; exact hO)]
      rfl
    rw [h1]
    simp only []
    by_cases hP : self.version ≥ cfg.POU_TRANSACTION_VERSION
    · rw [if_pos hP]
      unfold load_output_unlock_times
      rw [if_pos (by show s1.version ≥ _; rw [hs]; exact hP)]
      simp only [List.singleton_append]
      by_cases hm : s1.version ≥ cfg.POU_TRANSACTION_VERSION
          ∧ vo.length ≠ self.output_unlock_times.length
      · rw [if_pos hm]
      · rw [if_neg hm]
        simp only []
        rw [load_amounts_rejects_tail]
    · rw [if_neg hP]
      unfold load_output_unlock_times
      rw [if_neg (by show ¬ s1.version ≥ _; rw [hs]; exact hP),
        if_neg (fun hc => hP (by have := hc.1; rw [← hs]; exact this))]
      simp only [List.nil_append]
      rw [load_amounts_rejects_tail]

/-- What a successful save of a legacy prefix writes is not accepted by `load`. -/
theorem load_rejects_saved (cfg : Config) (u u2 : Indeterminate)
    (self self2 : transaction_prefix) (ar : List Field)
    (hv : self.version < cfg.HAVEN_TYPES_TRANSACTION_VERSION) (h : save cfg u self = .ok ar) :
    load cfg u2 self2 ar = .error .rejected := by
  obtain ⟨hc, vin_tmp, vout_tmp, har⟩ := save_legacy_inv hv h
  rw [har]
  unfold load
  simp only []
  rw [if_neg hc]
  unfold load_unlock_time
  by_cases hP : self.version < cfg.POU_TRANSACTION_VERSION
  · rw [if_pos hP, if_pos (by show self.version < _; exact hP)]
    simp only [List.singleton_append]
    rw [if_pos (by show self.version < _; exact hv),
      load_legacy_fields_rejects_saved cfg
        { self2 with version := self.version, unlock_time := self.unlock_time } self rfl]
  · rw [if_neg hP, if_neg (by show ¬ self.version < _; exact hP)]
    simp only [List.nil_append]
    rw [if_pos (by show self.version < _; exact hv),
      load_legacy_fields_rejects_saved cfg { self2 with version := self.version } self rfl]

/-- C31 (the two branches of a legacy prefix lay the fields out differently).
After `extra` the loading branch reads: from `OFFSHORE_TRANSACTION_VERSION` on
`pricing_record_height` as a varint (and `offshore_data` below version 5); from
`POU_TRANSACTION_VERSION` on `output_unlock_times`; at every version
`amount_burnt` and `amount_minted` as varints; and `collateral_indices` from
`COLLATERAL_TRANSACTION_VERSION` on when `amount_burnt` is not zero. The saving
branch writes: from `OFFSHORE_TRANSACTION_VERSION` on `pricing_record_height`,
`amount_burnt`, `amount_minted` with `FIELD`, at fixed width (and
`offshore_data` below version 5); then `output_unlock_times` from
`POU_TRANSACTION_VERSION` on; then `collateral_indices` from
`COLLATERAL_TRANSACTION_VERSION` on, whatever `amount_burnt`. The two sequences
differ at every legacy version, in order, in encoding and in their conditions:
no sequence of fields that a save of a legacy prefix writes is accepted by
`load`. Two prefixes without outputs evaluate it, at version 2 and at version 7:
the archive that `save` writes is refused by `load`, and the archive that
`load` accepts for the same prefix is another one. -/
theorem c31_layout_asymmetric (cfg : Config) (u : Indeterminate) :
    (∀ (self raw : transaction_prefix) (ar rest : List Field),
        load_legacy_fields cfg self ar = .ok (raw, rest) →
        ar = [Field.inputs raw.vin, .outputs raw.vout, .bytes raw.extra]
          ++ (if self.version ≥ cfg.OFFSHORE_TRANSACTION_VERSION then
                Field.varint raw.pricing_record_height ::
                  (if self.version < 5 then [Field.bytes raw.offshore_data] else [])
              else [])
          ++ (if self.version ≥ cfg.POU_TRANSACTION_VERSION then
                [Field.vec_u64 raw.output_unlock_times] else [])
          ++ [Field.varint raw.amount_burnt, .varint raw.amount_minted]
          ++ (if self.version ≥ cfg.COLLATERAL_TRANSACTION_VERSION ∧ raw.amount_burnt ≠ 0 then
                [Field.vec_u32 raw.collateral_indices] else [])
          ++ rest)
    ∧ (∀ (self : transaction_prefix) (ar : List Field),
        self.version < cfg.HAVEN_TYPES_TRANSACTION_VERSION → save cfg u self = .ok ar →
        ∃ vin_tmp vout_tmp,
          ar = Field.varint self.version ::
            ((if self.version < cfg.POU_TRANSACTION_VERSION then
                [Field.varint self.unlock_time] else [])
            ++ (Field.inputs vin_tmp :: .outputs vout_tmp :: .bytes self.extra ::
                ((if self.version ≥ cfg.OFFSHORE_TRANSACTION_VERSION then
                    [Field.fixed self.pricing_record_height, .fixed self.amount_burnt,
                      .fixed self.amount_minted]
                      ++ (if self.version < 5 then [Field.bytes self.offshore_data] else [])
                  else [])
                ++ (if self.version ≥ cfg.POU_TRANSACTION_VERSION then
                      [Field.vec_u64 self.output_unlock_times] else [])
                ++ (if self.version ≥ cfg.COLLATERAL_TRANSACTION_VERSION then
                      [Field.vec_u32 self.collateral_indices] else [])))))
    ∧ (∀ (u2 : Indeterminate) (self self2 : transaction_prefix) (ar : List Field),
        self.version < cfg.HAVEN_TYPES_TRANSACTION_VERSION → save cfg u self = .ok ar →
        load cfg u2 self2 ar = .error .rejected)
    ∧ (save haven_config u ex_prefix_v2_no_output
          = .ok [.varint 2, .varint 0, .inputs [.to_key ⟨5, [1, 2], ex_image⟩], .outputs [],
                 .bytes []]
      ∧ load haven_config u (default_constructed 0 0 0)
          [.varint 2, .varint 0, .inputs [.to_key ⟨5, [1, 2], ex_image⟩], .outputs [],
           .bytes []] = .error .rejected
      ∧ load haven_config u (default_constructed 0 0 0)
          [.varint 2, .varint 0, .inputs [.to_key ⟨5, [1, 2], ex_image⟩], .outputs [],
           .bytes [], .varint 0, .varint 0] = .ok (ex_prefix_v2_no_output, [])
      ∧ save haven_config u ex_prefix_v7_no_output
          = .ok [.varint 7, .inputs [.to_key ⟨5, [1, 2], ex_image⟩], .outputs [], .bytes [],
                 .fixed 3, .fixed 0, .fixed 0, .vec_u64 [], .vec_u32 []]
      ∧ load haven_config u (default_constructed 0 0 0)
          [.varint 7, .inputs [.to_key ⟨5, [1, 2], ex_image⟩], .outputs [], .bytes [],
           .fixed 3, .fixed 0, .fixed 0, .vec_u64 [], .vec_u32 []] = .error .rejected
      ∧ load haven_config u (default_constructed 0 0 0)
          [.varint 7, .inputs [.to_key ⟨5, [1, 2], ex_image⟩], .outputs [], .bytes [],
           .varint 3, .vec_u64 [], .varint 0, .varint 0] = .ok (ex_prefix_v7_no_output, [])) := by
  refine ⟨?_, ?_, ?_, rfl, rfl, rfl, rfl, rfl, rfl⟩
  · intro self raw ar rest h
    exact (load_legacy_fields_layout h).1
  · intro self ar hv h
    obtain ⟨_, vin_tmp, vout_tmp, har⟩ := save_legacy_inv hv h
    exact ⟨vin_tmp, vout_tmp, har⟩
  · intro u2 self self2 ar hv h
    exact load_rejects_saved cfg u u2 self self2 ar hv h

/-! ### Claim on the order of the inputs -/


/-- The comparison `lex_lt` is asymmetric. -/
theorem lex_lt_asymm : ∀ (a b : List Nat), lex_lt a b = true → lex_lt b a = false
  | [], [] => by simp [lex_lt]
  | [], _ :: _ => by simp [lex_lt]
  | _ :: _, [] => by simp [lex_lt]
  | x :: xs, y :: ys => by
    intro h
    unfold lex_lt at h ⊢
    by_cases h1 : x < y
    · have h2 : ¬ y < x := by omega
      rw [if_neg h2, if_pos h1]
    · rw [if_neg h1] at h
      by_cases h2 : y < x
      · rw [if_pos h2] at h
        cases h
      · rw [if_neg h2] at h
        rw [if_neg h2, if_neg h1]
        exact lex_lt_asymm xs ys h

/-- The relation `not below` of `lex_lt` is transitive. -/
theorem lex_ge_trans : ∀ (a b c : List Nat),
    lex_lt a b = false → lex_lt b c = false → lex_lt a c = false
  | [], [], _ => fun _ h => h
  | [], _ :: _, _ => fun h _ => by simp [lex_lt] at h
  | _ :: _, [], [] => fun _ _ => by simp [lex_lt]
  | _ :: _, [], _ :: _ => fun _ h => by simp [lex_lt] at h
  | _ :: _, _ :: _, [] => fun _ _ => by simp [lex_lt]
  | x :: xs, y :: ys, z :: zs => fun h1 h2 => by
    unfold lex_lt at h1 h2 ⊢
    by_cases hxy : x < y
    · rw [if_pos hxy] at h1
      cases h1
    · rw [if_neg hxy] at h1
      by_cases hyz : y < z
      · rw [if_pos hyz] at h2
        cases h2
      · rw [if_neg hyz] at h2
        have hxz : ¬ x < z := by omega
        rw [if_neg hxz]
        by_cases hzx : z < x
        · rw [if_pos hzx]
        · rw [if_neg hzx]
          have hyx : ¬ y < x := by omega
          have hzy : ¬ z < y := by omega
          rw [if_neg hyx] at h1
          rw [if_neg hzy] at h2
          exact lex_ge_trans xs ys zs h1 h2

/-- The vector `ins_order` is sorted: an index stands before another only if its key image is not below the other's. -/
theorem ins_order_sorted (vin : List txin_v) :
    List.Pairwise (fun i0 i1 => lex_lt (vin_k_image vin i0) (vin_k_image vin i1) = false)
      (ins_order vin) := by
  unfold ins_order
  haveI : IsTotal Nat
      (fun i0 i1 => lex_lt (vin_k_image vin i0) (vin_k_image vin i1) = false) :=
    ⟨fun a b => by
      cases h : lex_lt (vin_k_image vin a) (vin_k_image vin b) with
      | false => exact Or.inl rfl
      | true => exact Or.inr (lex_lt_asymm _ _ h)⟩
  haveI : IsTrans Nat
      (fun i0 i1 => lex_lt (vin_k_image vin i0) (vin_k_image vin i1) = false) :=
    ⟨fun a b c h1 h2 => lex_ge_trans _ _ _ h1 h2⟩
  exact List.sorted_insertionSort _ _

/-- The vector `ins_order` is a permutation of the indices of the inputs. -/
theorem ins_order_perm (vin : List txin_v) :
    List.Perm (ins_order vin) (List.range vin.length) := by
  unfold ins_order
  exact List.perm_insertionSort _ _

/-- A `filterMap` that keeps every element keeps the positions. -/
theorem filterMap_getElem_of_some {α β : Type} (g : α → Option β) :
    ∀ (l : List α), (∀ a ∈ l, ∃ b, g a = some b) →
      ∀ i : Nat, (l.filterMap g)[i]? = (l[i]?).bind g := by
  intro l
  induction l with
  | nil => intro _ i; simp
  | cons a as ih =>
    intro hall i
    obtain ⟨b, hb⟩ := hall a (List.mem_cons_self _ _)
    rw [List.filterMap_cons_some hb]
    cases i with
    | zero => simp [hb]
    | succ i =>
      simp only [List.getElem?_cons_succ]
      exact ih (fun x hx => hall x (List.mem_cons_of_mem _ hx)) i

/-- The identity permutation leaves a vector as it is. -/
theorem apply_permutation_range {α : Type} (v : List α) :
    apply_permutation (List.range v.length) v = v := by
  unfold apply_permutation
  apply List.ext_getElem?
  intro i
  rw [filterMap_getElem_of_some _ _ (fun j hj =>
    ⟨_, List.getElem?_eq_getElem (List.mem_range.mp hj)⟩)]
  by_cases hi : i < v.length
  · rw [List.getElem?_range hi]
    rfl
  · rw [List.getElem?_eq_none (by rw [List.length_range]; omega),
      List.getElem?_eq_none (by omega)]
    rfl

/-- A vector permuted by `ins_order` is a permutation of the vector. -/
theorem apply_permutation_perm {α : Type} (vin : List txin_v) (v : List α)
    (hlen : v.length = vin.length) :
    List.Perm (apply_permutation (ins_order vin) v) v := by
  have h1 : List.Perm (apply_permutation (ins_order vin) v)
      (apply_permutation (List.range v.length) v) := by
    unfold apply_permutation
    rw [hlen]
    exact (ins_order_perm vin).filterMap _
  rw [apply_permutation_range] at h1
  exact h1

/-- Zeroing the amount of an input keeps its key image. -/
theorem txin_k_image_zero (e : txin_v) : txin_k_image (zero_input_amount e) = txin_k_image e := by
  cases e <;> rfl

/-- C32. In every transaction that `construct_tx_with_tx_key` produces the key
images of the inputs stand in non-increasing byte-wise order; `tx.vin` is a
permutation of the inputs built from the sources by the input loop (with
`rct = true`, of these inputs with the amount set to 0 where their own source
is flagged `rct`, as the signing branch leaves them); the sorted vector of
sources is a permutation of the given one; and position `i` of the three sorted
vectors comes from one and the same position `j` of the vectors before the
sort: `sources[i]` is the source `j`, the context `i` is the ephemeral key pair
derived for that source, and `tx.vin[i]` is the `txin_to_key` built from it. -/
theorem c32_inputs_sorted (cfg : Config) (ext : Externals)
    (sender_account_keys : account_keys) (sources : List tx_source_entry)
    (destinations : List tx_destination_entry) (change_addr : Option account_public_address)
    (extra : List Nat) (tx tx1 : transaction) (unlock_time : Nat) (tx_key : secret_key)
    (additional_tx_keys : List secret_key) (rct : Bool) (range_proof_type : Nat)
    (shuffle_outs use_view_tags : Bool)
    (h : construct_tx_with_tx_key cfg ext sender_account_keys sources destinations
      change_addr extra tx unlock_time tx_key additional_tx_keys rct range_proof_type
      shuffle_outs use_view_tags = some tx1) :
    ∃ ins : List (txin_v × keypair),
      fill_inputs ext sender_account_keys sources = some ins
      ∧ List.Pairwise (fun a b => lex_lt a b = false)
          (tx1.vin.map (fun e => (txin_k_image e).data))
      ∧ List.Perm tx1.vin
          (List.zipWith (fun e s => if rct = true ∧ s.rct = true then zero_input_amount e else e)
            (ins.map (fun p => p.1)) sources)
      ∧ (rct = false → List.Perm tx1.vin (ins.map (fun p => p.1)))
      ∧ List.Perm (ins_order (ins.map (fun p => p.1))) (List.range sources.length)
      ∧ List.Perm (apply_permutation (ins_order (ins.map (fun p => p.1))) sources) sources
      ∧ (∀ i j : Nat, (ins_order (ins.map (fun p => p.1)))[i]? = some j →
          ∃ (s : tx_source_entry) (real_out : Nat × ctkey) (in_ephemeral : keypair)
            (img : key_image),
            sources[j]? = some s
            ∧ (apply_permutation (ins_order (ins.map (fun p => p.1))) sources)[i]? = some s
            ∧ (apply_permutation (ins_order (ins.map (fun p => p.1)))
                (ins.map (fun p => p.2)))[i]? = some in_ephemeral
            ∧ s.outputs[s.real_output]? = some real_out
            ∧ ext.generate_key_image_helper sender_account_keys real_out.2.dest
                s.real_out_tx_key s.real_out_additional_tx_keys s.real_output_in_tx_index
                = some (in_ephemeral, img)
            ∧ tx1.vin[i]? = some (txin_v.to_key
                { amount := if rct = true ∧ s.rct = true then 0 else s.amount, k_image := img
                  key_offsets := ext.absolute_output_offsets_to_relative
                    (s.outputs.map (fun out_entry => out_entry.1)) })) := by
  obtain ⟨extra1, ins, extra2, vout, amount_keys, _, _, hins, _, _, _, _, _, hf, ht, _⟩ :=
    construct_tx_with_tx_key_inv h
  obtain ⟨hlen, hspec⟩ := fill_inputs_spec ext sender_account_keys sources ins hins
  have hlen1 : (ins.map (fun p => p.1)).length = sources.length := by
    rw [List.length_map, hlen]
  have hlen2 : (ins.map (fun p => p.2)).length = (ins.map (fun p => p.1)).length := by
    rw [List.length_map, List.length_map]
  have horder := ins_order_lt (ins.map (fun p => p.1))
  have hvin : tx1.vin = (ins_order (ins.map (fun p => p.1))).filterMap
      (fun j => ((ins.map (fun p => p.1))[j]?).bind (fun a => (sources[j]?).map
        (fun s => if rct = true ∧ s.rct = true then zero_input_amount a else a))) := by
    cases rct with
    | false =>
      obtain ⟨hv, _⟩ := hf rfl
      rw [hv]
      unfold apply_permutation
      apply List.filterMap_congr
      intro j hj
      have hj1 : j < sources.length := hlen1 ▸ horder j hj
      rw [List.getElem?_eq_getElem hj1, List.getElem?_eq_getElem (horder j hj)]
      simp
    | true =>
      obtain ⟨hv, _⟩ := ht rfl
      rw [hv, zipWith_apply_permutation _ _ _ hlen1 _ horder]
      apply List.filterMap_congr
      intro j hj
      simp
  have hsome : ∀ j ∈ ins_order (ins.map (fun p => p.1)),
      ∃ (s : tx_source_entry) (real_out : Nat × ctkey) (in_ephemeral : keypair)
        (img : key_image),
        sources[j]? = some s
        ∧ (ins.map (fun p => p.2))[j]? = some in_ephemeral
        ∧ (ins.map (fun p => p.1))[j]? = some (txin_v.to_key
            { amount := s.amount, k_image := img
              key_offsets := ext.absolute_output_offsets_to_relative
                (s.outputs.map (fun out_entry => out_entry.1)) })
        ∧ s.outputs[s.real_output]? = some real_out
        ∧ ext.generate_key_image_helper sender_account_keys real_out.2.dest
            s.real_out_tx_key s.real_out_additional_tx_keys s.real_output_in_tx_index
            = some (in_ephemeral, img)
        ∧ ((ins.map (fun p => p.1))[j]?).bind (fun a => (sources[j]?).map
            (fun s => if rct = true ∧ s.rct = true then zero_input_amount a else a))
          = some (txin_v.to_key
            { amount := if rct = true ∧ s.rct = true then 0 else s.amount, k_image := img
              key_offsets := ext.absolute_output_offsets_to_relative
                (s.outputs.map (fun out_entry => out_entry.1)) }) := by
    intro j hj
    have hj1 : j < sources.length := hlen1 ▸ horder j hj
    have hs : sources[j]? = some sources[j] := List.getElem?_eq_getElem hj1
    obtain ⟨real_out, in_ephemeral, img, h1, h2, _, h4⟩ := hspec j _ hs
    have h5 : (ins.map (fun p => p.1))[j]? = some (txin_v.to_key
        { amount := sources[j].amount, k_image := img
          key_offsets := ext.absolute_output_offsets_to_relative
            (sources[j].outputs.map (fun out_entry => out_entry.1)) }) := by
      rw [List.getElem?_map, h4]
      rfl
    have h6 : (ins.map (fun p => p.2))[j]? = some in_ephemeral := by
      rw [List.getElem?_map, h4]
      rfl
    refine ⟨sources[j], real_out, in_ephemeral, img, hs, h6, h5, h1, h2, ?_⟩
    rw [h5, hs]
    by_cases hr : rct = true ∧ sources[j].rct = true <;> simp [zero_input_amount, hr]
  refine ⟨ins, hins, ?_, ?_, ?_, ?_, ?_, ?_⟩
  · rw [hvin, List.pairwise_map]
    refine List.Pairwise.filterMap _ ?_ (ins_order_sorted (ins.map (fun p => p.1)))
    intro j j' hr b hb b' hb'
    have key : ∀ (k : Nat) (c : txin_v),
        c ∈ ((ins.map (fun p => p.1))[k]?).bind (fun a => (sources[k]?).map
          (fun s => if rct = true ∧ s.rct = true then zero_input_amount a else a)) →
        (txin_k_image c).data = vin_k_image (ins.map (fun p => p.1)) k := by
      intro k c hc
      unfold vin_k_image
      cases ha : (ins.map (fun p => p.1))[k]? with
      | none => rw [ha] at hc; simp at hc
      | some a =>
        rw [ha] at hc
        cases hs : sources[k]? with
        | none => rw [hs] at hc; simp at hc
        | some s =>
          rw [hs] at hc
          simp only [Option.some_bind, Option.map_some', Option.mem_def,
            Option.some.injEq] at hc
          rw [← hc]
          by_cases hz : rct = true ∧ s.rct = true
          · rw [if_pos hz, txin_k_image_zero]
          · rw [if_neg hz]
    rw [key j b hb, key j' b' hb']
    exact hr
  · rw [hvin]
    have hp := (ins_order_perm (ins.map (fun p => p.1))).filterMap
      (fun j => ((ins.map (fun p => p.1))[j]?).bind (fun a => (sources[j]?).map
        (fun s => if rct = true ∧ s.rct = true then zero_input_amount a else a)))
    refine hp.trans ?_
    have hz := zipWith_apply_permutation
      (fun (e : txin_v) (s : tx_source_entry) =>
        if rct = true ∧ s.rct = true then zero_input_amount e else e)
      (ins.map (fun p => p.1)) sources hlen1 (List.range (ins.map (fun p => p.1)).length)
      (fun j hj => List.mem_range.mp hj)
    have hr2 : apply_permutation (List.range (ins.map (fun p => p.1)).length) sources
        = sources := by
      rw [hlen1]
      exact apply_permutation_range sources
    rw [apply_permutation_range, hr2] at hz
    rw [← hz]
  · intro hr
    obtain ⟨hv, _⟩ := hf hr
    rw [hv]
    exact apply_permutation_perm _ _ rfl
  · rw [← hlen1]
    exact ins_order_perm _
  · exact apply_permutation_perm _ _ hlen1.symm
  · intro i j hij
    have hj : j ∈ ins_order (ins.map (fun p => p.1)) := List.getElem?_mem hij
    obtain ⟨s, real_out, in_ephemeral, img, hs, h6, h5, h1, h2, h7⟩ := hsome j hj
    refine ⟨s, real_out, in_ephemeral, img, hs, ?_, ?_, h1, h2, ?_⟩
    · unfold apply_permutation
      rw [filterMap_getElem_of_some _ _ (fun k hk =>
        ⟨_, List.getElem?_eq_getElem (hlen1 ▸ horder k hk)⟩), hij]
      exact hs
    · unfold apply_permutation
      rw [filterMap_getElem_of_some _ _ (fun k hk =>
        ⟨_, List.getElem?_eq_getElem (hlen2 ▸ horder k hk)⟩), hij]
      exact h6
    · rw [hvin, filterMap_getElem_of_some _ _ (fun k hk => by
        obtain ⟨_, _, _, _, _, _, _, _, _, h⟩ := hsome k hk
        exact ⟨_, h⟩), hij]
      exact h7

/-- Witness of C32: the sources with the key images `[9]` and `[11]`, in this order; the inputs of `ex_built_rct` carry `[11]`, then `[9]`. -/
theorem c32_inputs_sorted_witness :
    construct_tx_with_tx_key haven_config ex_externals ex_sender
        [ex_source 5 true 9, ex_source 4 true 11] [ex_destination 3 0 0 false] none []
        ex_tx_miner 0 ⟨[5]⟩ [] true 0 false false = some ex_built_rct
    ∧ (ex_built_rct.vin.map (fun e => (txin_k_image e).data) = [[11], [9]])
    ∧ (∃ ins : List (txin_v × keypair),
      fill_inputs ex_externals ex_sender [ex_source 5 true 9, ex_source 4 true 11] = some ins
      ∧ List.Pairwise (fun a b => lex_lt a b = false)
          (ex_built_rct.vin.map (fun e => (txin_k_image e).data))
      ∧ List.Perm ex_built_rct.vin
          (List.zipWith (fun e s => if true = true ∧ s.rct = true then zero_input_amount e else e)
            (ins.map (fun p => p.1)) [ex_source 5 true 9, ex_source 4 true 11])
      ∧ (true = false → List.Perm ex_built_rct.vin (ins.map (fun p => p.1)))
      ∧ List.Perm (ins_order (ins.map (fun p => p.1)))
          (List.range [ex_source 5 true 9, ex_source 4 true 11].length)
      ∧ List.Perm
          (apply_permutation (ins_order (ins.map (fun p => p.1)))
            [ex_source 5 true 9, ex_source 4 true 11])
          [ex_source 5 true 9, ex_source 4 true 11]
      ∧ (∀ i j : Nat, (ins_order (ins.map (fun p => p.1)))[i]? = some j →
          ∃ (s : tx_source_entry) (real_out : Nat × ctkey) (in_ephemeral : keypair)
            (img : key_image),
            [ex_source 5 true 9, ex_source 4 true 11][j]? = some s
            ∧ (apply_permutation (ins_order (ins.map (fun p => p.1)))
                [ex_source 5 true 9, ex_source 4 true 11])[i]? = some s
            ∧ (apply_permutation (ins_order (ins.map (fun p => p.1)))
                (ins.map (fun p => p.2)))[i]? = some in_ephemeral
            ∧ s.outputs[s.real_output]? = some real_out
            ∧ ex_externals.generate_key_image_helper ex_sender real_out.2.dest
                s.real_out_tx_key s.real_out_additional_tx_keys s.real_output_in_tx_index
                = some (in_ephemeral, img)
            ∧ ex_built_rct.vin[i]? = some (txin_v.to_key
                { amount := if true = true ∧ s.rct = true then 0 else s.amount, k_image := img
                  key_offsets := ex_externals.absolute_output_offsets_to_relative
                    (s.outputs.map (fun out_entry => out_entry.1)) }))) :=
  ⟨rfl, rfl,
    c32_inputs_sorted haven_config ex_externals ex_sender
      [ex_source 5 true 9, ex_source 4 true 11] [ex_destination 3 0 0 false] none []
      ex_tx_miner ex_built_rct 0 ⟨[5]⟩ [] true 0 false false rfl⟩

end cryptonote
